import Mathlib

/-! Field-Pro: upload, allocation and aggregation pipeline.

A shallow embedding of `backend/src/controllers/cases.controller.js` and
`backend/src/services/case.service.js`.

Modelling conventions.
* A JavaScript object used as a dictionary is a finite map with insertion-ordered
  own keys (`Obj`). A read `o[k]` of a key without own property sees the members
  every object inherits from `Object.prototype` (`protoKeys`); the tests `!o[k]` on
  keys taken from the data (`Obj.truthyAt`, `bktsStep`, `groupStatStep`,
  `mainLoopThrows`, `bktsStep64`, `lbStep64`) follow them. The other reads are on
  own keys.
* `undefined` and `null` of an optional value are both `none`, except where the
  code's behaviour separates them (`Arg`).
* The persistence layer is an explicit state: the case table is the list of its
  records in creation order, the user table a list of users. The operations of one
  request run to completion before the next; upserts of one batch are applied in
  list order.
* Numbers are exact: spreadsheet numbers are integers, parsed decimals are
  rationals (`JsNum`). The amount counters and their rates are given a second time
  in binary64 arithmetic (`F64`, `aggregatePerformance64`, `leaderboardRows64`):
  rounding to nearest with ties to even, the infinities and NaN; the two zeros are
  one value.
-/

namespace FieldPro

/-! ## JavaScript values -/

/-- A cell value as `xlsx.utils.sheet_to_json` delivers it: text, a number or a
boolean. A blank cell is `str ""` (option `defval: ''`). -/
inductive Cell where
  | str (s : String)
  | num (n : Int)
  | bool (b : Bool)
  deriving DecidableEq, Repr

/-- JavaScript truthiness of a cell value. -/
def Cell.truthy : Cell → Bool
  | .str s => decide (s ≠ "")
  | .num n => decide (n ≠ 0)
  | .bool b => b

/-- JavaScript `String(v)` of a cell value. -/
def Cell.toStr : Cell → String
  | .str s => s
  | .num n => toString n
  | .bool true => "true"
  | .bool false => "false"

/-- Truthiness of the value of a property access `r[key]`; `none` is `undefined`. -/
def truthy : Option Cell → Bool
  | none => false
  | some c => c.truthy

/-- The JavaScript operator `a || b` on property values. -/
def jsOr (a b : Option Cell) : Option Cell :=
  if truthy a then a else b

/-- The chain `v₀ || v₁ || ... || vₙ` (left associative), `undefined` when empty. -/
def jsOrChain : List (Option Cell) → Option Cell
  | [] => none
  | v :: vs => vs.foldl jsOr v

/-- White space and line terminators removed by `String.prototype.trim`. -/
def isJsWhitespace (c : Char) : Bool :=
  let n := c.toNat
  n = 0x09 || n = 0x0A || n = 0x0B || n = 0x0C || n = 0x0D || n = 0x20 || n = 0xA0
    || n = 0x1680 || (0x2000 ≤ n && n ≤ 0x200A) || n = 0x2028 || n = 0x2029
    || n = 0x202F || n = 0x205F || n = 0x3000 || n = 0xFEFF

/-- Characters of `s.trim()`. -/
def trimChars (cs : List Char) : List Char :=
  ((cs.dropWhile isJsWhitespace).reverse.dropWhile isJsWhitespace).reverse

/-- JavaScript `s.trim()`. -/
def jsTrim (s : String) : String :=
  String.mk (trimChars s.data)

/-- Truthiness of a string: non-empty. -/
def strTruthy (s : String) : Bool :=
  decide (s ≠ "")

/-! ## Objects as dictionaries -/

/-- A plain object: own properties in insertion order. -/
abbrev Obj (α : Type) := List (String × α)

/-- Property read `o[k]`; `none` is `undefined`. -/
def Obj.get {α : Type} (o : Obj α) (k : String) : Option α :=
  match o with
  | [] => none
  | (k', v) :: rest => if k' = k then some v else Obj.get rest k

/-- Property write `o[k] = v`: an existing key keeps its position. -/
def Obj.set {α : Type} (o : Obj α) (k : String) (v : α) : Obj α :=
  match o with
  | [] => [(k, v)]
  | (k', v') :: rest => if k' = k then (k', v) :: rest else (k', v') :: Obj.set rest k v

/-- The property names every plain object inherits from `Object.prototype`
(`Object.getOwnPropertyNames(Object.prototype)`). Each reads as a function or an
object, which is truthy, unless an own property of that name shadows it. -/
def protoKeys : List String :=
  ["constructor", "__defineGetter__", "__defineSetter__", "hasOwnProperty",
    "__lookupGetter__", "__lookupSetter__", "isPrototypeOf", "propertyIsEnumerable",
    "toString", "valueOf", "__proto__", "toLocaleString"]

/-- A parsed sheet row: column header to cell value. -/
abbrev Row := Obj Cell

/-- Value of `r[k₀] || r[k₁] || ...` for a list of column synonyms. -/
def pick (r : Row) (keys : List String) : Option Cell :=
  jsOrChain (keys.map (Obj.get r))

/-! ## Numbers -/

/-- A JavaScript number: `NaN` or an exact value. -/
inductive JsNum where
  | nan
  | fin (q : ℚ)
  deriving DecidableEq

/-- The expression `x || 0` on a number. -/
def JsNum.orZero : JsNum → ℚ
  | .nan => 0
  | .fin q => q

/-- Value of a decimal digit character. -/
def digitVal (c : Char) : Option Nat :=
  if 48 ≤ c.toNat ∧ c.toNat ≤ 57 then some (c.toNat - 48) else none

/-- Value of a hexadecimal digit character. -/
def hexVal (c : Char) : Option Nat :=
  if 48 ≤ c.toNat ∧ c.toNat ≤ 57 then some (c.toNat - 48)
  else if 97 ≤ c.toNat ∧ c.toNat ≤ 102 then some (c.toNat - 87)
  else if 65 ≤ c.toNat ∧ c.toNat ≤ 70 then some (c.toNat - 55)
  else none

/-- The longest run of leading digits (read by `val`) and what follows it. -/
def takeDigits (val : Char → Option Nat) : List Char → List Nat × List Char
  | [] => ([], [])
  | c :: cs =>
    match val c with
    | some d => (d :: (takeDigits val cs).1, (takeDigits val cs).2)
    | none => ([], c :: cs)

/-- The number written by a digit list in base `b`. -/
def ofDigits (b : Nat) (ds : List Nat) : Nat :=
  ds.foldl (fun acc d => b * acc + d) 0

/-- An optional leading sign: whether it is a minus, and the rest. -/
def takeSign : List Char → Bool × List Char
  | [] => (false, [])
  | c :: cs => if c = '-' then (true, cs) else if c = '+' then (false, cs) else (false, c :: cs)

/-- The exponent part `e±ddd` at the head of `cs`, 0 when there is none. -/
def parseExponent : List Char → Int
  | [] => 0
  | c :: cs =>
    if c = 'e' ∨ c = 'E' then
      let ds := (takeDigits digitVal (takeSign cs).2).1
      if ds = [] then 0
      else if (takeSign cs).1 then -((ofDigits 10 ds : Nat) : Int) else ((ofDigits 10 ds : Nat) : Int)
    else 0

/-- JavaScript `parseFloat` of a string: leading white space is skipped and the
longest leading decimal literal is read; `NaN` when there is none. -/
def parseFloatStr (s : String) : JsNum :=
  let cs := takeSign (s.data.dropWhile isJsWhitespace)
  let ip := takeDigits digitVal cs.2
  let fp : List Nat × List Char :=
    match ip.2 with
    | [] => ([], [])
    | c :: t => if c = '.' then takeDigits digitVal t else ([], c :: t)
  if ip.1 = [] ∧ fp.1 = [] then .nan
  else
    let mant : ℚ := (ofDigits 10 ip.1 : ℚ) + (ofDigits 10 fp.1 : ℚ) / (10 : ℚ) ^ fp.1.length
    let v : ℚ := mant * (10 : ℚ) ^ parseExponent fp.2
    .fin (if cs.1 then -v else v)

/-- JavaScript `parseInt` of a string without a radix: leading white space and a
sign are skipped, a `0x` start selects base 16; `none` is `NaN`. -/
def parseIntStr (s : String) : Option Int :=
  let cs := takeSign (s.data.dropWhile isJsWhitespace)
  let body : Nat × List Char :=
    match cs.2 with
    | c :: x :: t => if c = '0' ∧ (x = 'x' ∨ x = 'X') then (16, t) else (10, c :: x :: t)
    | rest => (10, rest)
  let ds := (takeDigits (if body.1 = 16 then hexVal else digitVal) body.2).1
  if ds = [] then none
  else if cs.1 then some (-((ofDigits body.1 ds : Nat) : Int)) else some ((ofDigits body.1 ds : Nat) : Int)

/-- JavaScript `String(v)` of a property value. -/
def strOf : Option Cell → String
  | none => "undefined"
  | some c => c.toStr

/-- The call `parseFloat(v)` on a property value. -/
def parseFloat (v : Option Cell) : JsNum :=
  parseFloatStr (strOf v)

/-- The call `parseInt(v)` on a property value. -/
def parseInt (v : Option Cell) : Option Int :=
  parseIntStr (strOf v)

/-! ## Own keys of an object -/

/-- The array index a key denotes, if it is a canonical numeric string below
`2^32 - 1`; such keys come first in `Object.keys`. -/
def arrayIndex (k : String) : Option Nat :=
  let ds := (takeDigits digitVal k.data).1
  if k.data ≠ [] ∧ ds.length = k.data.length ∧ (k.data.head? ≠ some '0' ∨ k.data.length = 1)
      ∧ ofDigits 10 ds < 4294967295 then
    some (ofDigits 10 ds)
  else none

/-- JavaScript `Object.keys(o)`: array indices ascending, then the other keys in
insertion order. -/
def Obj.keys {α : Type} (o : Obj α) : List String :=
  ((o.filterMap (fun kv => arrayIndex kv.1)).insertionSort (· ≤ ·)).map toString
    ++ (o.map Prod.fst).filter (fun k => (arrayIndex k).isNone)

/-- JavaScript `Object.entries(o)`, in the order of `Object.keys`. -/
def Obj.entries {α : Type} (o : Obj α) : List (String × α) :=
  o.keys.filterMap (fun k => (o.get k).map (fun v => (k, v)))

/-- The row with every key trimmed: the loop over `Object.entries(row)` with
`normalizedRow[key.trim()] = value`. -/
def normalizeRow (row : Row) : Row :=
  (Obj.entries row).foldl (fun normalizedRow kv => Obj.set normalizedRow (jsTrim kv.1) kv.2) []

/-! ## Users and the employee resolver (`uploadCases`, lines 169-198) -/

/-- A user record, with the names of its roles. -/
structure User where
  id : String
  emp_id : Option String
  firstName : String
  lastName : String
  roles : List String
  deriving DecidableEq, Repr

/-- Column synonyms of the employee identifier used for the batched lookup. -/
def empIdLookupKeys : List String :=
  ["Emp_ID", "emp_id", "Emp_id", "EMP_ID", "emp id", "Emp ID"]

/-- Column synonyms of the employee identifier used in the row loop. -/
def empIdRowKeys : List String :=
  ["Emp_ID", "emp_id", "Emp_id", "EMP_ID", "emp id", "Emp ID", "emp_id"]

/-- The expression `id ? String(id).trim() : null`. -/
def trimmedOrNull (id : Option Cell) : Option String :=
  if truthy id then some (jsTrim (strOf id)) else none

/-- The array method `.filter(Boolean)` on strings and nulls. -/
def filterBoolean : List (Option String) → List String
  | [] => []
  | none :: rest => filterBoolean rest
  | some s :: rest => if strTruthy s then s :: filterBoolean rest else filterBoolean rest

/-- The elements of `new Set(xs)` spread into an array: first occurrences, in order. -/
def setSpread (xs : List String) : List String :=
  xs.foldl (fun seen x => if x ∈ seen then seen else seen ++ [x]) []

/-- The identifiers sent to the batched lookup (`empIds`). -/
def extractEmpIds (normalizedRows : List Row) : List String :=
  setSpread (filterBoolean (normalizedRows.map (fun r => trimmedOrNull (pick r empIdLookupKeys))))

/-- The query `prisma.user.findMany({ where: { emp_id: { in: empIds } } })`. -/
def findUsersByEmpIds (users : List User) (empIds : List String) : List User :=
  users.filter (fun u =>
    match u.emp_id with
    | some e => decide (e ∈ empIds)
    | none => false)

/-- An entry of `foundEmpIds`. -/
structure FoundEmp where
  emp_id : String
  name : String
  deriving DecidableEq, Repr

/-- Result of the resolver: the mapping and the two report lists. -/
structure Resolution where
  empIdToUserId : Obj String
  foundEmpIds : List FoundEmp
  notFoundEmpIds : List String
  deriving DecidableEq, Repr

/-- The loop `users.forEach(u => ...)` filling `empIdToUserId` and `foundEmpIds`. -/
def recordFound (found : List User) : Obj String × List FoundEmp :=
  found.foldl (fun acc u =>
    match u.emp_id with
    | some e => (Obj.set acc.1 (jsTrim e) u.id, acc.2 ++ [⟨e, u.firstName ++ " " ++ u.lastName⟩])
    | none => acc) ([], [])

/-- Truthiness of a dictionary read `m[id]` whose values are strings. -/
def idTruthy (v : Option String) : Bool :=
  match v with
  | some s => strTruthy s
  | none => false

/-- Truthiness of the read `o[k]` on a plain object whose own values are strings:
an own property gives its string; without one, a name of `protoKeys` gives the
member inherited from `Object.prototype`, which is truthy, and any other name gives
`undefined`. The name `__proto__` reads the prototype object whatever was assigned
to it. -/
def Obj.truthyAt (o : Obj String) (k : String) : Bool :=
  if k = "__proto__" then true
  else
    match Obj.get o k with
    | some v => strTruthy v
    | none => decide (k ∈ protoKeys)

/-- The resolver block of `uploadCases`: one lookup for all identifiers. The test
`!empIdToUserId[id]` reads inherited properties too. -/
def resolveEmployees (users : List User) (empIds : List String) : Resolution :=
  if empIds.length > 0 then
    let rec_ := recordFound (findUsersByEmpIds users empIds)
    { empIdToUserId := rec_.1
      foundEmpIds := rec_.2
      notFoundEmpIds := empIds.filter (fun id => !Obj.truthyAt rec_.1 id) }
  else
    { empIdToUserId := [], foundEmpIds := [], notFoundEmpIds := [] }

/-! ## The row loop of `uploadCases` (lines 205-261) -/

/-- A case draft (`caseObj`), as `bulkCreateCases` reads it. `month` and `year` are
absent from the drafts of `uploadCases`. -/
structure CaseDraft where
  acc_id : String
  cust_id : Option String
  customer_name : Cell
  phone_number : Option String
  address : Cell
  pincode : Option String
  lat : Option JsNum
  lng : Option JsNum
  bank_name : Option String
  product_type : Option String
  sub_product_name : Option String
  bkt : Option String
  priority : Option String
  pos_amount : JsNum
  overdue_amount : JsNum
  dpd : Option Int
  npa_status : Option String
  performance : Option String
  collection_amount : JsNum
  toss_amount : JsNum
  emi_amount : JsNum
  interest : JsNum
  emp_id : Option String
  executiveId : Option String
  upload_mode : Option String
  month : Option Nat
  year : Option Nat
  deriving DecidableEq

/-- An entry of `skippedRows`. -/
structure SkippedRow where
  rowNumber : Nat
  reason : String
  deriving DecidableEq, Repr

/-- Column synonyms of the account number, in the order tried. -/
def accNoKeys : List String :=
  ["Acc_No", "Acc_no", "Acc No", "Account", "acc_no", "acc_id", "Acc ID", "ACC_NO", "Account_No"]

/-- The expression `a || b || ... || dflt` for a cell-valued field. -/
def pickOr (r : Row) (keys : List String) (dflt : Cell) : Cell :=
  match pick r keys with
  | some c => if c.truthy then c else dflt
  | none => dflt

/-- The expression `v ? String(v) : null`. -/
def stringOrNull (v : Option Cell) : Option String :=
  if truthy v then some (strOf v) else none

/-- The expression `parseFloat(v || 0) || 0`. -/
def amountOf (v : Option Cell) : JsNum :=
  .fin (parseFloat (jsOr v (some (.num 0)))).orZero

/-- The expression `parseInt(v || 0) || 0`. -/
def intOf (v : Option Cell) : Int :=
  match parseInt (jsOr v (some (.num 0))) with
  | some n => n
  | none => 0

/-- The expression `v ? parseFloat(v) : null`. -/
def floatOrNull (v : Option Cell) : Option JsNum :=
  if truthy v then some (parseFloat v) else none

/-- The expression `s || null` on a string or null. -/
def strOrNull (s : Option String) : Option String :=
  match s with
  | some t => if strTruthy t then some t else none
  | none => none

/-- The object literal `caseObj` built for an accepted row. -/
def buildCaseObj (empIdToUserId : Obj String) (r : Row) (acc_no : Option Cell) : CaseDraft :=
  let empIdTrimmed := trimmedOrNull (pick r empIdRowKeys)
  let executiveId : Option String :=
    match strOrNull empIdTrimmed with
    | some e => Obj.get empIdToUserId e
    | none => none
  { acc_id := jsTrim (strOf acc_no)
    cust_id := trimmedOrNull (Obj.get r "cust_id")
    customer_name :=
      pickOr r ["Acc_holder_name", "Acc_Holder_Name", "Account Holder Name", "Name", "acc_holder_name"]
        (.str "")
    phone_number := stringOrNull (pick r ["phone_number", "Phone_number", "Phone", "phone"])
    address :=
      pickOr r ["Acc_holder_address", "Acc_Holder_Address", "Address", "acc_holder_address"] (.str "")
    pincode := trimmedOrNull (pick r ["pincode", "Pincode"])
    lat := floatOrNull (Obj.get r "lat")
    lng := floatOrNull (Obj.get r "lng")
    bank_name := some ((trimmedOrNull (pick r ["Bank_name", "Bank name", "Bank", "bank_name"])).getD "")
    product_type :=
      some ((trimmedOrNull (pick r ["Product_name", "product name", "Product", "product_name"])).getD "")
    sub_product_name := trimmedOrNull (pick r ["Sub_product_name", "sub_product_name", "Sub_Product_Name"])
    bkt := trimmedOrNull (pick r ["BKT", "bkt", "Bkt"])
    priority := some ((trimmedOrNull (pick r ["Importance", "importance", "priority"])).getD "")
    pos_amount := amountOf (pick r ["POS_amount", "pos amount", "Pos amount", "pos_amount", "POS_Amount"])
    overdue_amount :=
      amountOf (pick r ["Total_due_amount", "overdue_amount", "Overdue Amount", "overdue amount",
        "Total_Due_Amount"])
    dpd := some (intOf (pick r ["DPD", "dpd", "Dpd"]))
    npa_status :=
      trimmedOrNull (pick r ["NPA_status", "npa status", "NPA Status", "npa_status", "NPA_Status"])
    performance := trimmedOrNull (pick r ["Performance (Flow/Stab/Norm/RB)", "Performance", "performance"])
    collection_amount :=
      amountOf (pick r ["Collection_amount", "collection_amount", "Collection amount", "Collection_Amount"])
    toss_amount := amountOf (pick r ["Toss_amount", "toss_amount", "Toss amount", "Toss_Amount"])
    emi_amount := amountOf (pick r ["EMI_amount", "emi_amount", "EMI amount", "EMI_Amount"])
    interest := amountOf (pick r ["Interest", "interest"])
    emp_id := strOrNull empIdTrimmed
    executiveId := executiveId
    upload_mode := some "ORIGINAL"
    month := none
    year := none }

/-- The reason recorded for a row without account number. -/
def missingReason (r : Row) : String :=
  "Missing Account Number. Row keys: " ++ String.intercalate ", " (Obj.keys r)

/-- State of the row loop: `casesArray` and `skippedRows`. -/
structure LoopState where
  casesArray : List CaseDraft
  skippedRows : List SkippedRow
  deriving DecidableEq

/-- One iteration of the row loop, on row `r` at index `i`. -/
def rowStep (empIdToUserId : Obj String) (i : Nat) (r : Row) (st : LoopState) : LoopState :=
  let acc_no := pick r accNoKeys
  if !truthy acc_no then
    { st with skippedRows := st.skippedRows ++ [{ rowNumber := i + 2, reason := missingReason r }] }
  else
    { st with casesArray := st.casesArray ++ [buildCaseObj empIdToUserId r acc_no] }

/-- The loop `for (let i = ...; i < normalizedRows.length; i++)` from index `i` on. -/
def rowLoopFrom (empIdToUserId : Obj String) : Nat → List Row → LoopState → LoopState
  | _, [], st => st
  | i, r :: rest, st => rowLoopFrom empIdToUserId (i + 1) rest (rowStep empIdToUserId i r st)

/-- The row loop of `uploadCases` over all normalized rows. -/
def rowLoop (empIdToUserId : Obj String) (normalizedRows : List Row) : LoopState :=
  rowLoopFrom empIdToUserId 0 normalizedRows { casesArray := [], skippedRows := [] }

/-! ## The case table and `bulkCreateCases` (case.service.js, lines 53-173) -/

/-- A stored case record: the columns written by the upsert, and `status`. -/
structure Case where
  acc_id : String
  cust_id : Option String
  customer_name : Cell
  phone_number : Option String
  address : Cell
  pincode : Option String
  lat : Option JsNum
  lng : Option JsNum
  pos_amount : ℚ
  overdue_amount : ℚ
  dpd : Int
  bkt : Option String
  product_type : Option String
  sub_product_name : Option String
  bank_name : Option String
  npa_status : Option String
  priority : Option String
  performance : Option String
  collection_amount : ℚ
  toss_amount : ℚ
  emi_amount : ℚ
  interest : ℚ
  emp_id : Option String
  executiveId : Option String
  month : Nat
  year : Nat
  upload_mode : String
  status : String
  deriving DecidableEq

/-- The manifest row of one upload. -/
structure CaseUpload where
  supervisorId : Option String
  filename : String
  upload_mode : String
  total_cases : Nat
  deriving DecidableEq, Repr

/-- What a request reads from outside the database: the date and clock, and the
schema default of the `status` column. -/
structure Env where
  month : Nat
  year : Nat
  now : Nat
  defaultStatus : String
  deriving DecidableEq, Repr

/-- The database: cases and uploads in creation order, and the users. -/
structure Db where
  cases : List Case
  users : List User
  caseUploads : List CaseUpload
  deriving DecidableEq

/-- The loop filling `employeeMap` from all users with an `emp_id`. -/
def buildEmployeeMap (users : List User) : Obj String :=
  (users.filter (fun u => u.emp_id.isSome)).foldl (fun employeeMap exec =>
    match exec.emp_id with
    | some e => if strTruthy e then Obj.set employeeMap e exec.id else employeeMap
    | none => employeeMap) []

/-- The property key a nullable string is coerced to in `employeeMap[caseData.emp_id]`. -/
def propertyKey : Option String → String
  | some s => s
  | none => "null"

/-- The expression `employeeMap[caseData.emp_id] || null`. -/
def realExecutiveId (employeeMap : Obj String) (emp_id : Option String) : Option String :=
  strOrNull (Obj.get employeeMap (propertyKey emp_id))

/-- The expression `n || dflt` on an optional number. -/
def natOr (n : Option Nat) (dflt : Nat) : Nat :=
  match n with
  | some k => if k = 0 then dflt else k
  | none => dflt

/-- The expression `dpd || 0` on the draft's day count. -/
def intOr0 (n : Option Int) : Int :=
  n.getD 0

/-- The expression `caseData.upload_mode || 'ORIGINAL'`. -/
def uploadModeOf (m : Option String) : String :=
  (strOrNull m).getD "ORIGINAL"

/-- The `create` branch of the upsert: the record inserted for a new account. -/
def createData (env : Env) (employeeMap : Obj String) (caseData : CaseDraft) : Case :=
  { acc_id := caseData.acc_id
    cust_id := caseData.cust_id
    customer_name := caseData.customer_name
    phone_number := caseData.phone_number
    address := caseData.address
    pincode := caseData.pincode
    lat := caseData.lat
    lng := caseData.lng
    pos_amount := caseData.pos_amount.orZero
    overdue_amount := caseData.overdue_amount.orZero
    dpd := intOr0 caseData.dpd
    bkt := caseData.bkt
    product_type := caseData.product_type
    sub_product_name := caseData.sub_product_name
    bank_name := caseData.bank_name
    npa_status := caseData.npa_status
    priority := caseData.priority
    performance := caseData.performance
    collection_amount := caseData.collection_amount.orZero
    toss_amount := caseData.toss_amount.orZero
    emi_amount := caseData.emi_amount.orZero
    interest := caseData.interest.orZero
    emp_id := caseData.emp_id
    executiveId := realExecutiveId employeeMap caseData.emp_id
    month := natOr caseData.month env.month
    year := natOr caseData.year env.year
    upload_mode := uploadModeOf caseData.upload_mode
    status := env.defaultStatus }

/-- The `update` branch of the upsert applied to the existing record `c`. -/
def updateData (env : Env) (employeeMap : Obj String) (caseData : CaseDraft) (c : Case) : Case :=
  { c with
    cust_id := caseData.cust_id
    customer_name := caseData.customer_name
    phone_number := caseData.phone_number
    address := caseData.address
    pincode := caseData.pincode
    lat := caseData.lat
    lng := caseData.lng
    pos_amount := caseData.pos_amount.orZero
    overdue_amount := caseData.overdue_amount.orZero
    dpd := intOr0 caseData.dpd
    bkt := caseData.bkt
    product_type := caseData.product_type
    sub_product_name := caseData.sub_product_name
    bank_name := caseData.bank_name
    npa_status := caseData.npa_status
    priority := caseData.priority
    performance := caseData.performance
    collection_amount := caseData.collection_amount.orZero
    toss_amount := caseData.toss_amount.orZero
    emi_amount := caseData.emi_amount.orZero
    interest := caseData.interest.orZero
    emp_id := caseData.emp_id
    executiveId := realExecutiveId employeeMap caseData.emp_id
    month := natOr caseData.month env.month
    year := natOr caseData.year env.year
    upload_mode := uploadModeOf caseData.upload_mode }

/-- The call `prisma.case.upsert({ where: { acc_id }, update, create })`. -/
def upsertCase (env : Env) (employeeMap : Obj String) (caseData : CaseDraft) : List Case → List Case
  | [] => [createData env employeeMap caseData]
  | c :: rest =>
    if c.acc_id = caseData.acc_id then updateData env employeeMap caseData c :: rest
    else c :: upsertCase env employeeMap caseData rest

/-- The upserts of one batch (`Promise.all(upsertPromises)`), applied in list order. -/
def upsertBatch (env : Env) (employeeMap : Obj String) (batch : List CaseDraft) (cases : List Case) :
    List Case :=
  batch.foldl (fun acc caseData => upsertCase env employeeMap caseData acc) cases

/-- The constant `BATCH_SIZE`. -/
def BATCH_SIZE : Nat := 100

/-- The array method `xs.slice(i, j)` for `i ≤ j`. -/
def slice {α : Type} (xs : List α) (i j : Nat) : List α :=
  (xs.drop i).take (j - i)

/-- The loop `for (let i = ...; i < casesArray.length; i += BATCH_SIZE)` from `i` on. -/
def batchLoop (env : Env) (employeeMap : Obj String) (casesArray : List CaseDraft) (i : Nat)
    (cases : List Case) : List Case :=
  if i < casesArray.length then
    batchLoop env employeeMap casesArray (i + BATCH_SIZE)
      (upsertBatch env employeeMap (slice casesArray i (i + BATCH_SIZE)) cases)
  else cases
termination_by casesArray.length - i
decreasing_by
  simp only [BATCH_SIZE]
  omega

/-- The query for `sampleCases`: newest first, at most 100 of the given mode. -/
def sampleCases (cases : List Case) (uploadMode : String) : List Case :=
  ((cases.filter (fun c => decide (c.upload_mode = uploadMode))).reverse).take 100

/-- Result of `bulkCreateCases`: the manifest and the sample. -/
structure BulkResult where
  upload : CaseUpload
  cases : List Case
  deriving DecidableEq

/-- The service function `bulkCreateCases(casesArray, supervisorId, uploadMode)`. -/
def bulkCreateCases (env : Env) (db : Db) (casesArray : List CaseDraft) (supervisorId : Option String)
    (uploadMode : String) : Db × BulkResult :=
  let upload : CaseUpload :=
    { supervisorId := supervisorId
      filename := "upload_" ++ toString env.now
      upload_mode := uploadMode
      total_cases := casesArray.length }
  let employeeMap := buildEmployeeMap db.users
  let cases := batchLoop env employeeMap casesArray 0 db.cases
  ({ db with cases := cases, caseUploads := db.caseUploads ++ [upload] },
    { upload := upload, cases := sampleCases cases uploadMode })

/-! ## The controller `uploadCases` (cases.controller.js, lines 121-318)

The audit log and the encrypted copy of the file are external; the name of the
saved copy is an input. -/

/-- An HTTP response: status code, `success`, `message` and `data`. -/
structure Response (α : Type) where
  status : Nat
  success : Bool
  message : String
  data : Option α

/-- The object `allocationStats`. -/
structure AllocationStats where
  total : Nat
  allocated : Nat
  unallocated : Nat
  foundEmployees : Nat
  notFoundEmployees : Nat
  notFoundEmpIds : List String
  deriving DecidableEq, Repr

/-- An entry of `overloaded`. -/
structure Overloaded where
  id : String
  count : Nat
  deriving DecidableEq, Repr

/-- The `data` object of the upload response. -/
structure UploadData where
  upload : CaseUpload
  created : Nat
  totalRows : Nat
  skippedRows : Nat
  skippedRowDetails : Option (List SkippedRow)
  allocationStats : AllocationStats
  overloaded : List Overloaded
  savedFilename : Option String
  notFoundEmpIds : Option (List String)
  deriving DecidableEq, Repr

/-- The key `c.executiveId || c.emp_id || 'unassigned'` of the load count. -/
def loadKey (c : Case) : String :=
  (strOrNull c.executiveId).getD ((strOrNull c.emp_id).getD "unassigned")

/-- The loop filling `counts`: cases per executive or employee identifier. -/
def loadCounts (cases : List Case) : Obj Nat :=
  cases.foldl (fun counts c => Obj.set counts (loadKey c) ((Obj.get counts (loadKey c)).getD 0 + 1)) []

/-- The list `overloaded`: the keys with more than 100 cases. -/
def overloadedOf (cases : List Case) : List Overloaded :=
  ((loadCounts cases).entries.filter (fun kv => decide (kv.2 > 100))).map (fun kv => ⟨kv.1, kv.2⟩)

/-- The array or `null`: `xs.length > 0 ? xs : null`. -/
def nonEmptyOrNull {α : Type} (xs : List α) : Option (List α) :=
  if xs.length > 0 then some xs else none

/-- The controller `uploadCases`: `file` holds the rows `sheet_to_json` reads from
the uploaded sheet (`none` when no file came), `userId` is `req.user?.id`. -/
def uploadCases (env : Env) (db : Db) (file : Option (List Row)) (userId : Option String)
    (savedFilename : Option String) : Db × Response UploadData :=
  match file with
  | none => (db, { status := 400, success := false, message := "No file uploaded", data := none })
  | some rows =>
    let normalizedRows := rows.map normalizeRow
    let empIds := extractEmpIds normalizedRows
    let res := resolveEmployees db.users empIds
    let st := rowLoop res.empIdToUserId normalizedRows
    let supervisorId := strOrNull userId
    let out := bulkCreateCases env db st.casesArray supervisorId "ORIGINAL"
    let result := out.2
    let allocationStats : AllocationStats :=
      { total := result.cases.length
        allocated := (result.cases.filter (fun c => idTruthy c.executiveId)).length
        unallocated := (result.cases.filter (fun c => !idTruthy c.executiveId)).length
        foundEmployees := res.foundEmpIds.length
        notFoundEmployees := res.notFoundEmpIds.length
        notFoundEmpIds := res.notFoundEmpIds }
    (out.1,
      { status := 201
        success := true
        message :=
          "Uploaded " ++ toString result.cases.length ++ "/" ++ toString normalizedRows.length
            ++ " cases. "
            ++ (if st.skippedRows.length > 0 then
                  "Skipped " ++ toString st.skippedRows.length ++ " rows."
                else "")
            ++ " Allocated: " ++ toString allocationStats.allocated ++ ", Unallocated: "
            ++ toString allocationStats.unallocated
        data := some
          { upload := result.upload
            created := result.cases.length
            totalRows := normalizedRows.length
            skippedRows := st.skippedRows.length
            skippedRowDetails := nonEmptyOrNull st.skippedRows
            allocationStats := allocationStats
            overloaded := overloadedOf result.cases
            savedFilename := savedFilename
            notFoundEmpIds := nonEmptyOrNull res.notFoundEmpIds } })

/-! ## Allocation (case.service.js, lines 179-205; cases.controller.js, lines 525-648) -/

/-- A request argument: absent, `null` or a string (other JSON values are outside
the model). -/
inductive Arg where
  | undefined
  | null
  | str (s : String)
  deriving DecidableEq, Repr

/-- Truthiness of a request argument. -/
def Arg.truthy : Arg → Bool
  | .str s => strTruthy s
  | _ => false

/-- The filter `where: { emp_id, executiveId: null }`: an absent `emp_id` puts no
condition on the column, `null` selects the records without identifier. -/
def matchesWhere (emp_id : Arg) (c : Case) : Bool :=
  (match emp_id with
    | .undefined => true
    | .null => c.emp_id.isNone
    | .str s => decide (c.emp_id = some s))
  && c.executiveId.isNone

/-- The assignment `data: { executiveId }`: an absent value writes nothing. -/
def applyData (executiveId : Arg) (c : Case) : Case :=
  match executiveId with
  | .undefined => c
  | .null => { c with executiveId := none }
  | .str s => { c with executiveId := some s }

/-- The records after `prisma.case.updateMany` with this filter and data. -/
def updateManyCases (cases : List Case) (emp_id executiveId : Arg) : List Case :=
  cases.map (fun c => if matchesWhere emp_id c then applyData executiveId c else c)

/-- The `count` that `prisma.case.updateMany` returns: the records selected. -/
def updateManyCount (cases : List Case) (emp_id : Arg) : Nat :=
  (cases.filter (matchesWhere emp_id)).length

/-- When and with which message the persistence layer rejects the update of
`allocateCasesToExecutive` (a constraint of the schema, which is not part of the
sources); `none` when it accepts. -/
abbrev Rejection := Db → Arg → Arg → Option String

/-- The service function `allocateCasesToExecutive(emp_id, executiveId)`: the
database afterwards and the count, or the message of the error thrown. -/
def allocateCasesToExecutive (reject : Rejection) (db : Db) (emp_id executiveId : Arg) :
    Db × Except String Nat :=
  match reject db emp_id executiveId with
  | some msg => (db, .error ("Failed to allocate cases: " ++ msg))
  | none =>
    ({ db with cases := updateManyCases db.cases emp_id executiveId },
      .ok (updateManyCount db.cases emp_id))

/-- An entry of the results of `bulkAllocateCases`. -/
structure AllocResult where
  emp_id : Arg
  executiveId : Arg
  updated : Nat
  deriving DecidableEq, Repr

/-- The loop `for (const { emp_id, executiveId } of allocations)`: an error thrown
by one allocation leaves the loop. -/
def bulkAllocateLoop (reject : Rejection) :
    Db → List (Arg × Arg) → List AllocResult → Db × Except String (List AllocResult)
  | db, [], results => (db, .ok results)
  | db, (emp_id, executiveId) :: rest, results =>
    match allocateCasesToExecutive reject db emp_id executiveId with
    | (db', .ok count) => bulkAllocateLoop reject db' rest (results ++ [⟨emp_id, executiveId, count⟩])
    | (db', .error msg) => (db', .error msg)

/-- The service function `bulkAllocateCases(allocations)`. -/
def bulkAllocateCases (reject : Rejection) (db : Db) (allocations : List (Arg × Arg)) :
    Db × Except String (List AllocResult) :=
  match bulkAllocateLoop reject db allocations [] with
  | (db', .ok results) => (db', .ok results)
  | (db', .error msg) => (db', .error ("Failed to bulk allocate cases: " ++ msg))

/-- The controller `bulkAllocate`. -/
def bulkAllocate (reject : Rejection) (db : Db) (allocations : List (Arg × Arg)) :
    Db × Response (List AllocResult) :=
  match bulkAllocateCases reject db allocations with
  | (db', .ok results) =>
    (db', { status := 200, success := true, message := "Bulk allocation completed", data := some results })
  | (db', .error msg) => (db', { status := 400, success := false, message := msg, data := none })

/-- The query `prisma.user.findUnique({ where: { id } })`. -/
def findUserById (users : List User) (id : String) : Option User :=
  users.find? (fun u => decide (u.id = id))

/-- The `data` object of the response of `allocateByEmpId`. -/
structure AllocateByEmpIdData where
  emp_id : String
  executiveId : String
  executiveName : String
  casesAllocated : Nat
  deriving DecidableEq, Repr

/-- The controller `allocateByEmpId`. -/
def allocateByEmpId (reject : Rejection) (db : Db) (emp_id executiveId : Arg) :
    Db × Response AllocateByEmpIdData :=
  match emp_id, executiveId with
  | .str e, .str x =>
    if !strTruthy e || !strTruthy x then
      (db, { status := 400, success := false, message := "emp_id and executiveId are required",
             data := none })
    else
      match findUserById db.users x with
      | none => (db, { status := 404, success := false, message := "Executive not found", data := none })
      | some executive =>
        match reject db emp_id executiveId with
        | some msg => (db, { status := 400, success := false, message := msg, data := none })
        | none =>
          ({ db with cases := updateManyCases db.cases emp_id executiveId },
            { status := 200
              success := true
              message :=
                "Allocated " ++ toString (updateManyCount db.cases emp_id) ++ " cases from emp_id: "
                  ++ e ++ " to " ++ executive.firstName ++ " " ++ executive.lastName
              data := some
                { emp_id := e
                  executiveId := x
                  executiveName := executive.firstName ++ " " ++ executive.lastName
                  casesAllocated := updateManyCount db.cases emp_id } })
  | _, _ =>
    (db, { status := 400, success := false, message := "emp_id and executiveId are required",
           data := none })

/-- The groups of `prisma.case.groupBy({ by: ['emp_id'] })` with their sizes, in
order of first occurrence. -/
def groupByEmpId (cases : List Case) : List (Option String × Nat) :=
  cases.foldl (fun groups c =>
    if groups.any (fun g => decide (g.1 = c.emp_id)) then
      groups.map (fun g => if g.1 = c.emp_id then (g.1, g.2 + 1) else g)
    else groups ++ [(c.emp_id, 1)]) []

/-- The `data` object of the response of `getAllocationStatus`. -/
structure AllocationStatus where
  total : Nat
  allocated : Nat
  unallocated : Nat
  unallocatedByEmpId : List (Option String × Nat)
  deriving DecidableEq, Repr

/-- The counts computed by the controller `getAllocationStatus`. -/
def allocationStatusOf (db : Db) : AllocationStatus :=
  let allocated := (db.cases.filter (fun c => c.executiveId.isSome)).length
  let unallocated := (db.cases.filter (fun c => c.executiveId.isNone)).length
  { total := allocated + unallocated
    allocated := allocated
    unallocated := unallocated
    unallocatedByEmpId := groupByEmpId (db.cases.filter (fun c => c.executiveId.isNone)) }

/-- The controller `getAllocationStatus`. -/
def getAllocationStatus (db : Db) : Response AllocationStatus :=
  { status := 200, success := true, message := "", data := some (allocationStatusOf db) }

/-! ## Specification-level views of the row loop -/

/-- The drafts of the accepted rows, in sheet order. -/
def acceptedDrafts (empIdToUserId : Obj String) (rows : List Row) : List CaseDraft :=
  rows.filterMap (fun r =>
    if truthy (pick r accNoKeys) then some (buildCaseObj empIdToUserId r (pick r accNoKeys)) else none)

/-- The entries for the rejected rows, the first row having index `i`. -/
def skippedFrom : Nat → List Row → List SkippedRow
  | _, [] => []
  | i, r :: rest =>
    if truthy (pick r accNoKeys) then skippedFrom (i + 1) rest
    else { rowNumber := i + 2, reason := missingReason r } :: skippedFrom (i + 1) rest

/-! ## Example data -/

/-- A sheet of three data rows; the second has no account number. -/
def exampleSheet : List Row :=
  [ [("Acc_No", .str "A1"), ("Emp_ID", .str "E1"), ("Name", .str "Asha")],
    [("Name", .str "Binod"), ("Emp_ID", .str "E9")],
    [("Account", .str "A2"), ("Name", .str "Chitra")] ]

/-- A user table with one executive. -/
def exampleUsers : List User :=
  [{ id := "u1", emp_id := some "E1", firstName := "Ravi", lastName := "Kumar", roles := ["executive"] }]

/-- An environment: November 2026. -/
def exampleEnv : Env :=
  { month := 11, year := 2026, now := 0, defaultStatus := "PENDING" }

/-- A database without cases. -/
def emptyDb : Db :=
  { cases := [], users := exampleUsers, caseUploads := [] }

/-! ## Specification-level views of the employee identifiers -/

/-- The non-blank trimmed employee identifier of a row (the draft's `emp_id`). -/
def rowEmpId (r : Row) : Option String :=
  strOrNull (trimmedOrNull (pick r empIdRowKeys))

/-- The distinct non-blank employee identifiers of the accepted rows. -/
def acceptedEmpIds (normalizedRows : List Row) : List String :=
  setSpread (filterBoolean ((rowLoop [] normalizedRows).casesArray.map (fun d => d.emp_id)))

/-! ## Specification-level views of the case table -/

/-- The number of records with account id `a`. -/
def countAcc (a : String) (cases : List Case) : Nat :=
  (cases.filter (fun c => decide (c.acc_id = a))).length

/-- The query `prisma.case.findUnique({ where: { acc_id } })`. -/
def findByAccId (cases : List Case) (a : String) : Option Case :=
  cases.find? (fun c => decide (c.acc_id = a))

/-- The record `c` carries in every uploaded column the value the upsert derives
from draft `d`, with the executive resolved through `employeeMap`. -/
def matchesDraft (env : Env) (employeeMap : Obj String) (d : CaseDraft) (c : Case) : Prop :=
  c.acc_id = d.acc_id ∧ c.cust_id = d.cust_id ∧ c.customer_name = d.customer_name
    ∧ c.phone_number = d.phone_number ∧ c.address = d.address ∧ c.pincode = d.pincode
    ∧ c.lat = d.lat ∧ c.lng = d.lng
    ∧ c.pos_amount = d.pos_amount.orZero ∧ c.overdue_amount = d.overdue_amount.orZero
    ∧ c.dpd = intOr0 d.dpd ∧ c.bkt = d.bkt ∧ c.product_type = d.product_type
    ∧ c.sub_product_name = d.sub_product_name ∧ c.bank_name = d.bank_name
    ∧ c.npa_status = d.npa_status ∧ c.priority = d.priority ∧ c.performance = d.performance
    ∧ c.collection_amount = d.collection_amount.orZero ∧ c.toss_amount = d.toss_amount.orZero
    ∧ c.emi_amount = d.emi_amount.orZero ∧ c.interest = d.interest.orZero
    ∧ c.emp_id = d.emp_id ∧ c.executiveId = realExecutiveId employeeMap d.emp_id
    ∧ c.month = natOr d.month env.month ∧ c.year = natOr d.year env.year
    ∧ c.upload_mode = uploadModeOf d.upload_mode

instance (env : Env) (employeeMap : Obj String) (d : CaseDraft) (c : Case) :
    Decidable (matchesDraft env employeeMap d c) := by
  unfold matchesDraft
  exact inferInstance

/-- A draft as `uploadCases` builds it from a row with account number, customer
name, outstanding amount and employee identifier. -/
def exampleDraft (acc name pos emp : String) : CaseDraft :=
  buildCaseObj []
    [("Acc_No", .str acc), ("Name", .str name), ("POS_amount", .str pos), ("Emp_ID", .str emp)]
    (some (.str acc))

/-- A stored case of account A1, allocated to user u1 through identifier E1. -/
def exampleCase : Case :=
  createData exampleEnv (buildEmployeeMap exampleUsers) (exampleDraft "A1" "Asha" "1000" "E1")

/-- A database holding the allocated example case. -/
def allocatedDb : Db :=
  { cases := [exampleCase], users := exampleUsers, caseUploads := [] }

/-! ## Example data for the allocation -/

/-- A rejection rule of a schema with a foreign key from `executiveId` to the users:
the update is refused when the new executive is no user. -/
def foreignKeyRejection : Rejection :=
  fun db _ executiveId =>
    match executiveId with
    | .str x =>
      if db.users.any (fun u => decide (u.id = x)) then none
      else some "Foreign key constraint failed on the field: executiveId"
    | _ => none

/-- A persistence layer that accepts every update. -/
def noRejection : Rejection :=
  fun _ _ _ => none

/-- Two stored cases without executive, of the identifiers E7 and E8. -/
def unallocatedDb : Db :=
  { cases :=
      [ createData exampleEnv [] (exampleDraft "A7" "Gita" "300" "E7"),
        createData exampleEnv [] (exampleDraft "A8" "Hari" "400" "E8") ]
    users := exampleUsers
    caseUploads := [] }

/-! ## Letter case -/

/-- Upper case of one character (`toUpperCase`): the Basic Latin letters, and the
characters whose upper case is made of Basic Latin letters. Every other character
is kept; its upper case contains a character outside Basic Latin, as it does
itself, so a comparison with a Basic Latin word comes out as in JavaScript. -/
def upperChar (c : Char) : List Char :=
  let n := c.toNat
  if 97 ≤ n ∧ n ≤ 122 then [Char.ofNat (n - 32)]
  else if n = 0xDF then ['S', 'S']
  else if n = 0x17F then ['S']
  else if n = 0x131 then ['I']
  else if n = 0xFB00 then ['F', 'F']
  else if n = 0xFB01 then ['F', 'I']
  else if n = 0xFB02 then ['F', 'L']
  else if n = 0xFB03 then ['F', 'F', 'I']
  else if n = 0xFB04 then ['F', 'F', 'L']
  else if n = 0xFB05 then ['S', 'T']
  else if n = 0xFB06 then ['S', 'T']
  else [c]

/-- JavaScript `s.toUpperCase()`. -/
def jsToUpperCase (s : String) : String :=
  String.mk (s.data.foldr (fun c acc => upperChar c ++ acc) [])

/-- Lower case of one character (`toLowerCase`): the Basic Latin letters and the
Kelvin sign; every other character is kept (its lower case is outside Basic
Latin or longer than one character). -/
def lowerChar (c : Char) : List Char :=
  let n := c.toNat
  if 65 ≤ n ∧ n ≤ 90 then [Char.ofNat (n + 32)]
  else if n = 0x212A then ['k']
  else [c]

/-- JavaScript `s.toLowerCase()`. -/
def jsToLowerCase (s : String) : String :=
  String.mk (s.data.foldr (fun c acc => lowerChar c ++ acc) [])

/-! ## Feedbacks -/

/-- The executive selected with a feedback (`include: { executive: ... }`). -/
structure ExecutiveInfo where
  id : String
  firstName : String
  lastName : String
  emp_id : Option String
  deriving DecidableEq, Repr

/-- A feedback record, with the properties that the export reads; dates are held
by their ISO text, `device_info` by its JSON text. -/
structure Feedback where
  relation : Option String
  metName : Option String
  whoMet : Option String
  meeting_place : Option String
  place : Option String
  remarks : Option String
  fullFeedback : Option String
  product_type : Option String
  executive : Option ExecutiveInfo
  visit_code : Option String
  asset_status : Option String
  photo_url : Option String
  lat : Option ℚ
  lng : Option ℚ
  ptp_date : Option String
  is_fake_visit : Option Bool
  distance_from_address : Option ℚ
  distance : Option String
  device_info : Option String
  ptp_broken : Option Bool
  fake_visit_reason : Option String
  status : Option String
  createdAt : Option String
  updatedAt : Option String
  deriving DecidableEq

/-- A case record with its feedbacks loaded (`include: { feedbacks: true }`). -/
structure CaseWithFeedbacks where
  toCase : Case
  feedbacks : List Feedback
  deriving DecidableEq

/-! ## `getExecutivePerformance` (case.service.js, lines 305-640) -/

/-- The helper `normalizePerf`: trimmed and upper-cased label, `''` when absent. -/
def normalizePerf (p : Option String) : String :=
  match p with
  | some s => if strTruthy s then jsToUpperCase (jsTrim s) else ""
  | none => ""

/-- The expression `x || 0` on an amount. -/
def qOr0 (q : ℚ) : ℚ :=
  if q = 0 then 0 else q

/-- The expression `n || 0` on a count. -/
def nOr0 (n : Nat) : Nat :=
  if n = 0 then 0 else n

/-- The expression `s || dflt` on a nullable string. -/
def strOr (s : Option String) (dflt : String) : String :=
  (strOrNull s).getD dflt

/-- The test `c.status === 'PAID' || c.status === 'CLOSED'`. -/
def isResolved (status : String) : Bool :=
  decide (status = "PAID") || decide (status = "CLOSED")

/-- The JavaScript quotient `n / d` where it is a finite number: `none` when the
divisor is 0, where JavaScript gives NaN (for 0 / 0) or an infinity. -/
def jsDiv (n d : ℚ) : Option ℚ :=
  if d = 0 then none else some (n / d)

/-- The expression `d > 0 ? (n / d) * 100 : 0`, evaluated with `jsDiv`: `none` when
the evaluation divides by zero. -/
def pctEval (n d : ℚ) : Option ℚ :=
  if 0 < d then (jsDiv n d).map (fun q => q * 100) else some 0

/-- The percentage `d > 0 ? (n / d) * 100 : 0`: the value of `pctEval`, which the
test `d > 0` keeps from dividing by zero. -/
def pct (n d : ℚ) : ℚ :=
  (pctEval n d).get (by
    unfold pctEval jsDiv
    by_cases h : 0 < d
    · rw [if_pos h, if_neg (ne_of_gt h)]
      rfl
    · rw [if_neg h]
      rfl)

/-- Property write on an object created on first use:
`if (!o[k]) o[k] = init; o[k] = f(o[k])`. -/
def Obj.upsertWith {α : Type} (o : Obj α) (k : String) (init : α) (f : α → α) : Obj α :=
  Obj.set o k (f ((Obj.get o k).getD init))

/-- JavaScript `Object.values(o)`, in the order of `Object.keys`. -/
def Obj.values {α : Type} (o : Obj α) : List α :=
  o.entries.map Prod.snd

/-- The counters every node of the breakdown accumulates. -/
structure Metrics where
  totalCases : Nat
  totalPOS : ℚ
  posNotFlow : ℚ
  posRB : ℚ
  posNorm : ℚ
  flowCount : Nat
  rbCount : Nat
  normCount : Nat
  stabCount : Nat
  resolvedCount : Nat
  recoveredAmount : ℚ
  paidRecoveredAmount : ℚ
  deriving DecidableEq

/-- The counters of a node just created: all zero. -/
def Metrics.zero : Metrics :=
  { totalCases := 0, totalPOS := 0, posNotFlow := 0, posRB := 0, posNorm := 0, flowCount := 0,
    rbCount := 0, normCount := 0, stabCount := 0, resolvedCount := 0, recoveredAmount := 0,
    paidRecoveredAmount := 0 }

/-- The updates one case makes to the counters of a node (the same statements at
bank, product and bucket level: lines 429-446, 467-480, 500-513). -/
def Metrics.add (m : Metrics) (perf : String) (pos collected : ℚ) (status : String) : Metrics :=
  { totalCases := m.totalCases + 1
    totalPOS := m.totalPOS + pos
    posNotFlow := if perf ≠ "FLOW" then m.posNotFlow + pos else m.posNotFlow
    posRB := if perf = "RB" then m.posRB + pos else m.posRB
    posNorm := if perf = "NORM" then m.posNorm + pos else m.posNorm
    flowCount := if perf = "FLOW" then m.flowCount + 1 else m.flowCount
    rbCount := if perf = "RB" then m.rbCount + 1 else m.rbCount
    normCount := if perf = "NORM" then m.normCount + 1 else m.normCount
    stabCount := if perf = "STAB" then m.stabCount + 1 else m.stabCount
    resolvedCount := if isResolved status then m.resolvedCount + 1 else m.resolvedCount
    recoveredAmount := m.recoveredAmount + collected
    paidRecoveredAmount :=
      if perf ≠ "FLOW" then m.paidRecoveredAmount + collected else m.paidRecoveredAmount }

/-- A product node while accumulating: counters and its buckets. -/
structure ProdAcc extends Metrics where
  bkts : Obj Metrics
  deriving DecidableEq

/-- A bank node while accumulating: counters and its products. -/
structure BankAcc extends Metrics where
  products : Obj ProdAcc
  deriving DecidableEq

/-- A product node just created. -/
def ProdAcc.empty : ProdAcc :=
  { toMetrics := Metrics.zero, bkts := [] }

/-- A bank node just created. -/
def BankAcc.empty : BankAcc :=
  { toMetrics := Metrics.zero, products := [] }

/-- The bank key `c.bank_name || 'UNKNOWN'`. -/
def bankKey (c : CaseWithFeedbacks) : String :=
  strOr c.toCase.bank_name "UNKNOWN"

/-- The product key `c.product_type || 'UNKNOWN'`. -/
def productKey (c : CaseWithFeedbacks) : String :=
  strOr c.toCase.product_type "UNKNOWN"

/-- The bucket key `c.bkt || 'UNKNOWN'`. -/
def bktKey (c : CaseWithFeedbacks) : String :=
  strOr c.toCase.bkt "UNKNOWN"

/-- The counters of a node after case `c`. -/
def addCase (m : Metrics) (c : CaseWithFeedbacks) : Metrics :=
  m.add (normalizePerf c.toCase.performance) (qOr0 c.toCase.pos_amount)
    (qOr0 c.toCase.collection_amount) c.toCase.status

/-- The buckets of a product after case `c` (lines 482-513). For a bucket key that
is a name of `protoKeys` the test `!prodObj.bkts[bkt]` reads the member inherited
from `Object.prototype`, which is truthy: no entry is created, `bktObj` is that
member and the increments go to it, so `prodObj.bkts` is left as it was. -/
def bktsStep (bkts : Obj Metrics) (c : CaseWithFeedbacks) : Obj Metrics :=
  if bktKey c ∈ protoKeys then bkts
  else Obj.upsertWith bkts (bktKey c) Metrics.zero (fun bktObj => addCase bktObj c)

/-- A product node after case `c`. -/
def prodUpdate (prodObj : ProdAcc) (c : CaseWithFeedbacks) : ProdAcc :=
  { toMetrics := addCase prodObj.toMetrics c, bkts := bktsStep prodObj.bkts c }

/-- The products of a bank after case `c`. -/
def productsStep (products : Obj ProdAcc) (c : CaseWithFeedbacks) : Obj ProdAcc :=
  Obj.upsertWith products (productKey c) ProdAcc.empty (fun prodObj => prodUpdate prodObj c)

/-- A bank node after case `c`. -/
def bankUpdate (bankObj : BankAcc) (c : CaseWithFeedbacks) : BankAcc :=
  { toMetrics := addCase bankObj.toMetrics c, products := productsStep bankObj.products c }

/-- The object `byBank` after case `c`. -/
def byBankStep (byBank : Obj BankAcc) (c : CaseWithFeedbacks) : Obj BankAcc :=
  Obj.upsertWith byBank (bankKey c) BankAcc.empty (fun bankObj => bankUpdate bankObj c)

/-- The variables of the main loop `cases.forEach`. -/
structure PerfLoop where
  posNotFlow : ℚ
  posRB : ℚ
  posNorm : ℚ
  flowCount : Nat
  rbCount : Nat
  normCount : Nat
  stabCount : Nat
  bankSet : List String
  productSet : List String
  totalVisits : Nat
  totalRecoveredAmount : ℚ
  paidRecoveredAmount : ℚ
  byBank : Obj BankAcc
  deriving DecidableEq

/-- The variables before the main loop. -/
def PerfLoop.init : PerfLoop :=
  { posNotFlow := 0, posRB := 0, posNorm := 0, flowCount := 0, rbCount := 0, normCount := 0,
    stabCount := 0, bankSet := [], productSet := [], totalVisits := 0, totalRecoveredAmount := 0,
    paidRecoveredAmount := 0, byBank := [] }

/-- The method `set.add(x)`. -/
def setAdd (seen : List String) (x : String) : List String :=
  if x ∈ seen then seen else seen ++ [x]

/-- One pass of the main loop (lines 381-514), on case `c`. -/
def perfStep (st : PerfLoop) (c : CaseWithFeedbacks) : PerfLoop :=
  let perf := normalizePerf c.toCase.performance
  let pos := qOr0 c.toCase.pos_amount
  let bank := bankKey c
  let product := productKey c
  let collected := qOr0 c.toCase.collection_amount
  { posNotFlow := if perf ≠ "FLOW" then st.posNotFlow + pos else st.posNotFlow
    posRB := if perf = "RB" then st.posRB + pos else st.posRB
    posNorm := if perf = "NORM" then st.posNorm + pos else st.posNorm
    bankSet := if strTruthy bank then setAdd st.bankSet bank else st.bankSet
    productSet := if strTruthy product then setAdd st.productSet product else st.productSet
    totalVisits := st.totalVisits + (if c.feedbacks.length ≠ 0 then c.feedbacks.length else 0)
    totalRecoveredAmount := st.totalRecoveredAmount + collected
    paidRecoveredAmount :=
      if perf ≠ "FLOW" then st.paidRecoveredAmount + collected else st.paidRecoveredAmount
    flowCount := if perf = "FLOW" then st.flowCount + 1 else st.flowCount
    rbCount := if perf ≠ "FLOW" ∧ perf = "RB" then st.rbCount + 1 else st.rbCount
    normCount :=
      if perf ≠ "FLOW" ∧ perf ≠ "RB" ∧ perf = "NORM" then st.normCount + 1 else st.normCount
    stabCount :=
      if perf ≠ "FLOW" ∧ perf ≠ "RB" ∧ perf ≠ "NORM"
          ∧ (perf = "STAB" ∨ perf = "STAB. " ∨ perf = "STAB") then
        st.stabCount + 1
      else st.stabCount
    byBank := byBankStep st.byBank c }

/-- An entry of `byBKT` and `byProduct`. -/
structure GroupStat where
  count : Nat
  pos : ℚ
  visited : Nat
  deriving DecidableEq

/-- The update of `byBKT[key]` or `byProduct[key]` by case `c` (lines 336-348). For
a key that is a name of `protoKeys` the test `!byBKT[key]` reads the inherited
member: no entry is created and the increments go to that member. -/
def groupStatStep (key : CaseWithFeedbacks → String) (o : Obj GroupStat) (c : CaseWithFeedbacks) :
    Obj GroupStat :=
  if key c ∈ protoKeys then o
  else
    Obj.upsertWith o (key c) { count := 0, pos := 0, visited := 0 } (fun g =>
      { count := g.count + 1
        pos := g.pos + qOr0 c.toCase.pos_amount
        visited := if c.feedbacks.length > 0 then g.visited + 1 else g.visited })

/-- A bucket node of the returned breakdown (lines 566-587). -/
structure BucketNode where
  bkt : String
  totalCases : Nat
  totalPOS : ℚ
  flowCount : Nat
  rbCount : Nat
  normCount : Nat
  stabCount : Nat
  countNotFlow : Nat
  countNotFlowRate : ℚ
  posNotFlow : ℚ
  posNotFlowRate : ℚ
  rbCountRate : ℚ
  normCountRate : ℚ
  posRB : ℚ
  posRBRate : ℚ
  posNorm : ℚ
  posNormRate : ℚ
  recoveredAmount : ℚ
  paidRecoveredAmount : ℚ
  deriving DecidableEq

/-- A product node of the returned breakdown (lines 547-589). -/
structure ProductNode where
  productName : String
  totalCases : Nat
  totalPOS : ℚ
  resolvedCount : Nat
  flowCount : Nat
  rbCount : Nat
  normCount : Nat
  stabCount : Nat
  countNotFlow : Nat
  countNotFlowRate : ℚ
  posNotFlow : ℚ
  posNotFlowRate : ℚ
  recoveredAmount : ℚ
  paidRecoveredAmount : ℚ
  bkts : List BucketNode
  deriving DecidableEq

/-- A bank node of the returned breakdown (lines 524-591). -/
structure BankNode where
  bankName : String
  totalCases : Nat
  totalPOS : ℚ
  resolvedCount : Nat
  flowCount : Nat
  rbCount : Nat
  normCount : Nat
  stabCount : Nat
  countNotFlow : Nat
  countNotFlowRate : ℚ
  posNotFlow : ℚ
  posNotFlowRate : ℚ
  posRB : ℚ
  posRBRate : ℚ
  posNorm : ℚ
  posNormRate : ℚ
  recoveredAmount : ℚ
  paidRecoveredAmount : ℚ
  products : List ProductNode
  deriving DecidableEq

/-- The bucket node built from an entry of `prodObj.bkts`. -/
def bucketNode (bktName : String) (bObj : Metrics) : BucketNode :=
  let bc := nOr0 bObj.totalCases
  let bp := qOr0 bObj.totalPOS
  let bCountNotFlow := nOr0 bObj.rbCount + nOr0 bObj.normCount + nOr0 bObj.stabCount
  { bkt := bktName
    totalCases := bc
    totalPOS := bp
    flowCount := nOr0 bObj.flowCount
    rbCount := nOr0 bObj.rbCount
    normCount := nOr0 bObj.normCount
    stabCount := nOr0 bObj.stabCount
    countNotFlow := bCountNotFlow
    countNotFlowRate := pct bCountNotFlow bc
    posNotFlow := qOr0 bObj.posNotFlow
    posNotFlowRate := pct bObj.posNotFlow bp
    rbCountRate := pct (nOr0 bObj.rbCount) bc
    normCountRate := pct (nOr0 bObj.normCount) bc
    posRB := qOr0 bObj.posRB
    posRBRate := pct bObj.posRB bp
    posNorm := qOr0 bObj.posNorm
    posNormRate := pct bObj.posNorm bp
    recoveredAmount := qOr0 bObj.recoveredAmount
    paidRecoveredAmount := qOr0 bObj.paidRecoveredAmount }

/-- The product node built from an entry of `bankObj.products`. -/
def productNode (prodName : String) (prodObj : ProdAcc) : ProductNode :=
  let tc := nOr0 prodObj.totalCases
  let tp := qOr0 prodObj.totalPOS
  let prodCountNotFlow := nOr0 prodObj.rbCount + nOr0 prodObj.normCount + nOr0 prodObj.stabCount
  { productName := prodName
    totalCases := tc
    totalPOS := tp
    resolvedCount := nOr0 prodObj.resolvedCount
    flowCount := nOr0 prodObj.flowCount
    rbCount := nOr0 prodObj.rbCount
    normCount := nOr0 prodObj.normCount
    stabCount := nOr0 prodObj.stabCount
    countNotFlow := prodCountNotFlow
    countNotFlowRate := pct prodCountNotFlow tc
    posNotFlow := qOr0 prodObj.posNotFlow
    posNotFlowRate := pct prodObj.posNotFlow tp
    recoveredAmount := qOr0 prodObj.recoveredAmount
    paidRecoveredAmount := qOr0 prodObj.paidRecoveredAmount
    bkts := prodObj.bkts.entries.map (fun kv => bucketNode kv.1 kv.2) }

/-- The bank node built from an entry of `byBank`. -/
def bankNode (bankName : String) (bankObj : BankAcc) : BankNode :=
  let totalCasesBank := nOr0 bankObj.totalCases
  let totalPOSBank := qOr0 bankObj.totalPOS
  let countNotFlow := nOr0 bankObj.rbCount + nOr0 bankObj.normCount + nOr0 bankObj.stabCount
  { bankName := bankName
    totalCases := totalCasesBank
    totalPOS := totalPOSBank
    resolvedCount := nOr0 bankObj.resolvedCount
    flowCount := nOr0 bankObj.flowCount
    rbCount := nOr0 bankObj.rbCount
    normCount := nOr0 bankObj.normCount
    stabCount := nOr0 bankObj.stabCount
    countNotFlow := countNotFlow
    countNotFlowRate := pct countNotFlow totalCasesBank
    posNotFlow := qOr0 bankObj.posNotFlow
    posNotFlowRate := pct bankObj.posNotFlow totalPOSBank
    posRB := qOr0 bankObj.posRB
    posRBRate := pct bankObj.posRB totalPOSBank
    posNorm := qOr0 bankObj.posNorm
    posNormRate := pct bankObj.posNorm totalPOSBank
    recoveredAmount := qOr0 bankObj.recoveredAmount
    paidRecoveredAmount := qOr0 bankObj.paidRecoveredAmount
    products := bankObj.products.entries.map (fun kv => productNode kv.1 kv.2) }

/-- The object `pie`. -/
structure Pie where
  flow : Nat
  rb : Nat
  norm : Nat
  stab : Nat
  deriving DecidableEq

/-- The object returned by `getExecutivePerformance`. -/
structure Performance where
  totalCases : Nat
  totalPOS : ℚ
  totalBanks : Nat
  totalProducts : Nat
  totalVisitedCases : Nat
  totalVisits : Nat
  totalRecoveredAmount : ℚ
  paidRecoveredAmount : ℚ
  flowCount : Nat
  rbCount : Nat
  normCount : Nat
  stabCount : Nat
  totalPaidCases : Nat
  visitRate : ℚ
  recoveredPOS : ℚ
  recoveryRate : ℚ
  posNotFlow : ℚ
  posRB : ℚ
  posNorm : ℚ
  posNotFlowRate : ℚ
  posRBRate : ℚ
  posNormRate : ℚ
  pie : Pie
  bankBreakdown : List BankNode
  byBKT : Obj GroupStat
  byProduct : Obj GroupStat
  deriving DecidableEq

/-- The metrics computed from the cases that the query returned (lines 323-636),
for a main loop that runs to its end (`mainLoopThrows` tells when it does not). -/
def aggregatePerformance (cases : List CaseWithFeedbacks) : Performance :=
  let totalCases := cases.length
  let visitedCases := (cases.filter (fun c => decide (c.feedbacks.length > 0))).length
  let totalPOS := cases.foldl (fun sum c => sum + qOr0 c.toCase.pos_amount) 0
  let recoveredPOS :=
    (cases.filter (fun c => isResolved c.toCase.status)).foldl
      (fun sum c => sum + qOr0 c.toCase.pos_amount) 0
  let byBKT := cases.foldl (groupStatStep (fun c => propertyKey c.toCase.bkt)) []
  let byProduct := cases.foldl (groupStatStep (fun c => propertyKey c.toCase.product_type)) []
  let st := cases.foldl perfStep PerfLoop.init
  { totalCases := totalCases
    totalPOS := totalPOS
    totalBanks := st.bankSet.length
    totalProducts := st.productSet.length
    totalVisitedCases := visitedCases
    totalVisits := st.totalVisits
    totalRecoveredAmount := st.totalRecoveredAmount
    paidRecoveredAmount := st.paidRecoveredAmount
    flowCount := st.flowCount
    rbCount := st.rbCount
    normCount := st.normCount
    stabCount := st.stabCount
    totalPaidCases := st.flowCount + st.rbCount + st.normCount
    visitRate := pct visitedCases totalCases
    recoveredPOS := recoveredPOS
    recoveryRate := pct recoveredPOS totalPOS
    posNotFlow := st.posNotFlow
    posRB := st.posRB
    posNorm := st.posNorm
    posNotFlowRate := pct st.posNotFlow totalPOS
    posRBRate := pct st.posRB totalPOS
    posNormRate := pct st.posNorm totalPOS
    pie := { flow := st.flowCount, rb := st.rbCount, norm := st.normCount, stab := st.stabCount }
    bankBreakdown := st.byBank.entries.map (fun kv => bankNode kv.1 kv.2)
    byBKT := byBKT
    byProduct := byProduct }

/-- The main loop throws a TypeError at a case whose bank key or product key is a
name of `protoKeys`: the test `!byBank[bank]` (or `!byBank[bank].products[product]`)
reads the member inherited from `Object.prototype`, no node is created, and the
next read `byBank[bank].products[product]` (or `prodObj.bkts[bkt]`) is a property
read on `undefined`. -/
def mainLoopThrows (cases : List CaseWithFeedbacks) : Bool :=
  cases.any (fun c => decide (bankKey c ∈ protoKeys) || decide (productKey c ∈ protoKeys))

/-- The outcome of the `try` block on the cases that the query returned: `none` when
the main loop throws, and the function rejects with `Failed to fetch performance
data`; the returned object otherwise. -/
def performanceResult (cases : List CaseWithFeedbacks) : Option Performance :=
  if mainLoopThrows cases then none else some (aggregatePerformance cases)

/-- The filters of the performance query; an absent or falsy filter puts no
condition. -/
structure PerfFilters where
  month : Option Nat
  year : Option Nat
  bank : Option String
  product : Option String
  bkt : Option String
  deriving DecidableEq, Repr

/-- The condition `n ? column = n : true` of a numeric filter. -/
def numFilter (f : Option Nat) (v : Nat) : Bool :=
  match f with
  | some n => if n = 0 then true else decide (v = n)
  | none => true

/-- The condition of a text filter: any value when the filter is absent or empty. -/
def strFilter (f : Option String) (v : Option String) : Bool :=
  match strOrNull f with
  | some s => decide (v = some s)
  | none => true

/-- The `where` object of `getExecutivePerformance`. -/
def perfWhere (executiveId : String) (filters : PerfFilters) (c : CaseWithFeedbacks) : Bool :=
  decide (c.toCase.executiveId = some executiveId)
    && numFilter filters.month c.toCase.month && numFilter filters.year c.toCase.year
    && strFilter filters.bank c.toCase.bank_name && strFilter filters.product c.toCase.product_type
    && strFilter filters.bkt c.toCase.bkt

/-- The service function `getExecutivePerformance(executiveId, filters)` on the case
table with feedbacks loaded. -/
def getExecutivePerformance (table : List CaseWithFeedbacks) (executiveId : String)
    (filters : PerfFilters) : Performance :=
  aggregatePerformance (table.filter (perfWhere executiveId filters))

/-! ## Specification-level views of the aggregation -/

/-- The normalized performance label of a case. -/
def perfOf (c : CaseWithFeedbacks) : String :=
  normalizePerf c.toCase.performance

/-- The sum of the outstanding amounts of a list of cases. -/
def sumPos (cs : List CaseWithFeedbacks) : ℚ :=
  (cs.map (fun c => c.toCase.pos_amount)).sum

/-- The sum of the collected amounts of a list of cases. -/
def sumCollected (cs : List CaseWithFeedbacks) : ℚ :=
  (cs.map (fun c => c.toCase.collection_amount)).sum

/-- The cases with the given normalized label. -/
def withLabel (l : String) (cs : List CaseWithFeedbacks) : List CaseWithFeedbacks :=
  cs.filter (fun c => decide (perfOf c = l))

/-- The cases whose normalized label is not FLOW. -/
def notFlow (cs : List CaseWithFeedbacks) : List CaseWithFeedbacks :=
  cs.filter (fun c => decide (perfOf c ≠ "FLOW"))

/-- The counters of Metrics computed directly over a list of cases. -/
def metricsOver (cs : List CaseWithFeedbacks) : Metrics :=
  { totalCases := cs.length
    totalPOS := sumPos cs
    posNotFlow := sumPos (notFlow cs)
    posRB := sumPos (withLabel "RB" cs)
    posNorm := sumPos (withLabel "NORM" cs)
    flowCount := (withLabel "FLOW" cs).length
    rbCount := (withLabel "RB" cs).length
    normCount := (withLabel "NORM" cs).length
    stabCount := (withLabel "STAB" cs).length
    resolvedCount := (cs.filter (fun c => isResolved c.toCase.status)).length
    recoveredAmount := sumCollected cs
    paidRecoveredAmount := sumCollected (notFlow cs) }

/-- The label is one of the four performance classes. -/
def recognisedLabel (l : String) : Bool :=
  decide (l = "FLOW") || decide (l = "RB") || decide (l = "NORM") || decide (l = "STAB")

/-! ## `getLeaderboard` (case.service.js, lines 645-760) -/

/-- A case as the leaderboard query selects it: the executive is not null. -/
structure LbCase where
  executiveId : String
  pos_amount : ℚ
  performance : Option String
  status : String
  collection_amount : ℚ
  deriving DecidableEq

/-- The query `findMany({ where: { month, year, executiveId: { not: null } }, select })`. -/
def leaderboardCases (cases : List Case) (month year : Nat) : List LbCase :=
  cases.filterMap (fun c =>
    if c.month = month ∧ c.year = year then
      c.executiveId.map (fun e =>
        { executiveId := e, pos_amount := c.pos_amount, performance := c.performance,
          status := c.status, collection_amount := c.collection_amount })
    else none)

/-- The metrics aggregated for one executive (an entry of `map`). -/
structure LbAcc where
  executiveId : String
  totalCases : Nat
  totalPOS : ℚ
  countNotFlow : Nat
  posNotFlow : ℚ
  rbCount : Nat
  normCount : Nat
  posRB : ℚ
  posNorm : ℚ
  recoveredAmount : ℚ
  paidRecoveredAmount : ℚ
  deriving DecidableEq

/-- The entry created for an executive seen for the first time. -/
def LbAcc.init (exec : String) : LbAcc :=
  { executiveId := exec, totalCases := 0, totalPOS := 0, countNotFlow := 0, posNotFlow := 0,
    rbCount := 0, normCount := 0, posRB := 0, posNorm := 0, recoveredAmount := 0,
    paidRecoveredAmount := 0 }

/-- The updates one case makes to the entry of its executive (lines 679-694). -/
def lbUpdate (m : LbAcc) (c : LbCase) : LbAcc :=
  let perf := normalizePerf c.performance
  let pos := qOr0 c.pos_amount
  let collected := qOr0 c.collection_amount
  { executiveId := m.executiveId
    totalCases := m.totalCases + 1
    totalPOS := m.totalPOS + pos
    countNotFlow := if perf ≠ "FLOW" then m.countNotFlow + 1 else m.countNotFlow
    posNotFlow := if perf ≠ "FLOW" then m.posNotFlow + pos else m.posNotFlow
    rbCount := if perf = "RB" then m.rbCount + 1 else m.rbCount
    posRB := if perf = "RB" then m.posRB + pos else m.posRB
    normCount := if perf = "NORM" then m.normCount + 1 else m.normCount
    posNorm := if perf = "NORM" then m.posNorm + pos else m.posNorm
    recoveredAmount := m.recoveredAmount + collected
    paidRecoveredAmount :=
      if perf ≠ "FLOW" then m.paidRecoveredAmount + collected else m.paidRecoveredAmount }

/-- The object `map` after case `c`. -/
def lbStep (map : Obj LbAcc) (c : LbCase) : Obj LbAcc :=
  Obj.upsertWith map c.executiveId (LbAcc.init c.executiveId) (fun m => lbUpdate m c)

/-- A row of the leaderboard; `rank` is set after sorting. -/
structure LbRow where
  id : String
  name : String
  emp_id : Option String
  totalCases : Nat
  totalPOS : ℚ
  countNotFlow : Nat
  countNotFlowRate : ℚ
  posNotFlow : ℚ
  posNotFlowRate : ℚ
  rbCount : Nat
  normCount : Nat
  posRB : ℚ
  posRBRate : ℚ
  posNorm : ℚ
  posNormRate : ℚ
  recoveredAmount : ℚ
  paidRecoveredAmount : ℚ
  rank : Option Nat
  deriving DecidableEq

/-- The query `prisma.user.findMany({ where: { id: { in: execIds } } })`, not sent
when there is no executive. -/
def findUsersByIds (users : List User) (execIds : List String) : List User :=
  if execIds.length > 0 then users.filter (fun u => decide (u.id ∈ execIds)) else []

/-- The loop `users.forEach(u => usersById[u.id] = u)`. -/
def indexUsersById (users : List User) : Obj User :=
  users.foldl (fun usersById u => Obj.set usersById u.id u) []

/-- The row built from an entry of `map` (lines 705-733). -/
def lbRow (usersById : Obj User) (m : LbAcc) : LbRow :=
  let totalPOS := qOr0 m.totalPOS
  let userInfo := Obj.get usersById m.executiveId
  { id := m.executiveId
    name :=
      jsTrim ((match userInfo with
          | some u => u.firstName
          | none => "") ++ " " ++
        (match userInfo with
          | some u => u.lastName
          | none => ""))
    emp_id :=
      match userInfo with
      | some u => strOrNull u.emp_id
      | none => none
    totalCases := m.totalCases
    totalPOS := totalPOS
    countNotFlow := m.countNotFlow
    countNotFlowRate := pct m.countNotFlow m.totalCases
    posNotFlow := m.posNotFlow
    posNotFlowRate := pct m.posNotFlow totalPOS
    rbCount := m.rbCount
    normCount := m.normCount
    posRB := m.posRB
    posRBRate := pct m.posRB totalPOS
    posNorm := m.posNorm
    posNormRate := pct m.posNorm totalPOS
    recoveredAmount := m.recoveredAmount
    paidRecoveredAmount := m.paidRecoveredAmount
    rank := none }

/-- The filter keeping the rows of users with the role `executive` (lines 737-742). -/
def isExecutiveRow (usersById : Obj User) (r : LbRow) : Bool :=
  match Obj.get usersById r.id with
  | none => false
  | some u =>
    let roleNames := u.roles.map jsToLowerCase
    decide ("executive" ∈ roleNames) || decide (jsToLowerCase "executive" ∈ roleNames)

/-- The comparator of the sort (lines 745-751): negative when `a` goes first. -/
def lbCompare (a b : LbRow) : ℚ :=
  if b.posNotFlowRate ≠ a.posNotFlowRate then b.posNotFlowRate - a.posNotFlowRate
  else
    let aTie := qOr0 a.posRBRate + qOr0 a.posNormRate
    let bTie := qOr0 b.posRBRate + qOr0 b.posNormRate
    if bTie ≠ aTie then bTie - aTie else qOr0 b.totalPOS - qOr0 a.totalPOS

/-- The call `filtered.sort(compare)`: `Array.prototype.sort` is stable, and for
this comparator the result is the stable sorted arrangement, built here by
insertion. -/
def lbSort (rows : List LbRow) : List LbRow :=
  rows.insertionSort (fun a b => lbCompare a b ≤ 0)

/-- The loop `filtered.forEach((row, idx) => row.rank = idx + 1)` from index `idx`. -/
def assignRanks : Nat → List LbRow → List LbRow
  | _, [] => []
  | idx, row :: rest => { row with rank := some (idx + 1) } :: assignRanks (idx + 1) rest

/-- The service function `getLeaderboard(user, month, year)`; the argument `user`
is not read. -/
def getLeaderboard (db : Db) (month year : Nat) : List LbRow :=
  let cases := leaderboardCases db.cases month year
  let map := cases.foldl lbStep []
  let execIds := Obj.keys map
  let users := findUsersByIds db.users execIds
  let usersById := indexUsersById users
  let rows := (Obj.values map).map (lbRow usersById)
  let filtered := rows.filter (isExecutiveRow usersById)
  assignRanks 0 (lbSort filtered)

/-! ## `exportVisitedCases` (cases.controller.js, lines 5-99) -/

/-- A case as `getVisitedCases` returns it. -/
structure VisitedCase where
  acc_id : String
  customer_name : Cell
  bank_name : Option String
  product_type : Option String
  bkt : Option String
  executive : Option ExecutiveInfo
  visits : Nat
  lastVisitAt : Option String
  feedbacks : List Feedback
  deriving DecidableEq

/-- The value of `DistanceFromAddress`: a number or a text. -/
inductive Distance where
  | num (q : ℚ)
  | str (s : String)
  deriving DecidableEq

/-- A row of the exported sheet. -/
structure ExportRow where
  AccountID : String
  CustomerName : Cell
  Bank : Option String
  Product : String
  BKT : Option String
  WhoMet : String
  NameOfPersonMet : Cell
  MeetingPlace : String
  VisitObservation : String
  ExecutiveName : String
  ExecutiveEmpID : String
  VisitCode : Option String
  AssetStatus : Option String
  PhotoURL : Option String
  Latitude : Option ℚ
  Longitude : Option ℚ
  PTPDate : String
  IsFakeVisit : Option Bool
  DistanceFromAddress : Distance
  DeviceInfo : String
  PTPBroken : Option Bool
  FakeVisitReason : String
  Status : String
  CreatedAt : String
  UpdatedAt : String
  deriving DecidableEq

/-- The expression `c.customer_name || ''`. -/
def cellOrEmpty (v : Cell) : Cell :=
  if v.truthy then v else .str ""

/-- The pair `(whoMet, nameOfPersonMet)` chosen by the branches of lines 29-41. -/
def whoMetAndName (c : VisitedCase) (fb : Feedback) : String × Cell :=
  if idTruthy fb.relation && idTruthy fb.metName then
    (fb.relation.getD "", .str (fb.metName.getD ""))
  else if idTruthy fb.whoMet && decide (fb.whoMet = some "Customer") then
    ("Customer", cellOrEmpty c.customer_name)
  else if idTruthy fb.metName then
    (strOr fb.whoMet "", .str (fb.metName.getD ""))
  else
    (strOr fb.whoMet "", cellOrEmpty c.customer_name)

/-- The row pushed for feedback `fb` of case `c` (lines 46-72). -/
def exportRow (c : VisitedCase) (fb : Feedback) : ExportRow :=
  { AccountID := c.acc_id
    CustomerName := c.customer_name
    Bank := c.bank_name
    Product := strOr c.product_type (strOr fb.product_type "")
    BKT := c.bkt
    WhoMet := (whoMetAndName c fb).1
    NameOfPersonMet := (whoMetAndName c fb).2
    MeetingPlace := strOr fb.meeting_place (strOr fb.place "")
    VisitObservation := strOr fb.remarks (strOr fb.fullFeedback "")
    ExecutiveName :=
      match fb.executive with
      | some e => e.firstName ++ " " ++ e.lastName
      | none => ""
    ExecutiveEmpID :=
      match fb.executive with
      | some e => strOr e.emp_id ""
      | none => ""
    VisitCode := fb.visit_code
    AssetStatus := fb.asset_status
    PhotoURL := fb.photo_url
    Latitude := fb.lat
    Longitude := fb.lng
    PTPDate := fb.ptp_date.getD ""
    IsFakeVisit := fb.is_fake_visit
    DistanceFromAddress :=
      match fb.distance_from_address with
      | some q => .num q
      | none => .str (strOr fb.distance "")
    DeviceInfo := fb.device_info.getD ""
    PTPBroken := fb.ptp_broken
    FakeVisitReason := strOr fb.fake_visit_reason ""
    Status := strOr fb.status "Visited"
    CreatedAt := fb.createdAt.getD ""
    UpdatedAt := fb.updatedAt.getD "" }

/-- The array `rows` built by the two nested loops (lines 18-74). -/
def exportRows (cases : List VisitedCase) : List ExportRow :=
  cases.foldl (fun rows c => c.feedbacks.foldl (fun rows fb => rows ++ [exportRow c fb]) rows) []

/-! ## Example data for the aggregation -/

/-- A case labelled FLOW with outstanding amount 1000, without feedbacks. -/
def flowCase : CaseWithFeedbacks :=
  { toCase := { exampleCase with performance := some "FLOW", pos_amount := 1000 }, feedbacks := [] }

/-- A case labelled RB with outstanding amount 500, without feedbacks. -/
def rbCase : CaseWithFeedbacks :=
  { toCase :=
      { exampleCase with
        acc_id := "A2", performance := some "RB", pos_amount := 500, bank_name := some "HDFC",
        product_type := some "PL", bkt := some "B1" }
    feedbacks := [] }

/-- The cases under a bank key. -/
def casesOfBank (bank : String) (cs : List CaseWithFeedbacks) : List CaseWithFeedbacks :=
  cs.filter (fun c => decide (bankKey c = bank))

/-- The cases under a product key of a bank. -/
def casesOfProduct (bank product : String) (cs : List CaseWithFeedbacks) : List CaseWithFeedbacks :=
  (casesOfBank bank cs).filter (fun c => decide (productKey c = product))

/-- The cases under a product key of a bank whose bucket key is a property name
inherited from `Object.prototype`. -/
def inheritedBktCases (bank product : String) (cs : List CaseWithFeedbacks) :
    List CaseWithFeedbacks :=
  (casesOfProduct bank product cs).filter (fun c => decide (bktKey c ∈ protoKeys))

/-- A case of bank HDFC and product PL whose bucket is named `constructor`. -/
def constructorBktCase : CaseWithFeedbacks :=
  { toCase :=
      { exampleCase with
        acc_id := "A3", performance := some "RB", pos_amount := 500, bank_name := some "HDFC",
        product_type := some "PL", bkt := some "constructor" }
    feedbacks := [] }

/-- The cases under a bucket key of a product of a bank. -/
def casesOfBucket (bank product bkt : String) (cs : List CaseWithFeedbacks) :
    List CaseWithFeedbacks :=
  (casesOfProduct bank product cs).filter (fun c => decide (bktKey c = bkt))

/-- Field by field sum of two sets of counters. -/
def Metrics.plus (a b : Metrics) : Metrics :=
  { totalCases := a.totalCases + b.totalCases
    totalPOS := a.totalPOS + b.totalPOS
    posNotFlow := a.posNotFlow + b.posNotFlow
    posRB := a.posRB + b.posRB
    posNorm := a.posNorm + b.posNorm
    flowCount := a.flowCount + b.flowCount
    rbCount := a.rbCount + b.rbCount
    normCount := a.normCount + b.normCount
    stabCount := a.stabCount + b.stabCount
    resolvedCount := a.resolvedCount + b.resolvedCount
    recoveredAmount := a.recoveredAmount + b.recoveredAmount
    paidRecoveredAmount := a.paidRecoveredAmount + b.paidRecoveredAmount }

/-- The example RB case with status PAID. -/
def paidCase : CaseWithFeedbacks :=
  { toCase := { rbCase.toCase with status := "PAID" }, feedbacks := [] }

/-- The bucket nodes of the breakdown, bank by bank and product by product. -/
def bucketNodesOf (p : Performance) : List (List (List BucketNode)) :=
  p.bankBreakdown.map (fun b => b.products.map (fun pr => pr.bkts))

/-! ## Specification-level views of the leaderboard -/

/-- The ranking key of row `a` is not smaller than that of row `b`: posNotFlowRate,
then posRBRate + posNormRate, then totalPOS, compared lexicographically. -/
def lbKeyGE (a b : LbRow) : Prop :=
  a.posNotFlowRate > b.posNotFlowRate
    ∨ (a.posNotFlowRate = b.posNotFlowRate
      ∧ (a.posRBRate + a.posNormRate > b.posRBRate + b.posNormRate
        ∨ (a.posRBRate + a.posNormRate = b.posRBRate + b.posNormRate ∧ a.totalPOS ≥ b.totalPOS)))

instance (a b : LbRow) : Decidable (lbKeyGE a b) := by
  unfold lbKeyGE
  exact inferInstance

/-- The user has a role whose name is `executive` up to letter case. -/
def hasExecutiveRole (u : User) : Prop :=
  ∃ role ∈ u.roles, jsToLowerCase role = "executive"

instance (u : User) : Decidable (hasExecutiveRole u) := by
  unfold hasExecutiveRole
  exact inferInstance

/-- Users of the leaderboard example: an executive, a supervisor and an executive
without cases. -/
def leaderboardUsers : List User :=
  [ { id := "u1", emp_id := some "E1", firstName := "Ravi", lastName := "Kumar",
      roles := ["Executive"] },
    { id := "u2", emp_id := some "E2", firstName := "Sita", lastName := "Rao",
      roles := ["supervisor"] },
    { id := "u3", emp_id := some "E3", firstName := "Tara", lastName := "Das",
      roles := ["executive"] } ]

/-- Cases of the leaderboard example: one of u1, one of u2, one of the unknown user
u9 and one without executive. -/
def leaderboardDb : Db :=
  { cases :=
      [ { exampleCase with acc_id := "L1", executiveId := some "u1" },
        { exampleCase with acc_id := "L2", executiveId := some "u2" },
        { exampleCase with acc_id := "L3", executiveId := some "u9" },
        { exampleCase with acc_id := "L4", executiveId := none } ]
    users := leaderboardUsers
    caseUploads := [] }

/-- A sheet of `n` rows with the account numbers A0, A1, ... , all of employee
identifier E1. -/
def overloadSheet (n : Nat) : List Row :=
  (List.range n).map (fun i => [("Acc_No", .str ("A" ++ toString i)), ("Emp_ID", .str "E1")])

/-- A feedback with every field absent. -/
def blankFeedback : Feedback :=
  { relation := none, metName := none, whoMet := none, meeting_place := none, place := none,
    remarks := none, fullFeedback := none, product_type := none, executive := none,
    visit_code := none, asset_status := none, photo_url := none, lat := none, lng := none,
    ptp_date := none, is_fake_visit := none, distance_from_address := none, distance := none,
    device_info := none, ptp_broken := none, fake_visit_reason := none, status := none,
    createdAt := none, updatedAt := none }

/-- A feedback of a visit where the customer was met and nothing else was noted. -/
def customerFeedback : Feedback :=
  { blankFeedback with whoMet := some "Customer" }

/-- A feedback that says the customer was met and also names a relation and a
person. -/
def brotherFeedback : Feedback :=
  { blankFeedback with whoMet := some "Customer", relation := some "Brother", metName := some "Raj" }

/-- A visited case of customer Asha with the two example feedbacks. -/
def visitedCase : VisitedCase :=
  { acc_id := "A1", customer_name := .str "Asha", bank_name := some "HDFC",
    product_type := some "PL", bkt := some "B1", executive := none, visits := 2,
    lastVisitAt := none, feedbacks := [customerFeedback, brotherFeedback] }

/-- The values of `batch` in the passes of the loop of `bulkCreateCases`
(`casesArray.slice(i, i + BATCH_SIZE)` for `i` stepping by `BATCH_SIZE`), from `i` on. -/
def batchesFrom (casesArray : List CaseDraft) (i : Nat) : List (List CaseDraft) :=
  if i < casesArray.length then
    slice casesArray i (i + BATCH_SIZE) :: batchesFrom casesArray (i + BATCH_SIZE)
  else []
termination_by casesArray.length - i
decreasing_by
  simp only [BATCH_SIZE]
  omega

/-! ## Specification-level views for comparing the two aggregations -/

/-- The columns the leaderboard query selects from case `c` of executive `e`. -/
def lbCaseOf (e : String) (c : Case) : LbCase :=
  { executiveId := e, pos_amount := c.pos_amount, performance := c.performance,
    status := c.status, collection_amount := c.collection_amount }

/-- The cases of executive `e` in the given month and year. -/
def periodCasesOf (table : List CaseWithFeedbacks) (month year : Nat) (e : String) :
    List CaseWithFeedbacks :=
  table.filter (fun c =>
    decide (c.toCase.month = month ∧ c.toCase.year = year ∧ c.toCase.executiveId = some e))

/-- A sheet with one row, whose account number is three spaces. -/
def blankAccountSheet : List Row :=
  [[("Acc_No", .str "   "), ("Name", .str "Asha")]]

/-- A sheet with one row, whose latitude is the text abc. -/
def textLatitudeSheet : List Row :=
  [[("Acc_No", .str "A1"), ("lat", .str "abc")]]

/-- A sheet with one row, whose outstanding amount is the text -5. -/
def negativeAmountSheet : List Row :=
  [[("Acc_No", .str "A1"), ("POS_amount", .str "-5")]]

/-- The draft `uploadCases` builds for row `r` of the normalized sheet: the mapping
is the one resolved from the identifiers of all rows. -/
def preResolvedDraft (users : List User) (normalizedRows : List Row) (r : Row) : CaseDraft :=
  buildCaseObj (resolveEmployees users (extractEmpIds normalizedRows)).empIdToUserId r
    (pick r accNoKeys)

/-- A user table whose only user has the text null as employee identifier. -/
def nullNamedUsers : List User :=
  [{ id := "u0", emp_id := some "null", firstName := "Nil", lastName := "Rao", roles := ["executive"] }]

/-- A sheet with one row, which has no employee identifier. -/
def noIdentifierSheet : List Row :=
  [[("Acc_No", .str "A1"), ("Name", .str "Asha")]]

/-! ## Binary64 numbers and the amount counters (case.service.js, lines 381-387,
429-433, 517-592, 679-710) -/


/-- Rounding of a rational to an integer, ties to the even one. -/
def roundHalfEven (x : ℚ) : ℤ :=
  if x - ⌊x⌋ < 1 / 2 then ⌊x⌋
  else if 1 / 2 < x - ⌊x⌋ then ⌊x⌋ + 1
  else if ⌊x⌋ % 2 = 0 then ⌊x⌋ else ⌊x⌋ + 1

/-- Exponent of the unit in the last place of the binary64 numbers of the size of
`q`: 52 below the binary exponent of `q`, and `-1074` in the subnormal range. -/
def ulpExp (q : ℚ) : ℤ :=
  max (Int.log 2 |q|) (-1022) - 52

/-- The multiple of `2 ^ ulpExp q` nearest to `q`, ties to the even multiple. -/
def nearest64 (q : ℚ) : ℚ :=
  (roundHalfEven (q / 2 ^ ulpExp q) : ℚ) * 2 ^ ulpExp q

/-- A binary64 number. The two zeros are one value `fin 0`. -/
inductive F64 where
  | nan
  | inf (neg : Bool)
  | fin (q : ℚ)
  deriving DecidableEq

/-- Rounding of a rational to binary64, to nearest with ties to even; a result of
magnitude `2 ^ 1024` or more is an infinity. -/
def round64 (q : ℚ) : F64 :=
  if 2 ^ (1024 : ℕ) ≤ |nearest64 q| then F64.inf (decide (q < 0)) else F64.fin (nearest64 q)

/-- The sum `a + b` of two binary64 numbers. -/
def F64.add : F64 → F64 → F64
  | .fin a, .fin b => round64 (a + b)
  | .fin _, .inf t => .inf t
  | .inf s, .fin _ => .inf s
  | .inf s, .inf t => if s = t then .inf s else .nan
  | .nan, _ => .nan
  | _, .nan => .nan

/-- The quotient `a / b` of two binary64 numbers; a zero divisor counts as `+0`. -/
def F64.div : F64 → F64 → F64
  | .fin a, .fin b =>
    if b = 0 then (if a = 0 then .nan else .inf (decide (a < 0))) else round64 (a / b)
  | .fin _, .inf _ => .fin 0
  | .inf s, .fin b => .inf (xor s (decide (b < 0)))
  | .inf _, .inf _ => .nan
  | .nan, _ => .nan
  | _, .nan => .nan

/-- The product `a * b` of two binary64 numbers. -/
def F64.mul : F64 → F64 → F64
  | .fin a, .fin b => round64 (a * b)
  | .fin a, .inf t => if a = 0 then .nan else .inf (xor (decide (a < 0)) t)
  | .inf s, .fin b => if b = 0 then .nan else .inf (xor s (decide (b < 0)))
  | .inf s, .inf t => .inf (xor s t)
  | .nan, _ => .nan
  | _, .nan => .nan

/-- The test `a > 0`. -/
def F64.isPos : F64 → Bool
  | .fin q => decide (0 < q)
  | .inf s => !s
  | .nan => false

/-- The test `a <= b`. -/
def F64.le : F64 → F64 → Bool
  | .fin a, .fin b => decide (a ≤ b)
  | .fin _, .inf t => !t
  | .inf s, .fin _ => s
  | .inf s, .inf t => s || !t
  | .nan, _ => false
  | _, .nan => false

/-- The expression `x || 0` on a number: NaN and zero give 0. -/
def F64.orZero : F64 → F64
  | .nan => .fin 0
  | x => x

/-- The number is neither NaN nor an infinity. -/
def F64.isFinite : F64 → Bool
  | .fin _ => true
  | _ => false

/-- The expression `d > 0 ? (n / d) * 100 : 0` on binary64 numbers. -/
def pct64 (n d : F64) : F64 :=
  if d.isPos then (n.div d).mul (.fin 100) else .fin 0

/-- The amount `x || 0` read from a stored case: the database column holds the
binary64 number nearest to the decimal amount. -/
def pos64 (amount : ℚ) : F64 :=
  (round64 amount).orZero

/-- The four amount counters of a node, as binary64 numbers. -/
structure PosAcc64 where
  totalPOS : F64
  posNotFlow : F64
  posRB : F64
  posNorm : F64
  deriving DecidableEq

/-- The counters of a node just created. -/
def PosAcc64.zero : PosAcc64 :=
  { totalPOS := .fin 0, posNotFlow := .fin 0, posRB := .fin 0, posNorm := .fin 0 }

/-- The updates one case makes to the amount counters of a node (lines 430-433,
468-471, 501-504 and, in `getLeaderboard`, 688-694). -/
def PosAcc64.add (m : PosAcc64) (perf : String) (pos : F64) : PosAcc64 :=
  { totalPOS := m.totalPOS.add pos
    posNotFlow := if perf ≠ "FLOW" then m.posNotFlow.add pos else m.posNotFlow
    posRB := if perf = "RB" then m.posRB.add pos else m.posRB
    posNorm := if perf = "NORM" then m.posNorm.add pos else m.posNorm }

/-- A non-negative binary64 number: positive infinity, or a non-negative rational
that rounding leaves as it is. -/
def F64.Good (v : F64) : Prop :=
  v = .inf false ∨ ∃ q : ℚ, v = .fin q ∧ 0 ≤ q ∧ nearest64 q = q

/-- The counters are non-negative numbers with posRB ≤ posNotFlow,
posNorm ≤ posNotFlow and posNotFlow ≤ totalPOS. -/
def PosAcc64.Ordered (m : PosAcc64) : Prop :=
  m.totalPOS.Good ∧ m.posNotFlow.Good ∧ m.posRB.Good ∧ m.posNorm.Good
    ∧ m.posRB.le m.posNotFlow = true ∧ m.posNorm.le m.posNotFlow = true
    ∧ m.posNotFlow.le m.totalPOS = true

/-- The ordering of the amount figures of one node or row in binary64, and the
bounds of its rates: posRB ≤ posNotFlow, posNorm ≤ posNotFlow and
posNotFlow ≤ totalPOS; and, when totalPOS is finite, each rate is a number between
0 and 100, with posRBRate ≤ posNotFlowRate and posNormRate ≤ posNotFlowRate. -/
def posBounds64 (totalPOS posNotFlow posRB posNorm posNotFlowRate posRBRate posNormRate : F64) :
    Prop :=
  posRB.le posNotFlow = true ∧ posNorm.le posNotFlow = true ∧ posNotFlow.le totalPOS = true
    ∧ (totalPOS.isFinite = true →
        (F64.fin 0).le posNotFlowRate = true ∧ posNotFlowRate.le (F64.fin 100) = true
          ∧ (F64.fin 0).le posRBRate = true ∧ posRBRate.le posNotFlowRate = true
          ∧ (F64.fin 0).le posNormRate = true ∧ posNormRate.le posNotFlowRate = true)

/-- The amount counters of a node after case `c`. -/
def addCase64 (m : PosAcc64) (c : CaseWithFeedbacks) : PosAcc64 :=
  m.add (normalizePerf c.toCase.performance) (pos64 c.toCase.pos_amount)

/-- The amount counters of a product node while accumulating, and its buckets. -/
structure ProdAcc64 where
  amounts : PosAcc64
  bkts : Obj PosAcc64
  deriving DecidableEq

/-- The amount counters of a bank node while accumulating, and its products. -/
structure BankAcc64 where
  amounts : PosAcc64
  products : Obj ProdAcc64
  deriving DecidableEq

/-- The buckets of a product after case `c`, with binary64 amounts; a bucket key
that is a name of `protoKeys` creates no entry, as in `bktsStep`. -/
def bktsStep64 (bkts : Obj PosAcc64) (c : CaseWithFeedbacks) : Obj PosAcc64 :=
  if bktKey c ∈ protoKeys then bkts
  else Obj.upsertWith bkts (bktKey c) PosAcc64.zero (fun bktObj => addCase64 bktObj c)

/-- A product node after case `c`, with binary64 amounts. -/
def prodUpdate64 (prodObj : ProdAcc64) (c : CaseWithFeedbacks) : ProdAcc64 :=
  { amounts := addCase64 prodObj.amounts c, bkts := bktsStep64 prodObj.bkts c }

/-- The products of a bank after case `c`, with binary64 amounts. -/
def productsStep64 (products : Obj ProdAcc64) (c : CaseWithFeedbacks) : Obj ProdAcc64 :=
  Obj.upsertWith products (productKey c) { amounts := PosAcc64.zero, bkts := [] }
    (fun prodObj => prodUpdate64 prodObj c)

/-- A bank node after case `c`, with binary64 amounts. -/
def bankUpdate64 (bankObj : BankAcc64) (c : CaseWithFeedbacks) : BankAcc64 :=
  { amounts := addCase64 bankObj.amounts c, products := productsStep64 bankObj.products c }

/-- The object `byBank` after case `c`, with binary64 amounts. -/
def byBankStep64 (byBank : Obj BankAcc64) (c : CaseWithFeedbacks) : Obj BankAcc64 :=
  Obj.upsertWith byBank (bankKey c) { amounts := PosAcc64.zero, products := [] }
    (fun bankObj => bankUpdate64 bankObj c)

/-- The amount variables of the main loop, and `byBank`. -/
structure PerfLoop64 where
  posNotFlow : F64
  posRB : F64
  posNorm : F64
  byBank : Obj BankAcc64
  deriving DecidableEq

/-- The amount variables before the main loop. -/
def PerfLoop64.init : PerfLoop64 :=
  { posNotFlow := .fin 0, posRB := .fin 0, posNorm := .fin 0, byBank := [] }

/-- The amount statements of one pass of the main loop (lines 385-387, and the
nested breakdown), on case `c`. -/
def perfStep64 (st : PerfLoop64) (c : CaseWithFeedbacks) : PerfLoop64 :=
  let perf := normalizePerf c.toCase.performance
  let pos := pos64 c.toCase.pos_amount
  { posNotFlow := if perf ≠ "FLOW" then st.posNotFlow.add pos else st.posNotFlow
    posRB := if perf = "RB" then st.posRB.add pos else st.posRB
    posNorm := if perf = "NORM" then st.posNorm.add pos else st.posNorm
    byBank := byBankStep64 st.byBank c }

/-- The amount fields of a bucket node. -/
structure BucketNode64 where
  bkt : String
  totalPOS : F64
  posNotFlow : F64
  posNotFlowRate : F64
  posRB : F64
  posRBRate : F64
  posNorm : F64
  posNormRate : F64
  deriving DecidableEq

/-- The amount fields of a product node. -/
structure ProductNode64 where
  productName : String
  totalPOS : F64
  posNotFlow : F64
  posNotFlowRate : F64
  bkts : List BucketNode64
  deriving DecidableEq

/-- The amount fields of a bank node. -/
structure BankNode64 where
  bankName : String
  totalPOS : F64
  posNotFlow : F64
  posNotFlowRate : F64
  posRB : F64
  posRBRate : F64
  posNorm : F64
  posNormRate : F64
  products : List ProductNode64
  deriving DecidableEq

/-- The amount fields of the bucket node built from an entry of `prodObj.bkts`. -/
def bucketNode64 (bktName : String) (bObj : PosAcc64) : BucketNode64 :=
  let bp := bObj.totalPOS.orZero
  { bkt := bktName
    totalPOS := bp
    posNotFlow := bObj.posNotFlow.orZero
    posNotFlowRate := pct64 bObj.posNotFlow bp
    posRB := bObj.posRB.orZero
    posRBRate := pct64 bObj.posRB bp
    posNorm := bObj.posNorm.orZero
    posNormRate := pct64 bObj.posNorm bp }

/-- The amount fields of the product node built from an entry of
`bankObj.products`. -/
def productNode64 (prodName : String) (prodObj : ProdAcc64) : ProductNode64 :=
  let tp := prodObj.amounts.totalPOS.orZero
  { productName := prodName
    totalPOS := tp
    posNotFlow := prodObj.amounts.posNotFlow.orZero
    posNotFlowRate := pct64 prodObj.amounts.posNotFlow tp
    bkts := prodObj.bkts.entries.map (fun kv => bucketNode64 kv.1 kv.2) }

/-- The amount fields of the bank node built from an entry of `byBank`. -/
def bankNode64 (bankName : String) (bankObj : BankAcc64) : BankNode64 :=
  let totalPOSBank := bankObj.amounts.totalPOS.orZero
  { bankName := bankName
    totalPOS := totalPOSBank
    posNotFlow := bankObj.amounts.posNotFlow.orZero
    posNotFlowRate := pct64 bankObj.amounts.posNotFlow totalPOSBank
    posRB := bankObj.amounts.posRB.orZero
    posRBRate := pct64 bankObj.amounts.posRB totalPOSBank
    posNorm := bankObj.amounts.posNorm.orZero
    posNormRate := pct64 bankObj.amounts.posNorm totalPOSBank
    products := bankObj.products.entries.map (fun kv => productNode64 kv.1 kv.2) }

/-- The amount fields of the object returned by `getExecutivePerformance`. -/
structure Performance64 where
  totalPOS : F64
  posNotFlow : F64
  posRB : F64
  posNorm : F64
  posNotFlowRate : F64
  posRBRate : F64
  posNormRate : F64
  bankBreakdown : List BankNode64
  deriving DecidableEq

/-- The amount fields computed from the cases that the query returned, in binary64
arithmetic, for a main loop that runs to its end. -/
def aggregatePerformance64 (cases : List CaseWithFeedbacks) : Performance64 :=
  let totalPOS := cases.foldl (fun sum c => sum.add (pos64 c.toCase.pos_amount)) (.fin 0)
  let st := cases.foldl perfStep64 PerfLoop64.init
  { totalPOS := totalPOS
    posNotFlow := st.posNotFlow
    posRB := st.posRB
    posNorm := st.posNorm
    posNotFlowRate := pct64 st.posNotFlow totalPOS
    posRBRate := pct64 st.posRB totalPOS
    posNormRate := pct64 st.posNorm totalPOS
    bankBreakdown := st.byBank.entries.map (fun kv => bankNode64 kv.1 kv.2) }

/-- The amount counters of `map` after case `c` of the leaderboard (lines 662-694);
an executive id that is a name of `protoKeys` creates no entry. -/
def lbStep64 (map : Obj PosAcc64) (c : LbCase) : Obj PosAcc64 :=
  if c.executiveId ∈ protoKeys then map
  else
    Obj.upsertWith map c.executiveId PosAcc64.zero
      (fun m => m.add (normalizePerf c.performance) (pos64 c.pos_amount))

/-- The amount fields of a leaderboard row. -/
structure LbRow64 where
  id : String
  totalPOS : F64
  posNotFlow : F64
  posNotFlowRate : F64
  posRB : F64
  posRBRate : F64
  posNorm : F64
  posNormRate : F64
  deriving DecidableEq

/-- The amount fields of the row built from an entry of `map` (lines 705-733). -/
def lbRow64 (executiveId : String) (m : PosAcc64) : LbRow64 :=
  let totalPOS := m.totalPOS.orZero
  { id := executiveId
    totalPOS := totalPOS
    posNotFlow := m.posNotFlow
    posNotFlowRate := pct64 m.posNotFlow totalPOS
    posRB := m.posRB
    posRBRate := pct64 m.posRB totalPOS
    posNorm := m.posNorm
    posNormRate := pct64 m.posNorm totalPOS }

/-- The filter keeping the rows of users with the role `executive` (lines 737-742). -/
def isExecutiveRow64 (usersById : Obj User) (r : LbRow64) : Bool :=
  match Obj.get usersById r.id with
  | none => false
  | some u =>
    let roleNames := u.roles.map jsToLowerCase
    decide ("executive" ∈ roleNames) || decide (jsToLowerCase "executive" ∈ roleNames)

/-- The amount fields of the rows of `getLeaderboard`: the array `filtered`. The
sort and the ranking loop that follow reorder these rows and add `rank`; they
change no amount field. -/
def leaderboardRows64 (db : Db) (month year : Nat) : List LbRow64 :=
  let cases := leaderboardCases db.cases month year
  let map := cases.foldl lbStep64 []
  let execIds := Obj.keys map
  let users := findUsersByIds db.users execIds
  let usersById := indexUsersById users
  let rows := (Obj.entries map).map (fun kv => lbRow64 kv.1 kv.2)
  rows.filter (isExecutiveRow64 usersById)

/-- A case of the example bank with the given label and outstanding amount. -/
def roundingCase (acc perf : String) (amount : ℚ) : CaseWithFeedbacks :=
  { toCase := { exampleCase with acc_id := acc, performance := some perf, pos_amount := amount }
    feedbacks := [] }

/-- Three cases: RB with 88531.52, NORM with 73475.34 and RB with 92764.44. -/
def roundingCases : List CaseWithFeedbacks :=
  [roundingCase "R1" "RB" (8853152 / 100), roundingCase "R2" "NORM" (7347534 / 100),
    roundingCase "R3" "RB" (9276444 / 100)]

/-! ## Specification-level view of a rate -/

/-- The rate `rate` is what the guarded expression `d > 0 ? (n / d) * 100 : 0` gives
on numerator `n` and denominator `d` without evaluating a division by zero, and it
is 0 when the denominator is 0. -/
def rateGuarded (n d rate : ℚ) : Prop :=
  pctEval n d = some rate ∧ (d = 0 → rate = 0)

/-! ## Lemmas on the JavaScript operators -/

theorem truthy_foldl_jsOr (vs : List (Option Cell)) (v : Option Cell) :
    truthy (vs.foldl jsOr v) = (truthy v || vs.any truthy) := by
  induction vs generalizing v with
  | nil => simp
  | cons w ws ih =>
    rw [List.foldl_cons, ih]
    by_cases hv : truthy v = true
    · simp [jsOr, hv]
    · simp [jsOr, hv]

theorem truthy_jsOrChain (vs : List (Option Cell)) :
    truthy (jsOrChain vs) = vs.any truthy := by
  cases vs with
  | nil => rfl
  | cons v vs => simp [jsOrChain, truthy_foldl_jsOr]

theorem truthy_pick (r : Row) (keys : List String) :
    truthy (pick r keys) = keys.any (fun k => truthy (Obj.get r k)) := by
  rw [pick, truthy_jsOrChain]
  induction keys with
  | nil => rfl
  | cons k ks ih => simp [List.any_cons, ih]

theorem pick_falsy_of_blank (r : Row) (keys : List String)
    (h : ∀ k ∈ keys, Obj.get r k = none ∨ Obj.get r k = some (Cell.str "")) :
    truthy (pick r keys) = false := by
  rw [truthy_pick, List.any_eq_false]
  intro k hk
  rcases h k hk with h0 | h0 <;> simp [h0, truthy, Cell.truthy]

/-! ## The row loop as a partition of the sheet -/

theorem rowLoopFrom_eq (m : Obj String) (rows : List Row) (i : Nat) (st : LoopState) :
    rowLoopFrom m i rows st =
      { casesArray := st.casesArray ++ acceptedDrafts m rows
        skippedRows := st.skippedRows ++ skippedFrom i rows } := by
  induction rows generalizing i st with
  | nil => simp [rowLoopFrom, acceptedDrafts, skippedFrom]
  | cons r rest ih =>
    rw [rowLoopFrom, ih]
    by_cases h : truthy (pick r accNoKeys) = true
    · simp [rowStep, h, acceptedDrafts, skippedFrom]
    · simp [rowStep, h, acceptedDrafts, skippedFrom]

theorem rowLoop_eq (m : Obj String) (rows : List Row) :
    rowLoop m rows =
      { casesArray := acceptedDrafts m rows, skippedRows := skippedFrom 0 rows } := by
  simp [rowLoop, rowLoopFrom_eq]

theorem skippedFrom_rowNumber_ge (rows : List Row) (i : Nat) :
    ∀ s ∈ skippedFrom i rows, i + 2 ≤ s.rowNumber := by
  induction rows generalizing i with
  | nil => simp [skippedFrom]
  | cons r rest ih =>
    intro s hs
    unfold skippedFrom at hs
    split at hs
    · have := ih (i + 1) s hs
      omega
    · rcases List.mem_cons.1 hs with h | h
      · subst h; simp
      · have := ih (i + 1) s h
        omega

theorem skippedFrom_filter_eq (rows : List Row) (i j : Nat) (r : Row)
    (hj : rows[j]? = some r) (hr : truthy (pick r accNoKeys) = false) :
    (skippedFrom i rows).filter (fun s => decide (s.rowNumber = i + j + 2))
      = [{ rowNumber := i + j + 2, reason := missingReason r }] := by
  induction rows generalizing i j with
  | nil => simp at hj
  | cons r0 rest ih =>
    cases j with
    | zero =>
      simp at hj
      subst hj
      simp only [skippedFrom, hr, Bool.false_eq_true, if_false, Nat.add_zero]
      rw [List.filter_cons]
      simp only [decide_True, if_true]
      congr 1
      rw [List.filter_eq_nil_iff]
      intro s hs
      have := skippedFrom_rowNumber_ge rest (i + 1) s hs
      simp
      omega
    | succ j =>
      simp at hj
      have ih' := ih (i + 1) j hj
      have e : i + 1 + j + 2 = i + (j + 1) + 2 := by omega
      rw [e] at ih'
      unfold skippedFrom
      split
      · exact ih'
      · rw [List.filter_cons]
        have : ¬ (i + 2 = i + (j + 1) + 2) := by omega
        simp only [this, decide_False, Bool.false_eq_true, if_false]
        exact ih'

theorem acceptedDrafts_eraseIdx (m : Obj String) (rows : List Row) (j : Nat) (r : Row)
    (hj : rows[j]? = some r) (hr : truthy (pick r accNoKeys) = false) :
    acceptedDrafts m (rows.eraseIdx j) = acceptedDrafts m rows := by
  induction rows generalizing j with
  | nil => simp at hj
  | cons r0 rest ih =>
    cases j with
    | zero =>
      simp at hj
      subst hj
      simp [acceptedDrafts, hr]
    | succ j =>
      simp at hj
      have := ih j hj
      simp only [acceptedDrafts] at this ⊢
      simp [List.eraseIdx, List.filterMap_cons, this]

/-- C1: a row without account number is listed once among the skipped rows, with
its sheet row number, and adds no draft. -/
theorem C1_row_without_account_number_is_skipped_once (empIdToUserId : Obj String)
    (normalizedRows : List Row) (i : Nat) (r : Row)
    (hi : normalizedRows[i]? = some r)
    (hblank : ∀ k ∈ accNoKeys, Obj.get r k = none ∨ Obj.get r k = some (Cell.str "")) :
    (rowLoop empIdToUserId normalizedRows).skippedRows.filter (fun s => decide (s.rowNumber = i + 2))
        = [{ rowNumber := i + 2, reason := missingReason r }]
      ∧ (rowLoop empIdToUserId normalizedRows).casesArray
          = (rowLoop empIdToUserId (normalizedRows.eraseIdx i)).casesArray
      ∧ rowStep empIdToUserId i r (rowLoop empIdToUserId (normalizedRows.take i))
          = { casesArray := (rowLoop empIdToUserId (normalizedRows.take i)).casesArray
              skippedRows := (rowLoop empIdToUserId (normalizedRows.take i)).skippedRows
                ++ [{ rowNumber := i + 2, reason := missingReason r }] } := by
  have hr := pick_falsy_of_blank r accNoKeys hblank
  have hf := skippedFrom_filter_eq normalizedRows 0 i r hi hr
  simp only [Nat.zero_add] at hf
  refine ⟨?_, ?_, ?_⟩
  · rw [rowLoop_eq]; exact hf
  · rw [rowLoop_eq, rowLoop_eq]
    exact (acceptedDrafts_eraseIdx empIdToUserId normalizedRows i r hi hr).symm
  · simp [rowStep, hr]

/-- C1 at the example sheet: its second row is skipped as sheet row 3. -/
theorem C1_row_without_account_number_witness :
    (rowLoop [] exampleSheet).skippedRows.filter (fun s => decide (s.rowNumber = 1 + 2))
        = [{ rowNumber := 1 + 2, reason := missingReason [("Name", .str "Binod"), ("Emp_ID", .str "E9")] }]
      ∧ (rowLoop [] exampleSheet).casesArray = (rowLoop [] (exampleSheet.eraseIdx 1)).casesArray :=
  have h := C1_row_without_account_number_is_skipped_once [] exampleSheet 1
    [("Name", .str "Binod"), ("Emp_ID", .str "E9")] (by rfl) (by decide)
  ⟨h.1, h.2.1⟩

/-! ## The batch loop is a fold over the drafts -/

theorem upsertBatch_append (env : Env) (m : Obj String) (xs ys : List CaseDraft) (cases : List Case) :
    upsertBatch env m (xs ++ ys) cases = upsertBatch env m ys (upsertBatch env m xs cases) := by
  simp [upsertBatch, List.foldl_append]

theorem batchLoop_eq_aux (env : Env) (m : Obj String) (xs : List CaseDraft) :
    ∀ (n i : Nat) (cases : List Case), xs.length - i = n →
      batchLoop env m xs i cases = upsertBatch env m (xs.drop i) cases := by
  intro n
  induction n using Nat.strong_induction_on with
  | _ n ih =>
    intro i cases hn
    rw [batchLoop]
    split
    · rename_i hlt
      have hlt' : xs.length - (i + BATCH_SIZE) < n := by
        simp only [BATCH_SIZE]; omega
      rw [ih _ hlt' (i + BATCH_SIZE) _ rfl, ← upsertBatch_append]
      congr 1
      simp only [slice, Nat.add_sub_cancel_left]
      rw [← List.drop_drop]
      exact List.take_append_drop BATCH_SIZE (List.drop i xs)
    · rename_i hge
      have : xs.drop i = [] := List.drop_eq_nil_of_le (by omega)
      rw [this]
      rfl

theorem batchLoop_eq (env : Env) (m : Obj String) (xs : List CaseDraft) (cases : List Case) :
    batchLoop env m xs 0 cases = upsertBatch env m xs cases := by
  rw [batchLoop_eq_aux env m xs _ 0 cases rfl, List.drop_zero]

theorem bulkCreateCases_cases (env : Env) (db : Db) (xs : List CaseDraft) (sup : Option String)
    (mode : String) :
    (bulkCreateCases env db xs sup mode).1.cases
      = upsertBatch env (buildEmployeeMap db.users) xs db.cases := by
  simp [bulkCreateCases, batchLoop_eq]

theorem createData_upload_mode_of_build (env : Env) (m m' : Obj String) (r : Row) (v : Option Cell) :
    (createData env m (buildCaseObj m' r v)).upload_mode = "ORIGINAL" := by
  simp [createData, buildCaseObj, uploadModeOf, strOrNull, strTruthy]

/-- What `uploadCases` answers for a sheet of three rows whose second row has no
account number, uploaded into an empty case table. -/
theorem uploadCases_three_rows (env : Env) (db : Db) (r1 r2 r3 : Row) (userId saved : Option String)
    (hdb : db.cases = [])
    (h1 : truthy (pick (normalizeRow r1) accNoKeys) = true)
    (h2 : ∀ k ∈ accNoKeys, Obj.get (normalizeRow r2) k = none
      ∨ Obj.get (normalizeRow r2) k = some (Cell.str ""))
    (h3 : truthy (pick (normalizeRow r3) accNoKeys) = true)
    (hne : jsTrim (strOf (pick (normalizeRow r1) accNoKeys))
      ≠ jsTrim (strOf (pick (normalizeRow r3) accNoKeys))) :
    ∃ d, (uploadCases env db (some [r1, r2, r3]) userId saved).2.data = some d
      ∧ (uploadCases env db (some [r1, r2, r3]) userId saved).2.status = 201
      ∧ d.created = 2 ∧ d.totalRows = 3 ∧ d.skippedRows = 1
      ∧ d.skippedRowDetails = some [{ rowNumber := 3, reason := missingReason (normalizeRow r2) }] := by
  have h2' := pick_falsy_of_blank _ _ h2
  refine ⟨_, rfl, rfl, ?_, ?_, ?_, ?_⟩
  · simp only [bulkCreateCases, batchLoop_eq, rowLoop_eq, hdb]
    simp only [List.map, acceptedDrafts, List.filterMap_cons, h1, h2', h3, if_true,
      List.filterMap_nil, upsertBatch, List.foldl, upsertCase]
    have hacc : (createData env (buildEmployeeMap db.users)
        (buildCaseObj (resolveEmployees db.users (extractEmpIds
          [normalizeRow r1, normalizeRow r2, normalizeRow r3])).empIdToUserId (normalizeRow r1)
          (pick (normalizeRow r1) accNoKeys))).acc_id
        ≠ (buildCaseObj (resolveEmployees db.users (extractEmpIds
          [normalizeRow r1, normalizeRow r2, normalizeRow r3])).empIdToUserId (normalizeRow r3)
          (pick (normalizeRow r3) accNoKeys)).acc_id := hne
    simp [hacc, sampleCases, createData_upload_mode_of_build]
  · simp
  · simp [rowLoop_eq, skippedFrom, h1, h2', h3]
  · simp [rowLoop_eq, skippedFrom, h1, h2', h3, nonEmptyOrNull]

/-- C2 (amended): a three-row sheet whose second row has no account number, uploaded
into an empty case table, is answered with created = 2, skippedRows = 1 and one
skipped-row entry for sheet row 3 whose reason is the text
"Missing Account Number. Row keys: " followed by the keys of that row. -/
theorem C2_three_row_upload_reports_one_skipped_row (env : Env) (db : Db) (r1 r2 r3 : Row)
    (userId saved : Option String)
    (hdb : db.cases = [])
    (h1 : truthy (pick (normalizeRow r1) accNoKeys) = true)
    (h2 : ∀ k ∈ accNoKeys, Obj.get (normalizeRow r2) k = none
      ∨ Obj.get (normalizeRow r2) k = some (Cell.str ""))
    (h3 : truthy (pick (normalizeRow r3) accNoKeys) = true)
    (hne : jsTrim (strOf (pick (normalizeRow r1) accNoKeys))
      ≠ jsTrim (strOf (pick (normalizeRow r3) accNoKeys))) :
    ∃ d, (uploadCases env db (some [r1, r2, r3]) userId saved).2.data = some d
      ∧ (uploadCases env db (some [r1, r2, r3]) userId saved).2.status = 201
      ∧ d.created = 2 ∧ d.totalRows = 3 ∧ d.skippedRows = 1
      ∧ d.skippedRowDetails = some
          [{ rowNumber := 3
             reason := "Missing Account Number. Row keys: "
               ++ String.intercalate ", " (Obj.keys (normalizeRow r2)) }] :=
  uploadCases_three_rows env db r1 r2 r3 userId saved hdb h1 h2 h3 hne

/-- C2 (amended) at the example sheet. -/
theorem C2_three_row_upload_witness :
    ∃ d, (uploadCases exampleEnv emptyDb (some exampleSheet) none none).2.data = some d
      ∧ (uploadCases exampleEnv emptyDb (some exampleSheet) none none).2.status = 201
      ∧ d.created = 2 ∧ d.totalRows = 3 ∧ d.skippedRows = 1
      ∧ d.skippedRowDetails = some
          [{ rowNumber := 3
             reason := "Missing Account Number. Row keys: "
               ++ String.intercalate ", "
                 (Obj.keys (normalizeRow [("Name", .str "Binod"), ("Emp_ID", .str "E9")])) }] :=
  C2_three_row_upload_reports_one_skipped_row exampleEnv emptyDb
    [("Acc_No", .str "A1"), ("Emp_ID", .str "E1"), ("Name", .str "Asha")]
    [("Name", .str "Binod"), ("Emp_ID", .str "E9")]
    [("Account", .str "A2"), ("Name", .str "Chitra")] none none rfl (by decide) (by decide)
    (by decide) (by decide)

/-- C2 as stated fails: for the example sheet the reported reason is
"Missing Account Number. Row keys: Name, Emp_ID", not "missing account number". -/
theorem C2_reason_text_counterexample :
    ∃ d, (uploadCases exampleEnv emptyDb (some exampleSheet) none none).2.data = some d
      ∧ d.created = 2 ∧ d.skippedRows = 1
      ∧ d.skippedRowDetails
          = some [{ rowNumber := 3, reason := "Missing Account Number. Row keys: Name, Emp_ID" }]
      ∧ d.skippedRowDetails ≠ some [{ rowNumber := 3, reason := "missing account number" }] := by
  obtain ⟨d, hd, _, hc, _, hs, hdet⟩ := uploadCases_three_rows exampleEnv emptyDb
    [("Acc_No", .str "A1"), ("Emp_ID", .str "E1"), ("Name", .str "Asha")]
    [("Name", .str "Binod"), ("Emp_ID", .str "E9")]
    [("Account", .str "A2"), ("Name", .str "Chitra")] none none rfl (by decide) (by decide)
    (by decide) (by decide)
  have hreason : missingReason (normalizeRow [("Name", .str "Binod"), ("Emp_ID", .str "E9")])
      = "Missing Account Number. Row keys: Name, Emp_ID" := by decide
  rw [hreason] at hdet
  refine ⟨d, hd, hc, hs, hdet, ?_⟩
  rw [hdet]
  decide

/-! ## The identifiers sent to the lookup -/

theorem setSpread_foldl_nodup (xs seen : List String) (h : seen.Nodup) :
    (xs.foldl (fun seen x => if x ∈ seen then seen else seen ++ [x]) seen).Nodup := by
  induction xs generalizing seen with
  | nil => simpa using h
  | cons x xs ih =>
    rw [List.foldl_cons]
    apply ih
    by_cases hx : x ∈ seen
    · simpa [hx] using h
    · simp only [hx, if_false]
      rw [List.nodup_append]
      refine ⟨h, List.nodup_singleton x, ?_⟩
      intro a ha hb
      simp at hb
      subst hb
      exact hx ha

theorem setSpread_foldl_mem (xs seen : List String) (s : String) :
    s ∈ xs.foldl (fun seen x => if x ∈ seen then seen else seen ++ [x]) seen ↔ s ∈ seen ∨ s ∈ xs := by
  induction xs generalizing seen with
  | nil => simp
  | cons x xs ih =>
    rw [List.foldl_cons, ih]
    by_cases hx : x ∈ seen
    · simp only [hx, if_true, List.mem_cons]
      constructor
      · rintro (h | h)
        · exact Or.inl h
        · exact Or.inr (Or.inr h)
      · rintro (h | h | h)
        · exact Or.inl h
        · exact Or.inl (h ▸ hx)
        · exact Or.inr h
    · simp only [hx, if_false, List.mem_append, List.mem_singleton, List.mem_cons]
      tauto

theorem setSpread_nodup (xs : List String) : (setSpread xs).Nodup :=
  setSpread_foldl_nodup xs [] List.nodup_nil

theorem mem_setSpread (xs : List String) (s : String) : s ∈ setSpread xs ↔ s ∈ xs := by
  simp [setSpread, setSpread_foldl_mem]

theorem mem_filterBoolean (os : List (Option String)) (s : String) :
    s ∈ filterBoolean os ↔ some s ∈ os ∧ s ≠ "" := by
  induction os with
  | nil => simp [filterBoolean]
  | cons o os ih =>
    cases o with
    | none => simp [filterBoolean, ih]
    | some t =>
      by_cases ht : t = ""
      · subst ht
        simp only [filterBoolean, strTruthy, ne_eq, not_true_eq_false, decide_False,
          Bool.false_eq_true, if_false, ih, List.mem_cons, Option.some.injEq]
        constructor
        · rintro ⟨h1, h2⟩; exact ⟨Or.inr h1, h2⟩
        · rintro ⟨h1 | h1, h2⟩
          · exact absurd h1 h2
          · exact ⟨h1, h2⟩
      · simp only [filterBoolean, strTruthy, ne_eq, ht, not_false_eq_true, decide_True, if_true,
          List.mem_cons, ih, Option.some.injEq]
        constructor
        · rintro (h | ⟨h1, h2⟩)
          · subst h; exact ⟨Or.inl rfl, ht⟩
          · exact ⟨Or.inr h1, h2⟩
        · rintro ⟨h1 | h1, h2⟩
          · exact Or.inl h1
          · exact Or.inr ⟨h1, h2⟩

theorem jsOrChain_append_singleton (vs : List (Option Cell)) (v w : Option Cell) :
    jsOrChain (v :: vs ++ [w]) = jsOr (jsOrChain (v :: vs)) w := by
  simp [jsOrChain, List.foldl_append]

theorem trimmedOrNull_rowKeys (r : Row) :
    trimmedOrNull (pick r empIdRowKeys) = trimmedOrNull (pick r empIdLookupKeys) := by
  have h : pick r empIdRowKeys = jsOr (pick r empIdLookupKeys) (Obj.get r "emp_id") := by
    simp [pick, empIdRowKeys, empIdLookupKeys, jsOrChain]
  rw [h]
  by_cases ht : truthy (pick r empIdLookupKeys) = true
  · simp [jsOr, ht]
  · have hf : truthy (pick r empIdLookupKeys) = false := by simpa using ht
    have hany := hf
    rw [truthy_pick, List.any_eq_false] at hany
    have he : truthy (Obj.get r "emp_id") = false := by
      have := hany "emp_id" (by simp [empIdLookupKeys])
      simpa using this
    simp [jsOr, hf, trimmedOrNull, he]

theorem rowEmpId_eq_some (r : Row) (s : String) :
    rowEmpId r = some s ↔ trimmedOrNull (pick r empIdLookupKeys) = some s ∧ s ≠ "" := by
  rw [rowEmpId, trimmedOrNull_rowKeys]
  cases h : trimmedOrNull (pick r empIdLookupKeys) with
  | none => simp [strOrNull]
  | some t =>
    by_cases ht : t = ""
    · subst ht
      simp only [strOrNull, strTruthy, ne_eq, not_true_eq_false, decide_False, Bool.false_eq_true,
        if_false, Option.some.injEq]
      constructor
      · intro h'; cases h'
      · rintro ⟨h1, h2⟩; exact absurd h1.symm h2
    · simp only [strOrNull, strTruthy, ne_eq, ht, not_false_eq_true, decide_True, if_true,
        Option.some.injEq]
      constructor
      · intro h'; subst h'; exact ⟨rfl, ht⟩
      · intro h'; exact h'.1

theorem mem_extractEmpIds (normalizedRows : List Row) (s : String) :
    s ∈ extractEmpIds normalizedRows ↔ ∃ r ∈ normalizedRows, rowEmpId r = some s := by
  rw [extractEmpIds, mem_setSpread, mem_filterBoolean]
  simp only [List.mem_map, rowEmpId_eq_some]
  constructor
  · rintro ⟨⟨r, hr, h⟩, hs⟩
    exact ⟨r, hr, h, hs⟩
  · rintro ⟨r, hr, h, hs⟩
    exact ⟨⟨r, hr, h⟩, hs⟩

theorem buildCaseObj_emp_id (m : Obj String) (r : Row) (v : Option Cell) :
    (buildCaseObj m r v).emp_id = rowEmpId r := rfl

theorem mem_acceptedDrafts (m : Obj String) (rows : List Row) (d : CaseDraft) :
    d ∈ acceptedDrafts m rows ↔
      ∃ r ∈ rows, truthy (pick r accNoKeys) = true ∧ d = buildCaseObj m r (pick r accNoKeys) := by
  simp only [acceptedDrafts, List.mem_filterMap]
  constructor
  · rintro ⟨r, hr, h⟩
    by_cases ht : truthy (pick r accNoKeys) = true
    · simp only [ht, if_true, Option.some.injEq] at h
      exact ⟨r, hr, ht, h.symm⟩
    · simp [ht] at h
  · rintro ⟨r, hr, ht, h⟩
    exact ⟨r, hr, by simp [ht, h]⟩

/-- C3 (amended): the identifiers sent to the lookup have no duplicates and are
exactly the distinct non-blank trimmed employee identifiers of all rows of the
sheet, accepted or rejected; their number is the number of distinct such
identifiers, and every identifier of an accepted row is among them. -/
theorem C3_lookup_identifiers_are_those_of_all_rows (normalizedRows : List Row) :
    (extractEmpIds normalizedRows).Nodup
      ∧ (∀ s, s ∈ extractEmpIds normalizedRows ↔ ∃ r ∈ normalizedRows, rowEmpId r = some s)
      ∧ (extractEmpIds normalizedRows).length = ((normalizedRows.filterMap rowEmpId).toFinset).card
      ∧ ∀ empIdToUserId, ∀ d ∈ (rowLoop empIdToUserId normalizedRows).casesArray,
          ∀ e, d.emp_id = some e → e ∈ extractEmpIds normalizedRows := by
  refine ⟨setSpread_nodup _, mem_extractEmpIds normalizedRows, ?_, ?_⟩
  · have hN : (extractEmpIds normalizedRows).Nodup := setSpread_nodup _
    rw [← List.toFinset_card_of_nodup hN]
    congr 1
    ext s
    simp only [List.mem_toFinset, List.mem_filterMap]
    exact mem_extractEmpIds normalizedRows s
  · intro m d hd e he
    rw [rowLoop_eq] at hd
    obtain ⟨r, hr, _, hdr⟩ := (mem_acceptedDrafts m normalizedRows d).1 hd
    rw [mem_extractEmpIds]
    refine ⟨r, hr, ?_⟩
    rw [← buildCaseObj_emp_id m r (pick r accNoKeys), ← hdr]
    exact he

/-- C3 as stated fails: in the example sheet the rejected second row carries the
identifier E9, which is looked up although no accepted row has it; two identifiers
are looked up where the accepted rows have one. -/
theorem C3_rejected_row_identifier_counterexample :
    extractEmpIds (exampleSheet.map normalizeRow) = ["E1", "E9"]
      ∧ acceptedEmpIds (exampleSheet.map normalizeRow) = ["E1"]
      ∧ (extractEmpIds (exampleSheet.map normalizeRow)).length
          ≠ (acceptedEmpIds (exampleSheet.map normalizeRow)).length := by
  decide

/-! ## Dictionary reads and writes -/

theorem Obj.get_set {α : Type} (o : Obj α) (k k' : String) (v : α) :
    Obj.get (Obj.set o k v) k' = if k = k' then some v else Obj.get o k' := by
  induction o with
  | nil => simp [Obj.set, Obj.get]
  | cons kv rest ih =>
    obtain ⟨k0, v0⟩ := kv
    by_cases h0 : k0 = k
    · subst h0
      by_cases h1 : k0 = k' <;> simp [Obj.set, Obj.get, h1]
    · by_cases h1 : k0 = k'
      · subst h1
        have : ¬ k = k0 := fun h => h0 h.symm
        simp [Obj.set, Obj.get, h0, this]
      · simp [Obj.set, Obj.get, h0, h1, ih]

/-! ## The resolver -/

theorem recordFound_foldl_values (found : List User) (acc : Obj String × List FoundEmp)
    (hacc : ∀ k v, Obj.get acc.1 k = some v → v ≠ "") (hids : ∀ u ∈ found, u.id ≠ "") :
    ∀ k v, Obj.get (found.foldl (fun acc u =>
        match u.emp_id with
        | some e => (Obj.set acc.1 (jsTrim e) u.id, acc.2 ++ [⟨e, u.firstName ++ " " ++ u.lastName⟩])
        | none => acc) acc).1 k = some v → v ≠ "" := by
  induction found generalizing acc with
  | nil => simpa using hacc
  | cons u us ih =>
    rw [List.foldl_cons]
    apply ih
    · intro k v hk
      cases he : u.emp_id with
      | none => simp only [he] at hk; exact hacc k v hk
      | some e =>
        simp only [he, Obj.get_set] at hk
        split at hk
        · have := hids u (List.mem_cons_self _ _)
          simp only [Option.some.injEq] at hk
          rw [← hk]; exact this
        · exact hacc k v hk
    · intro u' hu'
      exact hids u' (List.mem_cons_of_mem _ hu')

theorem recordFound_values (found : List User) (hids : ∀ u ∈ found, u.id ≠ "") :
    ∀ k v, Obj.get (recordFound found).1 k = some v → v ≠ "" :=
  recordFound_foldl_values found ([], []) (by simp [Obj.get]) hids

theorem resolveEmployees_values (users : List User) (empIds : List String)
    (hids : ∀ u ∈ users, u.id ≠ "") :
    ∀ k v, Obj.get (resolveEmployees users empIds).empIdToUserId k = some v → v ≠ "" := by
  unfold resolveEmployees
  split
  · apply recordFound_values
    intro u hu
    exact hids u (List.mem_of_mem_filter hu)
  · simp [Obj.get]

theorem truthyAt_resolve (users : List User) (empIds : List String)
    (hids : ∀ u ∈ users, u.id ≠ "") (id : String) :
    Obj.truthyAt (resolveEmployees users empIds).empIdToUserId id
      = ((Obj.get (resolveEmployees users empIds).empIdToUserId id).isSome
          || decide (id ∈ protoKeys)) := by
  unfold Obj.truthyAt
  by_cases hp : id = "__proto__"
  · subst hp
    have : decide ("__proto__" ∈ protoKeys) = true := by decide
    rw [if_pos rfl, this, Bool.or_true]
  · rw [if_neg hp]
    cases h : Obj.get (resolveEmployees users empIds).empIdToUserId id with
    | none => rfl
    | some v =>
      have := resolveEmployees_values users empIds hids id v h
      simp [strTruthy, this]

theorem resolveEmployees_notFound (users : List User) (empIds : List String) :
    (resolveEmployees users empIds).notFoundEmpIds
      = empIds.filter (fun id =>
          !Obj.truthyAt (resolveEmployees users empIds).empIdToUserId id) := by
  unfold resolveEmployees
  split
  · rfl
  · rename_i h
    have : empIds = [] := by
      cases empIds with
      | nil => rfl
      | cons a as => simp at h
    subst this
    rfl

/-- C4: the unmatched list is, in input order, the identifiers that have no entry
in the mapping and are not a property name inherited from `Object.prototype`
(`protoKeys`). For an identifier that is no such name, being in the unmatched list
is the same as having no entry in the mapping; an identifier that is such a name,
as `constructor`, is never in the unmatched list, with or without an entry. User
ids are non-empty (primary keys). -/
theorem C4_notFound_is_the_unmatched_subsequence (users : List User) (empIds : List String)
    (hids : ∀ u ∈ users, u.id ≠ "") :
    (resolveEmployees users empIds).notFoundEmpIds
        = empIds.filter (fun id =>
            (Obj.get (resolveEmployees users empIds).empIdToUserId id).isNone
              && !decide (id ∈ protoKeys))
      ∧ List.Sublist (resolveEmployees users empIds).notFoundEmpIds empIds
      ∧ (∀ id ∈ empIds, id ∉ protoKeys →
          (id ∈ (resolveEmployees users empIds).notFoundEmpIds
            ↔ Obj.get (resolveEmployees users empIds).empIdToUserId id = none))
      ∧ ∀ id ∈ protoKeys, id ∉ (resolveEmployees users empIds).notFoundEmpIds := by
  have hfilter : (resolveEmployees users empIds).notFoundEmpIds
      = empIds.filter (fun id =>
          (Obj.get (resolveEmployees users empIds).empIdToUserId id).isNone
            && !decide (id ∈ protoKeys)) := by
    rw [resolveEmployees_notFound]
    apply List.filter_congr
    intro id _
    rw [truthyAt_resolve users empIds hids id]
    cases Obj.get (resolveEmployees users empIds).empIdToUserId id <;>
      cases decide (id ∈ protoKeys) <;> rfl
  refine ⟨hfilter, ?_, ?_, ?_⟩
  · rw [hfilter]
    exact List.filter_sublist _
  · intro id hid hproto
    rw [hfilter, List.mem_filter]
    simp [hid, hproto, Option.isNone_iff_eq_none]
  · intro id hproto
    rw [hfilter, List.mem_filter]
    simp [hproto]

/-- C4 at the example: E1 resolves to user u1, E9 is unmatched. -/
theorem C4_notFound_witness :
    (resolveEmployees exampleUsers ["E1", "E9"]).notFoundEmpIds
        = ["E1", "E9"].filter (fun id =>
            (Obj.get (resolveEmployees exampleUsers ["E1", "E9"]).empIdToUserId id).isNone
              && !decide (id ∈ protoKeys))
      ∧ (resolveEmployees exampleUsers ["E1", "E9"]).notFoundEmpIds = ["E9"] :=
  ⟨(C4_notFound_is_the_unmatched_subsequence exampleUsers ["E1", "E9"] (by decide)).1, by decide⟩

/-- C4, inherited name: for the distinct identifiers `constructor` and `E9`, neither
of which belongs to a user, the mapping has no entry for `constructor`, yet the test
`!empIdToUserId['constructor']` reads `Object.prototype.constructor` and the
identifier is left out of the unmatched list, which is `['E9']` only. -/
theorem C4_inherited_name_counterexample :
    findUsersByEmpIds exampleUsers ["constructor", "E9"] = []
      ∧ Obj.get (resolveEmployees exampleUsers ["constructor", "E9"]).empIdToUserId "constructor"
          = none
      ∧ "constructor" ∉ (resolveEmployees exampleUsers ["constructor", "E9"]).notFoundEmpIds
      ∧ (resolveEmployees exampleUsers ["constructor", "E9"]).notFoundEmpIds = ["E9"]
      ∧ (resolveEmployees exampleUsers ["constructor", "E9"]).notFoundEmpIds
          ≠ ["constructor", "E9"].filter (fun id =>
              (Obj.get (resolveEmployees exampleUsers ["constructor", "E9"]).empIdToUserId
                id).isNone) := by
  decide

/-! ## The upsert keeps one record per account -/

theorem updateData_acc_id (env : Env) (m : Obj String) (d : CaseDraft) (c : Case) :
    (updateData env m d c).acc_id = c.acc_id := rfl

theorem matchesDraft_createData (env : Env) (m : Obj String) (d : CaseDraft) :
    matchesDraft env m d (createData env m d) := by
  simp [matchesDraft, createData]

theorem matchesDraft_updateData (env : Env) (m : Obj String) (d : CaseDraft) (c : Case)
    (h : c.acc_id = d.acc_id) : matchesDraft env m d (updateData env m d c) := by
  simp [matchesDraft, updateData, h]

theorem upsertCase_accIds (env : Env) (m : Obj String) (d : CaseDraft) (cases : List Case) :
    (upsertCase env m d cases).map (fun c => c.acc_id)
      = if d.acc_id ∈ cases.map (fun c => c.acc_id) then cases.map (fun c => c.acc_id)
        else cases.map (fun c => c.acc_id) ++ [d.acc_id] := by
  induction cases with
  | nil => simp [upsertCase, createData]
  | cons c rest ih =>
    by_cases h : c.acc_id = d.acc_id
    · simp [upsertCase, h, updateData_acc_id]
    · have h' : ¬ d.acc_id = c.acc_id := fun e => h e.symm
      simp only [upsertCase, h, if_false, List.map_cons, ih, List.mem_cons, h', false_or]
      split <;> simp

theorem upsertBatch_accIds (env : Env) (m : Obj String) (ds : List CaseDraft) (cases : List Case) :
    (upsertBatch env m ds cases).map (fun c => c.acc_id)
      = (ds.map (fun d => d.acc_id)).foldl (fun seen x => if x ∈ seen then seen else seen ++ [x])
          (cases.map (fun c => c.acc_id)) := by
  induction ds generalizing cases with
  | nil => simp [upsertBatch]
  | cons d ds ih =>
    have := ih (upsertCase env m d cases)
    simp only [upsertBatch, List.foldl_cons, List.map_cons] at this ⊢
    rw [this, upsertCase_accIds]

theorem upsertBatch_nodup (env : Env) (m : Obj String) (ds : List CaseDraft) (cases : List Case)
    (h : (cases.map (fun c => c.acc_id)).Nodup) :
    ((upsertBatch env m ds cases).map (fun c => c.acc_id)).Nodup := by
  rw [upsertBatch_accIds]
  exact setSpread_foldl_nodup _ _ h

theorem countAcc_eq_count (a : String) (cases : List Case) :
    countAcc a cases = (cases.map (fun c => c.acc_id)).count a := by
  induction cases with
  | nil => rfl
  | cons c rest ih =>
    simp only [countAcc] at ih
    by_cases h : c.acc_id = a
    · simp [countAcc, List.filter_cons, h, ih]
    · simp [countAcc, List.filter_cons, h, ih, List.count_cons]

theorem count_foldl_insert (xs seen : List String) (a : String) :
    (xs.foldl (fun seen x => if x ∈ seen then seen else seen ++ [x]) seen).count a
      ≤ max 1 (seen.count a) := by
  induction xs generalizing seen with
  | nil => simp
  | cons x xs ih =>
    rw [List.foldl_cons]
    refine le_trans (ih _) ?_
    by_cases hx : x ∈ seen
    · simp [hx]
    · simp only [hx, if_false, List.count_append]
      by_cases hxa : x = a
      · subst hxa
        have : seen.count x = 0 := List.count_eq_zero_of_not_mem hx
        simp [this]
      · have : List.count a [x] = 0 := by
          simp [List.count_singleton, hxa]
        simp [this]

theorem upsertBatch_countAcc_le (env : Env) (m : Obj String) (ds : List CaseDraft)
    (cases : List Case) (a : String) :
    countAcc a (upsertBatch env m ds cases) ≤ max 1 (countAcc a cases) := by
  rw [countAcc_eq_count, countAcc_eq_count, upsertBatch_accIds]
  exact count_foldl_insert _ _ a

/-! ## The record an upsert leaves for an account -/

theorem findByAccId_upsertCase_self (env : Env) (m : Obj String) (d : CaseDraft) (cases : List Case) :
    ∃ c, findByAccId (upsertCase env m d cases) d.acc_id = some c ∧ matchesDraft env m d c := by
  induction cases with
  | nil =>
    refine ⟨createData env m d, ?_, matchesDraft_createData env m d⟩
    simp [findByAccId, upsertCase, createData]
  | cons c rest ih =>
    by_cases h : c.acc_id = d.acc_id
    · refine ⟨updateData env m d c, ?_, matchesDraft_updateData env m d c h⟩
      simp [findByAccId, upsertCase, h, updateData_acc_id]
    · obtain ⟨c', hc', hm⟩ := ih
      refine ⟨c', ?_, hm⟩
      simp only [findByAccId] at hc'
      simp [findByAccId, upsertCase, h, List.find?_cons, hc']

theorem findByAccId_upsertCase_other (env : Env) (m : Obj String) (d : CaseDraft)
    (cases : List Case) (a : String) (ha : d.acc_id ≠ a) :
    findByAccId (upsertCase env m d cases) a = findByAccId cases a := by
  induction cases with
  | nil => simp [findByAccId, upsertCase, createData, ha]
  | cons c rest ih =>
    by_cases h : c.acc_id = d.acc_id
    · have hca : ¬ c.acc_id = a := fun e => ha (h ▸ e)
      simp [findByAccId, upsertCase, h, List.find?_cons, updateData_acc_id, ha]
    · simp only [findByAccId] at ih
      by_cases hca : c.acc_id = a
      · subst hca
        simp [findByAccId, upsertCase, h, List.find?_cons]
      · simp [findByAccId, upsertCase, h, List.find?_cons, hca, ih]

theorem findByAccId_upsertBatch_other (env : Env) (m : Obj String) (ds : List CaseDraft)
    (cases : List Case) (a : String) (ha : ∀ d ∈ ds, d.acc_id ≠ a) :
    findByAccId (upsertBatch env m ds cases) a = findByAccId cases a := by
  induction ds generalizing cases with
  | nil => rfl
  | cons d ds ih =>
    have h1 := ih (upsertCase env m d cases) (fun d' hd' => ha d' (List.mem_cons_of_mem _ hd'))
    simp only [upsertBatch, List.foldl_cons] at h1 ⊢
    rw [h1]
    exact findByAccId_upsertCase_other env m d cases a (ha d (List.mem_cons_self _ _))

theorem findByAccId_upsertBatch (env : Env) (m : Obj String) (ds : List CaseDraft)
    (cases : List Case) (d : CaseDraft) (hn : (ds.map (fun d => d.acc_id)).Nodup) (hd : d ∈ ds) :
    ∃ c, findByAccId (upsertBatch env m ds cases) d.acc_id = some c ∧ matchesDraft env m d c := by
  induction ds generalizing cases with
  | nil => simp at hd
  | cons d0 ds ih =>
    rw [List.map_cons, List.nodup_cons] at hn
    rcases List.mem_cons.1 hd with h | h
    · subst h
      obtain ⟨c, hc, hm⟩ := findByAccId_upsertCase_self env m d cases
      refine ⟨c, ?_, hm⟩
      have := findByAccId_upsertBatch_other env m ds (upsertCase env m d cases) d.acc_id
        (fun d' hd' e => hn.1 (List.mem_map.2 ⟨d', hd', e⟩))
      simp only [upsertBatch, List.foldl_cons] at this ⊢
      rw [this, hc]
    · have := ih (upsertCase env m d0 cases) hn.2 h
      simpa only [upsertBatch, List.foldl_cons] using this

theorem filter_eq_singleton_of_find (cases : List Case) (a : String) (c : Case)
    (hn : (cases.map (fun c => c.acc_id)).Nodup) (hf : findByAccId cases a = some c) :
    cases.filter (fun c => decide (c.acc_id = a)) = [c] := by
  induction cases with
  | nil => simp [findByAccId] at hf
  | cons c0 rest ih =>
    rw [List.map_cons, List.nodup_cons] at hn
    by_cases h : c0.acc_id = a
    · have : c0 = c := by simpa [findByAccId, List.find?_cons, h] using hf
      subst this
      rw [List.filter_cons]
      simp only [h, decide_True, if_true]
      congr 1
      rw [List.filter_eq_nil_iff]
      intro c' hc'
      simp only [decide_eq_true_eq]
      intro e
      exact hn.1 (List.mem_map.2 ⟨c', hc', by rw [e, h]⟩)
    · have hf' : findByAccId rest a = some c := by
        simpa [findByAccId, List.find?_cons, h] using hf
      rw [List.filter_cons]
      simp only [h, decide_False, Bool.false_eq_true, if_false]
      exact ih hn.2 hf'

theorem bulkCreateCases_users (env : Env) (db : Db) (xs : List CaseDraft) (sup : Option String)
    (mode : String) : (bulkCreateCases env db xs sup mode).1.users = db.users := rfl

theorem bulkCreateCases_one_record (env : Env) (db : Db) (ds : List CaseDraft) (sup : Option String)
    (mode : String) (d : CaseDraft)
    (hstore : (db.cases.map (fun c => c.acc_id)).Nodup)
    (hn : (ds.map (fun d => d.acc_id)).Nodup) (hd : d ∈ ds) :
    ∃ c, (bulkCreateCases env db ds sup mode).1.cases.filter (fun c => decide (c.acc_id = d.acc_id))
        = [c] ∧ matchesDraft env (buildEmployeeMap db.users) d c := by
  rw [bulkCreateCases_cases]
  obtain ⟨c, hc, hm⟩ := findByAccId_upsertBatch env (buildEmployeeMap db.users) ds db.cases d hn hd
  exact ⟨c, filter_eq_singleton_of_find _ _ c (upsertBatch_nodup env _ ds db.cases hstore) hc, hm⟩

/-- C5: with account ids unique in the table and within each draft list, after two
successive uploads that both carry account id A the table holds exactly one case
for A, whose uploaded columns are those derived from the second draft; and no
upload raises the number of records of an account id above one (or above what it
was). -/
theorem C5_reupload_keeps_one_record_with_latest_fields (env1 env2 : Env) (db : Db)
    (drafts1 drafts2 : List CaseDraft) (sup1 sup2 : Option String) (mode1 mode2 : String)
    (d1 d2 : CaseDraft)
    (hstore : (db.cases.map (fun c => c.acc_id)).Nodup)
    (hn1 : (drafts1.map (fun d => d.acc_id)).Nodup)
    (hn2 : (drafts2.map (fun d => d.acc_id)).Nodup)
    (h1 : d1 ∈ drafts1) (h2 : d2 ∈ drafts2) (hA : d1.acc_id = d2.acc_id) :
    (∃ c1, (bulkCreateCases env1 db drafts1 sup1 mode1).1.cases.filter
          (fun c => decide (c.acc_id = d1.acc_id)) = [c1]
        ∧ matchesDraft env1 (buildEmployeeMap db.users) d1 c1)
      ∧ (∃ c2, (bulkCreateCases env2 (bulkCreateCases env1 db drafts1 sup1 mode1).1 drafts2 sup2
            mode2).1.cases.filter (fun c => decide (c.acc_id = d1.acc_id)) = [c2]
          ∧ matchesDraft env2 (buildEmployeeMap db.users) d2 c2)
      ∧ ∀ (env : Env) (db' : Db) (drafts : List CaseDraft) (sup : Option String) (mode a : String),
          countAcc a (bulkCreateCases env db' drafts sup mode).1.cases ≤ max 1 (countAcc a db'.cases) := by
  refine ⟨bulkCreateCases_one_record env1 db drafts1 sup1 mode1 d1 hstore hn1 h1, ?_, ?_⟩
  · have hstore1 : ((bulkCreateCases env1 db drafts1 sup1 mode1).1.cases.map
        (fun c => c.acc_id)).Nodup := by
      rw [bulkCreateCases_cases]
      exact upsertBatch_nodup env1 _ drafts1 db.cases hstore
    have := bulkCreateCases_one_record env2 (bulkCreateCases env1 db drafts1 sup1 mode1).1 drafts2
      sup2 mode2 d2 hstore1 hn2 h2
    rw [bulkCreateCases_users, ← hA] at this
    exact this
  · intro env db' drafts sup mode a
    rw [bulkCreateCases_cases]
    exact upsertBatch_countAcc_le env _ drafts db'.cases a

/-- C5 at an example: account A1 uploaded twice with a changed amount and owner. -/
theorem C5_reupload_witness :
    (∃ c1, (bulkCreateCases exampleEnv emptyDb [exampleDraft "A1" "Asha" "1000" "E1"] none
          "ORIGINAL").1.cases.filter
          (fun c => decide (c.acc_id = (exampleDraft "A1" "Asha" "1000" "E1").acc_id)) = [c1]
        ∧ matchesDraft exampleEnv (buildEmployeeMap emptyDb.users)
            (exampleDraft "A1" "Asha" "1000" "E1") c1)
      ∧ (∃ c2, (bulkCreateCases exampleEnv
            (bulkCreateCases exampleEnv emptyDb [exampleDraft "A1" "Asha" "1000" "E1"] none
              "ORIGINAL").1
            [exampleDraft "A2" "Chitra" "70" "E1", exampleDraft "A1" "Asha" "250" "E9"] none
            "ORIGINAL").1.cases.filter
            (fun c => decide (c.acc_id = (exampleDraft "A1" "Asha" "1000" "E1").acc_id)) = [c2]
          ∧ matchesDraft exampleEnv (buildEmployeeMap emptyDb.users)
              (exampleDraft "A1" "Asha" "250" "E9") c2) :=
  have h := C5_reupload_keeps_one_record_with_latest_fields exampleEnv exampleEnv emptyDb
    [exampleDraft "A1" "Asha" "1000" "E1"]
    [exampleDraft "A2" "Chitra" "70" "E1", exampleDraft "A1" "Asha" "250" "E9"]
    none none "ORIGINAL" "ORIGINAL"
    (exampleDraft "A1" "Asha" "1000" "E1") (exampleDraft "A1" "Asha" "250" "E9")
    (by decide) (by decide) (by decide)
    (List.mem_cons_self _ _) (List.mem_cons_of_mem _ (List.mem_cons_self _ _)) (by decide)
  ⟨h.1, h.2.1⟩

/-! ## The executive stored by the upsert -/

theorem buildEmployeeMap_foldl_values (us : List User) (acc : Obj String)
    (hacc : ∀ k v, Obj.get acc k = some v → v ≠ "") (hids : ∀ u ∈ us, u.id ≠ "") :
    ∀ k v, Obj.get (us.foldl (fun employeeMap exec =>
        match exec.emp_id with
        | some e => if strTruthy e then Obj.set employeeMap e exec.id else employeeMap
        | none => employeeMap) acc) k = some v → v ≠ "" := by
  induction us generalizing acc with
  | nil => simpa using hacc
  | cons u us ih =>
    rw [List.foldl_cons]
    apply ih
    · intro k v hk
      cases he : u.emp_id with
      | none => simp only [he] at hk; exact hacc k v hk
      | some e =>
        simp only [he] at hk
        split at hk
        · rw [Obj.get_set] at hk
          split at hk
          · simp only [Option.some.injEq] at hk
            rw [← hk]; exact hids u (List.mem_cons_self _ _)
          · exact hacc k v hk
        · exact hacc k v hk
    · intro u' hu'
      exact hids u' (List.mem_cons_of_mem _ hu')

theorem realExecutiveId_eq_get (users : List User) (hids : ∀ u ∈ users, u.id ≠ "")
    (emp_id : Option String) :
    realExecutiveId (buildEmployeeMap users) emp_id
      = Obj.get (buildEmployeeMap users) (propertyKey emp_id) := by
  have hv : ∀ k v, Obj.get (buildEmployeeMap users) k = some v → v ≠ "" :=
    buildEmployeeMap_foldl_values _ [] (by simp [Obj.get])
      (fun u hu => hids u (List.mem_of_mem_filter hu))
  cases h : Obj.get (buildEmployeeMap users) (propertyKey emp_id) with
  | none => simp [realExecutiveId, h, strOrNull]
  | some v => simp [realExecutiveId, h, strOrNull, strTruthy, hv _ v h]

/-- C6: after an upload (account ids distinct within it, user ids non-empty) the
case of every draft holds as executive the user id that the identifier map gives
for the draft's employee identifier, and none when the map has no entry, whatever
executive the case held before. -/
theorem C6_upsert_resolves_executive_afresh (env : Env) (db : Db) (drafts : List CaseDraft)
    (sup : Option String) (mode : String) (d : CaseDraft)
    (hids : ∀ u ∈ db.users, u.id ≠ "")
    (hn : (drafts.map (fun d => d.acc_id)).Nodup) (hd : d ∈ drafts) :
    ∃ c, findByAccId (bulkCreateCases env db drafts sup mode).1.cases d.acc_id = some c
      ∧ c.executiveId = Obj.get (buildEmployeeMap db.users) (propertyKey d.emp_id)
      ∧ (Obj.get (buildEmployeeMap db.users) (propertyKey d.emp_id) = none → c.executiveId = none) := by
  rw [bulkCreateCases_cases]
  obtain ⟨c, hc, hm⟩ := findByAccId_upsertBatch env (buildEmployeeMap db.users) drafts db.cases d hn hd
  have he : c.executiveId = realExecutiveId (buildEmployeeMap db.users) d.emp_id := by
    simp only [matchesDraft] at hm
    tauto
  rw [realExecutiveId_eq_get db.users hids] at he
  exact ⟨c, hc, he, fun h => by rw [he, h]⟩

/-- C6 at an example: the case of A1, allocated to u1, is uploaded again with the
unknown identifier E9 and ends without executive. -/
theorem C6_upsert_resolves_executive_witness :
    exampleCase.executiveId = some "u1"
      ∧ ∃ c, findByAccId (bulkCreateCases exampleEnv allocatedDb
            [exampleDraft "A1" "Asha" "250" "E9"] none "ORIGINAL").1.cases
            (exampleDraft "A1" "Asha" "250" "E9").acc_id = some c
          ∧ c.executiveId = none :=
  have h := C6_upsert_resolves_executive_afresh exampleEnv allocatedDb
    [exampleDraft "A1" "Asha" "250" "E9"] none "ORIGINAL" (exampleDraft "A1" "Asha" "250" "E9")
    (by decide) (by decide) (List.mem_cons_self _ _)
  ⟨by decide, h.elim (fun c hc => ⟨c, hc.1, hc.2.2 (by decide)⟩)⟩

/-! ## Allocation touches only unallocated cases of the identifier -/

theorem updateManyCases_getElem? (cases : List Case) (emp_id executiveId : Arg) (i : Nat) :
    (updateManyCases cases emp_id executiveId)[i]?
      = (cases[i]?).map (fun c => if matchesWhere emp_id c then applyData executiveId c else c) := by
  simp [updateManyCases, List.getElem?_map]

theorem updateManyCases_length (cases : List Case) (emp_id executiveId : Arg) :
    (updateManyCases cases emp_id executiveId).length = cases.length := by
  simp [updateManyCases]

theorem matchesWhere_of_allocated (emp_id : Arg) (c : Case) (h : c.executiveId ≠ none) :
    matchesWhere emp_id c = false := by
  cases hc : c.executiveId with
  | none => exact absurd hc h
  | some x => simp [matchesWhere, hc]

/-- C7: `allocateCasesToExecutive` leaves every case that has an executive exactly
as it was, whatever the arguments and whether or not the update is accepted. -/
theorem C7_allocate_leaves_allocated_cases_unchanged (reject : Rejection) (db : Db)
    (emp_id executiveId : Arg) (i : Nat) (c : Case)
    (hc : db.cases[i]? = some c) (hex : c.executiveId ≠ none) :
    (allocateCasesToExecutive reject db emp_id executiveId).1.cases[i]? = some c
      ∧ (allocateCasesToExecutive reject db emp_id executiveId).1.cases.length = db.cases.length := by
  unfold allocateCasesToExecutive
  cases reject db emp_id executiveId with
  | some msg => exact ⟨hc, rfl⟩
  | none =>
    refine ⟨?_, updateManyCases_length _ _ _⟩
    simp only [updateManyCases_getElem?, hc, Option.map_some', matchesWhere_of_allocated emp_id c hex,
      Bool.false_eq_true, if_false]

/-- C7 at the allocated example case: allocating E1 to another user changes nothing. -/
theorem C7_allocate_leaves_allocated_witness :
    (allocateCasesToExecutive noRejection allocatedDb (.str "E1") (.str "u2")).1.cases[0]?
        = some exampleCase
      ∧ (allocateCasesToExecutive noRejection allocatedDb (.str "E1") (.str "u2")).1.cases.length
        = allocatedDb.cases.length :=
  C7_allocate_leaves_allocated_cases_unchanged noRejection allocatedDb (.str "E1") (.str "u2") 0
    exampleCase rfl (by decide)

/-- C8: when the update is accepted, `allocateCasesToExecutive(E, X)` gives executive
X to every case of identifier E that had none, leaves every case of another
identifier unchanged, and returns the number of cases of identifier E that had no
executive. -/
theorem C8_allocate_assigns_the_unallocated_cases (reject : Rejection) (db : Db) (E X : String)
    (hok : reject db (.str E) (.str X) = none) :
    (allocateCasesToExecutive reject db (.str E) (.str X)).2
        = .ok (db.cases.filter (fun c => decide (c.emp_id = some E ∧ c.executiveId = none))).length
      ∧ (allocateCasesToExecutive reject db (.str E) (.str X)).1.cases.length = db.cases.length
      ∧ ∀ (i : Nat) (c : Case), db.cases[i]? = some c →
          (c.emp_id = some E → c.executiveId = none →
            (allocateCasesToExecutive reject db (.str E) (.str X)).1.cases[i]?
              = some { c with executiveId := some X })
          ∧ (c.emp_id ≠ some E →
            (allocateCasesToExecutive reject db (.str E) (.str X)).1.cases[i]? = some c) := by
  unfold allocateCasesToExecutive
  simp only [hok]
  refine ⟨?_, updateManyCases_length _ _ _, ?_⟩
  · congr 2
    simp only [updateManyCount]
    congr 1
    apply List.filter_congr
    intro c _
    cases h : c.executiveId <;> simp [matchesWhere, h]
  · intro i c hc
    constructor
    · intro he hx
      simp [updateManyCases_getElem?, hc, matchesWhere, he, hx, applyData]
    · intro hne
      simp [updateManyCases_getElem?, hc, matchesWhere, hne]

/-- C8 at the unallocated example cases: E7 is given to u1, one case is counted. -/
theorem C8_allocate_assigns_witness :
    (allocateCasesToExecutive noRejection unallocatedDb (.str "E7") (.str "u1")).2
        = .ok (unallocatedDb.cases.filter
            (fun c => decide (c.emp_id = some "E7" ∧ c.executiveId = none))).length
      ∧ (unallocatedDb.cases.filter
            (fun c => decide (c.emp_id = some "E7" ∧ c.executiveId = none))).length = 1 :=
  ⟨(C8_allocate_assigns_the_unallocated_cases noRejection unallocatedDb "E7" "u1" rfl).1, by decide⟩

/-! ## Bulk allocation stops at the first rejected pair -/

theorem bulkAllocateLoop_append (reject : Rejection) (pre rest : List (Arg × Arg)) (db : Db)
    (results : List AllocResult) :
    bulkAllocateLoop reject db (pre ++ rest) results
      = match bulkAllocateLoop reject db pre results with
        | (db', .ok r) => bulkAllocateLoop reject db' rest r
        | (db', .error msg) => (db', .error msg) := by
  induction pre generalizing db results with
  | nil => simp [bulkAllocateLoop]
  | cons p pre ih =>
    obtain ⟨e, x⟩ := p
    simp only [List.cons_append, bulkAllocateLoop]
    cases h : allocateCasesToExecutive reject db e x with
    | mk db1 r1 =>
      cases r1 with
      | error msg => simp
      | ok count => simp [ih]

theorem bulkAllocateLoop_rejected (reject : Rejection) (db : Db) (e x : Arg)
    (post : List (Arg × Arg)) (results : List AllocResult) (msg : String)
    (h : reject db e x = some msg) :
    bulkAllocateLoop reject db ((e, x) :: post) results
      = (db, .error ("Failed to allocate cases: " ++ msg)) := by
  simp [bulkAllocateLoop, allocateCasesToExecutive, h]

theorem bulkAllocateCases_abort (reject : Rejection) (db : Db) (pre post : List (Arg × Arg))
    (e x : Arg) (results : List AllocResult) (msg : String)
    (hpre : (bulkAllocateCases reject db pre).2 = .ok results)
    (hrej : reject (bulkAllocateCases reject db pre).1 e x = some msg) :
    bulkAllocateCases reject db (pre ++ (e, x) :: post)
      = ((bulkAllocateCases reject db pre).1,
          .error ("Failed to bulk allocate cases: Failed to allocate cases: " ++ msg)) := by
  unfold bulkAllocateCases at hpre hrej ⊢
  rw [bulkAllocateLoop_append]
  cases h : bulkAllocateLoop reject db pre [] with
  | mk db1 r1 =>
    rw [h] at hpre hrej
    cases r1 with
    | error m => simp at hpre
    | ok r =>
      simp only at hrej ⊢
      rw [bulkAllocateLoop_rejected reject db1 e x post r msg hrej]
      simp only
      rw [← String.append_assoc]
      rfl

/-- C9 (amended): when the pairs before a pair are allocated and that pair is
rejected, `bulkAllocateCases` stops there: it throws, returns no per-pair results
and processes none of the later pairs; the allocations made before stay. The
controller answers 400 with the error message and no data. -/
theorem C9_bulk_allocation_stops_at_first_failure (reject : Rejection) (db : Db)
    (pre post : List (Arg × Arg)) (e x : Arg) (results : List AllocResult) (msg : String)
    (hpre : (bulkAllocateCases reject db pre).2 = .ok results)
    (hrej : reject (bulkAllocateCases reject db pre).1 e x = some msg) :
    bulkAllocateCases reject db (pre ++ (e, x) :: post)
        = ((bulkAllocateCases reject db pre).1,
            .error ("Failed to bulk allocate cases: Failed to allocate cases: " ++ msg))
      ∧ (bulkAllocate reject db (pre ++ (e, x) :: post)).1 = (bulkAllocateCases reject db pre).1
      ∧ (bulkAllocate reject db (pre ++ (e, x) :: post)).2.status = 400
      ∧ (bulkAllocate reject db (pre ++ (e, x) :: post)).2.data = none
      ∧ (bulkAllocate reject db (pre ++ (e, x) :: post)).2.message
          = "Failed to bulk allocate cases: Failed to allocate cases: " ++ msg := by
  have h := bulkAllocateCases_abort reject db pre post e x results msg hpre hrej
  refine ⟨h, ?_, ?_, ?_, ?_⟩ <;> simp [bulkAllocate, h]

/-- C9 (amended) at an example: the first pair names an executive that is no user
and is rejected by the foreign key; nothing is returned for the second pair. -/
theorem C9_bulk_allocation_stops_witness :
    (bulkAllocate foreignKeyRejection unallocatedDb
        ([] ++ (Arg.str "E7", Arg.str "ghost") :: [(Arg.str "E8", Arg.str "u1")])).2.status = 400
      ∧ (bulkAllocate foreignKeyRejection unallocatedDb
        ([] ++ (Arg.str "E7", Arg.str "ghost") :: [(Arg.str "E8", Arg.str "u1")])).2.data = none :=
  have h := C9_bulk_allocation_stops_at_first_failure foreignKeyRejection unallocatedDb []
    [(Arg.str "E8", Arg.str "u1")] (.str "E7") (.str "ghost") []
    "Foreign key constraint failed on the field: executiveId" rfl (by decide)
  ⟨h.2.2.1, h.2.2.2.1⟩

/-- C9 as stated fails: with the first of two pairs rejected, the second pair, which
would be accepted, is not processed (its case stays without executive) and no
result is returned for it. -/
theorem C9_later_pairs_not_processed_counterexample :
    (allocateCasesToExecutive foreignKeyRejection unallocatedDb (.str "E8") (.str "u1")).2 = .ok 1
      ∧ (bulkAllocate foreignKeyRejection unallocatedDb
          [(.str "E7", .str "ghost"), (.str "E8", .str "u1")]).2.data = none
      ∧ (bulkAllocate foreignKeyRejection unallocatedDb
          [(.str "E7", .str "ghost"), (.str "E8", .str "u1")]).2.status = 400
      ∧ (bulkAllocate foreignKeyRejection unallocatedDb
          [(.str "E7", .str "ghost"), (.str "E8", .str "u1")]).1.cases.map (fun c => c.executiveId)
          = [none, none] := by
  refine ⟨?_, ?_, ?_, ?_⟩
  · rfl
  · rfl
  · rfl
  · rfl

/-! ## Allocation to an unknown executive -/

theorem findUserById_none (users : List User) (x : String) (h : ∀ u ∈ users, u.id ≠ x) :
    findUserById users x = none := by
  simp only [findUserById, List.find?_eq_none]
  intro u hu
  simpa using h u hu

/-- C10: `allocateByEmpId` with a non-empty identifier and a non-empty executive id
that is no user's id answers 404 "Executive not found" and changes nothing, so the
unallocated count of `getAllocationStatus` is the same before and after. -/
theorem C10_allocate_to_unknown_executive_is_not_found (reject : Rejection) (db : Db) (E X : String)
    (hE : E ≠ "") (hX : X ≠ "") (hno : ∀ u ∈ db.users, u.id ≠ X) :
    (allocateByEmpId reject db (.str E) (.str X)).2.status = 404
      ∧ (allocateByEmpId reject db (.str E) (.str X)).2.success = false
      ∧ (allocateByEmpId reject db (.str E) (.str X)).2.message = "Executive not found"
      ∧ (allocateByEmpId reject db (.str E) (.str X)).1 = db
      ∧ (getAllocationStatus (allocateByEmpId reject db (.str E) (.str X)).1).data.map
            (fun s => s.unallocated)
          = (getAllocationStatus db).data.map (fun s => s.unallocated) := by
  have h : allocateByEmpId reject db (.str E) (.str X)
      = (db, { status := 404, success := false, message := "Executive not found", data := none }) := by
    simp [allocateByEmpId, strTruthy, hE, hX, findUserById_none db.users X hno]
  rw [h]
  exact ⟨rfl, rfl, rfl, rfl, rfl⟩

/-- C10 at an example: identifier E7 sent to the unknown executive id ghost. -/
theorem C10_allocate_to_unknown_executive_witness :
    (allocateByEmpId noRejection unallocatedDb (.str "E7") (.str "ghost")).2.status = 404
      ∧ (allocateByEmpId noRejection unallocatedDb (.str "E7") (.str "ghost")).1 = unallocatedDb :=
  have h := C10_allocate_to_unknown_executive_is_not_found noRejection unallocatedDb "E7" "ghost"
    (by decide) (by decide) (by decide)
  ⟨h.1, h.2.2.2.1⟩

/-! ## Allocation is idempotent -/

theorem matchesWhere_applyData_str (emp_id : Arg) (X : String) (c : Case) :
    matchesWhere emp_id (applyData (.str X) c) = false := by
  cases emp_id <;> simp [matchesWhere, applyData]

theorem matchesWhere_updated (emp_id : Arg) (X : String) (c : Case) :
    matchesWhere emp_id (if matchesWhere emp_id c then applyData (.str X) c else c) = false := by
  by_cases h : matchesWhere emp_id c = true
  · simp [h, matchesWhere_applyData_str]
  · have h' : matchesWhere emp_id c = false := by simpa using h
    simp [h']

theorem updateManyCases_idem (cases : List Case) (emp_id : Arg) (X : String) :
    updateManyCases (updateManyCases cases emp_id (.str X)) emp_id (.str X)
      = updateManyCases cases emp_id (.str X) := by
  simp only [updateManyCases, List.map_map]
  apply List.map_congr_left
  intro c _
  simp only [Function.comp_apply, matchesWhere_updated, Bool.false_eq_true, if_false]

theorem updateManyCount_after (cases : List Case) (emp_id : Arg) (X : String) :
    updateManyCount (updateManyCases cases emp_id (.str X)) emp_id = 0 := by
  simp only [updateManyCount, updateManyCases, List.length_eq_zero, List.filter_eq_nil_iff,
    List.mem_map]
  rintro c ⟨c0, _, rfl⟩
  simp [matchesWhere_updated]

theorem allocate_twice_db (reject : Rejection) (db : Db) (emp_id : Arg) (X : String) :
    (allocateCasesToExecutive reject
        (allocateCasesToExecutive reject db emp_id (.str X)).1 emp_id (.str X)).1
      = (allocateCasesToExecutive reject db emp_id (.str X)).1 := by
  cases h1 : reject db emp_id (.str X) with
  | some msg => simp [allocateCasesToExecutive, h1]
  | none =>
    simp only [allocateCasesToExecutive, h1]
    cases h2 : reject { db with cases := updateManyCases db.cases emp_id (.str X) } emp_id (.str X) with
    | some msg => rfl
    | none => simp [updateManyCases_idem]

theorem allocateByEmpId_twice_db (reject : Rejection) (db : Db) (emp_id : Arg) (X : String) :
    (allocateByEmpId reject (allocateByEmpId reject db emp_id (.str X)).1 emp_id (.str X)).1
      = (allocateByEmpId reject db emp_id (.str X)).1 := by
  cases emp_id with
  | undefined => rfl
  | null => rfl
  | str e =>
    by_cases hg : (!strTruthy e || !strTruthy X) = true
    · simp [allocateByEmpId, hg]
    · cases hu : findUserById db.users X with
      | none => simp [allocateByEmpId, hg, hu]
      | some u =>
        cases h1 : reject db (.str e) (.str X) with
        | some msg => simp [allocateByEmpId, hg, hu, h1]
        | none =>
          simp only [allocateByEmpId, hg, hu, h1, Bool.false_eq_true, if_false]
          cases h2 : reject { db with cases := updateManyCases db.cases (.str e) (.str X) }
              (.str e) (.str X) with
          | some msg => rfl
          | none => simp [updateManyCases_idem]

/-- C11: allocating twice with the same identifier and the same executive leaves the
same table as allocating once, for `allocateCasesToExecutive`, for the update step
of `allocateByEmpId` and for that controller; the second application selects no
record, so an accepted second call reports the count 0. -/
theorem C11_allocation_is_idempotent (reject : Rejection) (db : Db) (emp_id : Arg) (X : String) :
    (allocateCasesToExecutive reject
          (allocateCasesToExecutive reject db emp_id (.str X)).1 emp_id (.str X)).1
        = (allocateCasesToExecutive reject db emp_id (.str X)).1
      ∧ (reject db emp_id (.str X) = none →
          reject (allocateCasesToExecutive reject db emp_id (.str X)).1 emp_id (.str X) = none →
          (allocateCasesToExecutive reject
            (allocateCasesToExecutive reject db emp_id (.str X)).1 emp_id (.str X)).2 = .ok 0)
      ∧ updateManyCases (updateManyCases db.cases emp_id (.str X)) emp_id (.str X)
          = updateManyCases db.cases emp_id (.str X)
      ∧ updateManyCount (updateManyCases db.cases emp_id (.str X)) emp_id = 0
      ∧ (allocateByEmpId reject (allocateByEmpId reject db emp_id (.str X)).1 emp_id (.str X)).1
          = (allocateByEmpId reject db emp_id (.str X)).1 := by
  refine ⟨allocate_twice_db reject db emp_id X, ?_, updateManyCases_idem _ _ _,
    updateManyCount_after _ _ _, allocateByEmpId_twice_db reject db emp_id X⟩
  intro h1 h2
  simp only [allocateCasesToExecutive, h1] at h2 ⊢
  simp only [h2, updateManyCount_after]

/-- C11 at the unallocated example cases: the second allocation of E7 to u1 is
accepted and reports 0. -/
theorem C11_allocation_is_idempotent_witness :
    (allocateCasesToExecutive noRejection
        (allocateCasesToExecutive noRejection unallocatedDb (.str "E7") (.str "u1")).1
        (.str "E7") (.str "u1")).2 = .ok 0 :=
  (C11_allocation_is_idempotent noRejection unallocatedDb (.str "E7") "u1").2.1 rfl rfl

/-! ## Printing an array index gives back the key -/

theorem digitVal_lt (c : Char) (d : Nat) (h : digitVal c = some d) : d < 10 := by
  unfold digitVal at h
  split at h
  · simp only [Option.some.injEq] at h; omega
  · simp at h

theorem digitChar_digitVal (c : Char) (d : Nat) (h : digitVal c = some d) : Nat.digitChar d = c := by
  unfold digitVal at h
  split at h
  · rename_i hc
    simp only [Option.some.injEq] at h
    have hc' : c = Char.ofNat c.toNat := (Char.ofNat_toNat c).symm
    have hd : c.toNat = d + 48 := by omega
    rw [hc', hd]
    have hlt : d < 10 := by omega
    interval_cases d <;> rfl
  · simp at h

theorem ofDigits_append_singleton (b : Nat) (ds : List Nat) (d : Nat) :
    ofDigits b (ds ++ [d]) = b * ofDigits b ds + d := by
  simp [ofDigits, List.foldl_append]

theorem ofDigits_pos (ds : List Nat) (hne : ds ≠ []) (hhead : ds.head? ≠ some 0) :
    0 < ofDigits 10 ds := by
  induction ds using List.reverseRecOn with
  | nil => exact absurd rfl hne
  | append_singleton init d ih =>
    rw [ofDigits_append_singleton]
    cases init with
    | nil =>
      simp only [List.nil_append, List.head?_cons, ne_eq, Option.some.injEq] at hhead
      simp [ofDigits]
      omega
    | cons a as =>
      have := ih (by simp) (by simpa using hhead)
      omega

theorem toDigitsCore_ofDigits (ds : List Nat) (hlt : ∀ d ∈ ds, d < 10) (hne : ds ≠ [])
    (hcanon : ds.head? ≠ some 0 ∨ ds.length = 1) :
    ∀ (fuel : Nat) (acc : List Char), ofDigits 10 ds < fuel →
      Nat.toDigitsCore 10 fuel (ofDigits 10 ds) acc = ds.map Nat.digitChar ++ acc := by
  induction ds using List.reverseRecOn with
  | nil => exact absurd rfl hne
  | append_singleton init d ih =>
    intro fuel acc hfuel
    have hd : d < 10 := hlt d (by simp)
    rw [ofDigits_append_singleton] at hfuel ⊢
    cases fuel with
    | zero => omega
    | succ fuel =>
      have hmod : (10 * ofDigits 10 init + d) % 10 = d := by omega
      have hdiv : (10 * ofDigits 10 init + d) / 10 = ofDigits 10 init := by omega
      simp only [Nat.toDigitsCore, hmod, hdiv]
      cases init with
      | nil => simp [ofDigits]
      | cons a as =>
        have hhead : (a :: as).head? ≠ some 0 := by
          rcases hcanon with h | h
          · simpa using h
          · simp at h
        have hpos := ofDigits_pos (a :: as) (by simp) hhead
        have hne0 : ofDigits 10 (a :: as) ≠ 0 := by omega
        simp only [hne0, if_false]
        rw [ih (fun x hx => hlt x (by simp [List.mem_append] at hx ⊢; tauto)) (by simp)
          (Or.inl hhead) fuel _ (by omega)]
        simp

theorem takeDigits_forall₂ (cs : List Char)
    (h : (takeDigits digitVal cs).1.length = cs.length) :
    List.Forall₂ (fun c d => digitVal c = some d) cs (takeDigits digitVal cs).1 := by
  induction cs with
  | nil => simp [takeDigits]
  | cons c cs ih =>
    cases hc : digitVal c with
    | none => simp [takeDigits, hc] at h
    | some d =>
      simp only [takeDigits, hc, List.length_cons, add_left_inj] at h ⊢
      exact List.Forall₂.cons hc (ih h)

theorem forall₂_digits_map (cs : List Char) (ds : List Nat)
    (h : List.Forall₂ (fun c d => digitVal c = some d) cs ds) :
    ds.map Nat.digitChar = cs ∧ (∀ d ∈ ds, d < 10)
      ∧ (ds.head? = some 0 → cs.head? = some '0') ∧ ds.length = cs.length := by
  induction h with
  | nil => simp
  | @cons c d cs' ds' hcd _ ih =>
    obtain ⟨h1, h2, _, h4⟩ := ih
    refine ⟨?_, ?_, ?_, ?_⟩
    · simp [h1, digitChar_digitVal c d hcd]
    · intro x hx
      rcases List.mem_cons.1 hx with hx | hx
      · subst hx; exact digitVal_lt c x hcd
      · exact h2 x hx
    · intro h0
      simp only [List.head?_cons, Option.some.injEq] at h0
      subst h0
      simp only [List.head?_cons, Option.some.injEq]
      rw [← digitChar_digitVal c 0 hcd]
      rfl
    · simp [h4]

theorem toString_arrayIndex (k : String) (n : Nat) (h : arrayIndex k = some n) : toString n = k := by
  unfold arrayIndex at h
  simp only at h
  split at h
  · rename_i hc
    obtain ⟨hne, hlen, hcanon, _⟩ := hc
    simp only [Option.some.injEq] at h
    subst h
    obtain ⟨hmap, hlt, hzero, hl⟩ := forall₂_digits_map _ _ (takeDigits_forall₂ k.data hlen)
    have hds_ne : (takeDigits digitVal k.data).1 ≠ [] := by
      intro e
      rw [e] at hl
      exact hne (List.length_eq_zero.1 hl.symm)
    have hcanon' : (takeDigits digitVal k.data).1.head? ≠ some 0
        ∨ (takeDigits digitVal k.data).1.length = 1 := by
      rcases hcanon with hh | hh
      · exact Or.inl (fun e => hh (hzero e))
      · exact Or.inr (by rw [hl, hh])
    have := toDigitsCore_ofDigits _ hlt hds_ne hcanon'
      (ofDigits 10 (takeDigits digitVal k.data).1 + 1) [] (Nat.lt_succ_self _)
    show (Nat.toDigits 10 (ofDigits 10 (takeDigits digitVal k.data).1)).asString = k
    rw [Nat.toDigits, this, List.append_nil, hmap]
    rfl
  · simp at h

/-! ## Keys and entries of an object -/

theorem indexKeys_map_toString {α : Type} (o : Obj α) :
    (o.filterMap (fun kv => arrayIndex kv.1)).map toString
      = (o.map Prod.fst).filter (fun k => (arrayIndex k).isSome) := by
  induction o with
  | nil => rfl
  | cons kv rest ih =>
    cases h : arrayIndex kv.1 with
    | none => simp [List.filterMap_cons, h, ih]
    | some n => simp [List.filterMap_cons, h, ih, toString_arrayIndex kv.1 n h]

theorem Obj.keys_perm {α : Type} (o : Obj α) : (Obj.keys o).Perm (o.map Prod.fst) := by
  unfold Obj.keys
  have h1 : (((o.filterMap (fun kv => arrayIndex kv.1)).insertionSort (· ≤ ·)).map toString).Perm
      ((o.map Prod.fst).filter (fun k => (arrayIndex k).isSome)) := by
    rw [← indexKeys_map_toString]
    exact (List.perm_insertionSort _ _).map _
  have h2 : ((o.map Prod.fst).filter (fun k => (arrayIndex k).isNone))
      = (o.map Prod.fst).filter (fun k => !(arrayIndex k).isSome) := by
    apply List.filter_congr
    intro k _
    cases arrayIndex k <;> rfl
  rw [h2]
  exact (h1.append_right _).trans (List.filter_append_perm _ _)

theorem Obj.get_of_mem {α : Type} (o : Obj α) (h : (o.map Prod.fst).Nodup) (k : String) (v : α)
    (hm : (k, v) ∈ o) : Obj.get o k = some v := by
  induction o with
  | nil => simp at hm
  | cons kv rest ih =>
    obtain ⟨k0, v0⟩ := kv
    rw [List.map_cons, List.nodup_cons] at h
    rcases List.mem_cons.1 hm with e | hm'
    · cases e
      simp [Obj.get]
    · have hne : k0 ≠ k := by
        intro e
        subst e
        exact h.1 (List.mem_map.2 ⟨(k0, v), hm', rfl⟩)
      simp [Obj.get, hne, ih h.2 hm']

theorem Obj.mem_of_get {α : Type} (o : Obj α) (k : String) (v : α) (h : Obj.get o k = some v) :
    (k, v) ∈ o := by
  induction o with
  | nil => simp [Obj.get] at h
  | cons kv rest ih =>
    obtain ⟨k0, v0⟩ := kv
    by_cases e : k0 = k
    · subst e
      simp only [Obj.get, if_true, Option.some.injEq] at h
      subst h
      exact List.mem_cons_self _ _
    · simp only [Obj.get, e, if_false] at h
      exact List.mem_cons_of_mem _ (ih h)

theorem Obj.filterMap_get_eq {α : Type} (o : Obj α) (h : (o.map Prod.fst).Nodup) (l : List (String × α))
    (hl : ∀ kv ∈ l, kv ∈ o) :
    (l.map Prod.fst).filterMap (fun k => (Obj.get o k).map (fun v => (k, v))) = l := by
  induction l with
  | nil => rfl
  | cons kv rest ih =>
    obtain ⟨k, v⟩ := kv
    have hg := Obj.get_of_mem o h k v (hl _ (List.mem_cons_self _ _))
    simp only [List.map_cons, List.filterMap_cons, hg, Option.map_some']
    rw [ih (fun kv hkv => hl kv (List.mem_cons_of_mem _ hkv))]

theorem Obj.entries_perm {α : Type} (o : Obj α) (h : (o.map Prod.fst).Nodup) :
    (Obj.entries o).Perm o := by
  unfold Obj.entries
  have := (Obj.keys_perm o).filterMap (fun k => (Obj.get o k).map (fun v => (k, v)))
  rw [Obj.filterMap_get_eq o h o (fun _ hkv => hkv)] at this
  exact this

theorem Obj.set_keys {α : Type} (o : Obj α) (k : String) (v : α) :
    (Obj.set o k v).map Prod.fst
      = if k ∈ o.map Prod.fst then o.map Prod.fst else o.map Prod.fst ++ [k] := by
  induction o with
  | nil => simp [Obj.set]
  | cons kv rest ih =>
    obtain ⟨k0, v0⟩ := kv
    by_cases e : k0 = k
    · subst e
      simp [Obj.set]
    · have e' : ¬ k = k0 := fun h => e h.symm
      simp only [Obj.set, e, if_false, List.map_cons, ih, List.mem_cons, e', false_or]
      split <;> simp

theorem Obj.set_nodup {α : Type} (o : Obj α) (k : String) (v : α) (h : (o.map Prod.fst).Nodup) :
    ((Obj.set o k v).map Prod.fst).Nodup := by
  rw [Obj.set_keys]
  split
  · exact h
  · rename_i hk
    rw [List.nodup_append]
    refine ⟨h, List.nodup_singleton k, ?_⟩
    intro a ha hb
    simp at hb
    subst hb
    exact hk ha

theorem Obj.upsertWith_nodup {α : Type} (o : Obj α) (k : String) (init : α) (f : α → α)
    (h : (o.map Prod.fst).Nodup) : ((Obj.upsertWith o k init f).map Prod.fst).Nodup :=
  Obj.set_nodup o k _ h

theorem Obj.get_upsertWith {α : Type} (o : Obj α) (k k' : String) (init : α) (f : α → α) :
    Obj.get (Obj.upsertWith o k init f) k'
      = if k = k' then some (f ((Obj.get o k).getD init)) else Obj.get o k' := by
  simp [Obj.upsertWith, Obj.get_set]

/-! ## Objects filled by a loop over cases -/

theorem groupFold_nodup {α γ : Type} (key : γ → String) (init : String → α) (upd : α → γ → α)
    (cs : List γ) (o : Obj α) (h : (o.map Prod.fst).Nodup) :
    ((cs.foldl (fun o c => Obj.upsertWith o (key c) (init (key c)) (fun a => upd a c)) o).map
      Prod.fst).Nodup := by
  induction cs generalizing o with
  | nil => simpa using h
  | cons c cs ih =>
    rw [List.foldl_cons]
    exact ih _ (Obj.upsertWith_nodup o _ _ _ h)

theorem groupFold_get {α γ : Type} (key : γ → String) (init : String → α) (upd : α → γ → α)
    (cs : List γ) (o : Obj α) (k : String) :
    Obj.get (cs.foldl (fun o c => Obj.upsertWith o (key c) (init (key c)) (fun a => upd a c)) o) k
      = if (cs.filter (fun c => decide (key c = k))).isEmpty then Obj.get o k
        else some ((cs.filter (fun c => decide (key c = k))).foldl upd
          ((Obj.get o k).getD (init k))) := by
  induction cs generalizing o with
  | nil => simp
  | cons c cs ih =>
    rw [List.foldl_cons, ih, Obj.get_upsertWith]
    by_cases hk : key c = k
    · have hfilt : (c :: cs).filter (fun c => decide (key c = k))
          = c :: cs.filter (fun c => decide (key c = k)) := by
        simp [List.filter_cons, hk]
      rw [hfilt]
      simp only [hk, if_true, Option.getD_some, List.foldl_cons, List.isEmpty_cons,
        Bool.false_eq_true, if_false]
      generalize cs.filter (fun c => decide (key c = k)) = F
      cases F <;> simp
    · simp [hk, List.filter_cons]

theorem groupFold_get_nil {α γ : Type} (key : γ → String) (init : String → α) (upd : α → γ → α)
    (cs : List γ) (k : String) (v : α)
    (h : Obj.get (cs.foldl (fun o c => Obj.upsertWith o (key c) (init (key c)) (fun a => upd a c))
      []) k = some v) :
    cs.filter (fun c => decide (key c = k)) ≠ []
      ∧ v = (cs.filter (fun c => decide (key c = k))).foldl upd (init k) := by
  rw [groupFold_get] at h
  split at h
  · simp [Obj.get] at h
  · rename_i hne
    simp only [Obj.get, Option.getD_none, Option.some.injEq] at h
    refine ⟨?_, h.symm⟩
    intro e
    rw [e] at hne
    exact hne rfl

/-! ## A normalized label has no trailing space -/

theorem upperChar_cases (c : Char) :
    (97 ≤ c.toNat ∧ c.toNat ≤ 122 ∧ upperChar c = [Char.ofNat (c.toNat - 32)])
      ∨ upperChar c ∈ [['S', 'S'], ['S'], ['I'], ['F', 'F'], ['F', 'I'], ['F', 'L'],
          ['F', 'F', 'I'], ['F', 'F', 'L'], ['S', 'T']]
      ∨ upperChar c = [c] := by
  unfold upperChar
  simp only
  by_cases h1 : 97 ≤ c.toNat ∧ c.toNat ≤ 122
  · rw [if_pos h1]; exact Or.inl ⟨h1.1, h1.2, rfl⟩
  rw [if_neg h1]
  by_cases h2 : c.toNat = 0xDF
  · rw [if_pos h2]; exact Or.inr (Or.inl (by decide))
  rw [if_neg h2]
  by_cases h3 : c.toNat = 0x17F
  · rw [if_pos h3]; exact Or.inr (Or.inl (by decide))
  rw [if_neg h3]
  by_cases h4 : c.toNat = 0x131
  · rw [if_pos h4]; exact Or.inr (Or.inl (by decide))
  rw [if_neg h4]
  by_cases h5 : c.toNat = 0xFB00
  · rw [if_pos h5]; exact Or.inr (Or.inl (by decide))
  rw [if_neg h5]
  by_cases h6 : c.toNat = 0xFB01
  · rw [if_pos h6]; exact Or.inr (Or.inl (by decide))
  rw [if_neg h6]
  by_cases h7 : c.toNat = 0xFB02
  · rw [if_pos h7]; exact Or.inr (Or.inl (by decide))
  rw [if_neg h7]
  by_cases h8 : c.toNat = 0xFB03
  · rw [if_pos h8]; exact Or.inr (Or.inl (by decide))
  rw [if_neg h8]
  by_cases h9 : c.toNat = 0xFB04
  · rw [if_pos h9]; exact Or.inr (Or.inl (by decide))
  rw [if_neg h9]
  by_cases h10 : c.toNat = 0xFB05
  · rw [if_pos h10]; exact Or.inr (Or.inl (by decide))
  rw [if_neg h10]
  by_cases h11 : c.toNat = 0xFB06
  · rw [if_pos h11]; exact Or.inr (Or.inl (by decide))
  rw [if_neg h11]
  exact Or.inr (Or.inr rfl)

theorem upperChar_ne_nil (c : Char) : upperChar c ≠ [] := by
  rcases upperChar_cases c with ⟨_, _, h⟩ | h | h
  · rw [h]; exact List.cons_ne_nil _ _
  · intro e
    rw [e] at h
    exact absurd h (by decide)
  · rw [h]; exact List.cons_ne_nil _ _

theorem ofNat_sub_ne_space (n : Nat) (h1 : 97 ≤ n) (h2 : n ≤ 122) : Char.ofNat (n - 32) ≠ ' ' := by
  interval_cases n <;> decide

theorem upperChar_getLast (c : Char) (hc : isJsWhitespace c = false) :
    (upperChar c).getLast? ≠ some ' ' := by
  rcases upperChar_cases c with ⟨h1, h2, h⟩ | h | h
  · rw [h, List.getLast?_singleton]
    intro e
    exact ofNat_sub_ne_space c.toNat h1 h2 (Option.some.inj e)
  · generalize upperChar c = u at h
    revert u
    decide
  · rw [h, List.getLast?_singleton]
    intro e
    have e' : c = ' ' := Option.some.inj e
    rw [e'] at hc
    exact absurd hc (by decide)

theorem upperFold_append (xs : List Char) (c : Char) :
    (xs ++ [c]).foldr (fun c acc => upperChar c ++ acc) []
      = xs.foldr (fun c acc => upperChar c ++ acc) [] ++ upperChar c := by
  induction xs with
  | nil => simp
  | cons x xs ih => simp [ih]

theorem trimChars_getLast (cs : List Char) (c : Char) (h : (trimChars cs).getLast? = some c) :
    isJsWhitespace c = false := by
  unfold trimChars at h
  rw [List.getLast?_reverse] at h
  have := List.head?_dropWhile_not isJsWhitespace (cs.dropWhile isJsWhitespace).reverse
  rw [h] at this
  simpa using this

theorem upper_trim_getLast (s : String) :
    (jsToUpperCase (jsTrim s)).data.getLast? ≠ some ' ' := by
  unfold jsToUpperCase jsTrim
  simp only
  rcases List.eq_nil_or_concat (trimChars s.data) with h | ⟨xs, c, h⟩
  · rw [h]
    intro e
    cases e
  · rw [List.concat_eq_append] at h
    rw [h, upperFold_append]
    have hc : isJsWhitespace c = false := by
      apply trimChars_getLast s.data c
      rw [h, List.getLast?_append_of_ne_nil _ (List.cons_ne_nil _ _)]
      rfl
    rw [List.getLast?_append_of_ne_nil _ (upperChar_ne_nil c)]
    exact upperChar_getLast c hc

theorem normalizePerf_ne_stab_dot (p : Option String) : normalizePerf p ≠ "STAB. " := by
  unfold normalizePerf
  cases p with
  | none => decide
  | some s =>
    simp only
    split
    · intro e
      have := upper_trim_getLast s
      rw [e] at this
      exact this (by decide)
    · decide

/-! ## The counters of the main loop -/

@[simp] theorem qOr0_eq (q : ℚ) : qOr0 q = q := by
  unfold qOr0
  split
  · rename_i h; exact h.symm
  · rfl

@[simp] theorem nOr0_eq (n : Nat) : nOr0 n = n := by
  unfold nOr0
  split
  · rename_i h; exact h.symm
  · rfl

theorem perfLoop_byBank (cs : List CaseWithFeedbacks) (st : PerfLoop) :
    (cs.foldl perfStep st).byBank = cs.foldl byBankStep st.byBank := by
  induction cs generalizing st with
  | nil => rfl
  | cons c cs ih => rw [List.foldl_cons, ih, List.foldl_cons]; rfl

theorem perfLoop_flowCount (cs : List CaseWithFeedbacks) (st : PerfLoop) :
    (cs.foldl perfStep st).flowCount = st.flowCount + (withLabel "FLOW" cs).length := by
  induction cs generalizing st with
  | nil => simp [withLabel]
  | cons c cs ih =>
    rw [List.foldl_cons, ih]
    simp only [withLabel, List.filter_cons, perfStep, perfOf]
    by_cases h : normalizePerf c.toCase.performance = "FLOW"
    · simp [h]; omega
    · simp [h]

theorem perfLoop_rbCount (cs : List CaseWithFeedbacks) (st : PerfLoop) :
    (cs.foldl perfStep st).rbCount = st.rbCount + (withLabel "RB" cs).length := by
  induction cs generalizing st with
  | nil => simp [withLabel]
  | cons c cs ih =>
    rw [List.foldl_cons, ih]
    simp only [withLabel, List.filter_cons, perfStep, perfOf]
    by_cases h : normalizePerf c.toCase.performance = "RB"
    · simp [h]; omega
    · simp [h]

theorem perfLoop_normCount (cs : List CaseWithFeedbacks) (st : PerfLoop) :
    (cs.foldl perfStep st).normCount = st.normCount + (withLabel "NORM" cs).length := by
  induction cs generalizing st with
  | nil => simp [withLabel]
  | cons c cs ih =>
    rw [List.foldl_cons, ih]
    simp only [withLabel, List.filter_cons, perfStep, perfOf]
    by_cases h : normalizePerf c.toCase.performance = "NORM"
    · simp [h]; omega
    · simp [h]

theorem perfLoop_stabCount (cs : List CaseWithFeedbacks) (st : PerfLoop) :
    (cs.foldl perfStep st).stabCount = st.stabCount + (withLabel "STAB" cs).length := by
  induction cs generalizing st with
  | nil => simp [withLabel]
  | cons c cs ih =>
    rw [List.foldl_cons, ih]
    simp only [withLabel, List.filter_cons, perfStep, perfOf]
    have hdot := normalizePerf_ne_stab_dot c.toCase.performance
    by_cases h : normalizePerf c.toCase.performance = "STAB"
    · simp [h]; omega
    · simp [h, hdot]

theorem perfLoop_posNotFlow (cs : List CaseWithFeedbacks) (st : PerfLoop) :
    (cs.foldl perfStep st).posNotFlow = st.posNotFlow + sumPos (notFlow cs) := by
  induction cs generalizing st with
  | nil => simp [notFlow, sumPos]
  | cons c cs ih =>
    rw [List.foldl_cons, ih]
    simp only [notFlow, sumPos, List.filter_cons, perfStep, perfOf] at *
    by_cases h : normalizePerf c.toCase.performance = "FLOW"
    · simp [h]
    · simp [h, add_assoc]

theorem perfLoop_posRB (cs : List CaseWithFeedbacks) (st : PerfLoop) :
    (cs.foldl perfStep st).posRB = st.posRB + sumPos (withLabel "RB" cs) := by
  induction cs generalizing st with
  | nil => simp [withLabel, sumPos]
  | cons c cs ih =>
    rw [List.foldl_cons, ih]
    simp only [withLabel, sumPos, List.filter_cons, perfStep, perfOf] at *
    by_cases h : normalizePerf c.toCase.performance = "RB"
    · simp [h, add_assoc]
    · simp [h]

theorem perfLoop_posNorm (cs : List CaseWithFeedbacks) (st : PerfLoop) :
    (cs.foldl perfStep st).posNorm = st.posNorm + sumPos (withLabel "NORM" cs) := by
  induction cs generalizing st with
  | nil => simp [withLabel, sumPos]
  | cons c cs ih =>
    rw [List.foldl_cons, ih]
    simp only [withLabel, sumPos, List.filter_cons, perfStep, perfOf] at *
    by_cases h : normalizePerf c.toCase.performance = "NORM"
    · simp [h, add_assoc]
    · simp [h]

theorem totalPOS_fold (cs : List CaseWithFeedbacks) (q : ℚ) :
    cs.foldl (fun sum c => sum + qOr0 c.toCase.pos_amount) q = q + sumPos cs := by
  induction cs generalizing q with
  | nil => simp [sumPos]
  | cons c cs ih =>
    rw [List.foldl_cons, ih]
    simp [sumPos, add_assoc]

/-! ## The four status counts -/

theorem label_counts_eq_filter (cs : List CaseWithFeedbacks) :
    (withLabel "FLOW" cs).length + (withLabel "RB" cs).length + (withLabel "NORM" cs).length
        + (withLabel "STAB" cs).length
      = (cs.filter (fun c => recognisedLabel (perfOf c))).length := by
  induction cs with
  | nil => rfl
  | cons c cs ih =>
    simp only [withLabel, List.filter_cons] at ih ⊢
    have r1 : recognisedLabel "FLOW" = true := by decide
    have r2 : recognisedLabel "RB" = true := by decide
    have r3 : recognisedLabel "NORM" = true := by decide
    have r4 : recognisedLabel "STAB" = true := by decide
    by_cases h1 : perfOf c = "FLOW"
    · simp [h1, r1]; omega
    · by_cases h2 : perfOf c = "RB"
      · simp [h2, r2]; omega
      · by_cases h3 : perfOf c = "NORM"
        · simp [h3, r3]; omega
        · by_cases h4 : perfOf c = "STAB"
          · simp [h4, r4]; omega
          · have hr : recognisedLabel (perfOf c) = false := by
              simp [recognisedLabel, h1, h2, h3, h4]
            simp [h1, h2, h3, h4, hr]; omega

theorem aggregate_counts (cs : List CaseWithFeedbacks) :
    (aggregatePerformance cs).totalCases = cs.length
      ∧ (aggregatePerformance cs).flowCount = (withLabel "FLOW" cs).length
      ∧ (aggregatePerformance cs).rbCount = (withLabel "RB" cs).length
      ∧ (aggregatePerformance cs).normCount = (withLabel "NORM" cs).length
      ∧ (aggregatePerformance cs).stabCount = (withLabel "STAB" cs).length := by
  simp [aggregatePerformance, perfLoop_flowCount, perfLoop_rbCount, perfLoop_normCount,
    perfLoop_stabCount, PerfLoop.init]

/-- C12: the four top-level status counts of `getExecutivePerformance` (computed by
`aggregatePerformance` from the cases of the query) add up to at most the number
of cases, with equality exactly when every case has a normalized label among FLOW,
RB, NORM, STAB. -/
theorem C12_status_counts_bounded_by_total (cs : List CaseWithFeedbacks) :
    (aggregatePerformance cs).flowCount + (aggregatePerformance cs).rbCount
          + (aggregatePerformance cs).normCount + (aggregatePerformance cs).stabCount
        ≤ (aggregatePerformance cs).totalCases
      ∧ ((aggregatePerformance cs).flowCount + (aggregatePerformance cs).rbCount
            + (aggregatePerformance cs).normCount + (aggregatePerformance cs).stabCount
          = (aggregatePerformance cs).totalCases
        ↔ ∀ c ∈ cs, normalizePerf c.toCase.performance ∈ ["FLOW", "RB", "NORM", "STAB"]) := by
  obtain ⟨h0, h1, h2, h3, h4⟩ := aggregate_counts cs
  rw [h0, h1, h2, h3, h4, label_counts_eq_filter]
  refine ⟨List.length_filter_le _ _, ?_⟩
  rw [List.filter_length_eq_length]
  constructor
  · intro h c hc
    have := h c hc
    simp only [recognisedLabel, perfOf, Bool.or_eq_true, decide_eq_true_eq] at this
    simp only [List.mem_cons, List.mem_singleton, List.not_mem_nil, or_false]
    tauto
  · intro h c hc
    have := h c hc
    simp only [List.mem_cons, List.mem_singleton, List.not_mem_nil, or_false] at this
    simp only [recognisedLabel, perfOf, Bool.or_eq_true, decide_eq_true_eq]
    tauto

/-! ## Rates with a zero denominator -/

theorem pctEval_eq_ite (n d : ℚ) : pctEval n d = some (if 0 < d then n / d * 100 else 0) := by
  unfold pctEval jsDiv
  by_cases h : 0 < d
  · rw [if_pos h, if_pos h, if_neg (ne_of_gt h)]
    rfl
  · rw [if_neg h, if_neg h]

theorem pct_eq (n d : ℚ) : pct n d = if 0 < d then n / d * 100 else 0 := by
  unfold pct
  simp only [pctEval_eq_ite, Option.get_some]

theorem pctEval_eq (n d : ℚ) : pctEval n d = some (pct n d) := by
  rw [pctEval_eq_ite, pct_eq]

theorem jsDiv_eq_none (n d : ℚ) : jsDiv n d = none ↔ d = 0 := by
  unfold jsDiv
  by_cases h : d = 0 <;> simp [h]

theorem pct_zero (n : ℚ) : pct n 0 = 0 := by
  simp [pct_eq]

theorem pct_zero_nat (n : ℚ) (d : Nat) (h : d = 0) : pct n d = 0 := by
  subst h
  simp [pct_eq]

theorem rateGuarded_pct (n d : ℚ) : rateGuarded n d (pct n d) :=
  ⟨pctEval_eq n d, fun h => by rw [h]; exact pct_zero n⟩

theorem bucketNode_rates (name : String) (m : Metrics) :
    rateGuarded (bucketNode name m).countNotFlow (bucketNode name m).totalCases
        (bucketNode name m).countNotFlowRate
      ∧ rateGuarded (bucketNode name m).posNotFlow (bucketNode name m).totalPOS
        (bucketNode name m).posNotFlowRate
      ∧ rateGuarded (bucketNode name m).rbCount (bucketNode name m).totalCases
        (bucketNode name m).rbCountRate
      ∧ rateGuarded (bucketNode name m).normCount (bucketNode name m).totalCases
        (bucketNode name m).normCountRate
      ∧ rateGuarded (bucketNode name m).posRB (bucketNode name m).totalPOS
        (bucketNode name m).posRBRate
      ∧ rateGuarded (bucketNode name m).posNorm (bucketNode name m).totalPOS
        (bucketNode name m).posNormRate := by
  simp only [bucketNode, qOr0_eq, nOr0_eq]
  exact ⟨rateGuarded_pct _ _, rateGuarded_pct _ _, rateGuarded_pct _ _, rateGuarded_pct _ _,
    rateGuarded_pct _ _, rateGuarded_pct _ _⟩

theorem productNode_rates (name : String) (p : ProdAcc) :
    rateGuarded (productNode name p).countNotFlow (productNode name p).totalCases
        (productNode name p).countNotFlowRate
      ∧ rateGuarded (productNode name p).posNotFlow (productNode name p).totalPOS
        (productNode name p).posNotFlowRate := by
  simp only [productNode, qOr0_eq, nOr0_eq]
  exact ⟨rateGuarded_pct _ _, rateGuarded_pct _ _⟩

theorem bankNode_rates (name : String) (b : BankAcc) :
    rateGuarded (bankNode name b).countNotFlow (bankNode name b).totalCases
        (bankNode name b).countNotFlowRate
      ∧ rateGuarded (bankNode name b).posNotFlow (bankNode name b).totalPOS
        (bankNode name b).posNotFlowRate
      ∧ rateGuarded (bankNode name b).posRB (bankNode name b).totalPOS (bankNode name b).posRBRate
      ∧ rateGuarded (bankNode name b).posNorm (bankNode name b).totalPOS
        (bankNode name b).posNormRate := by
  simp only [bankNode, qOr0_eq, nOr0_eq]
  exact ⟨rateGuarded_pct _ _, rateGuarded_pct _ _, rateGuarded_pct _ _, rateGuarded_pct _ _⟩

theorem mem_assignRanks (rows : List LbRow) (i : Nat) (r : LbRow) (h : r ∈ assignRanks i rows) :
    ∃ r0 ∈ rows, ∃ k, r = { r0 with rank := some k } := by
  induction rows generalizing i with
  | nil => simp [assignRanks] at h
  | cons r1 rest ih =>
    simp only [assignRanks, List.mem_cons] at h
    rcases h with h | h
    · exact ⟨r1, List.mem_cons_self _ _, i + 1, h⟩
    · obtain ⟨r0, hr0, k, hk⟩ := ih (i + 1) h
      exact ⟨r0, List.mem_cons_of_mem _ hr0, k, hk⟩

theorem mem_lbSort (rows : List LbRow) (r : LbRow) : r ∈ lbSort rows ↔ r ∈ rows :=
  (List.perm_insertionSort _ rows).mem_iff

theorem getLeaderboard_row (db : Db) (month year : Nat) (r : LbRow)
    (h : r ∈ getLeaderboard db month year) :
    ∃ (usersById : Obj User) (m : LbAcc) (k : Nat), r = { lbRow usersById m with rank := some k } := by
  simp only [getLeaderboard] at h
  obtain ⟨r0, hr0, k, hk⟩ := mem_assignRanks _ _ _ h
  rw [mem_lbSort] at hr0
  obtain ⟨hr0', _⟩ := List.mem_filter.1 hr0
  obtain ⟨m, _, hm⟩ := List.mem_map.1 hr0'
  exact ⟨_, m, k, by rw [hk, ← hm]⟩

theorem lbRow_rates (usersById : Obj User) (m : LbAcc) (k : Nat) :
    rateGuarded ({ lbRow usersById m with rank := some k } : LbRow).countNotFlow
        ({ lbRow usersById m with rank := some k } : LbRow).totalCases
        ({ lbRow usersById m with rank := some k } : LbRow).countNotFlowRate
      ∧ rateGuarded ({ lbRow usersById m with rank := some k } : LbRow).posNotFlow
        ({ lbRow usersById m with rank := some k } : LbRow).totalPOS
        ({ lbRow usersById m with rank := some k } : LbRow).posNotFlowRate
      ∧ rateGuarded ({ lbRow usersById m with rank := some k } : LbRow).posRB
        ({ lbRow usersById m with rank := some k } : LbRow).totalPOS
        ({ lbRow usersById m with rank := some k } : LbRow).posRBRate
      ∧ rateGuarded ({ lbRow usersById m with rank := some k } : LbRow).posNorm
        ({ lbRow usersById m with rank := some k } : LbRow).totalPOS
        ({ lbRow usersById m with rank := some k } : LbRow).posNormRate := by
  simp only [lbRow]
  exact ⟨rateGuarded_pct _ _, rateGuarded_pct _ _, rateGuarded_pct _ _, rateGuarded_pct _ _⟩

/-- C14: every rate of `getExecutivePerformance` (top level, bank, product and bucket
nodes) and of `getLeaderboard` is the value of the guarded expression
`d > 0 ? (n / d) * 100 : 0` on its numerator and denominator, obtained without
evaluating a division by zero (which `jsDiv` marks by `none`), and it is 0 when
the denominator, the case count or the outstanding amount of the node, is 0. -/
theorem C14_rates_are_zero_at_zero_denominator (cs : List CaseWithFeedbacks) :
    (∀ n d : ℚ, jsDiv n d = none ↔ d = 0)
      ∧ (rateGuarded (aggregatePerformance cs).totalVisitedCases (aggregatePerformance cs).totalCases
            (aggregatePerformance cs).visitRate
          ∧ rateGuarded (aggregatePerformance cs).recoveredPOS (aggregatePerformance cs).totalPOS
            (aggregatePerformance cs).recoveryRate
          ∧ rateGuarded (aggregatePerformance cs).posNotFlow (aggregatePerformance cs).totalPOS
            (aggregatePerformance cs).posNotFlowRate
          ∧ rateGuarded (aggregatePerformance cs).posRB (aggregatePerformance cs).totalPOS
            (aggregatePerformance cs).posRBRate
          ∧ rateGuarded (aggregatePerformance cs).posNorm (aggregatePerformance cs).totalPOS
            (aggregatePerformance cs).posNormRate)
      ∧ (∀ bank ∈ (aggregatePerformance cs).bankBreakdown,
          (rateGuarded bank.countNotFlow bank.totalCases bank.countNotFlowRate
              ∧ rateGuarded bank.posNotFlow bank.totalPOS bank.posNotFlowRate
              ∧ rateGuarded bank.posRB bank.totalPOS bank.posRBRate
              ∧ rateGuarded bank.posNorm bank.totalPOS bank.posNormRate)
            ∧ ∀ prod ∈ bank.products,
                (rateGuarded prod.countNotFlow prod.totalCases prod.countNotFlowRate
                    ∧ rateGuarded prod.posNotFlow prod.totalPOS prod.posNotFlowRate)
                  ∧ ∀ bkt ∈ prod.bkts,
                      rateGuarded bkt.countNotFlow bkt.totalCases bkt.countNotFlowRate
                        ∧ rateGuarded bkt.posNotFlow bkt.totalPOS bkt.posNotFlowRate
                        ∧ rateGuarded bkt.rbCount bkt.totalCases bkt.rbCountRate
                        ∧ rateGuarded bkt.normCount bkt.totalCases bkt.normCountRate
                        ∧ rateGuarded bkt.posRB bkt.totalPOS bkt.posRBRate
                        ∧ rateGuarded bkt.posNorm bkt.totalPOS bkt.posNormRate)
      ∧ ∀ (db : Db) (month year : Nat), ∀ row ∈ getLeaderboard db month year,
          rateGuarded row.countNotFlow row.totalCases row.countNotFlowRate
            ∧ rateGuarded row.posNotFlow row.totalPOS row.posNotFlowRate
            ∧ rateGuarded row.posRB row.totalPOS row.posRBRate
            ∧ rateGuarded row.posNorm row.totalPOS row.posNormRate := by
  refine ⟨jsDiv_eq_none, ?_, ?_, ?_⟩
  · simp only [aggregatePerformance]
    exact ⟨rateGuarded_pct _ _, rateGuarded_pct _ _, rateGuarded_pct _ _, rateGuarded_pct _ _,
      rateGuarded_pct _ _⟩
  · intro bank hbank
    simp only [aggregatePerformance, List.mem_map] at hbank
    obtain ⟨⟨bn, bacc⟩, _, rfl⟩ := hbank
    refine ⟨bankNode_rates bn bacc, ?_⟩
    intro prod hprod
    simp only [bankNode, List.mem_map] at hprod
    obtain ⟨⟨pn, pacc⟩, _, rfl⟩ := hprod
    refine ⟨productNode_rates pn pacc, ?_⟩
    intro bkt hbkt
    simp only [productNode, List.mem_map] at hbkt
    obtain ⟨⟨kn, kacc⟩, _, rfl⟩ := hbkt
    exact bucketNode_rates kn kacc
  · intro db month year row hrow
    obtain ⟨usersById, m, k, rfl⟩ := getLeaderboard_row db month year row hrow
    exact lbRow_rates usersById m k

/-- C14 at the empty case set: the visit rate is evaluated without a division, and
is 0. -/
theorem C14_rates_are_zero_witness :
    pctEval (aggregatePerformance []).totalVisitedCases (aggregatePerformance []).totalCases
        = some (aggregatePerformance []).visitRate
      ∧ (aggregatePerformance []).visitRate = 0 :=
  ⟨(C14_rates_are_zero_at_zero_denominator []).2.1.1.1,
    (C14_rates_are_zero_at_zero_denominator []).2.1.1.2 (by simp [aggregatePerformance])⟩

/-! ## The amount-weighted rates -/

theorem pos_fold (cs : List CaseWithFeedbacks) (q : ℚ) :
    cs.foldl (fun sum c => sum + c.toCase.pos_amount) q = q + sumPos cs := by
  have := totalPOS_fold cs q
  simpa using this

theorem aggregate_pos (cs : List CaseWithFeedbacks) :
    (aggregatePerformance cs).totalPOS = sumPos cs
      ∧ (aggregatePerformance cs).posNotFlow = sumPos (notFlow cs)
      ∧ (aggregatePerformance cs).posRB = sumPos (withLabel "RB" cs)
      ∧ (aggregatePerformance cs).posNorm = sumPos (withLabel "NORM" cs)
      ∧ (aggregatePerformance cs).posNotFlowRate = pct (sumPos (notFlow cs)) (sumPos cs)
      ∧ (aggregatePerformance cs).posRBRate = pct (sumPos (withLabel "RB" cs)) (sumPos cs)
      ∧ (aggregatePerformance cs).posNormRate = pct (sumPos (withLabel "NORM" cs)) (sumPos cs) := by
  simp [aggregatePerformance, perfLoop_posNotFlow, perfLoop_posRB, perfLoop_posNorm, pos_fold,
    PerfLoop.init]

theorem two_case_scenario (c1 c2 : CaseWithFeedbacks)
    (h1 : c1.toCase.performance = some "FLOW") (p1 : c1.toCase.pos_amount = 1000)
    (h2 : c2.toCase.performance = some "RB") (p2 : c2.toCase.pos_amount = 500) :
    sumPos [c1, c2] = 1500 ∧ sumPos (notFlow [c1, c2]) = 500
      ∧ sumPos (withLabel "RB" [c1, c2]) = 500 := by
  have e1 : perfOf c1 = "FLOW" := by rw [perfOf, h1]; decide
  have e2 : perfOf c2 = "RB" := by rw [perfOf, h2]; decide
  refine ⟨?_, ?_, ?_⟩
  · simp [sumPos, p1, p2]; norm_num
  · simp [sumPos, notFlow, List.filter_cons, e1, e2, p2]
  · simp [sumPos, withLabel, List.filter_cons, e1, e2, p2]

/-- C15: for a FLOW case of 1000 and an RB case of 500 the aggregator yields
totalPOS 1500, posNotFlow 500, posRB 500 and both rates 100/3; for every case set
posNotFlow is the sum of the outstanding amounts of the cases whose normalized
label is not FLOW, and with a positive totalPOS the rate is 100 times that sum
over totalPOS. -/
theorem C15_amount_weighted_rates (c1 c2 : CaseWithFeedbacks)
    (h1 : c1.toCase.performance = some "FLOW") (p1 : c1.toCase.pos_amount = 1000)
    (h2 : c2.toCase.performance = some "RB") (p2 : c2.toCase.pos_amount = 500) :
    (aggregatePerformance [c1, c2]).totalPOS = 1500
      ∧ (aggregatePerformance [c1, c2]).posNotFlow = 500
      ∧ (aggregatePerformance [c1, c2]).posRB = 500
      ∧ (aggregatePerformance [c1, c2]).posNotFlowRate = 100 / 3
      ∧ (aggregatePerformance [c1, c2]).posRBRate = 100 / 3
      ∧ (aggregatePerformance [c1, c2]).posNotFlowRate = 500 / 1500 * 100
      ∧ ∀ cs : List CaseWithFeedbacks,
          (aggregatePerformance cs).posNotFlow
              = ((cs.filter (fun c => decide (normalizePerf c.toCase.performance ≠ "FLOW"))).map
                  (fun c => c.toCase.pos_amount)).sum
            ∧ (0 < (aggregatePerformance cs).totalPOS →
                (aggregatePerformance cs).posNotFlowRate
                  = 100 * (aggregatePerformance cs).posNotFlow / (aggregatePerformance cs).totalPOS) := by
  obtain ⟨s1, s2, s3⟩ := two_case_scenario c1 c2 h1 p1 h2 p2
  obtain ⟨a1, a2, a3, _, a5, a6, _⟩ := aggregate_pos [c1, c2]
  rw [a1, a2, a3, a5, a6, s1, s2, s3]
  refine ⟨rfl, rfl, rfl, ?_, ?_, ?_, ?_⟩
  · simp [pct_eq]; norm_num
  · simp [pct_eq]; norm_num
  · simp [pct_eq]
  · intro cs
    obtain ⟨b1, b2, _, _, b5, _, _⟩ := aggregate_pos cs
    refine ⟨b2, ?_⟩
    intro hpos
    rw [b5, b2, b1]
    rw [b1] at hpos
    simp only [pct_eq, hpos, if_true]
    ring

/-- C15 at the two example cases. -/
theorem C15_amount_weighted_rates_witness :
    (aggregatePerformance [flowCase, rbCase]).totalPOS = 1500
      ∧ (aggregatePerformance [flowCase, rbCase]).posNotFlow = 500
      ∧ (aggregatePerformance [flowCase, rbCase]).posRB = 500
      ∧ (aggregatePerformance [flowCase, rbCase]).posNotFlowRate = 100 / 3
      ∧ (aggregatePerformance [flowCase, rbCase]).posRBRate = 100 / 3 :=
  have h := C15_amount_weighted_rates flowCase rbCase rfl rfl rfl rfl
  ⟨h.1, h.2.1, h.2.2.1, h.2.2.2.1, h.2.2.2.2.1⟩

/-! ## Entries of an object filled by a loop -/

theorem groupFold_entry {α γ : Type} (key : γ → String) (init : String → α) (upd : α → γ → α)
    (cs : List γ) (k : String) (v : α)
    (h : (k, v) ∈ Obj.entries
      (cs.foldl (fun o c => Obj.upsertWith o (key c) (init (key c)) (fun a => upd a c)) [])) :
    cs.filter (fun c => decide (key c = k)) ≠ []
      ∧ v = (cs.filter (fun c => decide (key c = k))).foldl upd (init k) := by
  have hn := groupFold_nodup key init upd cs [] (by simp)
  have hm := (Obj.entries_perm _ hn).mem_iff.1 h
  exact groupFold_get_nil key init upd cs k v (Obj.get_of_mem _ hn k v hm)

theorem groupFold_has_entry {α γ : Type} (key : γ → String) (init : String → α) (upd : α → γ → α)
    (cs : List γ) (c : γ) (hc : c ∈ cs) :
    key c ∈ (Obj.entries
      (cs.foldl (fun o c => Obj.upsertWith o (key c) (init (key c)) (fun a => upd a c)) [])).map
        Prod.fst := by
  have hn := groupFold_nodup key init upd cs [] (by simp)
  have hg := groupFold_get key init upd cs [] (key c)
  have hne : (cs.filter (fun c' => decide (key c' = key c))).isEmpty = false := by
    cases hf : cs.filter (fun c' => decide (key c' = key c)) with
    | nil =>
      have : c ∈ cs.filter (fun c' => decide (key c' = key c)) := by
        simp [List.mem_filter, hc]
      rw [hf] at this
      simp at this
    | cons a as => rfl
  rw [hne] at hg
  simp only [Bool.false_eq_true, if_false] at hg
  have hm := Obj.mem_of_get _ _ _ hg
  exact List.mem_map.2 ⟨_, (Obj.entries_perm _ hn).mem_iff.2 hm, rfl⟩

theorem upsertWith_sum {α : Type} (μ : α → Nat) (o : Obj α) (k : String) (i : α) (f : α → α)
    (hi : μ i = 0) (hf : ∀ a, μ (f a) = μ a + 1) :
    ((Obj.upsertWith o k i f).map (fun kv => μ kv.2)).sum = (o.map (fun kv => μ kv.2)).sum + 1 := by
  induction o with
  | nil => simp [Obj.upsertWith, Obj.set, Obj.get, hf, hi]
  | cons kv rest ih =>
    obtain ⟨k0, v0⟩ := kv
    by_cases e : k0 = k
    · subst e
      simp [Obj.upsertWith, Obj.set, Obj.get, hf]
      omega
    · simp only [Obj.upsertWith, Obj.set, Obj.get, e, if_false, List.map_cons, List.sum_cons] at ih ⊢
      rw [ih]
      omega

theorem groupFold_sum {α γ : Type} (μ : α → Nat) (key : γ → String) (init : String → α)
    (upd : α → γ → α) (hi : ∀ k, μ (init k) = 0) (hu : ∀ a c, μ (upd a c) = μ a + 1)
    (cs : List γ) (o : Obj α) :
    ((cs.foldl (fun o c => Obj.upsertWith o (key c) (init (key c)) (fun a => upd a c)) o).map
        (fun kv => μ kv.2)).sum
      = (o.map (fun kv => μ kv.2)).sum + cs.length := by
  induction cs generalizing o with
  | nil => simp
  | cons c cs ih =>
    rw [List.foldl_cons, ih, upsertWith_sum μ o _ _ _ (hi _) (fun a => hu a c)]
    simp only [List.length_cons]
    omega

theorem groupFold_entries_sum {α γ : Type} (μ : α → Nat) (key : γ → String) (init : String → α)
    (upd : α → γ → α) (hi : ∀ k, μ (init k) = 0) (hu : ∀ a c, μ (upd a c) = μ a + 1)
    (cs : List γ) :
    ((Obj.entries
        (cs.foldl (fun o c => Obj.upsertWith o (key c) (init (key c)) (fun a => upd a c)) [])).map
        (fun kv => μ kv.2)).sum = cs.length := by
  have hn := groupFold_nodup key init upd cs [] (by simp)
  rw [((Obj.entries_perm _ hn).map _).sum_eq, groupFold_sum μ key init upd hi hu]
  simp

/-! ## The counters of a node are those of the cases under its key -/

theorem metricsOver_cons (c : CaseWithFeedbacks) (cs : List CaseWithFeedbacks) :
    metricsOver (c :: cs) = (addCase Metrics.zero c).plus (metricsOver cs) := by
  simp only [metricsOver, addCase, Metrics.add, Metrics.zero, Metrics.plus, sumPos, sumCollected,
    notFlow, withLabel, perfOf, List.filter_cons, qOr0_eq, Metrics.mk.injEq, List.length_cons,
    List.map_cons, List.sum_cons]
  refine ⟨by omega, by ring, ?_, ?_, ?_, ?_, ?_, ?_, ?_, ?_, by ring, ?_⟩
  all_goals (split <;> simp_all <;> omega)

theorem addCase_plus (m : Metrics) (c : CaseWithFeedbacks) :
    addCase m c = m.plus (addCase Metrics.zero c) := by
  simp only [addCase, Metrics.add, Metrics.zero, Metrics.plus, Metrics.mk.injEq]
  refine ⟨?_, ?_, ?_, ?_, ?_, ?_, ?_, ?_, ?_, ?_, ?_, ?_⟩
  all_goals first
    | (split <;> simp)
    | simp

theorem Metrics.plus_assoc (a b c : Metrics) : (a.plus b).plus c = a.plus (b.plus c) := by
  simp only [Metrics.plus, Metrics.mk.injEq]
  refine ⟨by omega, by ring, by ring, by ring, by ring, by omega, by omega, by omega, by omega,
    by omega, by ring, by ring⟩

theorem Metrics.plus_zero (a : Metrics) : a.plus Metrics.zero = a := by
  cases a
  simp [Metrics.plus, Metrics.zero]

theorem Metrics.zero_plus (a : Metrics) : Metrics.zero.plus a = a := by
  cases a
  simp [Metrics.plus, Metrics.zero]

theorem metricsOver_nil : metricsOver [] = Metrics.zero := by
  simp [metricsOver, Metrics.zero, sumPos, sumCollected, notFlow, withLabel]

theorem foldl_addCase (cs : List CaseWithFeedbacks) (m : Metrics) :
    cs.foldl addCase m = m.plus (metricsOver cs) := by
  induction cs generalizing m with
  | nil => rw [List.foldl_nil, metricsOver_nil, Metrics.plus_zero]
  | cons c cs ih =>
    rw [List.foldl_cons, ih, metricsOver_cons, addCase_plus m c, Metrics.plus_assoc]

theorem foldl_addCase_zero (cs : List CaseWithFeedbacks) :
    cs.foldl addCase Metrics.zero = metricsOver cs := by
  rw [foldl_addCase, Metrics.zero_plus]

theorem foldl_prodUpdate (cs : List CaseWithFeedbacks) (p : ProdAcc) :
    cs.foldl prodUpdate p
      = { toMetrics := cs.foldl addCase p.toMetrics, bkts := cs.foldl bktsStep p.bkts } := by
  induction cs generalizing p with
  | nil => rfl
  | cons c cs ih => rw [List.foldl_cons, ih]; rfl

theorem foldl_bankUpdate (cs : List CaseWithFeedbacks) (b : BankAcc) :
    cs.foldl bankUpdate b
      = { toMetrics := cs.foldl addCase b.toMetrics, products := cs.foldl productsStep b.products } := by
  induction cs generalizing b with
  | nil => rfl
  | cons c cs ih => rw [List.foldl_cons, ih]; rfl

theorem byBank_entry (cs : List CaseWithFeedbacks) (name : String) (b : BankAcc)
    (h : (name, b) ∈ Obj.entries (cs.foldl byBankStep [])) :
    casesOfBank name cs ≠ [] ∧ b.toMetrics = metricsOver (casesOfBank name cs)
      ∧ b.products = (casesOfBank name cs).foldl productsStep [] := by
  obtain ⟨hne, hb⟩ := groupFold_entry bankKey (fun _ => BankAcc.empty) bankUpdate cs name b h
  rw [foldl_bankUpdate] at hb
  refine ⟨hne, ?_, ?_⟩
  · rw [hb]
    exact foldl_addCase_zero _
  · rw [hb]
    rfl

theorem products_entry (cs : List CaseWithFeedbacks) (name : String) (p : ProdAcc)
    (h : (name, p) ∈ Obj.entries (cs.foldl productsStep [])) :
    cs.filter (fun c => decide (productKey c = name)) ≠ []
      ∧ p.toMetrics = metricsOver (cs.filter (fun c => decide (productKey c = name)))
      ∧ p.bkts = (cs.filter (fun c => decide (productKey c = name))).foldl bktsStep [] := by
  obtain ⟨hne, hb⟩ := groupFold_entry productKey (fun _ => ProdAcc.empty) prodUpdate cs name p h
  rw [foldl_prodUpdate] at hb
  refine ⟨hne, ?_, ?_⟩
  · rw [hb]
    exact foldl_addCase_zero _
  · rw [hb]
    rfl

theorem foldl_bktsStep (cs : List CaseWithFeedbacks) (o : Obj Metrics) :
    cs.foldl bktsStep o
      = (cs.filter (fun c => !decide (bktKey c ∈ protoKeys))).foldl
          (fun o c => Obj.upsertWith o (bktKey c) Metrics.zero (fun a => addCase a c)) o := by
  induction cs generalizing o with
  | nil => rfl
  | cons c cs ih =>
    rw [List.foldl_cons, ih]
    by_cases h : bktKey c ∈ protoKeys
    · simp [bktsStep, h]
    · simp [bktsStep, h]

theorem bkts_entry (cs : List CaseWithFeedbacks) (name : String) (m : Metrics)
    (h : (name, m) ∈ Obj.entries (cs.foldl bktsStep [])) :
    cs.filter (fun c => decide (bktKey c = name)) ≠ []
      ∧ m = metricsOver (cs.filter (fun c => decide (bktKey c = name))) := by
  rw [foldl_bktsStep] at h
  obtain ⟨hne, hb⟩ := groupFold_entry bktKey (fun _ => Metrics.zero) addCase _ name m h
  rw [foldl_addCase_zero] at hb
  obtain ⟨c, hc⟩ := List.exists_mem_of_ne_nil _ hne
  simp only [List.mem_filter, Bool.not_eq_true', decide_eq_false_iff_not, decide_eq_true_eq] at hc
  have hname : name ∉ protoKeys := by
    rw [← hc.2]
    exact hc.1.2
  have hfilt : (cs.filter (fun c => !decide (bktKey c ∈ protoKeys))).filter
      (fun c => decide (bktKey c = name)) = cs.filter (fun c => decide (bktKey c = name)) := by
    rw [List.filter_filter]
    apply List.filter_congr
    intro x _
    by_cases hx : bktKey x = name
    · simp [hx, hname]
    · simp [hx]
  rw [hfilt] at hne hb
  exact ⟨hne, hb⟩

theorem aggregate_bankBreakdown (cs : List CaseWithFeedbacks) :
    (aggregatePerformance cs).bankBreakdown
      = (Obj.entries (cs.foldl byBankStep [])).map (fun kv => bankNode kv.1 kv.2) := by
  simp [aggregatePerformance, perfLoop_byBank, PerfLoop.init]

/-! ## The breakdown partitions the cases -/

theorem bank_nodes_sum (cs : List CaseWithFeedbacks) :
    (((Obj.entries (cs.foldl byBankStep [])).map (fun kv => bankNode kv.1 kv.2)).map
      (fun b => b.totalCases)).sum = cs.length := by
  have := groupFold_entries_sum (fun b : BankAcc => b.totalCases) bankKey (fun _ => BankAcc.empty)
    bankUpdate (fun _ => rfl) (fun _ _ => rfl) cs
  simpa [List.map_map, Function.comp_def, bankNode] using this

theorem product_nodes_sum (cs : List CaseWithFeedbacks) :
    (((Obj.entries (cs.foldl productsStep [])).map (fun kv => productNode kv.1 kv.2)).map
      (fun p => p.totalCases)).sum = cs.length := by
  have := groupFold_entries_sum (fun p : ProdAcc => p.totalCases) productKey
    (fun _ => ProdAcc.empty) prodUpdate (fun _ => rfl) (fun _ _ => rfl) cs
  simpa [List.map_map, Function.comp_def, productNode] using this

theorem bucket_nodes_sum (cs : List CaseWithFeedbacks) :
    (((Obj.entries (cs.foldl bktsStep [])).map (fun kv => bucketNode kv.1 kv.2)).map
      (fun k => k.totalCases)).sum
      = (cs.filter (fun c => !decide (bktKey c ∈ protoKeys))).length := by
  rw [foldl_bktsStep]
  have := groupFold_entries_sum (fun m : Metrics => m.totalCases) bktKey (fun _ => Metrics.zero)
    addCase (fun _ => rfl) (fun _ _ => rfl) (cs.filter (fun c => !decide (bktKey c ∈ protoKeys)))
  simpa [List.map_map, Function.comp_def, bucketNode] using this

theorem filter_not_add_filter {α : Type} (q : α → Bool) (l : List α) :
    (l.filter (fun x => !q x)).length + (l.filter q).length = l.length := by
  induction l with
  | nil => rfl
  | cons x xs ih =>
    cases hq : q x <;> simp [List.filter_cons, hq] <;> omega

theorem strOr_unknown (s : Option String) (h : s = none ∨ s = some "") : strOr s "UNKNOWN" = "UNKNOWN" := by
  rcases h with h | h <;> subst h <;> rfl

theorem mainLoopThrows_iff (cs : List CaseWithFeedbacks) :
    mainLoopThrows cs = true ↔ ∃ c ∈ cs, bankKey c ∈ protoKeys ∨ productKey c ∈ protoKeys := by
  simp [mainLoopThrows, List.any_eq_true]

theorem breakdown_sums (cs : List CaseWithFeedbacks) :
    (((aggregatePerformance cs).bankBreakdown.map (fun b => b.totalCases)).sum
        = (aggregatePerformance cs).totalCases)
      ∧ (∀ bank ∈ (aggregatePerformance cs).bankBreakdown,
          (bank.products.map (fun p => p.totalCases)).sum = bank.totalCases
            ∧ ∀ prod ∈ bank.products,
                (prod.bkts.map (fun k => k.totalCases)).sum
                    + (inheritedBktCases bank.bankName prod.productName cs).length
                  = prod.totalCases)
      ∧ ∀ c ∈ cs, bankKey c ∈ (aggregatePerformance cs).bankBreakdown.map (fun b => b.bankName) := by
  rw [aggregate_bankBreakdown]
  refine ⟨?_, ?_, ?_⟩
  · rw [bank_nodes_sum]
    rfl
  · intro bank hbank
    obtain ⟨⟨bn, b⟩, hmem, rfl⟩ := List.mem_map.1 hbank
    obtain ⟨_, hm, hp⟩ := byBank_entry cs bn b hmem
    constructor
    · simp only [bankNode, nOr0_eq, hp]
      rw [product_nodes_sum, hm]
      rfl
    · intro prod hprod
      simp only [bankNode, hp] at hprod
      obtain ⟨⟨pn, p⟩, hpmem, rfl⟩ := List.mem_map.1 hprod
      obtain ⟨_, hpm, hpb⟩ := products_entry _ pn p hpmem
      simp only [productNode, bankNode, nOr0_eq, hpb]
      rw [bucket_nodes_sum, hpm]
      exact filter_not_add_filter (fun c => decide (bktKey c ∈ protoKeys))
        ((casesOfBank bn cs).filter (fun c => decide (productKey c = pn)))
  · intro c hc
    have := groupFold_has_entry bankKey (fun _ => BankAcc.empty) bankUpdate cs c hc
    obtain ⟨kv, hkv, hk⟩ := List.mem_map.1 this
    exact List.mem_map.2 ⟨bankNode kv.1 kv.2, List.mem_map.2 ⟨kv, hkv, rfl⟩, by simpa [bankNode] using hk⟩

/-- C13: `getExecutivePerformance` returns a breakdown exactly when no case has a
bank key or product key that is a property name inherited from `Object.prototype`
(`protoKeys`); otherwise its main loop throws. In a returned breakdown the case
counts of the bank nodes add up to the total case count, and those of the product
nodes of a bank to the count of the bank; the counts of the bucket nodes of a
product add up to the count of the product less the cases of that product whose
bucket key is such an inherited name, for which no bucket node exists: to the count
of the product when there is no such case. Every case lies under the bank node of
its key, which is UNKNOWN when the bank is missing (likewise product and
bucket). -/
theorem C13_breakdown_partitions_the_cases (cs : List CaseWithFeedbacks) :
    (performanceResult cs = none
        ↔ ∃ c ∈ cs, bankKey c ∈ protoKeys ∨ productKey c ∈ protoKeys)
      ∧ ((∀ c ∈ cs, bankKey c ∉ protoKeys ∧ productKey c ∉ protoKeys) →
          performanceResult cs = some (aggregatePerformance cs))
      ∧ (∀ p, performanceResult cs = some p →
          ((p.bankBreakdown.map (fun b => b.totalCases)).sum = p.totalCases)
            ∧ (∀ bank ∈ p.bankBreakdown,
                (bank.products.map (fun q => q.totalCases)).sum = bank.totalCases
                  ∧ ∀ prod ∈ bank.products,
                      (prod.bkts.map (fun k => k.totalCases)).sum
                          + (inheritedBktCases bank.bankName prod.productName cs).length
                        = prod.totalCases
                      ∧ ((∀ c ∈ cs, bktKey c ∉ protoKeys) →
                          (prod.bkts.map (fun k => k.totalCases)).sum = prod.totalCases))
            ∧ ∀ c ∈ cs, bankKey c ∈ p.bankBreakdown.map (fun b => b.bankName))
      ∧ ∀ c : CaseWithFeedbacks,
          ((c.toCase.bank_name = none ∨ c.toCase.bank_name = some "") → bankKey c = "UNKNOWN")
            ∧ ((c.toCase.product_type = none ∨ c.toCase.product_type = some "") →
              productKey c = "UNKNOWN")
            ∧ ((c.toCase.bkt = none ∨ c.toCase.bkt = some "") → bktKey c = "UNKNOWN") := by
  refine ⟨?_, ?_, ?_, ?_⟩
  · rw [← mainLoopThrows_iff]
    unfold performanceResult
    cases mainLoopThrows cs <;> simp
  · intro h
    have : mainLoopThrows cs = false := by
      rw [← Bool.not_eq_true, mainLoopThrows_iff]
      rintro ⟨c, hc, hk⟩
      rcases hk with hk | hk
      · exact (h c hc).1 hk
      · exact (h c hc).2 hk
    simp [performanceResult, this]
  · intro p hp
    have hpe : p = aggregatePerformance cs := by
      unfold performanceResult at hp
      split at hp
      · cases hp
      · exact (Option.some.inj hp).symm
    subst hpe
    obtain ⟨h1, h2, h3⟩ := breakdown_sums cs
    refine ⟨h1, ?_, h3⟩
    intro bank hbank
    refine ⟨(h2 bank hbank).1, ?_⟩
    intro prod hprod
    have hsum := (h2 bank hbank).2 prod hprod
    refine ⟨hsum, ?_⟩
    intro hno
    have hnil : inheritedBktCases bank.bankName prod.productName cs = [] := by
      unfold inheritedBktCases casesOfProduct casesOfBank
      rw [List.filter_eq_nil_iff]
      intro c hc
      have hc' : c ∈ cs := List.mem_of_mem_filter (List.mem_of_mem_filter hc)
      simp [hno c hc']
    rw [hnil] at hsum
    simpa using hsum
  · intro c
    exact ⟨strOr_unknown _, strOr_unknown _, strOr_unknown _⟩

/-- C13, inherited bucket name: for one case of bank HDFC and product PL whose bucket
is named `constructor` the function returns, the single product node counts 1 case
and has no bucket node, so the counts of its bucket nodes add up to 0. -/
theorem C13_bucket_named_constructor_counterexample :
    performanceResult [constructorBktCase] = some (aggregatePerformance [constructorBktCase])
      ∧ (aggregatePerformance [constructorBktCase]).bankBreakdown.map
          (fun b => b.products.map
            (fun q => (q.productName, q.totalCases, q.bkts.map (fun k => k.totalCases))))
        = [[("PL", 1, [])]]
      ∧ ∃ bank ∈ (aggregatePerformance [constructorBktCase]).bankBreakdown,
          ∃ prod ∈ bank.products,
            (prod.bkts.map (fun k => k.totalCases)).sum ≠ prod.totalCases := by
  have hres : performanceResult [constructorBktCase]
      = some (aggregatePerformance [constructorBktCase]) := by
    have : mainLoopThrows [constructorBktCase] = false := by decide
    simp [performanceResult, this]
  have hbd : (aggregatePerformance [constructorBktCase]).bankBreakdown.map
      (fun b => b.products.map
        (fun q => (q.productName, q.totalCases, q.bkts.map (fun k => k.totalCases))))
      = [[("PL", 1, [])]] := by
    decide
  refine ⟨hres, hbd, ?_⟩
  cases hb : (aggregatePerformance [constructorBktCase]).bankBreakdown with
  | nil => rw [hb] at hbd; simp at hbd
  | cons bank rest =>
    rw [hb] at hbd
    simp only [List.map_cons, List.cons.injEq] at hbd
    cases hq : bank.products with
    | nil => rw [hq] at hbd; simp at hbd
    | cons prod prest =>
      rw [hq] at hbd
      simp only [List.map_cons, List.cons.injEq, Prod.mk.injEq] at hbd
      refine ⟨bank, List.mem_cons_self _ _, prod, by rw [hq]; exact List.mem_cons_self _ _, ?_⟩
      rw [hbd.1.1.2.2, hbd.1.1.2.1]
      decide

/-! ## The metrics carried by the nodes of the breakdown -/

theorem bankNode_metrics (cs : List CaseWithFeedbacks) (bn : String) (b : BankAcc)
    (hm : b.toMetrics = metricsOver (casesOfBank bn cs)) :
    (bankNode bn b).bankName = bn
      ∧ (bankNode bn b).totalCases = (metricsOver (casesOfBank bn cs)).totalCases
      ∧ (bankNode bn b).totalPOS = (metricsOver (casesOfBank bn cs)).totalPOS
      ∧ (bankNode bn b).flowCount = (metricsOver (casesOfBank bn cs)).flowCount
      ∧ (bankNode bn b).rbCount = (metricsOver (casesOfBank bn cs)).rbCount
      ∧ (bankNode bn b).normCount = (metricsOver (casesOfBank bn cs)).normCount
      ∧ (bankNode bn b).stabCount = (metricsOver (casesOfBank bn cs)).stabCount
      ∧ (bankNode bn b).posNotFlow = (metricsOver (casesOfBank bn cs)).posNotFlow
      ∧ (bankNode bn b).posRB = (metricsOver (casesOfBank bn cs)).posRB
      ∧ (bankNode bn b).posNorm = (metricsOver (casesOfBank bn cs)).posNorm
      ∧ (bankNode bn b).resolvedCount = (metricsOver (casesOfBank bn cs)).resolvedCount
      ∧ (bankNode bn b).recoveredAmount = (metricsOver (casesOfBank bn cs)).recoveredAmount
      ∧ (bankNode bn b).paidRecoveredAmount
          = (metricsOver (casesOfBank bn cs)).paidRecoveredAmount := by
  simp [bankNode, ← hm]

theorem productNode_metrics (L : List CaseWithFeedbacks) (pn : String) (p : ProdAcc)
    (hm : p.toMetrics = metricsOver L) :
    (productNode pn p).productName = pn
      ∧ (productNode pn p).totalCases = (metricsOver L).totalCases
      ∧ (productNode pn p).totalPOS = (metricsOver L).totalPOS
      ∧ (productNode pn p).flowCount = (metricsOver L).flowCount
      ∧ (productNode pn p).rbCount = (metricsOver L).rbCount
      ∧ (productNode pn p).normCount = (metricsOver L).normCount
      ∧ (productNode pn p).stabCount = (metricsOver L).stabCount
      ∧ (productNode pn p).posNotFlow = (metricsOver L).posNotFlow
      ∧ (productNode pn p).resolvedCount = (metricsOver L).resolvedCount
      ∧ (productNode pn p).recoveredAmount = (metricsOver L).recoveredAmount
      ∧ (productNode pn p).paidRecoveredAmount = (metricsOver L).paidRecoveredAmount := by
  simp [productNode, ← hm]

theorem bucketNode_metrics (L : List CaseWithFeedbacks) (kn : String) (m : Metrics)
    (hm : m = metricsOver L) :
    (bucketNode kn m).bkt = kn
      ∧ (bucketNode kn m).totalCases = (metricsOver L).totalCases
      ∧ (bucketNode kn m).totalPOS = (metricsOver L).totalPOS
      ∧ (bucketNode kn m).flowCount = (metricsOver L).flowCount
      ∧ (bucketNode kn m).rbCount = (metricsOver L).rbCount
      ∧ (bucketNode kn m).normCount = (metricsOver L).normCount
      ∧ (bucketNode kn m).stabCount = (metricsOver L).stabCount
      ∧ (bucketNode kn m).posNotFlow = (metricsOver L).posNotFlow
      ∧ (bucketNode kn m).posRB = (metricsOver L).posRB
      ∧ (bucketNode kn m).posNorm = (metricsOver L).posNorm
      ∧ (bucketNode kn m).recoveredAmount = (metricsOver L).recoveredAmount
      ∧ (bucketNode kn m).paidRecoveredAmount = (metricsOver L).paidRecoveredAmount := by
  simp [bucketNode, ← hm]

/-- C16 (amended): every node of the returned breakdown carries metrics computed over
exactly the cases under its key. A bank node carries the whole set (case count,
outstanding amount, the four status counts, posNotFlow, posRB, posNorm, resolved
count, recovered and non-FLOW recovered amount); a product node carries it without
posRB and posNorm; a bucket node carries it without the resolved count. -/
theorem C16_nodes_carry_the_metrics_of_their_cases (cs : List CaseWithFeedbacks) :
    ∀ bank ∈ (aggregatePerformance cs).bankBreakdown,
      casesOfBank bank.bankName cs ≠ []
        ∧ bank.totalCases = (casesOfBank bank.bankName cs).length
        ∧ bank.totalCases = (metricsOver (casesOfBank bank.bankName cs)).totalCases
        ∧ bank.totalPOS = (metricsOver (casesOfBank bank.bankName cs)).totalPOS
        ∧ bank.flowCount = (metricsOver (casesOfBank bank.bankName cs)).flowCount
        ∧ bank.rbCount = (metricsOver (casesOfBank bank.bankName cs)).rbCount
        ∧ bank.normCount = (metricsOver (casesOfBank bank.bankName cs)).normCount
        ∧ bank.stabCount = (metricsOver (casesOfBank bank.bankName cs)).stabCount
        ∧ bank.posNotFlow = (metricsOver (casesOfBank bank.bankName cs)).posNotFlow
        ∧ bank.posRB = (metricsOver (casesOfBank bank.bankName cs)).posRB
        ∧ bank.posNorm = (metricsOver (casesOfBank bank.bankName cs)).posNorm
        ∧ bank.resolvedCount = (metricsOver (casesOfBank bank.bankName cs)).resolvedCount
        ∧ bank.recoveredAmount = (metricsOver (casesOfBank bank.bankName cs)).recoveredAmount
        ∧ bank.paidRecoveredAmount
            = (metricsOver (casesOfBank bank.bankName cs)).paidRecoveredAmount
        ∧ ∀ prod ∈ bank.products,
            casesOfProduct bank.bankName prod.productName cs ≠ []
              ∧ prod.totalCases
                  = (metricsOver (casesOfProduct bank.bankName prod.productName cs)).totalCases
              ∧ prod.totalPOS
                  = (metricsOver (casesOfProduct bank.bankName prod.productName cs)).totalPOS
              ∧ prod.flowCount
                  = (metricsOver (casesOfProduct bank.bankName prod.productName cs)).flowCount
              ∧ prod.rbCount
                  = (metricsOver (casesOfProduct bank.bankName prod.productName cs)).rbCount
              ∧ prod.normCount
                  = (metricsOver (casesOfProduct bank.bankName prod.productName cs)).normCount
              ∧ prod.stabCount
                  = (metricsOver (casesOfProduct bank.bankName prod.productName cs)).stabCount
              ∧ prod.posNotFlow
                  = (metricsOver (casesOfProduct bank.bankName prod.productName cs)).posNotFlow
              ∧ prod.resolvedCount
                  = (metricsOver (casesOfProduct bank.bankName prod.productName cs)).resolvedCount
              ∧ prod.recoveredAmount
                  = (metricsOver (casesOfProduct bank.bankName prod.productName cs)).recoveredAmount
              ∧ prod.paidRecoveredAmount
                  = (metricsOver
                      (casesOfProduct bank.bankName prod.productName cs)).paidRecoveredAmount
              ∧ ∀ bkt ∈ prod.bkts,
                  casesOfBucket bank.bankName prod.productName bkt.bkt cs ≠ []
                    ∧ bkt.totalCases
                        = (metricsOver (casesOfBucket bank.bankName prod.productName bkt.bkt
                            cs)).totalCases
                    ∧ bkt.totalPOS
                        = (metricsOver (casesOfBucket bank.bankName prod.productName bkt.bkt
                            cs)).totalPOS
                    ∧ bkt.flowCount
                        = (metricsOver (casesOfBucket bank.bankName prod.productName bkt.bkt
                            cs)).flowCount
                    ∧ bkt.rbCount
                        = (metricsOver (casesOfBucket bank.bankName prod.productName bkt.bkt
                            cs)).rbCount
                    ∧ bkt.normCount
                        = (metricsOver (casesOfBucket bank.bankName prod.productName bkt.bkt
                            cs)).normCount
                    ∧ bkt.stabCount
                        = (metricsOver (casesOfBucket bank.bankName prod.productName bkt.bkt
                            cs)).stabCount
                    ∧ bkt.posNotFlow
                        = (metricsOver (casesOfBucket bank.bankName prod.productName bkt.bkt
                            cs)).posNotFlow
                    ∧ bkt.posRB
                        = (metricsOver (casesOfBucket bank.bankName prod.productName bkt.bkt
                            cs)).posRB
                    ∧ bkt.posNorm
                        = (metricsOver (casesOfBucket bank.bankName prod.productName bkt.bkt
                            cs)).posNorm
                    ∧ bkt.recoveredAmount
                        = (metricsOver (casesOfBucket bank.bankName prod.productName bkt.bkt
                            cs)).recoveredAmount
                    ∧ bkt.paidRecoveredAmount
                        = (metricsOver (casesOfBucket bank.bankName prod.productName bkt.bkt
                            cs)).paidRecoveredAmount := by
  intro bank hbank
  rw [aggregate_bankBreakdown] at hbank
  obtain ⟨⟨bn, b⟩, hmem, rfl⟩ := List.mem_map.1 hbank
  obtain ⟨hne, hm, hp⟩ := byBank_entry cs bn b hmem
  obtain ⟨n0, n1, n2, n3, n4, n5, n6, n7, n8, n9, n10, n11, n12⟩ := bankNode_metrics cs bn b hm
  rw [n0]
  refine ⟨hne, n1, n1, n2, n3, n4, n5, n6, n7, n8, n9, n10, n11, n12, ?_⟩
  intro prod hprod
  simp only [bankNode, hp] at hprod
  obtain ⟨⟨pn, p⟩, hpmem, rfl⟩ := List.mem_map.1 hprod
  obtain ⟨hpne, hpm, hpb⟩ := products_entry _ pn p hpmem
  obtain ⟨q0, q1, q2, q3, q4, q5, q6, q7, q8, q9, q10⟩ :=
    productNode_metrics (casesOfProduct bn pn cs) pn p hpm
  rw [q0]
  refine ⟨hpne, q1, q2, q3, q4, q5, q6, q7, q8, q9, q10, ?_⟩
  intro bkt hbkt
  simp only [productNode, hpb] at hbkt
  obtain ⟨⟨kn, m⟩, hkmem, rfl⟩ := List.mem_map.1 hbkt
  obtain ⟨hkne, hkm⟩ := bkts_entry _ kn m hkmem
  obtain ⟨r0, r1, r2, r3, r4, r5, r6, r7, r8, r9, r10, r11⟩ :=
    bucketNode_metrics (casesOfBucket bn pn kn cs) kn m hkm
  rw [r0]
  exact ⟨hkne, r1, r2, r3, r4, r5, r6, r7, r8, r9, r10, r11⟩

/-- C16 as stated fails: the RB example case, once with status PAID and once not
resolved, gives the same bucket nodes although the numbers of resolved cases under
the bucket differ; a bucket node carries no resolved-case count. -/
theorem C16_bucket_node_without_resolved_count_counterexample :
    bucketNodesOf (aggregatePerformance [paidCase]) = bucketNodesOf (aggregatePerformance [rbCase])
      ∧ (metricsOver (casesOfBucket "HDFC" "PL" "B1" [paidCase])).resolvedCount = 1
      ∧ (metricsOver (casesOfBucket "HDFC" "PL" "B1" [rbCase])).resolvedCount = 0 := by
  refine ⟨?_, ?_, ?_⟩
  · rfl
  · decide
  · decide

/-! ## A bank node at the example cases -/

theorem bankBreakdown_has_node (cs : List CaseWithFeedbacks) (c : CaseWithFeedbacks) (hc : c ∈ cs) :
    ∃ bank ∈ (aggregatePerformance cs).bankBreakdown, bank.bankName = bankKey c := by
  rw [aggregate_bankBreakdown]
  have := groupFold_has_entry bankKey (fun _ => BankAcc.empty) bankUpdate cs c hc
  obtain ⟨kv, hkv, hk⟩ := List.mem_map.1 this
  exact ⟨bankNode kv.1 kv.2, List.mem_map.2 ⟨kv, hkv, rfl⟩, by simpa [bankNode] using hk⟩

/-- C16 (amended) at the two example cases: the breakdown has a node of bank HDFC,
which counts the one case of that bank, labelled RB. -/
theorem C16_nodes_carry_the_metrics_witness :
    ∃ bank ∈ (aggregatePerformance [flowCase, rbCase]).bankBreakdown,
      bank.bankName = "HDFC" ∧ bank.totalCases = 1
        ∧ bank.rbCount = (metricsOver (casesOfBank "HDFC" [flowCase, rbCase])).rbCount := by
  obtain ⟨bank, hmem, hname⟩ := bankBreakdown_has_node [flowCase, rbCase] rbCase
    (List.mem_cons_of_mem _ (List.mem_cons_self _ _))
  have h := C16_nodes_carry_the_metrics_of_their_cases [flowCase, rbCase] bank hmem
  have hk : bankKey rbCase = "HDFC" := by decide
  rw [hk] at hname
  rw [hname] at h
  have hl : (casesOfBank "HDFC" [flowCase, rbCase]).length = 1 := by decide
  exact ⟨bank, hmem, hname, h.2.1.trans hl, h.2.2.2.2.2.1⟩

/-! ## The leaderboard is sorted and ranked -/

theorem lbCompare_le_iff (a b : LbRow) : lbCompare a b ≤ 0 ↔ lbKeyGE a b := by
  unfold lbCompare lbKeyGE
  simp only [qOr0_eq]
  by_cases h1 : b.posNotFlowRate = a.posNotFlowRate
  · by_cases h2 : b.posRBRate + b.posNormRate = a.posRBRate + a.posNormRate
    · simp only [h1, h2, ne_eq, not_true_eq_false, if_false, gt_iff_lt, lt_self_iff_false,
        true_and, false_or, ge_iff_le, sub_nonpos]
    · simp only [h1, h2, ne_eq, not_true_eq_false, if_false, not_false_eq_true, if_true,
        gt_iff_lt, lt_self_iff_false, true_and, false_or, sub_nonpos]
      constructor
      · intro h
        exact Or.inl (lt_of_le_of_ne h h2)
      · rintro (h | ⟨h, _⟩)
        · exact le_of_lt h
        · exact absurd h.symm h2
  · simp only [h1, ne_eq, not_false_eq_true, if_true, sub_nonpos, gt_iff_lt]
    constructor
    · intro h
      exact Or.inl (lt_of_le_of_ne h h1)
    · rintro (h | ⟨h, _⟩)
      · exact le_of_lt h
      · exact absurd h.symm h1

theorem lbKeyGE_total (a b : LbRow) : lbKeyGE a b ∨ lbKeyGE b a := by
  unfold lbKeyGE
  rcases lt_trichotomy a.posNotFlowRate b.posNotFlowRate with h | h | h
  · exact Or.inr (Or.inl h)
  · rcases lt_trichotomy (a.posRBRate + a.posNormRate) (b.posRBRate + b.posNormRate) with
      h2 | h2 | h2
    · exact Or.inr (Or.inr ⟨h.symm, Or.inl h2⟩)
    · rcases le_total a.totalPOS b.totalPOS with h3 | h3
      · exact Or.inr (Or.inr ⟨h.symm, Or.inr ⟨h2.symm, h3⟩⟩)
      · exact Or.inl (Or.inr ⟨h, Or.inr ⟨h2, h3⟩⟩)
    · exact Or.inl (Or.inr ⟨h, Or.inl h2⟩)
  · exact Or.inl (Or.inl h)

theorem lbKeyGE_trans (a b c : LbRow) (h1 : lbKeyGE a b) (h2 : lbKeyGE b c) : lbKeyGE a c := by
  unfold lbKeyGE at *
  rcases h1 with h1 | ⟨e1, h1⟩
  · rcases h2 with h2 | ⟨e2, _⟩
    · exact Or.inl (lt_trans h2 h1)
    · exact Or.inl (e2 ▸ h1)
  · rcases h2 with h2 | ⟨e2, h2⟩
    · exact Or.inl (e1 ▸ h2)
    · refine Or.inr ⟨e1.trans e2, ?_⟩
      rcases h1 with h1 | ⟨f1, h1⟩
      · rcases h2 with h2 | ⟨f2, _⟩
        · exact Or.inl (lt_trans h2 h1)
        · exact Or.inl (f2 ▸ h1)
      · rcases h2 with h2 | ⟨f2, h2⟩
        · exact Or.inl (f1 ▸ h2)
        · exact Or.inr ⟨f1.trans f2, le_trans h2 h1⟩

theorem lbSort_sorted (rows : List LbRow) : (lbSort rows).Pairwise lbKeyGE := by
  haveI : IsTotal LbRow (fun a b => lbCompare a b ≤ 0) :=
    ⟨fun a b => by
      rcases lbKeyGE_total a b with h | h
      · exact Or.inl ((lbCompare_le_iff a b).2 h)
      · exact Or.inr ((lbCompare_le_iff b a).2 h)⟩
  haveI : IsTrans LbRow (fun a b => lbCompare a b ≤ 0) :=
    ⟨fun a b c h1 h2 =>
      (lbCompare_le_iff a c).2
        (lbKeyGE_trans a b c ((lbCompare_le_iff a b).1 h1) ((lbCompare_le_iff b c).1 h2))⟩
  have h := List.sorted_insertionSort (fun a b : LbRow => lbCompare a b ≤ 0) rows
  exact List.Pairwise.imp (fun {a b} hab => (lbCompare_le_iff a b).1 hab) h

theorem lbKeyGE_rank (a b : LbRow) (i j : Option Nat) :
    lbKeyGE { a with rank := i } { b with rank := j } ↔ lbKeyGE a b := Iff.rfl

theorem assignRanks_pairwise (rows : List LbRow) (i : Nat) (h : rows.Pairwise lbKeyGE) :
    (assignRanks i rows).Pairwise lbKeyGE := by
  induction rows generalizing i with
  | nil => simp [assignRanks]
  | cons r rest ih =>
    rw [List.pairwise_cons] at h
    simp only [assignRanks, List.pairwise_cons]
    refine ⟨?_, ih (i + 1) h.2⟩
    intro r' hr'
    obtain ⟨r0, hr0, k, rfl⟩ := mem_assignRanks rest (i + 1) r' hr'
    exact (lbKeyGE_rank r r0 _ _).2 (h.1 r0 hr0)

theorem assignRanks_length (rows : List LbRow) (i : Nat) :
    (assignRanks i rows).length = rows.length := by
  induction rows generalizing i with
  | nil => rfl
  | cons r rest ih => simp [assignRanks, ih]

theorem assignRanks_rank (rows : List LbRow) (i : Nat) :
    (assignRanks i rows).map (fun r => r.rank) = (List.range' (i + 1) rows.length).map some := by
  induction rows generalizing i with
  | nil => rfl
  | cons r rest ih => simp [assignRanks, ih, List.range'_succ]

/-- C17: the rows returned by `getLeaderboard` carry the ranks 1, 2, ..., N in list
order, and the list is sorted by posNotFlowRate, then posRBRate + posNormRate, then
totalPOS, all descending: every row is not smaller than each later row, in
particular than the next one. -/
theorem C17_leaderboard_ranks_are_dense_and_sorted (db : Db) (month year : Nat) :
    (getLeaderboard db month year).map (fun r => r.rank)
        = (List.range' 1 (getLeaderboard db month year).length).map some
      ∧ (getLeaderboard db month year).Pairwise lbKeyGE
      ∧ (getLeaderboard db month year).Chain' lbKeyGE := by
  have hp : (getLeaderboard db month year).Pairwise lbKeyGE :=
    assignRanks_pairwise _ 0 (lbSort_sorted _)
  refine ⟨?_, hp, hp.chain'⟩
  simp only [getLeaderboard, assignRanks_rank, assignRanks_length]

/-! ## Who appears on the leaderboard -/

theorem assignRanks_ids (rows : List LbRow) (i : Nat) :
    (assignRanks i rows).map (fun r => r.id) = rows.map (fun r => r.id) := by
  induction rows generalizing i with
  | nil => rfl
  | cons r rest ih => simp [assignRanks, ih]

theorem foldl_lbUpdate_executiveId (cs : List LbCase) (a : LbAcc) :
    (cs.foldl lbUpdate a).executiveId = a.executiveId := by
  induction cs generalizing a with
  | nil => rfl
  | cons c cs ih => rw [List.foldl_cons, ih]; rfl

theorem mem_leaderboardCases (cases : List Case) (month year : Nat) (k : String) :
    (∃ lc ∈ leaderboardCases cases month year, lc.executiveId = k)
      ↔ ∃ c ∈ cases, c.month = month ∧ c.year = year ∧ c.executiveId = some k := by
  simp only [leaderboardCases, List.mem_filterMap]
  constructor
  · rintro ⟨lc, ⟨c, hc, hlc⟩, hk⟩
    by_cases hmy : c.month = month ∧ c.year = year
    · simp only [hmy, and_self, if_true] at hlc
      cases he : c.executiveId with
      | none => simp [he] at hlc
      | some e =>
        simp only [he, Option.map_some', Option.some.injEq] at hlc
        subst hlc
        exact ⟨c, hc, hmy.1, hmy.2, by rw [he, ← hk]⟩
    · simp [hmy] at hlc
  · rintro ⟨c, hc, hm, hy, he⟩
    exact ⟨_, ⟨c, hc, by simp only [hm, hy, and_self, if_true, he, Option.map_some']; rfl⟩, rfl⟩

theorem lbMap_values (cs : List LbCase) (k : String) :
    (∃ m ∈ Obj.values (cs.foldl lbStep []), m.executiveId = k)
      ↔ ∃ c ∈ cs, c.executiveId = k := by
  constructor
  · rintro ⟨m, hm, hk⟩
    obtain ⟨⟨k', m'⟩, hmem, rfl⟩ := List.mem_map.1 hm
    obtain ⟨hne, hfold⟩ :=
      groupFold_entry (fun c : LbCase => c.executiveId) LbAcc.init lbUpdate cs k' m' hmem
    have hk' : m'.executiveId = k' := by
      rw [hfold, foldl_lbUpdate_executiveId]
      rfl
    obtain ⟨c, hc⟩ := List.exists_mem_of_ne_nil _ hne
    rw [List.mem_filter] at hc
    refine ⟨c, hc.1, ?_⟩
    have := hc.2
    simp only [decide_eq_true_eq] at this
    rw [this, ← hk', hk]
  · rintro ⟨c, hc, hk⟩
    have := groupFold_has_entry (fun c : LbCase => c.executiveId) LbAcc.init lbUpdate cs c hc
    obtain ⟨⟨k', m'⟩, hmem, hk'⟩ := List.mem_map.1 this
    simp only at hk'
    obtain ⟨_, hfold⟩ :=
      groupFold_entry (fun c : LbCase => c.executiveId) LbAcc.init lbUpdate cs k' m' hmem
    refine ⟨m', List.mem_map.2 ⟨(k', m'), hmem, rfl⟩, ?_⟩
    rw [hfold, foldl_lbUpdate_executiveId, ← hk, ← hk']
    rfl

theorem lbMap_keys (cs : List LbCase) (k : String) :
    k ∈ Obj.keys (cs.foldl lbStep []) ↔ ∃ c ∈ cs, c.executiveId = k := by
  rw [(Obj.keys_perm _).mem_iff]
  constructor
  · intro hk
    obtain ⟨⟨k', m'⟩, hmem, rfl⟩ := List.mem_map.1 hk
    have hn := groupFold_nodup (fun c : LbCase => c.executiveId) LbAcc.init lbUpdate cs []
      (by simp)
    have hent := (Obj.entries_perm _ hn).mem_iff.2 hmem
    obtain ⟨hne, _⟩ :=
      groupFold_entry (fun c : LbCase => c.executiveId) LbAcc.init lbUpdate cs k' m' hent
    obtain ⟨c, hc⟩ := List.exists_mem_of_ne_nil _ hne
    rw [List.mem_filter] at hc
    exact ⟨c, hc.1, by simpa using hc.2⟩
  · rintro ⟨c, hc, hk⟩
    have := groupFold_has_entry (fun c : LbCase => c.executiveId) LbAcc.init lbUpdate cs c hc
    obtain ⟨⟨k', m'⟩, hmem, hk'⟩ := List.mem_map.1 this
    have hn := groupFold_nodup (fun c : LbCase => c.executiveId) LbAcc.init lbUpdate cs []
      (by simp)
    have hm := (Obj.entries_perm _ hn).mem_iff.1 hmem
    simp only at hk'
    exact List.mem_map.2 ⟨(k', m'), hm, by rw [hk', hk]⟩

theorem indexUsers_get (us : List User) (hn : (us.map (fun u => u.id)).Nodup) (k : String) (u : User) :
    Obj.get (indexUsersById us) k = some u ↔ u ∈ us ∧ u.id = k := by
  unfold indexUsersById
  induction us using List.reverseRecOn generalizing u with
  | nil => simp [Obj.get]
  | append_singleton init x ih =>
    rw [List.map_append, List.nodup_append] at hn
    obtain ⟨hn1, _, hdisj⟩ := hn
    rw [List.foldl_append, List.foldl_cons, List.foldl_nil, Obj.get_set]
    by_cases hx : x.id = k
    · simp only [hx, if_true, Option.some.injEq, List.mem_append, List.mem_singleton]
      constructor
      · intro e
        subst e
        exact ⟨Or.inr rfl, hx⟩
      · rintro ⟨hu | hu, hk⟩
        · exfalso
          exact hdisj (List.mem_map.2 ⟨u, hu, rfl⟩) (by simp [hk, hx])
        · exact hu.symm
    · simp only [hx, if_false, ih hn1 u, List.mem_append, List.mem_singleton]
      constructor
      · rintro ⟨hu, hk⟩
        exact ⟨Or.inl hu, hk⟩
      · rintro ⟨hu | hu, hk⟩
        · exact ⟨hu, hk⟩
        · subst hu
          exact absurd hk hx

theorem mem_findUsersByIds (users : List User) (execIds : List String) (u : User) :
    u ∈ findUsersByIds users execIds ↔ u ∈ users ∧ u.id ∈ execIds := by
  unfold findUsersByIds
  split
  · simp [List.mem_filter]
  · rename_i h
    have : execIds = [] := by
      cases execIds with
      | nil => rfl
      | cons a as => simp at h
    subst this
    simp

theorem findUsersByIds_nodup (users : List User) (execIds : List String)
    (hn : (users.map (fun u => u.id)).Nodup) :
    ((findUsersByIds users execIds).map (fun u => u.id)).Nodup := by
  unfold findUsersByIds
  split
  · exact (List.Sublist.map _ (List.filter_sublist _)).nodup hn
  · simp

theorem isExecutiveRow_iff (usersById : Obj User) (r : LbRow) :
    isExecutiveRow usersById r = true
      ↔ ∃ u, Obj.get usersById r.id = some u ∧ hasExecutiveRole u := by
  unfold isExecutiveRow hasExecutiveRole
  cases h : Obj.get usersById r.id with
  | none => simp
  | some u =>
    have e : jsToLowerCase "executive" = "executive" := by decide
    simp only [e, Bool.or_self, decide_eq_true_eq, List.mem_map, Option.some.injEq,
      exists_eq_left']

theorem lbRow_id (usersById : Obj User) (m : LbAcc) : (lbRow usersById m).id = m.executiveId := rfl

theorem getLeaderboard_ids (db : Db) (month year : Nat) (id : String) :
    id ∈ (getLeaderboard db month year).map (fun r => r.id)
      ↔ ∃ m ∈ Obj.values ((leaderboardCases db.cases month year).foldl lbStep []),
          m.executiveId = id
            ∧ isExecutiveRow
                (indexUsersById (findUsersByIds db.users
                  (Obj.keys ((leaderboardCases db.cases month year).foldl lbStep []))))
                (lbRow
                  (indexUsersById (findUsersByIds db.users
                    (Obj.keys ((leaderboardCases db.cases month year).foldl lbStep []))))
                  m) = true := by
  simp only [getLeaderboard, assignRanks_ids, lbSort]
  rw [((List.perm_insertionSort _ _).map _).mem_iff]
  simp only [List.mem_map, List.mem_filter]
  constructor
  · rintro ⟨r, ⟨⟨m, hm, rfl⟩, hex⟩, hid⟩
    exact ⟨m, hm, hid, hex⟩
  · rintro ⟨m, hm, hid, hex⟩
    exact ⟨_, ⟨⟨m, hm, rfl⟩, hex⟩, hid⟩

theorem leaderboard_membership (db : Db) (month year : Nat) (id : String)
    (hn : (db.users.map (fun u => u.id)).Nodup) :
    id ∈ (getLeaderboard db month year).map (fun r => r.id)
      ↔ (∃ c ∈ db.cases, c.month = month ∧ c.year = year ∧ c.executiveId = some id)
        ∧ ∃ u ∈ db.users, u.id = id ∧ hasExecutiveRole u := by
  rw [getLeaderboard_ids]
  have hfn := findUsersByIds_nodup db.users
    (Obj.keys ((leaderboardCases db.cases month year).foldl lbStep [])) hn
  constructor
  · rintro ⟨m, hm, hid, hex⟩
    have hcase := (lbMap_values _ id).1 ⟨m, hm, hid⟩
    refine ⟨(mem_leaderboardCases db.cases month year id).1 hcase, ?_⟩
    obtain ⟨u, hu, hrole⟩ := (isExecutiveRow_iff _ _).1 hex
    rw [lbRow_id, hid] at hu
    obtain ⟨hmem, huid⟩ := (indexUsers_get _ hfn id u).1 hu
    exact ⟨u, ((mem_findUsersByIds _ _ u).1 hmem).1, huid, hrole⟩
  · rintro ⟨hcase, u, hu, huid, hrole⟩
    have hlc := (mem_leaderboardCases db.cases month year id).2 hcase
    obtain ⟨m, hm, hid⟩ := (lbMap_values _ id).2 hlc
    refine ⟨m, hm, hid, ?_⟩
    rw [isExecutiveRow_iff]
    refine ⟨u, ?_, hrole⟩
    rw [lbRow_id, hid]
    apply (indexUsers_get _ hfn id u).2
    refine ⟨(mem_findUsersByIds _ _ u).2 ⟨hu, ?_⟩, huid⟩
    rw [huid]
    exact (lbMap_keys _ id).2 hlc

/-- C18: with user ids unique, an id is on the leaderboard of a period exactly when
a case of the period has it as executive and a user with that id exists who has a
role named executive up to letter case; an owner without user record or without
that role is left out. -/
theorem C18_leaderboard_lists_exactly_the_executives (db : Db) (month year : Nat) (id : String)
    (hn : (db.users.map (fun u => u.id)).Nodup) :
    id ∈ (getLeaderboard db month year).map (fun r => r.id)
      ↔ (∃ c ∈ db.cases, c.month = month ∧ c.year = year ∧ c.executiveId = some id)
        ∧ ∃ u ∈ db.users, u.id = id ∧ ∃ role ∈ u.roles, jsToLowerCase role = "executive" :=
  leaderboard_membership db month year id hn

/-- C18 at the example: u1 (role Executive) is listed; the supervisor u2, who owns a
case, and u9, who owns a case but is no user, are not. -/
theorem C18_leaderboard_lists_witness :
    "u1" ∈ (getLeaderboard leaderboardDb 11 2026).map (fun r => r.id)
      ∧ "u2" ∉ (getLeaderboard leaderboardDb 11 2026).map (fun r => r.id)
      ∧ "u9" ∉ (getLeaderboard leaderboardDb 11 2026).map (fun r => r.id) :=
  ⟨(C18_leaderboard_lists_exactly_the_executives leaderboardDb 11 2026 "u1" (by decide)).2
      (by decide),
    fun h => absurd
      ((C18_leaderboard_lists_exactly_the_executives leaderboardDb 11 2026 "u2" (by decide)).1 h).2
      (by decide),
    fun h => absurd
      ((C18_leaderboard_lists_exactly_the_executives leaderboardDb 11 2026 "u9" (by decide)).1 h).2
      (by decide)⟩

/-! ## The load check of an upload -/

theorem Obj.get_of_mem_entries {α : Type} (o : Obj α) (k : String) (v : α)
    (h : (k, v) ∈ Obj.entries o) : Obj.get o k = some v := by
  simp only [Obj.entries, List.mem_filterMap, Option.map_eq_some'] at h
  obtain ⟨k', _, v', hv', e⟩ := h
  cases e
  exact hv'

theorem loadCounts_get (cases : List Case) (k : String) (v : Nat)
    (h : Obj.get (loadCounts cases) k = some v) :
    v = (cases.filter (fun c => decide (loadKey c = k))).length := by
  have := (groupFold_get_nil loadKey (fun _ => 0) (fun a _ => a + 1) cases k v h).2
  rw [this]
  generalize cases.filter (fun c => decide (loadKey c = k)) = F
  have : ∀ (F : List Case) (n : Nat), F.foldl (fun a _ => a + 1) n = n + F.length := by
    intro F
    induction F with
    | nil => simp
    | cons c F ih => intro n; simp [ih]; omega
  simp [this]

theorem overloadedOf_count (cases : List Case) (e : Overloaded) (h : e ∈ overloadedOf cases) :
    e.count = (cases.filter (fun c => decide (loadKey c = e.id))).length ∧ 100 < e.count := by
  simp only [overloadedOf, List.mem_map, List.mem_filter, decide_eq_true_eq] at h
  obtain ⟨⟨k, v⟩, ⟨hm, hv⟩, rfl⟩ := h
  exact ⟨loadCounts_get cases k v (Obj.get_of_mem_entries _ k v hm), hv⟩

theorem overloadedOf_eq_nil (cases : List Case) (h : cases.length ≤ 100) : overloadedOf cases = [] := by
  rw [List.eq_nil_iff_forall_not_mem]
  intro e he
  obtain ⟨hc, hgt⟩ := overloadedOf_count cases e he
  have := List.length_filter_le (fun c => decide (loadKey c = e.id)) cases
  omega

theorem sampleCases_length (cases : List Case) (mode : String) : (sampleCases cases mode).length ≤ 100 := by
  simp [sampleCases]

theorem uploadCases_overloaded (env : Env) (db : Db) (rows : List Row) (userId saved : Option String) :
    ∃ d, (uploadCases env db (some rows) userId saved).2.data = some d ∧ d.overloaded = [] :=
  ⟨_, rfl, overloadedOf_eq_nil _ (sampleCases_length _ _)⟩

/-- C19 (fails in the code): the list `overloaded` of an upload response is empty for
every sheet, whatever number of cases an executive receives: the counts are taken
over `result.cases`, the sample of at most 100 cases that `bulkCreateCases` returns,
and an entry needs a count above 100. (Over any list of cases the loop itself is
right: each entry carries the number of cases of its key, which is above 100.) -/
theorem C19_overloaded_list_is_always_empty (env : Env) (db : Db) (rows : List Row)
    (userId saved : Option String) :
    (∃ d, (uploadCases env db (some rows) userId saved).2.data = some d ∧ d.overloaded = [])
      ∧ ∀ cases : List Case, ∀ e ∈ overloadedOf cases,
          e.count = (cases.filter (fun c => decide (loadKey c = e.id))).length ∧ 100 < e.count :=
  ⟨uploadCases_overloaded env db rows userId saved, overloadedOf_count⟩

set_option maxRecDepth 100000 in
/-- C19 fails at a sheet of 101 accounts of employee identifier E1, uploaded into an
empty case table whose user u1 has that identifier: the upload stores 101 cases of
executive u1, yet the response counts 100 created cases and its list `overloaded`
is empty, with no entry for u1. -/
theorem C19_upload_of_101_cases_counterexample :
    ((uploadCases exampleEnv emptyDb (some (overloadSheet 101)) none none).1.cases.filter
        (fun c => decide (c.executiveId = some "u1"))).length = 101
      ∧ ∃ d, (uploadCases exampleEnv emptyDb (some (overloadSheet 101)) none none).2.data = some d
          ∧ d.totalRows = 101 ∧ d.created = 100 ∧ d.overloaded = []
          ∧ { id := "u1", count := 101 } ∉ d.overloaded := by
  obtain ⟨d, hd, ho⟩ := uploadCases_overloaded exampleEnv emptyDb (overloadSheet 101) none none
  have hstored : ((uploadCases exampleEnv emptyDb (some (overloadSheet 101)) none none).1.cases.filter
      (fun c => decide (c.executiveId = some "u1"))).length = 101 := by
    simp only [uploadCases, bulkCreateCases, batchLoop_eq, rowLoop_eq]
    decide
  have hdata : (uploadCases exampleEnv emptyDb (some (overloadSheet 101)) none none).2.data.map
      (fun d => (d.totalRows, d.created)) = some (101, 100) := by
    simp only [uploadCases, bulkCreateCases, batchLoop_eq, rowLoop_eq]
    decide
  rw [hd] at hdata
  simp only [Option.map_some', Option.some.injEq, Prod.mk.injEq] at hdata
  exact ⟨hstored, d, hd, hdata.1, hdata.2, ho, by rw [ho]; exact List.not_mem_nil _⟩

/-! ## Who was met, in the exported sheet -/

theorem exportRows_foldl (cases : List VisitedCase) (rows : List ExportRow) :
    cases.foldl (fun rows c => c.feedbacks.foldl (fun rows fb => rows ++ [exportRow c fb]) rows) rows
      = rows ++ cases.flatMap (fun c => c.feedbacks.map (exportRow c)) := by
  have inner : ∀ (c : VisitedCase) (fbs : List Feedback) (rows : List ExportRow),
      fbs.foldl (fun rows fb => rows ++ [exportRow c fb]) rows = rows ++ fbs.map (exportRow c) := by
    intro c fbs
    induction fbs with
    | nil => simp
    | cons fb fbs ih => intro rows; simp [ih]
  induction cases generalizing rows with
  | nil => simp
  | cons c cases ih =>
    rw [List.foldl_cons, ih, inner, List.flatMap_cons, List.append_assoc]

theorem exportRows_eq (cases : List VisitedCase) :
    exportRows cases = cases.flatMap (fun c => c.feedbacks.map (exportRow c)) := by
  simp [exportRows, exportRows_foldl]

theorem whoMetAndName_customer (c : VisitedCase) (fb : Feedback)
    (hw : fb.whoMet = some "Customer")
    (hno : ¬ (idTruthy fb.relation = true ∧ idTruthy fb.metName = true)) :
    whoMetAndName c fb = ("Customer", cellOrEmpty c.customer_name) := by
  have h1 : (idTruthy fb.relation && idTruthy fb.metName) = false := by
    cases h : idTruthy fb.relation <;> cases h' : idTruthy fb.metName <;> simp_all
  have h2 : idTruthy fb.whoMet = true := by rw [hw]; decide
  have h3 : decide (fb.whoMet = some "Customer") = true := by simp [hw]
  simp only [whoMetAndName, h1, h2, h3, Bool.and_self, if_true, Bool.false_eq_true, if_false]

theorem whoMetAndName_relation (c : VisitedCase) (fb : Feedback)
    (hr : idTruthy fb.relation = true) (hm : idTruthy fb.metName = true) :
    whoMetAndName c fb = (fb.relation.getD "", .str (fb.metName.getD "")) := by
  simp [whoMetAndName, hr, hm]

theorem idTruthy_iff (v : Option String) : idTruthy v = true ↔ ∃ s, v = some s ∧ s ≠ "" := by
  cases v with
  | none => simp [idTruthy]
  | some s => simp [idTruthy, strTruthy]

/-- C20 (amended): every feedback of every case gives a row of the export. When its
whoMet is 'Customer' and it does not carry both a non-empty relation and a
non-empty metName, the row has WhoMet = 'Customer' and NameOfPersonMet = the
customer name of the case ('' when that is empty); when it carries both, the row
has WhoMet = relation and NameOfPersonMet = metName, whatever whoMet says. -/
theorem C20_customer_label_yields_to_relation_and_name (cases : List VisitedCase) (c : VisitedCase)
    (fb : Feedback) (hc : c ∈ cases) (hfb : fb ∈ c.feedbacks) :
    exportRow c fb ∈ exportRows cases
      ∧ (fb.whoMet = some "Customer"
          → ¬ ((∃ r, fb.relation = some r ∧ r ≠ "") ∧ ∃ n, fb.metName = some n ∧ n ≠ "")
          → (exportRow c fb).WhoMet = "Customer"
            ∧ (exportRow c fb).NameOfPersonMet = cellOrEmpty c.customer_name)
      ∧ ∀ r n, fb.relation = some r → r ≠ "" → fb.metName = some n → n ≠ ""
          → (exportRow c fb).WhoMet = r ∧ (exportRow c fb).NameOfPersonMet = .str n := by
  refine ⟨?_, ?_, ?_⟩
  · rw [exportRows_eq, List.mem_flatMap]
    exact ⟨c, hc, List.mem_map_of_mem _ hfb⟩
  · intro hw hno
    have := whoMetAndName_customer c fb hw (by rw [idTruthy_iff, idTruthy_iff]; exact hno)
    simp [exportRow, this]
  · intro r n hr hr' hn hn'
    have := whoMetAndName_relation c fb ((idTruthy_iff _).2 ⟨r, hr, hr'⟩)
      ((idTruthy_iff _).2 ⟨n, hn, hn'⟩)
    simp [exportRow, this, hr, hn]

/-- C20 (amended) at the example case: the feedback that only says Customer is
exported with the customer name Asha. -/
theorem C20_customer_label_witness :
    exportRow visitedCase customerFeedback ∈ exportRows [visitedCase]
      ∧ (exportRow visitedCase customerFeedback).WhoMet = "Customer"
      ∧ (exportRow visitedCase customerFeedback).NameOfPersonMet = .str "Asha" :=
  have h := C20_customer_label_yields_to_relation_and_name [visitedCase] visitedCase customerFeedback
    (List.mem_cons_self _ _) (List.mem_cons_self _ _)
  ⟨h.1, (h.2.1 rfl (by decide)).1, (h.2.1 rfl (by decide)).2⟩

/-- C20 as stated fails: a feedback with whoMet 'Customer' that also carries relation
Brother and metName Raj is exported with WhoMet = 'Brother' and NameOfPersonMet =
'Raj', not with 'Customer' and the customer name Asha. -/
theorem C20_relation_wins_over_customer_counterexample :
    brotherFeedback ∈ visitedCase.feedbacks
      ∧ brotherFeedback.whoMet = some "Customer"
      ∧ visitedCase.customer_name = .str "Asha"
      ∧ exportRow visitedCase brotherFeedback ∈ exportRows [visitedCase]
      ∧ (exportRow visitedCase brotherFeedback).WhoMet = "Brother"
      ∧ (exportRow visitedCase brotherFeedback).NameOfPersonMet = .str "Raj"
      ∧ (exportRow visitedCase brotherFeedback).WhoMet ≠ "Customer"
      ∧ (exportRow visitedCase brotherFeedback).NameOfPersonMet ≠ visitedCase.customer_name := by
  refine ⟨by decide, rfl, rfl, ?_, by decide, by decide, by decide, by decide⟩
  rw [exportRows_eq, List.mem_flatMap]
  exact ⟨visitedCase, List.mem_cons_self _ _, List.mem_map_of_mem _ (by decide)⟩

/-! ## One exported row per case and feedback -/

theorem exportRows_length (cases : List VisitedCase) :
    (exportRows cases).length = (cases.map (fun c => c.feedbacks.length)).sum := by
  rw [exportRows_eq]
  induction cases with
  | nil => rfl
  | cons c cases ih => simp [List.flatMap_cons, ih]

theorem exportRow_AccountID (c : VisitedCase) (fb : Feedback) : (exportRow c fb).AccountID = c.acc_id :=
  rfl

/-- C21: the export has one row per pair of a case and one of its feedbacks: the rows
are the rows of the first case in the order of its feedbacks, then those of the
second case, and so on; their number is the sum of the feedback counts; and every
case with a feedback has a row carrying its AccountID. -/
theorem C21_one_row_per_case_and_feedback (cases : List VisitedCase) :
    exportRows cases = cases.flatMap (fun c => c.feedbacks.map (exportRow c))
      ∧ (exportRows cases).length = (cases.map (fun c => c.feedbacks.length)).sum
      ∧ (exportRows cases).map (fun r => r.AccountID)
          = cases.flatMap (fun c => c.feedbacks.map (fun _ => c.acc_id))
      ∧ ∀ c ∈ cases, c.feedbacks ≠ [] → ∃ r ∈ exportRows cases, r.AccountID = c.acc_id := by
  refine ⟨exportRows_eq cases, exportRows_length cases, ?_, ?_⟩
  · rw [exportRows_eq]
    induction cases with
    | nil => rfl
    | cons c cases ih =>
      simp only [List.flatMap_cons, List.map_append, List.map_map, ih]
      rfl
  · intro c hc hne
    obtain ⟨fb, hfb⟩ := List.exists_mem_of_ne_nil _ hne
    refine ⟨exportRow c fb, ?_, rfl⟩
    rw [exportRows_eq, List.mem_flatMap]
    exact ⟨c, hc, List.mem_map_of_mem _ hfb⟩

/-! ## The row loop partitions the sheet -/

theorem acceptedDrafts_length_add (m : Obj String) (rows : List Row) (i : Nat) :
    (acceptedDrafts m rows).length + (skippedFrom i rows).length = rows.length := by
  induction rows generalizing i with
  | nil => rfl
  | cons r rest ih =>
    by_cases h : truthy (pick r accNoKeys) = true
    · simp only [acceptedDrafts, List.filterMap_cons, h, if_true, skippedFrom, List.length_cons]
      have := ih (i + 1)
      simp only [acceptedDrafts] at this
      omega
    · simp only [acceptedDrafts, List.filterMap_cons, h, if_false, skippedFrom, List.length_cons,
        Bool.false_eq_true]
      have := ih (i + 1)
      simp only [acceptedDrafts] at this
      omega

theorem acceptedDrafts_accIds (m : Obj String) (rows : List Row) :
    (acceptedDrafts m rows).map (fun d => d.acc_id)
      = (rows.filter (fun r => truthy (pick r accNoKeys))).map
          (fun r => jsTrim (strOf (pick r accNoKeys))) := by
  induction rows with
  | nil => rfl
  | cons r rest ih =>
    by_cases h : truthy (pick r accNoKeys) = true
    · simp only [acceptedDrafts, List.filterMap_cons, h, if_true, List.map_cons, List.filter_cons]
      simp only [acceptedDrafts] at ih
      rw [ih]
      rfl
    · simp only [acceptedDrafts, List.filterMap_cons, h, if_false, List.filter_cons,
        Bool.false_eq_true]
      simp only [acceptedDrafts] at ih
      exact ih

theorem skippedFrom_increasing (rows : List Row) (i : Nat) :
    ((skippedFrom i rows).map (fun s => s.rowNumber)).Pairwise (· < ·) := by
  induction rows generalizing i with
  | nil => simp [skippedFrom]
  | cons r rest ih =>
    unfold skippedFrom
    split
    · exact ih (i + 1)
    · rw [List.map_cons, List.pairwise_cons]
      refine ⟨?_, ih (i + 1)⟩
      intro n hn
      obtain ⟨s, hs, rfl⟩ := List.mem_map.1 hn
      have := skippedFrom_rowNumber_ge rest (i + 1) s hs
      simp only
      omega

/-- C26: the row loop of `uploadCases` partitions the rows: the drafts and the skipped
entries together are as many as the rows, the account ids of the drafts are those
of the rows with an account number, in sheet order, and the row numbers of the
skipped entries increase strictly. In the response, the manifest's total_cases
and skippedRows add up to totalRows. -/
theorem C26_row_loop_partitions_the_rows (empIdToUserId : Obj String) (normalizedRows : List Row) :
    (rowLoop empIdToUserId normalizedRows).casesArray.length
          + (rowLoop empIdToUserId normalizedRows).skippedRows.length = normalizedRows.length
      ∧ (rowLoop empIdToUserId normalizedRows).casesArray.map (fun d => d.acc_id)
          = (normalizedRows.filter (fun r => truthy (pick r accNoKeys))).map
              (fun r => jsTrim (strOf (pick r accNoKeys)))
      ∧ ((rowLoop empIdToUserId normalizedRows).skippedRows.map (fun s => s.rowNumber)).Pairwise
          (· < ·)
      ∧ ∀ (env : Env) (db : Db) (rows : List Row) (userId saved : Option String),
          ∃ d, (uploadCases env db (some rows) userId saved).2.data = some d
            ∧ d.upload.total_cases + d.skippedRows = d.totalRows ∧ d.totalRows = rows.length := by
  rw [rowLoop_eq]
  refine ⟨acceptedDrafts_length_add _ _ 0, acceptedDrafts_accIds _ _, skippedFrom_increasing _ 0, ?_⟩
  intro env db rows userId saved
  refine ⟨_, rfl, ?_, ?_⟩
  · simp only [uploadCases, bulkCreateCases, rowLoop_eq]
    have := acceptedDrafts_length_add
      (resolveEmployees db.users (extractEmpIds (rows.map normalizeRow))).empIdToUserId
      (rows.map normalizeRow) 0
    simpa using this
  · simp [uploadCases]

/-! ## The batches of the upsert loop -/

theorem batchesFrom_spec (env : Env) (m : Obj String) (xs : List CaseDraft) :
    ∀ (n i : Nat), xs.length - i = n →
      (batchesFrom xs i).flatten = xs.drop i
        ∧ (batchesFrom xs i).length = (n + 99) / 100
        ∧ (∀ b ∈ batchesFrom xs i, 0 < b.length ∧ b.length ≤ 100)
        ∧ (∀ b ∈ (batchesFrom xs i).dropLast, b.length = 100)
        ∧ ∀ cases : List Case,
            batchLoop env m xs i cases
              = (batchesFrom xs i).foldl (fun acc batch => upsertBatch env m batch acc) cases := by
  intro n
  induction n using Nat.strong_induction_on with
  | _ n ih =>
    intro i hn
    rw [batchesFrom]
    split
    · rename_i hlt
      have hlt' : xs.length - (i + BATCH_SIZE) < n := by
        simp only [BATCH_SIZE]; omega
      obtain ⟨h1, h2, h3, h4, h5⟩ := ih _ hlt' (i + BATCH_SIZE) rfl
      have hslice : slice xs i (i + BATCH_SIZE) = (xs.drop i).take BATCH_SIZE := by
        simp only [slice, Nat.add_sub_cancel_left]
      have hlen : (slice xs i (i + BATCH_SIZE)).length = min 100 (xs.length - i) := by
        rw [hslice]
        simp [BATCH_SIZE]
      refine ⟨?_, ?_, ?_, ?_, ?_⟩
      · rw [List.flatten_cons, h1, hslice, ← List.drop_drop]
        exact List.take_append_drop BATCH_SIZE (List.drop i xs)
      · rw [List.length_cons, h2]
        simp only [BATCH_SIZE]
        omega
      · intro b hb
        rcases List.mem_cons.1 hb with e | hb'
        · rw [e, hlen]
          omega
        · exact h3 b hb'
      · intro b hb
        cases hrest : batchesFrom xs (i + BATCH_SIZE) with
        | nil => simp [hrest] at hb
        | cons b0 rest =>
          rw [hrest, List.dropLast_cons₂] at hb
          rcases List.mem_cons.1 hb with e | hb'
          · rw [e, hlen]
            have : 0 < (batchesFrom xs (i + BATCH_SIZE)).length := by rw [hrest]; simp
            rw [h2] at this
            simp only [BATCH_SIZE] at this
            omega
          · rw [hrest] at h4
            exact h4 b hb'
      · intro cases
        rw [batchLoop, if_pos hlt, h5, List.foldl_cons]
    · rename_i hge
      refine ⟨?_, ?_, ?_, ?_, ?_⟩
      · rw [List.drop_eq_nil_of_le (by omega)]
        rfl
      · have : n = 0 := by omega
        subst this
        rfl
      · intro b hb
        simp at hb
      · intro b hb
        simp at hb
      · intro cases
        rw [batchLoop, if_neg hge]
        rfl

/-- C24: the batch loop of `bulkCreateCases` ends for every draft list (it is a total
function), after ceil(n / 100) passes; its batches joined in order are the draft
list, each batch has between 1 and 100 drafts and each but the last exactly 100;
the loop applies the upserts of the batches one batch after the other, which is
one upsert per draft in list order. -/
theorem C24_batches_cover_the_drafts_once (env : Env) (employeeMap : Obj String)
    (casesArray : List CaseDraft) (cases : List Case) :
    (batchesFrom casesArray 0).length = (casesArray.length + 99) / 100
      ∧ (batchesFrom casesArray 0).flatten = casesArray
      ∧ (∀ batch ∈ batchesFrom casesArray 0, 0 < batch.length ∧ batch.length ≤ 100)
      ∧ (∀ batch ∈ (batchesFrom casesArray 0).dropLast, batch.length = 100)
      ∧ batchLoop env employeeMap casesArray 0 cases
          = (batchesFrom casesArray 0).foldl
              (fun acc batch => upsertBatch env employeeMap batch acc) cases
      ∧ batchLoop env employeeMap casesArray 0 cases
          = casesArray.foldl (fun acc caseData => upsertCase env employeeMap caseData acc) cases := by
  obtain ⟨h1, h2, h3, h4, h5⟩ := batchesFrom_spec env employeeMap casesArray _ 0 rfl
  refine ⟨h2, by simpa using h1, h3, h4, h5 cases, ?_⟩
  rw [batchLoop_eq]
  rfl

/-! ## Status counts of the bank nodes -/

theorem upsertWith_wsum {α : Type} (μ : α → Nat) (o : Obj α) (k : String) (i : α) (f : α → α)
    (w : Nat) (hi : μ i = 0) (hf : ∀ a, μ (f a) = μ a + w) :
    ((Obj.upsertWith o k i f).map (fun kv => μ kv.2)).sum = (o.map (fun kv => μ kv.2)).sum + w := by
  induction o with
  | nil => simp [Obj.upsertWith, Obj.set, Obj.get, hf, hi]
  | cons kv rest ih =>
    obtain ⟨k0, v0⟩ := kv
    by_cases e : k0 = k
    · subst e
      simp [Obj.upsertWith, Obj.set, Obj.get, hf]
      omega
    · simp only [Obj.upsertWith, Obj.set, Obj.get, e, if_false, List.map_cons, List.sum_cons] at ih ⊢
      rw [ih]
      omega

theorem groupFold_wsum {α γ : Type} (μ : α → Nat) (w : γ → Nat) (key : γ → String)
    (init : String → α) (upd : α → γ → α) (hi : ∀ k, μ (init k) = 0)
    (hu : ∀ a c, μ (upd a c) = μ a + w c) (cs : List γ) (o : Obj α) :
    ((cs.foldl (fun o c => Obj.upsertWith o (key c) (init (key c)) (fun a => upd a c)) o).map
        (fun kv => μ kv.2)).sum
      = (o.map (fun kv => μ kv.2)).sum + (cs.map w).sum := by
  induction cs generalizing o with
  | nil => simp
  | cons c cs ih =>
    rw [List.foldl_cons, ih, upsertWith_wsum μ o _ _ _ (w c) (hi _) (fun a => hu a c)]
    simp only [List.map_cons, List.sum_cons]
    omega

theorem groupFold_entries_wsum {α γ : Type} (μ : α → Nat) (w : γ → Nat) (key : γ → String)
    (init : String → α) (upd : α → γ → α) (hi : ∀ k, μ (init k) = 0)
    (hu : ∀ a c, μ (upd a c) = μ a + w c) (cs : List γ) :
    ((Obj.entries
        (cs.foldl (fun o c => Obj.upsertWith o (key c) (init (key c)) (fun a => upd a c)) [])).map
        (fun kv => μ kv.2)).sum = (cs.map w).sum := by
  have hn := groupFold_nodup key init upd cs [] (by simp)
  rw [((Obj.entries_perm _ hn).map _).sum_eq, groupFold_wsum μ w key init upd hi hu]
  simp

theorem sum_indicator_eq_length (l : String) (cs : List CaseWithFeedbacks) :
    (cs.map (fun c => if perfOf c = l then 1 else 0)).sum = (withLabel l cs).length := by
  induction cs with
  | nil => rfl
  | cons c cs ih =>
    by_cases h : perfOf c = l
    · simp only [List.map_cons, List.sum_cons, h, if_true, ih, withLabel, List.filter_cons,
        decide_True, List.length_cons]
      omega
    · simp only [List.map_cons, List.sum_cons, h, if_false, ih, withLabel, List.filter_cons,
        decide_False, Nat.zero_add]
      rfl

theorem bank_nodes_label_sums (cs : List CaseWithFeedbacks) :
    (((aggregatePerformance cs).bankBreakdown.map (fun b => b.flowCount)).sum
        = (withLabel "FLOW" cs).length)
      ∧ (((aggregatePerformance cs).bankBreakdown.map (fun b => b.rbCount)).sum
        = (withLabel "RB" cs).length)
      ∧ (((aggregatePerformance cs).bankBreakdown.map (fun b => b.normCount)).sum
        = (withLabel "NORM" cs).length)
      ∧ (((aggregatePerformance cs).bankBreakdown.map (fun b => b.stabCount)).sum
        = (withLabel "STAB" cs).length) := by
  rw [aggregate_bankBreakdown]
  have key : ∀ (l : String) (μ : BankAcc → Nat), μ BankAcc.empty = 0 →
      (∀ a c, μ (bankUpdate a c) = μ a + (if perfOf c = l then 1 else 0)) →
      ((Obj.entries (cs.foldl byBankStep [])).map (fun kv => μ kv.2)).sum
        = (withLabel l cs).length := by
    intro l μ h0 hu
    rw [← sum_indicator_eq_length]
    exact groupFold_entries_wsum μ _ bankKey (fun _ => BankAcc.empty) bankUpdate (fun _ => h0) hu cs
  have step : ∀ (l : String) (n : Nat) (c : CaseWithFeedbacks),
      (if normalizePerf c.toCase.performance = l then n + 1 else n)
        = n + (if perfOf c = l then 1 else 0) := by
    intro l n c
    simp only [perfOf]
    split <;> rfl
  refine ⟨?_, ?_, ?_, ?_⟩
  · have := key "FLOW" (fun b => b.flowCount) rfl (fun a c => step "FLOW" _ c)
    simpa [List.map_map, Function.comp_def, bankNode] using this
  · have := key "RB" (fun b => b.rbCount) rfl (fun a c => step "RB" _ c)
    simpa [List.map_map, Function.comp_def, bankNode] using this
  · have := key "NORM" (fun b => b.normCount) rfl (fun a c => step "NORM" _ c)
    simpa [List.map_map, Function.comp_def, bankNode] using this
  · have := key "STAB" (fun b => b.stabCount) rfl (fun a c => step "STAB" _ c)
    simpa [List.map_map, Function.comp_def, bankNode] using this

/-- C25: the top-level stabCount of `getExecutivePerformance` is the number of cases
whose trimmed, upper-cased label is exactly STAB, and the alternatives of the STAB
test add nothing, since a normalized label is never 'STAB. '; stabCount, flowCount,
rbCount and normCount are each the sum of the same count over the bank nodes. -/
theorem C25_status_counts_match_the_bank_nodes (cs : List CaseWithFeedbacks) :
    (aggregatePerformance cs).stabCount
        = (cs.filter (fun c => decide (normalizePerf c.toCase.performance = "STAB"))).length
      ∧ (∀ p : Option String,
          (normalizePerf p = "STAB" ∨ normalizePerf p = "STAB. " ∨ normalizePerf p = "STAB")
            ↔ normalizePerf p = "STAB")
      ∧ (aggregatePerformance cs).stabCount
          = ((aggregatePerformance cs).bankBreakdown.map (fun b => b.stabCount)).sum
      ∧ (aggregatePerformance cs).flowCount
          = ((aggregatePerformance cs).bankBreakdown.map (fun b => b.flowCount)).sum
      ∧ (aggregatePerformance cs).rbCount
          = ((aggregatePerformance cs).bankBreakdown.map (fun b => b.rbCount)).sum
      ∧ (aggregatePerformance cs).normCount
          = ((aggregatePerformance cs).bankBreakdown.map (fun b => b.normCount)).sum := by
  obtain ⟨_, h1, h2, h3, h4⟩ := aggregate_counts cs
  obtain ⟨b1, b2, b3, b4⟩ := bank_nodes_label_sums cs
  refine ⟨h4, ?_, by rw [h4, b4], by rw [h1, b1], by rw [h2, b2], by rw [h3, b3]⟩
  intro p
  constructor
  · rintro (h | h | h)
    · exact h
    · exact absurd h (normalizePerf_ne_stab_dot p)
    · exact h
  · exact Or.inl

/-! ## The leaderboard row of an executive and the performance summary -/

theorem perfLoop_recovered (cs : List CaseWithFeedbacks) (st : PerfLoop) :
    (cs.foldl perfStep st).totalRecoveredAmount = st.totalRecoveredAmount + sumCollected cs
      ∧ (cs.foldl perfStep st).paidRecoveredAmount
          = st.paidRecoveredAmount + sumCollected (notFlow cs) := by
  induction cs generalizing st with
  | nil => simp [notFlow, sumCollected]
  | cons c cs ih =>
    rw [List.foldl_cons, (ih _).1, (ih _).2]
    simp only [notFlow, sumCollected, List.filter_cons, perfStep, perfOf] at *
    by_cases h : normalizePerf c.toCase.performance = "FLOW"
    · simp [h, add_assoc]
    · simp [h, add_assoc]

theorem aggregate_metrics (cs : List CaseWithFeedbacks) :
    (aggregatePerformance cs).totalCases = (metricsOver cs).totalCases
      ∧ (aggregatePerformance cs).totalPOS = (metricsOver cs).totalPOS
      ∧ (aggregatePerformance cs).posNotFlow = (metricsOver cs).posNotFlow
      ∧ (aggregatePerformance cs).posRB = (metricsOver cs).posRB
      ∧ (aggregatePerformance cs).posNorm = (metricsOver cs).posNorm
      ∧ (aggregatePerformance cs).rbCount = (metricsOver cs).rbCount
      ∧ (aggregatePerformance cs).normCount = (metricsOver cs).normCount
      ∧ (aggregatePerformance cs).totalRecoveredAmount = (metricsOver cs).recoveredAmount
      ∧ (aggregatePerformance cs).paidRecoveredAmount = (metricsOver cs).paidRecoveredAmount := by
  obtain ⟨a1, a2, a3, a4, _⟩ := aggregate_pos cs
  obtain ⟨c0, _, c2, c3, _⟩ := aggregate_counts cs
  refine ⟨c0, a1, a2, a3, a4, c2, c3, ?_, ?_⟩
  · have := (perfLoop_recovered cs PerfLoop.init).1
    simpa [aggregatePerformance, PerfLoop.init, metricsOver] using this
  · have := (perfLoop_recovered cs PerfLoop.init).2
    simpa [aggregatePerformance, PerfLoop.init, metricsOver] using this

theorem lbUpdate_fields (e : String) (a : LbAcc) (c : CaseWithFeedbacks) :
    (lbUpdate a (lbCaseOf e c.toCase)).totalCases = a.totalCases + (addCase Metrics.zero c).totalCases
      ∧ (lbUpdate a (lbCaseOf e c.toCase)).totalPOS = a.totalPOS + (addCase Metrics.zero c).totalPOS
      ∧ (lbUpdate a (lbCaseOf e c.toCase)).posNotFlow
          = a.posNotFlow + (addCase Metrics.zero c).posNotFlow
      ∧ (lbUpdate a (lbCaseOf e c.toCase)).posRB = a.posRB + (addCase Metrics.zero c).posRB
      ∧ (lbUpdate a (lbCaseOf e c.toCase)).posNorm = a.posNorm + (addCase Metrics.zero c).posNorm
      ∧ (lbUpdate a (lbCaseOf e c.toCase)).rbCount = a.rbCount + (addCase Metrics.zero c).rbCount
      ∧ (lbUpdate a (lbCaseOf e c.toCase)).normCount
          = a.normCount + (addCase Metrics.zero c).normCount
      ∧ (lbUpdate a (lbCaseOf e c.toCase)).recoveredAmount
          = a.recoveredAmount + (addCase Metrics.zero c).recoveredAmount
      ∧ (lbUpdate a (lbCaseOf e c.toCase)).paidRecoveredAmount
          = a.paidRecoveredAmount + (addCase Metrics.zero c).paidRecoveredAmount := by
  simp only [lbUpdate, lbCaseOf, addCase, Metrics.add, Metrics.zero]
  refine ⟨?_, ?_, ?_, ?_, ?_, ?_, ?_, ?_, ?_⟩
  all_goals first
    | (split <;> simp)
    | simp

theorem lbFold_fields (e : String) (cs : List CaseWithFeedbacks) (a : LbAcc) :
    ((cs.map (fun c => lbCaseOf e c.toCase)).foldl lbUpdate a).totalCases
        = a.totalCases + (metricsOver cs).totalCases
      ∧ ((cs.map (fun c => lbCaseOf e c.toCase)).foldl lbUpdate a).totalPOS
        = a.totalPOS + (metricsOver cs).totalPOS
      ∧ ((cs.map (fun c => lbCaseOf e c.toCase)).foldl lbUpdate a).posNotFlow
        = a.posNotFlow + (metricsOver cs).posNotFlow
      ∧ ((cs.map (fun c => lbCaseOf e c.toCase)).foldl lbUpdate a).posRB
        = a.posRB + (metricsOver cs).posRB
      ∧ ((cs.map (fun c => lbCaseOf e c.toCase)).foldl lbUpdate a).posNorm
        = a.posNorm + (metricsOver cs).posNorm
      ∧ ((cs.map (fun c => lbCaseOf e c.toCase)).foldl lbUpdate a).rbCount
        = a.rbCount + (metricsOver cs).rbCount
      ∧ ((cs.map (fun c => lbCaseOf e c.toCase)).foldl lbUpdate a).normCount
        = a.normCount + (metricsOver cs).normCount
      ∧ ((cs.map (fun c => lbCaseOf e c.toCase)).foldl lbUpdate a).recoveredAmount
        = a.recoveredAmount + (metricsOver cs).recoveredAmount
      ∧ ((cs.map (fun c => lbCaseOf e c.toCase)).foldl lbUpdate a).paidRecoveredAmount
        = a.paidRecoveredAmount + (metricsOver cs).paidRecoveredAmount := by
  induction cs generalizing a with
  | nil => simp [metricsOver_nil, Metrics.zero]
  | cons c cs ih =>
    obtain ⟨i1, i2, i3, i4, i5, i6, i7, i8, i9⟩ := ih (lbUpdate a (lbCaseOf e c.toCase))
    obtain ⟨u1, u2, u3, u4, u5, u6, u7, u8, u9⟩ := lbUpdate_fields e a c
    simp only [List.map_cons, List.foldl_cons, metricsOver_cons c cs, Metrics.plus]
    rw [i1, i2, i3, i4, i5, i6, i7, i8, i9, u1, u2, u3, u4, u5, u6, u7, u8, u9]
    refine ⟨by omega, by ring, by ring, by ring, by ring, by omega, by omega, by ring, by ring⟩

theorem leaderboardCases_filter (table : List CaseWithFeedbacks) (month year : Nat) (e : String) :
    (leaderboardCases (table.map (fun c => c.toCase)) month year).filter
        (fun lc => decide (lc.executiveId = e))
      = (periodCasesOf table month year e).map (fun c => lbCaseOf e c.toCase) := by
  induction table with
  | nil => rfl
  | cons c table ih =>
    simp only [leaderboardCases, periodCasesOf, List.map_cons, List.filterMap_cons,
      List.filter_cons] at ih ⊢
    by_cases hmy : c.toCase.month = month ∧ c.toCase.year = year
    · cases he : c.toCase.executiveId with
      | none => simpa [hmy, he] using ih
      | some x =>
        by_cases hx : x = e
        · subst hx
          simp only [hmy, he, and_self, if_true, Option.map_some', List.filter_cons, decide_True,
            List.map_cons, ih]
          rfl
        · simp only [hmy, he, and_self, if_true, Option.map_some', List.filter_cons, hx,
            decide_False, Option.some.injEq, and_false, Bool.false_eq_true, if_false]
          exact ih
    · have hmy' : ¬ (c.toCase.month = month ∧ c.toCase.year = year
          ∧ c.toCase.executiveId = some e) := fun h => hmy ⟨h.1, h.2.1⟩
      simp only [hmy, if_false, hmy', decide_False, Bool.false_eq_true]
      exact ih

theorem getLeaderboard_row_acc (db : Db) (month year : Nat) (r : LbRow)
    (h : r ∈ getLeaderboard db month year) :
    ∃ (usersById : Obj User) (m : LbAcc) (k : Nat),
      r = { lbRow usersById m with rank := some k }
        ∧ m = ((leaderboardCases db.cases month year).filter
            (fun lc => decide (lc.executiveId = r.id))).foldl lbUpdate (LbAcc.init r.id) := by
  simp only [getLeaderboard] at h
  obtain ⟨r0, hr0, k, hk⟩ := mem_assignRanks _ _ _ h
  rw [mem_lbSort] at hr0
  obtain ⟨hr0', _⟩ := List.mem_filter.1 hr0
  obtain ⟨m, hm, hm'⟩ := List.mem_map.1 hr0'
  obtain ⟨⟨key, m0⟩, hkv, hsnd⟩ := List.mem_map.1 hm
  simp only at hsnd
  subst hsnd
  have hent := (groupFold_entry (fun c : LbCase => c.executiveId) LbAcc.init lbUpdate
    (leaderboardCases db.cases month year) key m0 hkv).2
  have hid : m0.executiveId = key := by
    rw [hent, foldl_lbUpdate_executiveId]
    rfl
  have hrid : r.id = key := by rw [hk, ← hm']; exact hid
  refine ⟨_, m0, k, by rw [hk, ← hm'], ?_⟩
  rw [hrid]
  exact hent

theorem leaderboard_row_agrees (db : Db) (table : List CaseWithFeedbacks) (month year : Nat)
    (r : LbRow) (hdb : db.cases = table.map (fun c => c.toCase))
    (hr : r ∈ getLeaderboard db month year) :
    r.totalCases = (metricsOver (periodCasesOf table month year r.id)).totalCases
      ∧ r.totalPOS = (metricsOver (periodCasesOf table month year r.id)).totalPOS
      ∧ r.posNotFlow = (metricsOver (periodCasesOf table month year r.id)).posNotFlow
      ∧ r.posRB = (metricsOver (periodCasesOf table month year r.id)).posRB
      ∧ r.posNorm = (metricsOver (periodCasesOf table month year r.id)).posNorm
      ∧ r.rbCount = (metricsOver (periodCasesOf table month year r.id)).rbCount
      ∧ r.normCount = (metricsOver (periodCasesOf table month year r.id)).normCount
      ∧ r.recoveredAmount = (metricsOver (periodCasesOf table month year r.id)).recoveredAmount
      ∧ r.paidRecoveredAmount
          = (metricsOver (periodCasesOf table month year r.id)).paidRecoveredAmount
      ∧ r.posNotFlowRate = pct r.posNotFlow r.totalPOS
      ∧ r.posRBRate = pct r.posRB r.totalPOS
      ∧ r.posNormRate = pct r.posNorm r.totalPOS := by
  obtain ⟨usersById, m, k, hrow, hm⟩ := getLeaderboard_row_acc db month year r hr
  rw [hdb, leaderboardCases_filter] at hm
  obtain ⟨f1, f2, f3, f4, f5, f6, f7, f8, f9⟩ :=
    lbFold_fields r.id (periodCasesOf table month year r.id) (LbAcc.init r.id)
  rw [← hm] at f1 f2 f3 f4 f5 f6 f7 f8 f9
  simp only [LbAcc.init, Nat.zero_add, zero_add] at f1 f2 f3 f4 f5 f6 f7 f8 f9
  have e1 : r.totalCases = m.totalCases := by rw [hrow]; rfl
  have e2 : r.totalPOS = m.totalPOS := by rw [hrow]; simp [lbRow]
  have e3 : r.posNotFlow = m.posNotFlow := by rw [hrow]; rfl
  have e4 : r.posRB = m.posRB := by rw [hrow]; rfl
  have e5 : r.posNorm = m.posNorm := by rw [hrow]; rfl
  have e6 : r.rbCount = m.rbCount := by rw [hrow]; rfl
  have e7 : r.normCount = m.normCount := by rw [hrow]; rfl
  have e8 : r.recoveredAmount = m.recoveredAmount := by rw [hrow]; rfl
  have e9 : r.paidRecoveredAmount = m.paidRecoveredAmount := by rw [hrow]; rfl
  have g1 : r.posNotFlowRate = pct m.posNotFlow m.totalPOS := by rw [hrow]; simp [lbRow]
  have g2 : r.posRBRate = pct m.posRB m.totalPOS := by rw [hrow]; simp [lbRow]
  have g3 : r.posNormRate = pct m.posNorm m.totalPOS := by rw [hrow]; simp [lbRow]
  refine ⟨e1.trans f1, e2.trans f2, e3.trans f3, e4.trans f4, e5.trans f5, e6.trans f6,
    e7.trans f7, e8.trans f8, e9.trans f9, ?_, ?_, ?_⟩
  · rw [g1, e3, e2]
  · rw [g2, e4, e2]
  · rw [g3, e5, e2]

theorem perfWhere_period (table : List CaseWithFeedbacks) (month year : Nat) (e : String)
    (hm : month ≠ 0) (hy : year ≠ 0) :
    getExecutivePerformance table e
        { month := some month, year := some year, bank := none, product := none, bkt := none }
      = aggregatePerformance (periodCasesOf table month year e) := by
  unfold getExecutivePerformance periodCasesOf
  congr 1
  apply List.filter_congr
  intro c _
  simp only [perfWhere, numFilter, hm, hy, if_false, strFilter, strOrNull, Bool.and_true]
  by_cases h1 : c.toCase.executiveId = some e <;> by_cases h2 : c.toCase.month = month <;>
    by_cases h3 : c.toCase.year = year <;> simp [h1, h2, h3]

/-- C28: the row of the leaderboard for an executive carries the same case count,
amounts, RB and NORM counts, recovered amounts and amount rates as the top level of
the performance summary computed over the cases of that executive in the month and
year of the leaderboard; for a month and year other than 0 that summary is what
`getExecutivePerformance` returns for the executive with these two filters. -/
theorem C28_leaderboard_row_equals_performance_summary (db : Db) (table : List CaseWithFeedbacks)
    (month year : Nat) (r : LbRow) (hdb : db.cases = table.map (fun c => c.toCase))
    (hr : r ∈ getLeaderboard db month year) :
    r.totalCases = (aggregatePerformance (periodCasesOf table month year r.id)).totalCases
      ∧ r.totalPOS = (aggregatePerformance (periodCasesOf table month year r.id)).totalPOS
      ∧ r.posNotFlow = (aggregatePerformance (periodCasesOf table month year r.id)).posNotFlow
      ∧ r.posRB = (aggregatePerformance (periodCasesOf table month year r.id)).posRB
      ∧ r.posNorm = (aggregatePerformance (periodCasesOf table month year r.id)).posNorm
      ∧ r.rbCount = (aggregatePerformance (periodCasesOf table month year r.id)).rbCount
      ∧ r.normCount = (aggregatePerformance (periodCasesOf table month year r.id)).normCount
      ∧ r.recoveredAmount
          = (aggregatePerformance (periodCasesOf table month year r.id)).totalRecoveredAmount
      ∧ r.paidRecoveredAmount
          = (aggregatePerformance (periodCasesOf table month year r.id)).paidRecoveredAmount
      ∧ r.posNotFlowRate
          = (aggregatePerformance (periodCasesOf table month year r.id)).posNotFlowRate
      ∧ r.posRBRate = (aggregatePerformance (periodCasesOf table month year r.id)).posRBRate
      ∧ r.posNormRate = (aggregatePerformance (periodCasesOf table month year r.id)).posNormRate
      ∧ (month ≠ 0 → year ≠ 0 →
          getExecutivePerformance table r.id
              { month := some month, year := some year, bank := none, product := none, bkt := none }
            = aggregatePerformance (periodCasesOf table month year r.id)) := by
  obtain ⟨e1, e2, e3, e4, e5, e6, e7, e8, e9, g1, g2, g3⟩ :=
    leaderboard_row_agrees db table month year r hdb hr
  obtain ⟨a1, a2, a3, a4, a5, a6, a7, a8, a9⟩ :=
    aggregate_metrics (periodCasesOf table month year r.id)
  obtain ⟨_, _, _, _, p5, p6, p7⟩ := aggregate_pos (periodCasesOf table month year r.id)
  refine ⟨e1.trans a1.symm, e2.trans a2.symm, e3.trans a3.symm, e4.trans a4.symm, e5.trans a5.symm,
    e6.trans a6.symm, e7.trans a7.symm, e8.trans a8.symm, e9.trans a9.symm, ?_, ?_, ?_,
    perfWhere_period table month year r.id⟩
  · rw [g1, p5, e3, e2]; rfl
  · rw [g2, p6, e4, e2]; rfl
  · rw [g3, p7, e5, e2]; rfl

/-- C28 at the leaderboard example: the row of u1 counts the one case that the
summary over the cases of u1 in November 2026 counts. -/
theorem C28_leaderboard_row_witness :
    ∃ r ∈ getLeaderboard leaderboardDb 11 2026,
      r.id = "u1" ∧ r.totalCases = 1
        ∧ r.totalPOS
          = (aggregatePerformance (periodCasesOf
              (leaderboardDb.cases.map (fun c => { toCase := c, feedbacks := [] })) 11 2026
              "u1")).totalPOS := by
  have hmem : "u1" ∈ (getLeaderboard leaderboardDb 11 2026).map (fun r => r.id) :=
    (leaderboard_membership leaderboardDb 11 2026 "u1" (by decide)).2 (by decide)
  obtain ⟨r, hr, hid⟩ := List.mem_map.1 hmem
  have h := C28_leaderboard_row_equals_performance_summary leaderboardDb
    (leaderboardDb.cases.map (fun c => { toCase := c, feedbacks := [] })) 11 2026 r rfl hr
  rw [hid] at h
  have hcount : (aggregatePerformance (periodCasesOf
      (leaderboardDb.cases.map (fun c => { toCase := c, feedbacks := [] })) 11 2026
      "u1")).totalCases = 1 := by decide
  exact ⟨r, hr, hid, h.1.trans hcount, h.2.1⟩

/-! ## Ordering of the amount figures -/

theorem sumPos_nonneg (cs : List CaseWithFeedbacks) (h : ∀ c ∈ cs, 0 ≤ c.toCase.pos_amount) :
    0 ≤ sumPos cs := by
  unfold sumPos
  apply List.sum_nonneg
  intro x hx
  obtain ⟨c, hc, rfl⟩ := List.mem_map.1 hx
  exact h c hc

theorem sumPos_notFlow_le (cs : List CaseWithFeedbacks) (h : ∀ c ∈ cs, 0 ≤ c.toCase.pos_amount) :
    sumPos (notFlow cs) ≤ sumPos cs := by
  induction cs with
  | nil => simp [notFlow, sumPos]
  | cons c cs ih =>
    have hc := h c (List.mem_cons_self _ _)
    have ih' := ih (fun x hx => h x (List.mem_cons_of_mem _ hx))
    simp only [notFlow, sumPos, List.filter_cons] at ih' ⊢
    split
    · simp only [List.map_cons, List.sum_cons]
      linarith
    · simp only [List.map_cons, List.sum_cons]
      linarith

theorem sumPos_rb_norm_le (cs : List CaseWithFeedbacks) (h : ∀ c ∈ cs, 0 ≤ c.toCase.pos_amount) :
    sumPos (withLabel "RB" cs) + sumPos (withLabel "NORM" cs) ≤ sumPos (notFlow cs) := by
  induction cs with
  | nil => simp [notFlow, withLabel, sumPos]
  | cons c cs ih =>
    have hc := h c (List.mem_cons_self _ _)
    have ih' := ih (fun x hx => h x (List.mem_cons_of_mem _ hx))
    simp only [notFlow, withLabel, sumPos, List.filter_cons] at ih' ⊢
    by_cases h1 : perfOf c = "RB"
    · have n1 : ¬ perfOf c = "NORM" := by rw [h1]; decide
      have n2 : perfOf c ≠ "FLOW" := by rw [h1]; decide
      simp only [h1, n2, decide_True, decide_False, if_true, List.map_cons, List.sum_cons, ne_eq,
        not_false_eq_true, Bool.false_eq_true, if_false]
      have e : (decide ("RB" = "NORM")) = false := by decide
      have e' : (decide (¬ "RB" = "FLOW")) = true := by decide
      simp only [e, e', Bool.false_eq_true, if_false, if_true, List.map_cons, List.sum_cons]
      simp only [ne_eq] at ih' ⊢
      linarith
    · by_cases h2 : perfOf c = "NORM"
      · have n2 : perfOf c ≠ "FLOW" := by rw [h2]; decide
        have e : (decide ("NORM" = "RB")) = false := by decide
        have e' : (decide (¬ "NORM" = "FLOW")) = true := by decide
        simp only [h2, e, e', decide_True, if_true, Bool.false_eq_true, if_false, List.map_cons,
          List.sum_cons]
        simp only [ne_eq] at ih' ⊢
        linarith
      · by_cases h3 : perfOf c = "FLOW"
        · simp only [h1, h2, h3, decide_False, Bool.false_eq_true, if_false, ne_eq,
            not_true_eq_false]
          simp only [ne_eq] at ih'
          exact ih'
        · simp only [h1, h2, h3, decide_False, Bool.false_eq_true, if_false, ne_eq,
            not_false_eq_true, decide_True, if_true, List.map_cons, List.sum_cons]
          simp only [ne_eq] at ih' ⊢
          linarith

/-! ## Rounding to binary64 -/

theorem floor_le_roundHalfEven (x : ℚ) : ⌊x⌋ ≤ roundHalfEven x := by
  unfold roundHalfEven
  split
  · exact le_refl _
  · split
    · omega
    · split <;> omega

theorem roundHalfEven_le_floor_add_one (x : ℚ) : roundHalfEven x ≤ ⌊x⌋ + 1 := by
  unfold roundHalfEven
  split
  · omega
  · split
    · omega
    · split <;> omega

theorem roundHalfEven_intCast (n : ℤ) : roundHalfEven (n : ℚ) = n := by
  unfold roundHalfEven
  simp

theorem roundHalfEven_mono {x y : ℚ} (h : x ≤ y) : roundHalfEven x ≤ roundHalfEven y := by
  have hf : ⌊x⌋ ≤ ⌊y⌋ := Int.floor_mono h
  rcases lt_or_eq_of_le hf with hlt | heq
  · calc roundHalfEven x ≤ ⌊x⌋ + 1 := roundHalfEven_le_floor_add_one x
      _ ≤ ⌊y⌋ := hlt
      _ ≤ roundHalfEven y := floor_le_roundHalfEven y
  · have hxy : x - ⌊x⌋ ≤ y - ⌊y⌋ := by rw [heq]; linarith
    unfold roundHalfEven
    rw [heq]
    by_cases h1 : x - (⌊y⌋ : ℚ) < 1 / 2
    · rw [heq] at hxy
      rw [if_pos h1]
      split
      · exact le_refl _
      · split
        · omega
        · split <;> omega
    · rw [heq] at hxy
      rw [if_neg h1]
      have h1' : ¬ y - (⌊y⌋ : ℚ) < 1 / 2 := fun h' => h1 (lt_of_le_of_lt hxy h')
      rw [if_neg h1']
      by_cases h2 : 1 / 2 < x - (⌊y⌋ : ℚ)
      · have h2' : 1 / 2 < y - (⌊y⌋ : ℚ) := lt_of_lt_of_le h2 hxy
        rw [if_pos h2, if_pos h2']
      · rw [if_neg h2]
        split_ifs <;> omega

theorem roundHalfEven_eq_of_abs_lt (x : ℚ) (m : ℤ) (h : |x - m| < 1 / 2) : roundHalfEven x = m := by
  rw [abs_lt] at h
  obtain ⟨h1, h2⟩ := h
  by_cases hx : (m : ℚ) ≤ x
  · have hf : ⌊x⌋ = m := by
      rw [Int.floor_eq_iff]
      constructor
      · exact hx
      · linarith
    unfold roundHalfEven
    rw [hf, if_pos (by linarith)]
  · have hf : ⌊x⌋ = m - 1 := by
      rw [Int.floor_eq_iff]
      push_cast
      constructor <;> linarith
    unfold roundHalfEven
    rw [hf]
    push_cast
    rw [if_neg (by linarith), if_pos (by linarith)]
    omega

theorem roundGrid_mono (e : ℤ) {x y : ℚ} (h : x ≤ y) :
    (roundHalfEven (x / 2 ^ e) : ℚ) * 2 ^ e ≤ (roundHalfEven (y / 2 ^ e) : ℚ) * 2 ^ e := by
  have hpos : (0 : ℚ) < 2 ^ e := zpow_pos (by norm_num) e
  apply mul_le_mul_of_nonneg_right _ hpos.le
  exact_mod_cast roundHalfEven_mono (div_le_div_of_nonneg_right h hpos.le)

theorem roundGrid_fix (e g k : ℤ) (h : e ≤ g) :
    (roundHalfEven ((k : ℚ) * 2 ^ g / 2 ^ e) : ℚ) * 2 ^ e = (k : ℚ) * 2 ^ g := by
  have hpos : (0 : ℚ) < 2 ^ e := zpow_pos (by norm_num) e
  obtain ⟨n, hn⟩ := Int.eq_ofNat_of_zero_le (sub_nonneg.2 h)
  have hg : g = e + n := by omega
  have h2 : (2 : ℚ) ^ g = 2 ^ e * 2 ^ n := by
    rw [hg, zpow_add₀ (by norm_num), zpow_natCast]
  have hq : (k : ℚ) * 2 ^ g / 2 ^ e = ((k * 2 ^ n : ℤ) : ℚ) := by
    rw [h2]
    push_cast
    field_simp
    ring
  rw [hq, roundHalfEven_intCast, h2]
  push_cast
  ring

theorem ulpExp_ge (q : ℚ) : -1074 ≤ ulpExp q := by
  unfold ulpExp
  have := le_max_right (Int.log 2 |q|) (-1022)
  omega

theorem lt_zpow_ulpExp (q : ℚ) : |q| < 2 ^ (ulpExp q + 53) := by
  have h1 : |q| < ((2 : ℕ) : ℚ) ^ (Int.log 2 |q| + 1) := Int.lt_zpow_succ_log_self (by norm_num) _
  have h2 : Int.log 2 |q| + 1 ≤ ulpExp q + 53 := by
    unfold ulpExp
    have := le_max_left (Int.log 2 |q|) (-1022)
    omega
  calc |q| < ((2 : ℕ) : ℚ) ^ (Int.log 2 |q| + 1) := h1
    _ = (2 : ℚ) ^ (Int.log 2 |q| + 1) := by norm_num
    _ ≤ 2 ^ (ulpExp q + 53) := zpow_le_zpow_right₀ (by norm_num) h2

theorem zpow_ulpExp_le {q : ℚ} (hq : q ≠ 0) (h : -1074 < ulpExp q) : 2 ^ (ulpExp q + 52) ≤ |q| := by
  have hlog : ulpExp q + 52 = Int.log 2 |q| := by
    unfold ulpExp at h ⊢
    rcases le_total (Int.log 2 |q|) (-1022) with hle | hle
    · rw [max_eq_right hle] at h
      omega
    · rw [max_eq_left hle]
      omega
  rw [hlog]
  have := Int.zpow_log_le_self (b := 2) (by norm_num) (abs_pos.2 hq)
  simpa using this

theorem ulpExp_mono {x y : ℚ} (hx : 0 < x) (h : x ≤ y) : ulpExp x ≤ ulpExp y := by
  unfold ulpExp
  have hy : 0 < y := lt_of_lt_of_le hx h
  rw [abs_of_pos hx, abs_of_pos hy]
  have := Int.log_mono_right (b := 2) hx h
  have := max_le_max this (le_refl (-1022 : ℤ))
  omega

theorem ulpExp_le_of_lt {v : ℚ} {e : ℤ} (hv : 0 < v) (he : -1074 ≤ e) (h : v < 2 ^ (e + 53)) :
    ulpExp v ≤ e := by
  unfold ulpExp
  rw [abs_of_pos hv]
  have h' : v < ((2 : ℕ) : ℚ) ^ (e + 53) := by simpa using h
  have := (Int.lt_zpow_iff_log_lt (b := 2) (by norm_num) hv).1 h'
  have : max (Int.log 2 v) (-1022) ≤ e + 52 := max_le (by omega) (by omega)
  omega

theorem nearest64_zero : nearest64 0 = 0 := by
  simp [nearest64, roundHalfEven]

theorem nearest64_nonneg {q : ℚ} (hq : 0 ≤ q) : 0 ≤ nearest64 q := by
  unfold nearest64
  have hpos : (0 : ℚ) < 2 ^ ulpExp q := zpow_pos (by norm_num) _
  apply mul_nonneg _ hpos.le
  have : (0 : ℤ) ≤ roundHalfEven (q / 2 ^ ulpExp q) :=
    le_trans (Int.floor_nonneg.2 (div_nonneg hq hpos.le)) (floor_le_roundHalfEven _)
  exact_mod_cast this

theorem nearest64_le_top {q : ℚ} (hq : 0 ≤ q) : nearest64 q ≤ 2 ^ (ulpExp q + 53) := by
  have h := roundGrid_mono (ulpExp q) (le_of_lt (lt_zpow_ulpExp q))
  rw [abs_of_nonneg hq] at h
  have hfix := roundGrid_fix (ulpExp q) (ulpExp q + 53) 1 (by omega)
  simp only [Int.cast_one, one_mul] at hfix
  rw [hfix] at h
  exact h

theorem le_nearest64 {q : ℚ} (hq : 0 < q) (h : -1074 < ulpExp q) :
    2 ^ (ulpExp q + 52) ≤ nearest64 q := by
  have hb := zpow_ulpExp_le (ne_of_gt hq) h
  rw [abs_of_pos hq] at hb
  have hm := roundGrid_mono (ulpExp q) hb
  have hfix := roundGrid_fix (ulpExp q) (ulpExp q + 52) 1 (by omega)
  simp only [Int.cast_one, one_mul] at hfix
  rw [hfix] at hm
  exact hm

theorem nearest64_mono {x y : ℚ} (hx : 0 ≤ x) (h : x ≤ y) : nearest64 x ≤ nearest64 y := by
  rcases eq_or_lt_of_le hx with h0 | hpos
  · rw [← h0, nearest64_zero]
    exact nearest64_nonneg (le_trans hx h)
  · have hy : 0 < y := lt_of_lt_of_le hpos h
    rcases lt_or_eq_of_le (ulpExp_mono hpos h) with hlt | heq
    · calc nearest64 x ≤ 2 ^ (ulpExp x + 53) := nearest64_le_top hx
        _ ≤ 2 ^ (ulpExp y + 52) := zpow_le_zpow_right₀ (by norm_num) (by omega)
        _ ≤ nearest64 y := le_nearest64 hy (by have := ulpExp_ge x; omega)
    · unfold nearest64
      rw [heq]
      exact roundGrid_mono (ulpExp y) h

theorem nearest64_grid (g k : ℤ) (h : ulpExp ((k : ℚ) * 2 ^ g) ≤ g) :
    nearest64 ((k : ℚ) * 2 ^ g) = (k : ℚ) * 2 ^ g :=
  roundGrid_fix _ g k h

theorem nearest64_idem {q : ℚ} (hq : 0 ≤ q) : nearest64 (nearest64 q) = nearest64 q := by
  have hnn := nearest64_nonneg hq
  rcases eq_or_lt_of_le hnn with h0 | hpos
  · rw [← h0, nearest64_zero]
  · rcases lt_or_eq_of_le (nearest64_le_top hq) with hlt | heq
    · have hu := ulpExp_le_of_lt hpos (ulpExp_ge q) hlt
      have hrepr : nearest64 q = ((roundHalfEven (q / 2 ^ ulpExp q) : ℤ) : ℚ) * 2 ^ ulpExp q := rfl
      rw [hrepr] at hu ⊢
      exact nearest64_grid _ _ hu
    · have hone : nearest64 q = ((1 : ℤ) : ℚ) * 2 ^ (ulpExp q + 53) := by
        rw [heq]; simp
      rw [hone]
      apply nearest64_grid
      have hlt : ((1 : ℤ) : ℚ) * 2 ^ (ulpExp q + 53) < 2 ^ ((ulpExp q + 1) + 53) := by
        simp only [Int.cast_one, one_mul]
        exact zpow_lt_zpow_right₀ (by norm_num) (by omega)
      have hp : (0 : ℚ) < ((1 : ℤ) : ℚ) * 2 ^ (ulpExp q + 53) := by
        simp only [Int.cast_one, one_mul]
        exact zpow_pos (by norm_num) _
      have := ulpExp_le_of_lt hp (by have := ulpExp_ge q; omega) hlt
      omega

theorem nearest64_one : nearest64 1 = 1 := by
  have h := nearest64_grid 0 1 (by
    have : ulpExp (((1 : ℤ) : ℚ) * 2 ^ (0 : ℤ)) ≤ 0 :=
      ulpExp_le_of_lt (by norm_num) (by norm_num) (by norm_num)
    exact this)
  simpa using h

theorem nearest64_hundred : nearest64 100 = 100 := by
  have h := nearest64_grid 0 100 (by
    have : ulpExp (((100 : ℤ) : ℚ) * 2 ^ (0 : ℤ)) ≤ 0 :=
      ulpExp_le_of_lt (by norm_num) (by norm_num) (by norm_num)
    exact this)
  simpa using h

theorem round64_of_lt {q : ℚ} (hq : 0 ≤ q) (h : nearest64 q < 2 ^ (1024 : ℕ)) :
    round64 q = .fin (nearest64 q) := by
  unfold round64
  rw [abs_of_nonneg (nearest64_nonneg hq), if_neg (not_le.2 h)]

theorem round64_of_ge {q : ℚ} (hq : 0 ≤ q) (h : 2 ^ (1024 : ℕ) ≤ nearest64 q) :
    round64 q = .inf false := by
  unfold round64
  rw [abs_of_nonneg (nearest64_nonneg hq), if_pos h]
  simp [not_lt.2 hq]

theorem round64_good {q : ℚ} (hq : 0 ≤ q) : (round64 q).Good := by
  rcases lt_or_le (nearest64 q) (2 ^ (1024 : ℕ)) with h | h
  · rw [round64_of_lt hq h]
    exact Or.inr ⟨_, rfl, nearest64_nonneg hq, nearest64_idem hq⟩
  · rw [round64_of_ge hq h]
    exact Or.inl rfl

theorem round64_le {x y : ℚ} (hx : 0 ≤ x) (h : x ≤ y) : (round64 x).le (round64 y) = true := by
  have hy : 0 ≤ y := le_trans hx h
  have hm := nearest64_mono hx h
  rcases lt_or_le (nearest64 y) (2 ^ (1024 : ℕ)) with h2 | h2
  · rw [round64_of_lt hx (lt_of_le_of_lt hm h2), round64_of_lt hy h2]
    simpa [F64.le] using hm
  · rw [round64_of_ge hy h2]
    rcases lt_or_le (nearest64 x) (2 ^ (1024 : ℕ)) with h1 | h1
    · rw [round64_of_lt hx h1]
      rfl
    · rw [round64_of_ge hx h1]
      rfl

theorem F64.le_self {v : F64} (h : v.Good) : v.le v = true := by
  rcases h with rfl | ⟨q, rfl, _, _⟩
  · rfl
  · simp [F64.le]

theorem F64.le_chain {a b c : F64} (ha : a.Good) (hb : b.Good) (hc : c.Good)
    (h1 : a.le b = true) (h2 : b.le c = true) : a.le c = true := by
  rcases ha with rfl | ⟨x, rfl, _, _⟩ <;> rcases hb with rfl | ⟨y, rfl, _, _⟩ <;>
    rcases hc with rfl | ⟨z, rfl, _, _⟩ <;> simp_all [F64.le]
  exact le_trans h1 h2

theorem F64.zero_good : (F64.fin 0).Good :=
  Or.inr ⟨0, rfl, le_refl _, nearest64_zero⟩

theorem F64.add_good {a b : F64} (ha : a.Good) (hb : b.Good) : (a.add b).Good := by
  rcases ha with rfl | ⟨x, rfl, hx, _⟩ <;> rcases hb with rfl | ⟨y, rfl, hy, _⟩
  · exact Or.inl rfl
  · exact Or.inl rfl
  · exact Or.inl rfl
  · exact round64_good (add_nonneg hx hy)

theorem F64.le_add {a b : F64} (ha : a.Good) (hb : b.Good) : a.le (a.add b) = true := by
  rcases ha with rfl | ⟨x, rfl, hx, hfx⟩ <;> rcases hb with rfl | ⟨y, rfl, hy, _⟩
  · rfl
  · rfl
  · rfl
  · have h := round64_le hx (le_add_of_nonneg_right hy : x ≤ x + y)
    have hxr : round64 x = .fin x ∨ round64 x = .inf false := by
      rcases lt_or_le (nearest64 x) (2 ^ (1024 : ℕ)) with h1 | h1
      · left
        rw [round64_of_lt hx h1, hfx]
      · right
        exact round64_of_ge hx h1
    show (F64.fin x).le (round64 (x + y)) = true
    rcases hxr with h1 | h1
    · rw [h1] at h
      exact h
    · rw [h1] at h
      rcases (round64_good (add_nonneg hx hy)) with h2 | ⟨z, h2, _, _⟩
      · rw [h2]
        rfl
      · rw [h2] at h
        simp [F64.le] at h

theorem F64.add_le_add {a c b : F64} (ha : a.Good) (hc : c.Good) (hb : b.Good)
    (h : a.le c = true) : (a.add b).le (c.add b) = true := by
  rcases ha with rfl | ⟨x, rfl, hx, _⟩ <;> rcases hc with rfl | ⟨z, rfl, hz, _⟩ <;>
    rcases hb with rfl | ⟨y, rfl, hy, _⟩
  · rfl
  · rfl
  · simp [F64.le] at h
  · simp [F64.le] at h
  · rfl
  · show (round64 (x + y)).le (F64.inf false) = true
    rcases (round64_good (add_nonneg hx hy)) with h2 | ⟨w, h2, _, _⟩ <;> rw [h2] <;> rfl
  · rfl
  · show (round64 (x + y)).le (round64 (z + y)) = true
    have hxz : x ≤ z := by simpa [F64.le] using h
    exact round64_le (add_nonneg hx hy) (by linarith)

theorem F64.orZero_good {v : F64} (h : v.Good) : v.orZero = v := by
  rcases h with rfl | ⟨q, rfl, _, _⟩ <;> rfl

theorem pos64_good {q : ℚ} (hq : 0 ≤ q) : (pos64 q).Good := by
  unfold pos64
  rw [F64.orZero_good (round64_good hq)]
  exact round64_good hq

theorem PosAcc64.zero_ordered : PosAcc64.zero.Ordered :=
  ⟨F64.zero_good, F64.zero_good, F64.zero_good, F64.zero_good, by simp [PosAcc64.zero, F64.le],
    by simp [PosAcc64.zero, F64.le], by simp [PosAcc64.zero, F64.le]⟩

theorem PosAcc64.add_ordered {m : PosAcc64} (hm : m.Ordered) (perf : String) {pos : F64}
    (hp : pos.Good) : (m.add perf pos).Ordered := by
  obtain ⟨g1, g2, g3, g4, o1, o2, o3⟩ := hm
  by_cases hflow : perf = "FLOW"
  · have hrb : ¬ perf = "RB" := by rw [hflow]; decide
    have hnorm : ¬ perf = "NORM" := by rw [hflow]; decide
    simp only [PosAcc64.Ordered, PosAcc64.add, hflow, hrb, hnorm, ne_eq, not_true_eq_false,
      if_false]
    exact ⟨F64.add_good g1 hp, g2, g3, g4, o1, o2,
      F64.le_chain g2 g1 (F64.add_good g1 hp) o3 (F64.le_add g1 hp)⟩
  · by_cases hrb : perf = "RB"
    · have hnorm : ¬ perf = "NORM" := by rw [hrb]; decide
      simp only [PosAcc64.Ordered, PosAcc64.add, hflow, hrb, hnorm, ne_eq, not_false_eq_true,
        if_true, if_false]
      have e : ¬ "RB" = "FLOW" := by decide
      have e2 : ¬ "RB" = "NORM" := by decide
      simp only [e, e2, not_false_eq_true, if_true, if_false]
      exact ⟨F64.add_good g1 hp, F64.add_good g2 hp, F64.add_good g3 hp, g4,
        F64.add_le_add g3 g2 hp o1,
        F64.le_chain g4 g2 (F64.add_good g2 hp) o2 (F64.le_add g2 hp),
        F64.add_le_add g2 g1 hp o3⟩
    · by_cases hnorm : perf = "NORM"
      · simp only [PosAcc64.Ordered, PosAcc64.add, hnorm, ne_eq, if_true]
        have e : ¬ "NORM" = "FLOW" := by decide
        have e2 : ¬ "NORM" = "RB" := by decide
        simp only [e, e2, not_false_eq_true, if_true, if_false]
        exact ⟨F64.add_good g1 hp, F64.add_good g2 hp, g3, F64.add_good g4 hp,
          F64.le_chain g3 g2 (F64.add_good g2 hp) o1 (F64.le_add g2 hp),
          F64.add_le_add g4 g2 hp o2,
          F64.add_le_add g2 g1 hp o3⟩
      · simp only [PosAcc64.Ordered, PosAcc64.add, hflow, hrb, hnorm, ne_eq, not_false_eq_true,
          if_true, if_false]
        exact ⟨F64.add_good g1 hp, F64.add_good g2 hp, g3, g4,
          F64.le_chain g3 g2 (F64.add_good g2 hp) o1 (F64.le_add g2 hp),
          F64.le_chain g4 g2 (F64.add_good g2 hp) o2 (F64.le_add g2 hp),
          F64.add_le_add g2 g1 hp o3⟩

theorem posFold_ordered {γ : Type} (perf : γ → String) (amount : γ → ℚ) (cs : List γ)
    (h : ∀ c ∈ cs, 0 ≤ amount c) (m : PosAcc64) (hm : m.Ordered) :
    (cs.foldl (fun m c => m.add (perf c) (pos64 (amount c))) m).Ordered := by
  induction cs generalizing m with
  | nil => exact hm
  | cons c cs ih =>
    rw [List.foldl_cons]
    apply ih (fun x hx => h x (List.mem_cons_of_mem _ hx))
    exact PosAcc64.add_ordered hm _ (pos64_good (h c (List.mem_cons_self _ _)))

theorem pct64_fin {n d : ℚ} (h0 : 0 ≤ n) (h : n ≤ d) :
    ∃ r : ℚ, pct64 (.fin n) (.fin d) = .fin r ∧ 0 ≤ r ∧ r ≤ 100
      ∧ (0 < d → r = nearest64 (nearest64 (n / d) * 100)) ∧ (¬ 0 < d → r = 0) := by
  by_cases hd : 0 < d
  · have hq0 : 0 ≤ n / d := div_nonneg h0 hd.le
    have hq1 : n / d ≤ 1 := (div_le_one hd).2 h
    have hr0 : 0 ≤ nearest64 (n / d) := nearest64_nonneg hq0
    have hr1 : nearest64 (n / d) ≤ 1 := by
      have := nearest64_mono hq0 hq1
      rwa [nearest64_one] at this
    have hdiv : round64 (n / d) = .fin (nearest64 (n / d)) :=
      round64_of_lt hq0 (lt_of_le_of_lt hr1 (by norm_num))
    have hm0 : 0 ≤ nearest64 (n / d) * 100 := by linarith
    have hm1 : nearest64 (n / d) * 100 ≤ 100 := by linarith
    have hs1 : nearest64 (nearest64 (n / d) * 100) ≤ 100 := by
      have := nearest64_mono hm0 hm1
      rwa [nearest64_hundred] at this
    have hmul : round64 (nearest64 (n / d) * 100) = .fin (nearest64 (nearest64 (n / d) * 100)) :=
      round64_of_lt hm0 (lt_of_le_of_lt hs1 (by norm_num))
    refine ⟨nearest64 (nearest64 (n / d) * 100), ?_, nearest64_nonneg hm0, hs1, fun _ => rfl,
      fun hn => absurd hd hn⟩
    simp only [pct64, F64.isPos, hd, decide_True, if_true, F64.div, ne_of_gt hd, if_false,
      hdiv, F64.mul, hmul]
  · refine ⟨0, ?_, le_refl _, by norm_num, fun hp => absurd hp hd, fun _ => rfl⟩
    simp [pct64, F64.isPos, hd]

theorem pct64_le {n k d : ℚ} (h0 : 0 ≤ n) (hnk : n ≤ k) (h : k ≤ d) :
    (pct64 (.fin n) (.fin d)).le (pct64 (.fin k) (.fin d)) = true := by
  obtain ⟨r, hr, _, _, hr1, hr2⟩ := pct64_fin h0 (le_trans hnk h)
  obtain ⟨t, ht, _, _, ht1, ht2⟩ := pct64_fin (le_trans h0 hnk) h
  rw [hr, ht]
  by_cases hd : 0 < d
  · rw [hr1 hd, ht1 hd]
    have hq0 : 0 ≤ n / d := div_nonneg h0 hd.le
    have hq : n / d ≤ k / d := div_le_div_of_nonneg_right hnk hd.le
    have h1 := nearest64_mono hq0 hq
    have h2 : 0 ≤ nearest64 (n / d) * 100 := by
      have := nearest64_nonneg hq0
      linarith
    have := nearest64_mono h2 (by linarith : nearest64 (n / d) * 100 ≤ nearest64 (k / d) * 100)
    simpa [F64.le] using this
  · rw [hr2 hd, ht2 hd]
    simp [F64.le]

theorem F64.fin_of_le_fin {n : F64} {d : ℚ} (hn : n.Good) (h : n.le (.fin d) = true) :
    ∃ q : ℚ, n = .fin q ∧ 0 ≤ q ∧ q ≤ d := by
  rcases hn with rfl | ⟨q, rfl, hq, _⟩
  · simp [F64.le] at h
  · exact ⟨q, rfl, hq, by simpa [F64.le] using h⟩

theorem ordered_posBounds64 {m : PosAcc64} (hm : m.Ordered) :
    posBounds64 m.totalPOS.orZero m.posNotFlow.orZero m.posRB.orZero m.posNorm.orZero
      (pct64 m.posNotFlow m.totalPOS.orZero) (pct64 m.posRB m.totalPOS.orZero)
      (pct64 m.posNorm m.totalPOS.orZero) := by
  obtain ⟨g1, g2, g3, g4, o1, o2, o3⟩ := hm
  rw [F64.orZero_good g1, F64.orZero_good g2, F64.orZero_good g3, F64.orZero_good g4]
  refine ⟨o1, o2, o3, ?_⟩
  intro hfin
  cases ht : m.totalPOS with
  | nan => rw [ht] at hfin; simp [F64.isFinite] at hfin
  | inf s => rw [ht] at hfin; simp [F64.isFinite] at hfin
  | fin d =>
    rw [ht] at o3
    obtain ⟨nf, hnf, hnf0, hnfd⟩ := F64.fin_of_le_fin g2 o3
    rw [hnf] at o1 o2
    obtain ⟨rb, hrb, hrb0, hrbn⟩ := F64.fin_of_le_fin g3 o1
    obtain ⟨nm, hnm, hnm0, hnmn⟩ := F64.fin_of_le_fin g4 o2
    rw [hnf, hrb, hnm]
    obtain ⟨r1, e1, a1, _, _, _⟩ := pct64_fin hrb0 (le_trans hrbn hnfd)
    obtain ⟨r2, e2, a2, _, _, _⟩ := pct64_fin hnm0 (le_trans hnmn hnfd)
    obtain ⟨r3, e3, a3, b3, _, _⟩ := pct64_fin hnf0 hnfd
    refine ⟨?_, ?_, ?_, pct64_le hrb0 hrbn hnfd, ?_, pct64_le hnm0 hnmn hnfd⟩
    · rw [e3]; simpa [F64.le] using a3
    · rw [e3]; simpa [F64.le] using b3
    · rw [e1]; simpa [F64.le] using a1
    · rw [e2]; simpa [F64.le] using a2

theorem roundHalfEven_eq (x : ℚ) (m : ℤ)
    (h : ((m : ℚ) - 1 / 2 < x ∧ x < m + 1 / 2)
      ∨ ((x = m + 1 / 2 ∨ x = m - 1 / 2) ∧ m % 2 = 0)) : roundHalfEven x = m := by
  rcases h with ⟨h1, h2⟩ | ⟨h1 | h1, hev⟩
  · apply roundHalfEven_eq_of_abs_lt
    rw [abs_lt]
    constructor <;> linarith
  · have hf : ⌊x⌋ = m := by
      rw [Int.floor_eq_iff]
      constructor <;> linarith
    unfold roundHalfEven
    rw [hf, if_neg (by rw [h1]; norm_num), if_neg (by rw [h1]; norm_num), if_pos hev]
  · have hf : ⌊x⌋ = m - 1 := by
      rw [Int.floor_eq_iff]
      push_cast
      constructor <;> linarith
    unfold roundHalfEven
    rw [hf]
    push_cast
    rw [if_neg (by rw [h1]; norm_num), if_neg (by rw [h1]; norm_num), if_neg (by omega)]
    omega

theorem ulpExp_eq {q : ℚ} {e : ℤ} (h1 : 2 ^ (e + 52) ≤ q) (h2 : q < 2 ^ (e + 53))
    (he : -1074 ≤ e) : ulpExp q = e := by
  have hq : 0 < q := lt_of_lt_of_le (zpow_pos (by norm_num) _) h1
  have hlog : Int.log 2 q = e + 52 := by
    apply le_antisymm
    · have h2c : q < ((2 : ℕ) : ℚ) ^ (e + 53) := by simpa using h2
      have := (Int.lt_zpow_iff_log_lt (b := 2) (by norm_num) hq).1 h2c
      omega
    · have h1c : ((2 : ℕ) : ℚ) ^ (e + 52) ≤ q := by simpa using h1
      exact (Int.zpow_le_iff_le_log (b := 2) (by norm_num) hq).1 h1c
  unfold ulpExp
  rw [abs_of_pos hq, hlog, max_eq_left (by omega)]
  omega

theorem round64_eval (q v : ℚ) (e m : ℤ) (h1 : 2 ^ (e + 52) ≤ q) (h2 : q < 2 ^ (e + 53))
    (he : -1074 ≤ e)
    (hm : ((m : ℚ) - 1 / 2 < q / 2 ^ e ∧ q / 2 ^ e < m + 1 / 2)
      ∨ ((q / 2 ^ e = m + 1 / 2 ∨ q / 2 ^ e = m - 1 / 2) ∧ m % 2 = 0))
    (hv : v = m * 2 ^ e) (hfin : v < 2 ^ (1024 : ℕ)) : round64 q = .fin v := by
  have hq : 0 < q := lt_of_lt_of_le (zpow_pos (by norm_num) _) h1
  have hn : nearest64 q = v := by
    unfold nearest64
    rw [ulpExp_eq h1 h2 he, roundHalfEven_eq _ m hm, hv]
  rw [round64_of_lt hq.le (by rw [hn]; exact hfin), hn]

theorem round64_zero : round64 0 = .fin 0 := by
  rw [round64_of_lt (le_refl _) (by rw [nearest64_zero]; norm_num), nearest64_zero]

/-! ## The amount figures in binary64 -/

theorem foldl_skip {α γ : Type} (skip : γ → Prop) [DecidablePred skip] (f : α → γ → α)
    (cs : List γ) (o : α) :
    cs.foldl (fun o c => if skip c then o else f o c) o
      = (cs.filter (fun c => !decide (skip c))).foldl f o := by
  induction cs generalizing o with
  | nil => rfl
  | cons c cs ih =>
    rw [List.foldl_cons, ih]
    by_cases h : skip c
    · simp [h]
    · simp [h]

theorem addCase64_fold_ordered (cs : List CaseWithFeedbacks)
    (h : ∀ c ∈ cs, 0 ≤ c.toCase.pos_amount) : (cs.foldl addCase64 PosAcc64.zero).Ordered := by
  have he : addCase64 = (fun (m : PosAcc64) (c : CaseWithFeedbacks) =>
      m.add (normalizePerf c.toCase.performance) (pos64 c.toCase.pos_amount)) := rfl
  rw [he]
  exact posFold_ordered (fun c : CaseWithFeedbacks => normalizePerf c.toCase.performance)
    (fun c : CaseWithFeedbacks => c.toCase.pos_amount) cs h PosAcc64.zero PosAcc64.zero_ordered

theorem foldl_prodUpdate64 (cs : List CaseWithFeedbacks) (p : ProdAcc64) :
    cs.foldl prodUpdate64 p
      = { amounts := cs.foldl addCase64 p.amounts, bkts := cs.foldl bktsStep64 p.bkts } := by
  induction cs generalizing p with
  | nil => rfl
  | cons c cs ih => rw [List.foldl_cons, ih]; rfl

theorem foldl_bankUpdate64 (cs : List CaseWithFeedbacks) (b : BankAcc64) :
    cs.foldl bankUpdate64 b
      = { amounts := cs.foldl addCase64 b.amounts
          products := cs.foldl productsStep64 b.products } := by
  induction cs generalizing b with
  | nil => rfl
  | cons c cs ih => rw [List.foldl_cons, ih]; rfl

theorem perfLoop64_byBank (cs : List CaseWithFeedbacks) (st : PerfLoop64) :
    (cs.foldl perfStep64 st).byBank = cs.foldl byBankStep64 st.byBank := by
  induction cs generalizing st with
  | nil => rfl
  | cons c cs ih => rw [List.foldl_cons, ih, List.foldl_cons]; rfl

theorem perfLoop64_amounts (cs : List CaseWithFeedbacks) (st : PerfLoop64) (t : F64) :
    cs.foldl (fun sum c => sum.add (pos64 c.toCase.pos_amount)) t
        = (cs.foldl addCase64
            { totalPOS := t, posNotFlow := st.posNotFlow, posRB := st.posRB
              posNorm := st.posNorm }).totalPOS
      ∧ (cs.foldl perfStep64 st).posNotFlow
        = (cs.foldl addCase64
            { totalPOS := t, posNotFlow := st.posNotFlow, posRB := st.posRB
              posNorm := st.posNorm }).posNotFlow
      ∧ (cs.foldl perfStep64 st).posRB
        = (cs.foldl addCase64
            { totalPOS := t, posNotFlow := st.posNotFlow, posRB := st.posRB
              posNorm := st.posNorm }).posRB
      ∧ (cs.foldl perfStep64 st).posNorm
        = (cs.foldl addCase64
            { totalPOS := t, posNotFlow := st.posNotFlow, posRB := st.posRB
              posNorm := st.posNorm }).posNorm := by
  induction cs generalizing st t with
  | nil => exact ⟨rfl, rfl, rfl, rfl⟩
  | cons c cs ih =>
    simp only [List.foldl_cons]
    exact ih (perfStep64 st c) (t.add (pos64 c.toCase.pos_amount))

theorem aggregate64_amounts (cs : List CaseWithFeedbacks) :
    (aggregatePerformance64 cs).totalPOS = (cs.foldl addCase64 PosAcc64.zero).totalPOS
      ∧ (aggregatePerformance64 cs).posNotFlow = (cs.foldl addCase64 PosAcc64.zero).posNotFlow
      ∧ (aggregatePerformance64 cs).posRB = (cs.foldl addCase64 PosAcc64.zero).posRB
      ∧ (aggregatePerformance64 cs).posNorm = (cs.foldl addCase64 PosAcc64.zero).posNorm
      ∧ (aggregatePerformance64 cs).posNotFlowRate
        = pct64 (cs.foldl addCase64 PosAcc64.zero).posNotFlow
            (cs.foldl addCase64 PosAcc64.zero).totalPOS
      ∧ (aggregatePerformance64 cs).posRBRate
        = pct64 (cs.foldl addCase64 PosAcc64.zero).posRB
            (cs.foldl addCase64 PosAcc64.zero).totalPOS
      ∧ (aggregatePerformance64 cs).posNormRate
        = pct64 (cs.foldl addCase64 PosAcc64.zero).posNorm
            (cs.foldl addCase64 PosAcc64.zero).totalPOS := by
  obtain ⟨h1, h2, h3, h4⟩ := perfLoop64_amounts cs PerfLoop64.init (.fin 0)
  have hz : ({ totalPOS := .fin 0, posNotFlow := PerfLoop64.init.posNotFlow
               posRB := PerfLoop64.init.posRB, posNorm := PerfLoop64.init.posNorm } : PosAcc64)
      = PosAcc64.zero := rfl
  rw [hz] at h1 h2 h3 h4
  simp only [aggregatePerformance64]
  rw [h1, h2, h3, h4]
  exact ⟨rfl, rfl, rfl, rfl, rfl, rfl, rfl⟩

theorem aggregate64_bankBreakdown (cs : List CaseWithFeedbacks) :
    (aggregatePerformance64 cs).bankBreakdown
      = (Obj.entries (cs.foldl byBankStep64 [])).map (fun kv => bankNode64 kv.1 kv.2) := by
  simp [aggregatePerformance64, perfLoop64_byBank, PerfLoop64.init]

theorem byBank64_entry (cs : List CaseWithFeedbacks) (name : String) (b : BankAcc64)
    (h : (name, b) ∈ Obj.entries (cs.foldl byBankStep64 [])) :
    b.amounts = (casesOfBank name cs).foldl addCase64 PosAcc64.zero
      ∧ b.products = (casesOfBank name cs).foldl productsStep64 [] := by
  obtain ⟨_, hb⟩ := groupFold_entry bankKey
    (fun _ => ({ amounts := PosAcc64.zero, products := [] } : BankAcc64)) bankUpdate64 cs name b h
  rw [foldl_bankUpdate64] at hb
  rw [hb]
  exact ⟨rfl, rfl⟩

theorem products64_entry (cs : List CaseWithFeedbacks) (name : String) (p : ProdAcc64)
    (h : (name, p) ∈ Obj.entries (cs.foldl productsStep64 [])) :
    p.amounts = (cs.filter (fun c => decide (productKey c = name))).foldl addCase64 PosAcc64.zero
      ∧ p.bkts = (cs.filter (fun c => decide (productKey c = name))).foldl bktsStep64 [] := by
  obtain ⟨_, hb⟩ := groupFold_entry productKey
    (fun _ => ({ amounts := PosAcc64.zero, bkts := [] } : ProdAcc64)) prodUpdate64 cs name p h
  rw [foldl_prodUpdate64] at hb
  rw [hb]
  exact ⟨rfl, rfl⟩

theorem bkts64_entry (cs : List CaseWithFeedbacks) (name : String) (m : PosAcc64)
    (h : (name, m) ∈ Obj.entries (cs.foldl bktsStep64 [])) :
    ∃ sub : List CaseWithFeedbacks, (∀ c ∈ sub, c ∈ cs) ∧ m = sub.foldl addCase64 PosAcc64.zero := by
  have hf : cs.foldl bktsStep64 []
      = (cs.filter (fun c => !decide (bktKey c ∈ protoKeys))).foldl
          (fun o c => Obj.upsertWith o (bktKey c) PosAcc64.zero (fun a => addCase64 a c)) [] :=
    foldl_skip (fun c => bktKey c ∈ protoKeys)
      (fun o c => Obj.upsertWith o (bktKey c) PosAcc64.zero (fun a => addCase64 a c)) cs []
  rw [hf] at h
  obtain ⟨_, hb⟩ := groupFold_entry bktKey (fun _ => PosAcc64.zero) addCase64 _ name m h
  exact ⟨_, fun c hc => List.mem_of_mem_filter (List.mem_of_mem_filter hc), hb⟩

theorem lb64_entry (cs : List LbCase) (name : String) (m : PosAcc64)
    (h : (name, m) ∈ Obj.entries (cs.foldl lbStep64 [])) :
    ∃ sub : List LbCase, (∀ c ∈ sub, c ∈ cs)
      ∧ m = sub.foldl (fun m c => m.add (normalizePerf c.performance) (pos64 c.pos_amount))
          PosAcc64.zero := by
  have hf : cs.foldl lbStep64 []
      = (cs.filter (fun c => !decide (c.executiveId ∈ protoKeys))).foldl
          (fun o c => Obj.upsertWith o c.executiveId PosAcc64.zero
            (fun m => m.add (normalizePerf c.performance) (pos64 c.pos_amount))) [] :=
    foldl_skip (fun c : LbCase => c.executiveId ∈ protoKeys)
      (fun o c => Obj.upsertWith o c.executiveId PosAcc64.zero
        (fun m => m.add (normalizePerf c.performance) (pos64 c.pos_amount))) cs []
  rw [hf] at h
  obtain ⟨_, hb⟩ := groupFold_entry (fun c : LbCase => c.executiveId) (fun _ => PosAcc64.zero)
    (fun m c => m.add (normalizePerf c.performance) (pos64 c.pos_amount)) _ name m h
  exact ⟨_, fun c hc => List.mem_of_mem_filter (List.mem_of_mem_filter hc), hb⟩

theorem leaderboardCases_nonneg (cases : List Case) (month year : Nat)
    (h : ∀ c ∈ cases, 0 ≤ c.pos_amount) :
    ∀ c ∈ leaderboardCases cases month year, 0 ≤ c.pos_amount := by
  intro c hc
  unfold leaderboardCases at hc
  obtain ⟨c0, hc0, hmap⟩ := List.mem_filterMap.1 hc
  split at hmap
  · cases he : c0.executiveId with
    | none => rw [he] at hmap; simp at hmap
    | some e =>
      rw [he] at hmap
      simp only [Option.map_some', Option.some.injEq] at hmap
      rw [← hmap]
      exact h c0 hc0
  · cases hmap

theorem ordered_top64 {m : PosAcc64} (hm : m.Ordered) :
    posBounds64 m.totalPOS m.posNotFlow m.posRB m.posNorm (pct64 m.posNotFlow m.totalPOS)
      (pct64 m.posRB m.totalPOS) (pct64 m.posNorm m.totalPOS) := by
  have h := ordered_posBounds64 hm
  obtain ⟨g1, g2, g3, g4, _⟩ := hm
  rw [F64.orZero_good g1, F64.orZero_good g2, F64.orZero_good g3, F64.orZero_good g4] at h
  exact h

theorem ordered_row64 {m : PosAcc64} (hm : m.Ordered) :
    posBounds64 m.totalPOS.orZero m.posNotFlow m.posRB m.posNorm
      (pct64 m.posNotFlow m.totalPOS.orZero) (pct64 m.posRB m.totalPOS.orZero)
      (pct64 m.posNorm m.totalPOS.orZero) := by
  have h := ordered_posBounds64 hm
  obtain ⟨_, g2, g3, g4, _⟩ := hm
  rw [F64.orZero_good g2, F64.orZero_good g3, F64.orZero_good g4] at h
  exact h

theorem leaderboard64_row_posBounds (db : Db) (month year : Nat)
    (h : ∀ c ∈ db.cases, 0 ≤ c.pos_amount) (r : LbRow64)
    (hr : r ∈ leaderboardRows64 db month year) :
    posBounds64 r.totalPOS r.posNotFlow r.posRB r.posNorm r.posNotFlowRate r.posRBRate
      r.posNormRate := by
  unfold leaderboardRows64 at hr
  obtain ⟨kv, hkv, rfl⟩ := List.mem_map.1 (List.mem_of_mem_filter hr)
  obtain ⟨sub, hsub, hm⟩ := lb64_entry _ kv.1 kv.2 hkv
  have hord : kv.2.Ordered := by
    rw [hm]
    exact posFold_ordered (fun c : LbCase => normalizePerf c.performance)
      (fun c : LbCase => c.pos_amount) sub
      (fun c hc => leaderboardCases_nonneg db.cases month year h c (hsub c hc)) PosAcc64.zero
      PosAcc64.zero_ordered
  exact ordered_row64 hord

/-- C29: in binary64 arithmetic, with non-negative outstanding amounts, the top
level of `getExecutivePerformance`, every bank node and every bucket node of its
breakdown and every row of `getLeaderboard` have posRB ≤ posNotFlow,
posNorm ≤ posNotFlow and posNotFlow ≤ totalPOS, and, when totalPOS is finite, rates
between 0 and 100 with posRBRate ≤ posNotFlowRate and posNormRate ≤ posNotFlowRate
(`posBounds64`); a product node, which carries no posRB and posNorm, has
posNotFlow ≤ totalPOS and, when totalPOS is finite, its rate between 0 and 100.
The exact sums of the amounts of any set of such cases have
posRB + posNorm ≤ posNotFlow ≤ totalPOS; for the rounded figures the sum
posRB + posNorm can exceed posNotFlow. -/
theorem C29_amount_figures_are_ordered (cs : List CaseWithFeedbacks)
    (h : ∀ c ∈ cs, 0 ≤ c.toCase.pos_amount) :
    posBounds64 (aggregatePerformance64 cs).totalPOS (aggregatePerformance64 cs).posNotFlow
        (aggregatePerformance64 cs).posRB (aggregatePerformance64 cs).posNorm
        (aggregatePerformance64 cs).posNotFlowRate (aggregatePerformance64 cs).posRBRate
        (aggregatePerformance64 cs).posNormRate
      ∧ (∀ bank ∈ (aggregatePerformance64 cs).bankBreakdown,
          posBounds64 bank.totalPOS bank.posNotFlow bank.posRB bank.posNorm bank.posNotFlowRate
              bank.posRBRate bank.posNormRate
            ∧ ∀ prod ∈ bank.products,
                (prod.posNotFlow.le prod.totalPOS = true
                    ∧ (prod.totalPOS.isFinite = true →
                        (F64.fin 0).le prod.posNotFlowRate = true
                          ∧ prod.posNotFlowRate.le (F64.fin 100) = true))
                  ∧ ∀ bkt ∈ prod.bkts,
                      posBounds64 bkt.totalPOS bkt.posNotFlow bkt.posRB bkt.posNorm
                        bkt.posNotFlowRate bkt.posRBRate bkt.posNormRate)
      ∧ (∀ sub : List CaseWithFeedbacks, (∀ c ∈ sub, c ∈ cs) →
          (metricsOver sub).posRB + (metricsOver sub).posNorm ≤ (metricsOver sub).posNotFlow
            ∧ (metricsOver sub).posNotFlow ≤ (metricsOver sub).totalPOS)
      ∧ ∀ (db : Db) (month year : Nat), (∀ c ∈ db.cases, 0 ≤ c.pos_amount) →
          ∀ row ∈ leaderboardRows64 db month year,
            posBounds64 row.totalPOS row.posNotFlow row.posRB row.posNorm row.posNotFlowRate
              row.posRBRate row.posNormRate := by
  refine ⟨?_, ?_, ?_, fun db month year hdb row hrow =>
    leaderboard64_row_posBounds db month year hdb row hrow⟩
  · obtain ⟨a1, a2, a3, a4, a5, a6, a7⟩ := aggregate64_amounts cs
    rw [a1, a2, a3, a4, a5, a6, a7]
    exact ordered_top64 (addCase64_fold_ordered cs h)
  · intro bank hbank
    rw [aggregate64_bankBreakdown] at hbank
    obtain ⟨⟨bn, b⟩, hmem, rfl⟩ := List.mem_map.1 hbank
    obtain ⟨hm, hp⟩ := byBank64_entry cs bn b hmem
    have hbankcases : ∀ c ∈ casesOfBank bn cs, 0 ≤ c.toCase.pos_amount :=
      fun c hc => h c (List.mem_of_mem_filter hc)
    have hbord : b.amounts.Ordered := by
      rw [hm]
      exact addCase64_fold_ordered _ hbankcases
    refine ⟨ordered_posBounds64 hbord, ?_⟩
    intro prod hprod
    simp only [bankNode64, hp] at hprod
    obtain ⟨⟨pn, p⟩, hpmem, rfl⟩ := List.mem_map.1 hprod
    obtain ⟨hpm, hpb⟩ := products64_entry _ pn p hpmem
    have hprodcases : ∀ c ∈ (casesOfBank bn cs).filter (fun c => decide (productKey c = pn)),
        0 ≤ c.toCase.pos_amount := fun c hc => hbankcases c (List.mem_of_mem_filter hc)
    have hpord : p.amounts.Ordered := by
      rw [hpm]
      exact addCase64_fold_ordered _ hprodcases
    obtain ⟨_, _, q3, q4⟩ := ordered_posBounds64 hpord
    refine ⟨⟨q3, fun hfin => ⟨(q4 hfin).1, (q4 hfin).2.1⟩⟩, ?_⟩
    intro bkt hbkt
    simp only [productNode64, hpb] at hbkt
    obtain ⟨⟨kn, m⟩, hkmem, rfl⟩ := List.mem_map.1 hbkt
    obtain ⟨sub, hsub, hkm⟩ := bkts64_entry _ kn m hkmem
    have hkord : m.Ordered := by
      rw [hkm]
      exact addCase64_fold_ordered _ (fun c hc => hprodcases c (hsub c hc))
    exact ordered_posBounds64 hkord
  · intro sub hsub
    have hs : ∀ c ∈ sub, 0 ≤ c.toCase.pos_amount := fun c hc => h c (hsub c hc)
    exact ⟨sumPos_rb_norm_le sub hs, sumPos_notFlow_le sub hs⟩

theorem pct64_eval (n d q r : ℚ) (hd : 0 < d) (h1 : round64 (n / d) = .fin q)
    (h2 : round64 (q * 100) = .fin r) : pct64 (.fin n) (.fin d) = .fin r := by
  simp only [pct64, F64.isPos, hd, decide_True, if_true, F64.div, ne_of_gt hd, if_false, h1,
    F64.mul, h2]

theorem rounding_amounts :
    pos64 (8853152 / 100) = .fin (6083839729042719 / 68719476736)
      ∧ pos64 (7347534 / 100) = .fin (2524593458899845 / 34359738368)
      ∧ pos64 (9276444 / 100) = .fin (1593680944127017 / 17179869184) := by
  refine ⟨?_, ?_, ?_⟩
  · unfold pos64
    rw [round64_eval _ (6083839729042719 / 68719476736) (-36) 6083839729042719 (by norm_num)
      (by norm_num) (by norm_num) (Or.inl (by constructor <;> norm_num)) (by norm_num)
      (by norm_num)]
    rfl
  · unfold pos64
    rw [round64_eval _ (2524593458899845 / 34359738368) (-36) 5049186917799690 (by norm_num)
      (by norm_num) (by norm_num) (Or.inl (by constructor <;> norm_num)) (by norm_num)
      (by norm_num)]
    rfl
  · unfold pos64
    rw [round64_eval _ (1593680944127017 / 17179869184) (-36) 6374723776508068 (by norm_num)
      (by norm_num) (by norm_num) (Or.inl (by constructor <;> norm_num)) (by norm_num)
      (by norm_num)]
    rfl

theorem rounding_sums :
    round64 (0 + 6083839729042719 / 68719476736) = .fin (6083839729042719 / 68719476736)
      ∧ round64 (0 + 2524593458899845 / 34359738368) = .fin (2524593458899845 / 34359738368)
      ∧ round64 (6083839729042719 / 68719476736 + 2524593458899845 / 34359738368)
          = .fin (1391628330855301 / 8589934592)
      ∧ round64 (1391628330855301 / 8589934592 + 1593680944127017 / 17179869184)
          = .fin (4376937605837619 / 17179869184)
      ∧ round64 (6083839729042719 / 68719476736 + 1593680944127017 / 17179869184)
          = .fin (3114640876387697 / 17179869184) :=
  ⟨round64_eval _ _ (-36) 6083839729042719 (by norm_num) (by norm_num) (by norm_num)
      (Or.inl (by constructor <;> norm_num)) (by norm_num) (by norm_num),
    round64_eval _ _ (-36) 5049186917799690 (by norm_num) (by norm_num) (by norm_num)
      (Or.inl (by constructor <;> norm_num)) (by norm_num) (by norm_num),
    round64_eval _ _ (-35) 5566513323421204 (by norm_num) (by norm_num) (by norm_num)
      (Or.inr ⟨Or.inl (by norm_num), by norm_num⟩) (by norm_num) (by norm_num),
    round64_eval _ _ (-35) 8753875211675238 (by norm_num) (by norm_num) (by norm_num)
      (Or.inl (by constructor <;> norm_num)) (by norm_num) (by norm_num),
    round64_eval _ _ (-35) 6229281752775394 (by norm_num) (by norm_num) (by norm_num)
      (Or.inr ⟨Or.inr (by norm_num), by norm_num⟩) (by norm_num) (by norm_num)⟩

theorem rounding_rates :
    pct64 (.fin (4376937605837619 / 17179869184)) (.fin (4376937605837619 / 17179869184))
        = .fin 100
      ∧ pct64 (.fin (3114640876387697 / 17179869184)) (.fin (4376937605837619 / 17179869184))
        = .fin (5007459250584351 / 70368744177664)
      ∧ pct64 (.fin (2524593458899845 / 34359738368)) (.fin (4376937605837619 / 17179869184))
        = .fin (4058830334364101 / 140737488355328) := by
  refine ⟨?_, ?_, ?_⟩
  · exact pct64_eval _ _ 1 _ (by norm_num)
      (round64_eval _ _ (-52) 4503599627370496 (by norm_num) (by norm_num) (by norm_num)
        (Or.inl (by constructor <;> norm_num)) (by norm_num) (by norm_num))
      (round64_eval _ _ (-46) 7036874417766400 (by norm_num) (by norm_num) (by norm_num)
        (Or.inl (by constructor <;> norm_num)) (by norm_num) (by norm_num))
  · exact pct64_eval _ _ (6409547840747969 / 9007199254740992) _ (by norm_num)
      (round64_eval _ _ (-53) 6409547840747969 (by norm_num) (by norm_num) (by norm_num)
        (Or.inl (by constructor <;> norm_num)) (by norm_num) (by norm_num))
      (round64_eval _ _ (-46) 5007459250584351 (by norm_num) (by norm_num) (by norm_num)
        (Or.inl (by constructor <;> norm_num)) (by norm_num) (by norm_num))
  · exact pct64_eval _ _ (5195302827986049 / 18014398509481984) _ (by norm_num)
      (round64_eval _ _ (-54) 5195302827986049 (by norm_num) (by norm_num) (by norm_num)
        (Or.inl (by constructor <;> norm_num)) (by norm_num) (by norm_num))
      (round64_eval _ _ (-48) 8117660668728202 (by norm_num) (by norm_num) (by norm_num)
        (Or.inl (by constructor <;> norm_num)) (by norm_num) (by norm_num))

theorem normalizePerf_RB : normalizePerf (some "RB") = "RB" := by decide

theorem normalizePerf_NORM : normalizePerf (some "NORM") = "NORM" := by decide

theorem addCase64_roundingCase (m : PosAcc64) (acc perf : String) (amount : ℚ) :
    addCase64 m (roundingCase acc perf amount)
      = m.add (normalizePerf (some perf)) (pos64 amount) := rfl

theorem PosAcc64.add_RB (m : PosAcc64) (pos : F64) :
    m.add "RB" pos
      = { totalPOS := m.totalPOS.add pos, posNotFlow := m.posNotFlow.add pos
          posRB := m.posRB.add pos, posNorm := m.posNorm } := by
  have e1 : ¬ "RB" = "FLOW" := by decide
  have e2 : ¬ "RB" = "NORM" := by decide
  simp only [PosAcc64.add, e1, e2, ne_eq, not_false_eq_true, if_true, if_false]

theorem PosAcc64.add_NORM (m : PosAcc64) (pos : F64) :
    m.add "NORM" pos
      = { totalPOS := m.totalPOS.add pos, posNotFlow := m.posNotFlow.add pos
          posRB := m.posRB, posNorm := m.posNorm.add pos } := by
  have e3 : ¬ "NORM" = "FLOW" := by decide
  have e4 : ¬ "NORM" = "RB" := by decide
  simp only [PosAcc64.add, e3, e4, ne_eq, not_false_eq_true, if_true, if_false]

theorem rounding_fold :
    roundingCases.foldl addCase64 PosAcc64.zero
      = { totalPOS := .fin (4376937605837619 / 17179869184)
          posNotFlow := .fin (4376937605837619 / 17179869184)
          posRB := .fin (3114640876387697 / 17179869184)
          posNorm := .fin (2524593458899845 / 34359738368) } := by
  obtain ⟨x1, x2, x3⟩ := rounding_amounts
  obtain ⟨s1, s2, s12, s123, s13⟩ := rounding_sums
  have h1 : addCase64 PosAcc64.zero (roundingCase "R1" "RB" (8853152 / 100))
      = { totalPOS := .fin (6083839729042719 / 68719476736)
          posNotFlow := .fin (6083839729042719 / 68719476736)
          posRB := .fin (6083839729042719 / 68719476736)
          posNorm := .fin 0 } := by
    rw [addCase64_roundingCase, normalizePerf_RB, x1, PosAcc64.add_RB]
    simp only [PosAcc64.zero, F64.add, s1]
  have h2 : addCase64
      { totalPOS := .fin (6083839729042719 / 68719476736)
        posNotFlow := .fin (6083839729042719 / 68719476736)
        posRB := .fin (6083839729042719 / 68719476736)
        posNorm := .fin 0 } (roundingCase "R2" "NORM" (7347534 / 100))
      = { totalPOS := .fin (1391628330855301 / 8589934592)
          posNotFlow := .fin (1391628330855301 / 8589934592)
          posRB := .fin (6083839729042719 / 68719476736)
          posNorm := .fin (2524593458899845 / 34359738368) } := by
    rw [addCase64_roundingCase, normalizePerf_NORM, x2, PosAcc64.add_NORM]
    simp only [F64.add, s2, s12]
  have h3 : addCase64
      { totalPOS := .fin (1391628330855301 / 8589934592)
        posNotFlow := .fin (1391628330855301 / 8589934592)
        posRB := .fin (6083839729042719 / 68719476736)
        posNorm := .fin (2524593458899845 / 34359738368) }
        (roundingCase "R3" "RB" (9276444 / 100))
      = { totalPOS := .fin (4376937605837619 / 17179869184)
          posNotFlow := .fin (4376937605837619 / 17179869184)
          posRB := .fin (3114640876387697 / 17179869184)
          posNorm := .fin (2524593458899845 / 34359738368) } := by
    rw [addCase64_roundingCase, normalizePerf_RB, x3, PosAcc64.add_RB]
    simp only [F64.add, s123, s13]
  unfold roundingCases
  rw [List.foldl_cons, h1, List.foldl_cons, h2, List.foldl_cons, h3, List.foldl_nil]

/-- C29 at the two example cases (outstanding amounts 1000 and 500): the top-level
figures are ordered in binary64 and the rates lie between 0 and 100. -/
theorem C29_amount_figures_witness :
    posBounds64 (aggregatePerformance64 [flowCase, rbCase]).totalPOS
      (aggregatePerformance64 [flowCase, rbCase]).posNotFlow
      (aggregatePerformance64 [flowCase, rbCase]).posRB
      (aggregatePerformance64 [flowCase, rbCase]).posNorm
      (aggregatePerformance64 [flowCase, rbCase]).posNotFlowRate
      (aggregatePerformance64 [flowCase, rbCase]).posRBRate
      (aggregatePerformance64 [flowCase, rbCase]).posNormRate :=
  (C29_amount_figures_are_ordered [flowCase, rbCase] (by
    intro c hc
    simp only [List.mem_cons, List.mem_singleton, List.not_mem_nil, or_false] at hc
    rcases hc with rfl | rfl
    · simp [flowCase]
    · simp [rbCase])).1

/-- C29, rounded sums: for an RB case of 88531.52, a NORM case of 73475.34 and an RB
case of 92764.44 the binary64 figures are posNotFlow = totalPOS = 254771.3,
posRB = 181295.96000000002 and posNorm = 73475.34, so posRB + posNorm exceeds
posNotFlow; the rates are 100, 71.16027590234852 and 28.839724097651505, so
posRBRate + posNormRate exceeds posNotFlowRate. -/
theorem C29_rounded_sums_counterexample :
    (∀ c ∈ roundingCases, 0 ≤ c.toCase.pos_amount)
      ∧ (aggregatePerformance64 roundingCases).totalPOS
        = .fin (4376937605837619 / 17179869184)
      ∧ (aggregatePerformance64 roundingCases).posNotFlow
        = .fin (4376937605837619 / 17179869184)
      ∧ (aggregatePerformance64 roundingCases).posRB = .fin (3114640876387697 / 17179869184)
      ∧ (aggregatePerformance64 roundingCases).posNorm = .fin (2524593458899845 / 34359738368)
      ∧ (4376937605837619 / 17179869184 : ℚ)
        < 3114640876387697 / 17179869184 + 2524593458899845 / 34359738368
      ∧ (aggregatePerformance64 roundingCases).posNotFlowRate = .fin 100
      ∧ (aggregatePerformance64 roundingCases).posRBRate
        = .fin (5007459250584351 / 70368744177664)
      ∧ (aggregatePerformance64 roundingCases).posNormRate
        = .fin (4058830334364101 / 140737488355328)
      ∧ (100 : ℚ) < 5007459250584351 / 70368744177664 + 4058830334364101 / 140737488355328 := by
  obtain ⟨a1, a2, a3, a4, a5, a6, a7⟩ := aggregate64_amounts roundingCases
  obtain ⟨r1, r2, r3⟩ := rounding_rates
  rw [a1, a2, a3, a4, a5, a6, a7, rounding_fold]
  refine ⟨?_, rfl, rfl, rfl, rfl, by norm_num, r1, r2, r3, by norm_num⟩
  intro c hc
  simp only [roundingCases, List.mem_cons, List.mem_singleton, List.not_mem_nil, or_false] at hc
  rcases hc with rfl | rfl | rfl <;> simp [roundingCase] <;> norm_num

/-! ## Trimmed strings -/

theorem dropWhile_eq_self_of_head (p : Char → Bool) (l : List Char)
    (h : ∀ c, l.head? = some c → p c = false) : l.dropWhile p = l := by
  cases l with
  | nil => rfl
  | cons x xs => simp [List.dropWhile_cons, h x rfl]

theorem trimChars_head (cs : List Char) (c : Char) (h : (trimChars cs).head? = some c) :
    isJsWhitespace c = false := by
  have hsuf := List.dropWhile_suffix (l := (cs.dropWhile isJsWhitespace).reverse) isJsWhitespace
  obtain ⟨s, hs⟩ := hsuf
  have hd : trimChars cs ++ s.reverse = cs.dropWhile isJsWhitespace := by
    have := congrArg List.reverse hs
    simpa [trimChars] using this
  have hne : trimChars cs ≠ [] := by
    intro e
    rw [e] at h
    simp at h
  have hh : (cs.dropWhile isJsWhitespace).head? = some c := by
    rw [← hd, List.head?_append_of_ne_nil _ hne, h]
  have := List.head?_dropWhile_not isJsWhitespace cs
  rw [hh] at this
  simpa using this

theorem trimChars_idem (cs : List Char) : trimChars (trimChars cs) = trimChars cs := by
  have h1 : (trimChars cs).dropWhile isJsWhitespace = trimChars cs :=
    dropWhile_eq_self_of_head _ _ (trimChars_head cs)
  have h2 : (trimChars cs).reverse.dropWhile isJsWhitespace = (trimChars cs).reverse := by
    apply dropWhile_eq_self_of_head
    intro c hc
    rw [List.head?_reverse] at hc
    exact trimChars_getLast cs c hc
  have hdef : trimChars (trimChars cs)
      = (((trimChars cs).dropWhile isJsWhitespace).reverse.dropWhile isJsWhitespace).reverse := rfl
  rw [hdef, h1, h2, List.reverse_reverse]

theorem trimChars_eq_nil_iff (cs : List Char) :
    trimChars cs = [] ↔ ∀ c ∈ cs, isJsWhitespace c = true := by
  unfold trimChars
  rw [List.reverse_eq_nil_iff, List.dropWhile_eq_nil_iff]
  constructor
  · intro h
    have hd : cs.dropWhile isJsWhitespace = [] := by
      cases hc : cs.dropWhile isJsWhitespace with
      | nil => rfl
      | cons x xs =>
        have hx := List.head?_dropWhile_not isJsWhitespace cs
        rw [hc] at hx h
        have := h x (by simp)
        simp at hx
        rw [hx] at this
        exact absurd this (by decide)
    exact List.dropWhile_eq_nil_iff.1 hd
  · intro h x hx
    have hd : cs.dropWhile isJsWhitespace = [] := List.dropWhile_eq_nil_iff.2 h
    rw [hd] at hx
    simp at hx

theorem jsTrim_idem (s : String) : jsTrim (jsTrim s) = jsTrim s := by
  simp [jsTrim, trimChars_idem]

theorem jsTrim_eq_empty_iff (s : String) :
    jsTrim s = "" ↔ ∀ c ∈ s.data, isJsWhitespace c = true := by
  rw [← trimChars_eq_nil_iff]
  unfold jsTrim
  constructor
  · intro h
    have := congrArg String.data h
    simpa using this
  · intro h
    rw [h]

/-! ## The account id of an accepted row -/

theorem accepted_acc_id (empIdToUserId : Obj String) (normalizedRows : List Row) (d : CaseDraft)
    (hd : d ∈ (rowLoop empIdToUserId normalizedRows).casesArray) :
    ∃ r ∈ normalizedRows, truthy (pick r accNoKeys) = true
      ∧ d.acc_id = jsTrim (strOf (pick r accNoKeys)) := by
  rw [rowLoop_eq] at hd
  obtain ⟨r, hr, ht, rfl⟩ := (mem_acceptedDrafts _ _ _).1 hd
  exact ⟨r, hr, ht, rfl⟩

/-- C27 (fails in the code for the non-empty part): the acc_id of every accepted
draft is the trimmed text of the account number of its row, so it has no white space
at either end; it is empty exactly when that text consists of white space only,
which the test `!acc_no`, made before trimming, lets pass. -/
theorem C27_accepted_account_id_is_trimmed (empIdToUserId : Obj String) (normalizedRows : List Row)
    (d : CaseDraft) (hd : d ∈ (rowLoop empIdToUserId normalizedRows).casesArray) :
    jsTrim d.acc_id = d.acc_id
      ∧ (∀ c, d.acc_id.data.head? = some c → isJsWhitespace c = false)
      ∧ (∀ c, d.acc_id.data.getLast? = some c → isJsWhitespace c = false)
      ∧ ∃ r ∈ normalizedRows, truthy (pick r accNoKeys) = true
          ∧ d.acc_id = jsTrim (strOf (pick r accNoKeys))
          ∧ (d.acc_id = "" ↔ ∀ c ∈ (strOf (pick r accNoKeys)).data, isJsWhitespace c = true) := by
  obtain ⟨r, hr, ht, hacc⟩ := accepted_acc_id empIdToUserId normalizedRows d hd
  refine ⟨by rw [hacc, jsTrim_idem], ?_, ?_, r, hr, ht, hacc, by rw [hacc, jsTrim_eq_empty_iff]⟩
  · intro c hc
    rw [hacc] at hc
    exact trimChars_head _ c hc
  · intro c hc
    rw [hacc] at hc
    exact trimChars_getLast _ c hc

/-- C27 at the example sheet: the draft of account A1 has a trimmed account id. -/
theorem C27_accepted_account_id_witness :
    ∃ d ∈ (rowLoop [] exampleSheet).casesArray, d.acc_id = "A1" ∧ jsTrim d.acc_id = d.acc_id := by
  have hmem : "A1" ∈ (rowLoop [] exampleSheet).casesArray.map (fun d => d.acc_id) := by
    rw [rowLoop_eq, acceptedDrafts_accIds]
    decide
  obtain ⟨d, hd, hid⟩ := List.mem_map.1 hmem
  exact ⟨d, hd, hid, (C27_accepted_account_id_is_trimmed [] exampleSheet d hd).1⟩

/-- C27 fails at a sheet whose only row has the account number '   ' (three spaces):
the row is accepted, no row is skipped, its draft has the empty acc_id, and the
upload stores a case under the empty account id. -/
theorem C27_blank_account_number_counterexample :
    (rowLoop [] (blankAccountSheet.map normalizeRow)).casesArray.map (fun d => d.acc_id) = [""]
      ∧ (rowLoop [] (blankAccountSheet.map normalizeRow)).skippedRows = []
      ∧ (uploadCases exampleEnv emptyDb (some blankAccountSheet) none none).1.cases.map
          (fun c => c.acc_id) = [""] := by
  refine ⟨?_, ?_, ?_⟩
  · rw [rowLoop_eq, acceptedDrafts_accIds]
    decide
  · rw [rowLoop_eq]
    decide
  · simp only [uploadCases, bulkCreateCases, batchLoop_eq, rowLoop_eq]
    decide

/-! ## Numeric fields of a draft -/

theorem parseFloat_zero : parseFloat (some (.num 0)) = .fin 0 := by
  have h1 : takeSign ((strOf (some (Cell.num 0))).data.dropWhile isJsWhitespace) = (false, ['0']) := by
    decide
  have h2 : takeDigits digitVal ['0'] = ([0], []) := by decide
  simp only [parseFloat, parseFloatStr, h1, h2]
  simp [ofDigits, parseExponent]

theorem amountOf_falsy (v : Option Cell) (h : truthy v = false) : amountOf v = .fin 0 := by
  simp [amountOf, jsOr, h, parseFloat_zero, JsNum.orZero]

theorem amountOf_truthy (v : Option Cell) (h : truthy v = true) :
    amountOf v = .fin (parseFloat v).orZero := by
  simp [amountOf, jsOr, h]

theorem parseInt_zero : parseInt (some (.num 0)) = some 0 := by decide

theorem intOf_falsy (v : Option Cell) (h : truthy v = false) : intOf v = 0 := by
  simp [intOf, jsOr, h, parseInt_zero]

theorem intOf_truthy (v : Option Cell) (h : truthy v = true) : intOf v = (parseInt v).getD 0 := by
  simp only [intOf, jsOr, h, if_true]
  cases parseInt v <;> rfl



/-- C22 (fails in the code for lat and lng): every amount of a draft is a number,
never NaN: the number `parseFloat` reads from the first truthy synonym column, and
0 when no column is truthy or the text is not numeric; dpd likewise with
`parseInt`; lat and lng are null when the column is absent or blank, and otherwise
whatever `parseFloat` gives, which is NaN for a text that is not numeric. -/
theorem C22_numeric_fields_of_a_draft (empIdToUserId : Obj String) (r : Row) (acc_no : Option Cell) :
    (∀ v : Option Cell, ∃ q, amountOf v = .fin q)
      ∧ (∀ v : Option Cell, truthy v = false ∨ parseFloat v = .nan → amountOf v = .fin 0)
      ∧ (∀ (v : Option Cell) (q : ℚ), truthy v = true → parseFloat v = .fin q → amountOf v = .fin q)
      ∧ (∀ v : Option Cell, truthy v = false ∨ parseInt v = none → intOf v = 0)
      ∧ (∀ (v : Option Cell) (n : Int), truthy v = true → parseInt v = some n → intOf v = n)
      ∧ (buildCaseObj empIdToUserId r acc_no).pos_amount
          = amountOf (pick r ["POS_amount", "pos amount", "Pos amount", "pos_amount", "POS_Amount"])
      ∧ (buildCaseObj empIdToUserId r acc_no).overdue_amount
          = amountOf (pick r ["Total_due_amount", "overdue_amount", "Overdue Amount",
              "overdue amount", "Total_Due_Amount"])
      ∧ (buildCaseObj empIdToUserId r acc_no).collection_amount
          = amountOf (pick r ["Collection_amount", "collection_amount", "Collection amount",
              "Collection_Amount"])
      ∧ (buildCaseObj empIdToUserId r acc_no).toss_amount
          = amountOf (pick r ["Toss_amount", "toss_amount", "Toss amount", "Toss_Amount"])
      ∧ (buildCaseObj empIdToUserId r acc_no).emi_amount
          = amountOf (pick r ["EMI_amount", "emi_amount", "EMI amount", "EMI_Amount"])
      ∧ (buildCaseObj empIdToUserId r acc_no).interest = amountOf (pick r ["Interest", "interest"])
      ∧ (buildCaseObj empIdToUserId r acc_no).dpd = some (intOf (pick r ["DPD", "dpd", "Dpd"]))
      ∧ (buildCaseObj empIdToUserId r acc_no).lat
          = (if truthy (Obj.get r "lat") then some (parseFloat (Obj.get r "lat")) else none)
      ∧ (buildCaseObj empIdToUserId r acc_no).lng
          = (if truthy (Obj.get r "lng") then some (parseFloat (Obj.get r "lng")) else none) := by
  refine ⟨fun v => ⟨_, rfl⟩, ?_, ?_, ?_, ?_, rfl, rfl, rfl, rfl, rfl, rfl, rfl, rfl, rfl⟩
  · rintro v (h | h)
    · exact amountOf_falsy v h
    · by_cases ht : truthy v = true
      · rw [amountOf_truthy v ht, h]; rfl
      · exact amountOf_falsy v (by simpa using ht)
  · intro v q ht h
    rw [amountOf_truthy v ht, h]; rfl
  · rintro v (h | h)
    · exact intOf_falsy v h
    · by_cases ht : truthy v = true
      · rw [intOf_truthy v ht, h]; rfl
      · exact intOf_falsy v (by simpa using ht)
  · intro v n ht h
    rw [intOf_truthy v ht, h]; rfl

/-- C22 fails at a row whose column lat holds the text abc: `parseFloat` gives NaN,
the draft carries NaN as latitude, not null, and the upload stores it. -/
theorem C22_text_latitude_counterexample :
    parseFloat (some (.str "abc")) = .nan
      ∧ (rowLoop [] (textLatitudeSheet.map normalizeRow)).casesArray.map (fun d => d.lat)
          = [some .nan]
      ∧ (uploadCases exampleEnv emptyDb (some textLatitudeSheet) none none).1.cases.map
          (fun c => c.lat) = [some .nan] := by
  refine ⟨by decide, ?_, ?_⟩
  · rw [rowLoop_eq]
    decide
  · simp only [uploadCases, bulkCreateCases, batchLoop_eq, rowLoop_eq]
    decide

/-! ## The sign of a parsed amount -/

theorem takeSign_true (l : List Char) (h : (takeSign l).1 = true) : l.head? = some '-' := by
  cases l with
  | nil => simp [takeSign] at h
  | cons c cs =>
    by_cases h1 : c = '-'
    · simp [h1]
    · by_cases h2 : c = '+'
      · simp [takeSign, h1, h2] at h
      · simp [takeSign, h1, h2] at h

theorem parseFloatStr_neg (s : String) (q : ℚ) (h : parseFloatStr s = .fin q) (hq : q < 0) :
    (s.data.dropWhile isJsWhitespace).head? = some '-' := by
  apply takeSign_true
  unfold parseFloatStr at h
  simp only at h
  split at h
  · exact absurd h (by simp)
  · simp only [JsNum.fin.injEq] at h
    by_contra hs
    simp only [hs, Bool.false_eq_true, if_false] at h
    have hnn : (0 : ℚ) ≤ q := by
      rw [← h]
      apply mul_nonneg
      · apply add_nonneg
        · exact Nat.cast_nonneg _
        · apply div_nonneg
          · exact Nat.cast_nonneg _
          · positivity
      · positivity
    linarith

theorem amountOf_neg (v : Option Cell) (h : (amountOf v).orZero < 0) :
    truthy v = true ∧ ((strOf v).data.dropWhile isJsWhitespace).head? = some '-' := by
  by_cases ht : truthy v = true
  · refine ⟨ht, ?_⟩
    rw [amountOf_truthy v ht] at h
    cases hp : parseFloat v with
    | nan => rw [hp] at h; simp [JsNum.orZero] at h
    | fin q =>
      rw [hp] at h
      exact parseFloatStr_neg _ q hp h
  · rw [amountOf_falsy v (by simpa using ht)] at h
    simp [JsNum.orZero] at h

theorem amountOf_minus_five : amountOf (some (.str "-5")) = .fin (-5) := by
  have h1 : takeSign ((strOf (some (Cell.str "-5"))).data.dropWhile isJsWhitespace)
      = (true, ['5']) := by decide
  have h2 : takeDigits digitVal ['5'] = ([5], []) := by decide
  have ht : truthy (some (Cell.str "-5")) = true := by decide
  rw [amountOf_truthy _ ht]
  simp only [parseFloat, parseFloatStr, h1, h2]
  simp [ofDigits, parseExponent, JsNum.orZero]



theorem negative_amount_upload :
    (uploadCases exampleEnv emptyDb (some negativeAmountSheet) none none).1.cases.map
      (fun c => c.pos_amount) = [-5] := by
  simp only [uploadCases, bulkCreateCases, batchLoop_eq, rowLoop_eq]
  have hrow : negativeAmountSheet.map normalizeRow
      = [[("Acc_No", .str "A1"), ("POS_amount", .str "-5")]] := by decide
  have ht : truthy (pick [("Acc_No", Cell.str "A1"), ("POS_amount", Cell.str "-5")] accNoKeys)
      = true := by decide
  have hp : pick [("Acc_No", Cell.str "A1"), ("POS_amount", Cell.str "-5")]
      ["POS_amount", "pos amount", "Pos amount", "pos_amount", "POS_Amount"]
      = some (.str "-5") := by decide
  rw [hrow]
  simp only [acceptedDrafts, List.filterMap_cons, ht, if_true, List.filterMap_nil, emptyDb,
    upsertBatch, List.foldl_cons, List.foldl_nil, upsertCase, List.map_cons, List.map_nil]
  simp only [createData, buildCaseObj, hp, amountOf_minus_five, JsNum.orZero]

/-- C23 (amended): the six amounts stored by the upsert, on create and on update,
are the amounts of the draft, which are the numbers `parseFloat` reads: 0 when no
column is truthy, and negative only when the text of the column starts, after
leading white space, with a minus sign. -/
theorem C23_stored_amounts_are_the_parsed_numbers (env : Env) (employeeMap empIdToUserId : Obj String)
    (r : Row) (acc_no : Option Cell) (existing : Case) :
    ((createData env employeeMap (buildCaseObj empIdToUserId r acc_no)).pos_amount
          = (amountOf (pick r ["POS_amount", "pos amount", "Pos amount", "pos_amount",
              "POS_Amount"])).orZero
        ∧ (createData env employeeMap (buildCaseObj empIdToUserId r acc_no)).overdue_amount
          = (amountOf (pick r ["Total_due_amount", "overdue_amount", "Overdue Amount",
              "overdue amount", "Total_Due_Amount"])).orZero
        ∧ (createData env employeeMap (buildCaseObj empIdToUserId r acc_no)).collection_amount
          = (amountOf (pick r ["Collection_amount", "collection_amount", "Collection amount",
              "Collection_Amount"])).orZero
        ∧ (createData env employeeMap (buildCaseObj empIdToUserId r acc_no)).toss_amount
          = (amountOf (pick r ["Toss_amount", "toss_amount", "Toss amount", "Toss_Amount"])).orZero
        ∧ (createData env employeeMap (buildCaseObj empIdToUserId r acc_no)).emi_amount
          = (amountOf (pick r ["EMI_amount", "emi_amount", "EMI amount", "EMI_Amount"])).orZero
        ∧ (createData env employeeMap (buildCaseObj empIdToUserId r acc_no)).interest
          = (amountOf (pick r ["Interest", "interest"])).orZero)
      ∧ ((updateData env employeeMap (buildCaseObj empIdToUserId r acc_no) existing).pos_amount
          = (createData env employeeMap (buildCaseObj empIdToUserId r acc_no)).pos_amount
        ∧ (updateData env employeeMap (buildCaseObj empIdToUserId r acc_no) existing).overdue_amount
          = (createData env employeeMap (buildCaseObj empIdToUserId r acc_no)).overdue_amount
        ∧ (updateData env employeeMap (buildCaseObj empIdToUserId r acc_no)
              existing).collection_amount
          = (createData env employeeMap (buildCaseObj empIdToUserId r acc_no)).collection_amount
        ∧ (updateData env employeeMap (buildCaseObj empIdToUserId r acc_no) existing).toss_amount
          = (createData env employeeMap (buildCaseObj empIdToUserId r acc_no)).toss_amount
        ∧ (updateData env employeeMap (buildCaseObj empIdToUserId r acc_no) existing).emi_amount
          = (createData env employeeMap (buildCaseObj empIdToUserId r acc_no)).emi_amount
        ∧ (updateData env employeeMap (buildCaseObj empIdToUserId r acc_no) existing).interest
          = (createData env employeeMap (buildCaseObj empIdToUserId r acc_no)).interest)
      ∧ (∀ v : Option Cell, truthy v = false → (amountOf v).orZero = 0)
      ∧ (∀ (v : Option Cell) (q : ℚ), truthy v = true → parseFloat v = .fin q →
          (amountOf v).orZero = q)
      ∧ ∀ v : Option Cell, (amountOf v).orZero < 0 →
          truthy v = true ∧ ((strOf v).data.dropWhile isJsWhitespace).head? = some '-' := by
  refine ⟨⟨rfl, rfl, rfl, rfl, rfl, rfl⟩, ⟨rfl, rfl, rfl, rfl, rfl, rfl⟩, ?_, ?_, amountOf_neg⟩
  · intro v h
    rw [amountOf_falsy v h]; rfl
  · intro v q ht h
    rw [amountOf_truthy v ht, h]; rfl

/-- C23 as stated fails: a row whose outstanding amount is the text -5 is accepted
and the upload stores the case with pos_amount = -5, a negative amount. -/
theorem C23_negative_amount_counterexample :
    (uploadCases exampleEnv emptyDb (some negativeAmountSheet) none none).1.cases.map
        (fun c => c.pos_amount) = [-5]
      ∧ ∃ c ∈ (uploadCases exampleEnv emptyDb (some negativeAmountSheet) none none).1.cases,
          c.pos_amount < 0 := by
  refine ⟨negative_amount_upload, ?_⟩
  have h := negative_amount_upload
  cases hc : (uploadCases exampleEnv emptyDb (some negativeAmountSheet) none none).1.cases with
  | nil => rw [hc] at h; simp at h
  | cons c rest =>
    rw [hc] at h
    simp only [List.map_cons, List.cons.injEq] at h
    exact ⟨c, List.mem_cons_self _ _, by rw [h.1]; norm_num⟩

/-! ## The two resolutions of the employee identifier -/

theorem foldl_set_get (key : User → Option String) (us : List User) (acc : Obj String) (e : String) :
    Obj.get (us.foldl (fun m u =>
        match key u with
        | some x => Obj.set m x u.id
        | none => m) acc) e
      = match us.reverse.find? (fun u => decide (key u = some e)) with
        | some u => some u.id
        | none => Obj.get acc e := by
  induction us using List.reverseRecOn with
  | nil => rfl
  | append_singleton us u ih =>
    rw [List.foldl_append, List.reverse_append]
    simp only [List.foldl_cons, List.foldl_nil, List.reverse_cons, List.reverse_nil, List.nil_append,
      List.singleton_append, List.find?_cons]
    cases hk : key u with
    | none => simp [ih]
    | some x =>
      simp only [Obj.get_set]
      by_cases hx : x = e
      · simp [hx]
      · simp [hx, ih]

theorem find?_congr_mem {α : Type} (p q : α → Bool) (l : List α) (h : ∀ x ∈ l, p x = q x) :
    l.find? p = l.find? q := by
  induction l with
  | nil => rfl
  | cons x xs ih =>
    simp only [List.find?_cons, h x (List.mem_cons_self _ _)]
    rw [ih (fun y hy => h y (List.mem_cons_of_mem _ hy))]

theorem recordFound_fst (found : List User) (acc : Obj String × List FoundEmp) :
    (found.foldl (fun acc u =>
        match u.emp_id with
        | some e => (Obj.set acc.1 (jsTrim e) u.id, acc.2 ++ [⟨e, u.firstName ++ " " ++ u.lastName⟩])
        | none => acc) acc).1
      = found.foldl (fun m u =>
          match u.emp_id.map jsTrim with
          | some x => Obj.set m x u.id
          | none => m) acc.1 := by
  induction found generalizing acc with
  | nil => rfl
  | cons u us ih =>
    rw [List.foldl_cons, List.foldl_cons, ih]
    cases u.emp_id <;> rfl

theorem recordFound_get (found : List User) (e : String) :
    Obj.get (recordFound found).1 e
      = (found.reverse.find? (fun u => decide (u.emp_id.map jsTrim = some e))).map
          (fun u => u.id) := by
  unfold recordFound
  rw [recordFound_fst, foldl_set_get]
  cases found.reverse.find? (fun u => decide (u.emp_id.map jsTrim = some e)) <;> rfl

theorem buildEmployeeMap_eq (users : List User) :
    buildEmployeeMap users
      = (users.filter (fun u => u.emp_id.isSome)).foldl (fun m u =>
          match (u.emp_id.bind (fun e => if strTruthy e then some e else none)) with
          | some x => Obj.set m x u.id
          | none => m) [] := by
  unfold buildEmployeeMap
  congr 1
  funext m u
  cases h : u.emp_id with
  | none => rfl
  | some e =>
    by_cases he : strTruthy e = true <;> simp [he]

theorem buildEmployeeMap_get (users : List User) (e : String) (he : e ≠ "") :
    Obj.get (buildEmployeeMap users) e
      = (users.reverse.find? (fun u => decide (u.emp_id = some e))).map (fun u => u.id) := by
  have hm : ∀ x : Option User,
      (match x with
        | some u => some u.id
        | none => Obj.get ([] : Obj String) e) = x.map (fun u => u.id) := by
    intro x
    cases x <;> rfl
  rw [buildEmployeeMap_eq, foldl_set_get, hm, ← List.filter_reverse, List.find?_filter]
  congr 1
  apply find?_congr_mem
  intro u _
  cases h : u.emp_id with
  | none => simp
  | some x =>
    by_cases hx : x = e
    · subst hx
      simp [strTruthy, he]
    · by_cases hx' : strTruthy x = true <;> simp [hx, hx']

theorem trimmedOrNull_trimmed (v : Option Cell) (s : String) (h : trimmedOrNull v = some s) :
    jsTrim s = s := by
  unfold trimmedOrNull at h
  split at h
  · simp only [Option.some.injEq] at h
    rw [← h, jsTrim_idem]
  · exact absurd h (by simp)

theorem extractEmpIds_trimmed (normalizedRows : List Row) (x : String)
    (hx : x ∈ extractEmpIds normalizedRows) : jsTrim x = x := by
  obtain ⟨r, _, hr⟩ := (mem_extractEmpIds normalizedRows x).1 hx
  exact trimmedOrNull_trimmed _ x ((rowEmpId_eq_some r x).1 hr).1

theorem resolve_get (users : List User) (empIds : List String) (e : String) (he : e ∈ empIds)
    (htrim : ∀ x ∈ empIds, jsTrim x = x) :
    Obj.get (resolveEmployees users empIds).empIdToUserId e
      = (users.reverse.find? (fun u => decide (u.emp_id = some e))).map (fun u => u.id) := by
  have hlen : empIds.length > 0 := List.length_pos_of_mem he
  simp only [resolveEmployees, hlen, if_true]
  rw [recordFound_get]
  unfold findUsersByEmpIds
  rw [← List.filter_reverse, List.find?_filter]
  congr 1
  apply find?_congr_mem
  intro u _
  cases h : u.emp_id with
  | none => simp
  | some x =>
    by_cases hx : x = e
    · subst hx
      simp [he, htrim x he]
    · by_cases hin : x ∈ empIds
      · simp [hin, htrim x hin, hx]
      · simp [hin, hx]

theorem find?_unique_id (users : List User) (e : String) (u : User) (hu : u ∈ users)
    (he : u.emp_id = some e)
    (huniq : ∀ u ∈ users, ∀ u' ∈ users, u.emp_id = u'.emp_id → u.emp_id ≠ none → u.id = u'.id) :
    (users.reverse.find? (fun u => decide (u.emp_id = some e))).map (fun u => u.id) = some u.id := by
  cases hf : users.reverse.find? (fun u => decide (u.emp_id = some e)) with
  | none =>
    have := List.find?_eq_none.1 hf u (List.mem_reverse.2 hu)
    simp [he] at this
  | some u' =>
    have hmem := List.mem_reverse.1 (List.mem_of_find?_eq_some hf)
    have hp := List.find?_some hf
    simp only [decide_eq_true_eq] at hp
    simp only [Option.map_some', Option.some.injEq]
    exact huniq u' hmem u hu (by rw [hp, he]) (by rw [hp]; simp)

theorem find?_no_user (users : List User) (e : String) (h : ∀ u ∈ users, u.emp_id ≠ some e) :
    (users.reverse.find? (fun u => decide (u.emp_id = some e))).map (fun u => u.id) = none := by
  have : users.reverse.find? (fun u => decide (u.emp_id = some e)) = none := by
    rw [List.find?_eq_none]
    intro u hu
    simpa using h u (List.mem_reverse.1 hu)
  rw [this]
  rfl

theorem preResolved_executiveId (users : List User) (normalizedRows : List Row) (r : Row) :
    (preResolvedDraft users normalizedRows r).executiveId
      = match rowEmpId r with
        | some e => Obj.get (resolveEmployees users (extractEmpIds normalizedRows)).empIdToUserId e
        | none => none := rfl

theorem resolutions_agree (users : List User) (normalizedRows : List Row) (r : Row)
    (hr : r ∈ normalizedRows) (hids : ∀ u ∈ users, u.id ≠ "")
    (hnull : rowEmpId r ≠ none ∨ ∀ u ∈ users, u.emp_id ≠ some "null") :
    (preResolvedDraft users normalizedRows r).executiveId
        = realExecutiveId (buildEmployeeMap users) (preResolvedDraft users normalizedRows r).emp_id
      ∧ (preResolvedDraft users normalizedRows r).executiveId
        = match rowEmpId r with
          | some e => (users.reverse.find? (fun u => decide (u.emp_id = some e))).map (fun u => u.id)
          | none => none := by
  have hemp : (preResolvedDraft users normalizedRows r).emp_id = rowEmpId r := rfl
  rw [preResolved_executiveId, hemp, realExecutiveId_eq_get users hids]
  cases he : rowEmpId r with
  | none =>
    have hk : propertyKey (none : Option String) = "null" := rfl
    rw [hk]
    rcases hnull with h | h
    · exact absurd he h
    · rw [buildEmployeeMap_get users "null" (by decide), find?_no_user users "null" h]
      exact ⟨rfl, rfl⟩
  | some e =>
    have hne : e ≠ "" := ((rowEmpId_eq_some r e).1 he).2
    have hmem : e ∈ extractEmpIds normalizedRows := (mem_extractEmpIds _ e).2 ⟨r, hr, he⟩
    have hk : propertyKey (some e) = e := rfl
    rw [hk]
    dsimp only
    rw [resolve_get users _ e hmem (extractEmpIds_trimmed normalizedRows),
      buildEmployeeMap_get users e hne]
    exact ⟨rfl, rfl⟩



/-- C30 (holds except for a row without identifier when a user has the identifier
text null): for a row of the sheet, with user ids non-empty and emp_id values
unique, the executive that `uploadCases` pre-resolves for the draft is the one that
`bulkCreateCases` resolves and stores, on create and on update: the id of the user
whose emp_id is the trimmed identifier of the row, and none when the row has no
identifier or no user has it. The row must carry an identifier, or no user may
have the emp_id 'null'. -/
theorem C30_pre_resolved_and_stored_executive_agree (users : List User) (normalizedRows : List Row)
    (r : Row) (hr : r ∈ normalizedRows)
    (huniq : ∀ u ∈ users, ∀ u' ∈ users, u.emp_id = u'.emp_id → u.emp_id ≠ none → u.id = u'.id)
    (hids : ∀ u ∈ users, u.id ≠ "")
    (hnull : rowEmpId r ≠ none ∨ ∀ u ∈ users, u.emp_id ≠ some "null") :
    (preResolvedDraft users normalizedRows r).executiveId
        = realExecutiveId (buildEmployeeMap users) (preResolvedDraft users normalizedRows r).emp_id
      ∧ (∀ env : Env,
          (createData env (buildEmployeeMap users) (preResolvedDraft users normalizedRows r)).executiveId
            = (preResolvedDraft users normalizedRows r).executiveId)
      ∧ (∀ (env : Env) (existing : Case),
          (updateData env (buildEmployeeMap users) (preResolvedDraft users normalizedRows r)
              existing).executiveId
            = (preResolvedDraft users normalizedRows r).executiveId)
      ∧ (∀ u ∈ users, ∀ e, rowEmpId r = some e → u.emp_id = some e →
          (preResolvedDraft users normalizedRows r).executiveId = some u.id)
      ∧ ((rowEmpId r = none ∨ ∀ u ∈ users, u.emp_id ≠ rowEmpId r) →
          (preResolvedDraft users normalizedRows r).executiveId = none)
      ∧ (truthy (pick r accNoKeys) = true →
          preResolvedDraft users normalizedRows r
            ∈ (rowLoop (resolveEmployees users (extractEmpIds normalizedRows)).empIdToUserId
                normalizedRows).casesArray) := by
  obtain ⟨h1, h2⟩ := resolutions_agree users normalizedRows r hr hids hnull
  refine ⟨h1, fun env => h1.symm, fun env existing => h1.symm, ?_, ?_, ?_⟩
  · intro u hu e he hue
    rw [h2, he]
    exact find?_unique_id users e u hu hue huniq
  · intro h
    rw [h2]
    cases he : rowEmpId r with
    | none => rfl
    | some e =>
      rcases h with h | h
      · rw [he] at h
        exact absurd h (by simp)
      · exact find?_no_user users e (fun u hu => by rw [← he]; exact h u hu)
  · intro ht
    rw [rowLoop_eq, mem_acceptedDrafts]
    exact ⟨r, hr, ht, rfl⟩

/-- C30 at the example sheet: the first row, of identifier E1, is resolved to user
u1 by the controller, as by the service. -/
theorem C30_pre_resolved_and_stored_witness :
    (preResolvedDraft exampleUsers exampleSheet
        [("Acc_No", .str "A1"), ("Emp_ID", .str "E1"), ("Name", .str "Asha")]).executiveId
      = realExecutiveId (buildEmployeeMap exampleUsers)
          (preResolvedDraft exampleUsers exampleSheet
            [("Acc_No", .str "A1"), ("Emp_ID", .str "E1"), ("Name", .str "Asha")]).emp_id :=
  (C30_pre_resolved_and_stored_executive_agree exampleUsers exampleSheet
    [("Acc_No", .str "A1"), ("Emp_ID", .str "E1"), ("Name", .str "Asha")]
    (List.mem_cons_self _ _) (by decide) (by decide) (Or.inl (by decide))).1

/-- C30 fails at a row without employee identifier when a user has the emp_id
'null': the controller pre-resolves no executive for the draft, while the service
reads `employeeMap[null]`, finds that user and stores the case under it. -/
theorem C30_null_identifier_counterexample :
    (preResolvedDraft nullNamedUsers noIdentifierSheet
        [("Acc_No", .str "A1"), ("Name", .str "Asha")]).emp_id = none
      ∧ (preResolvedDraft nullNamedUsers noIdentifierSheet
        [("Acc_No", .str "A1"), ("Name", .str "Asha")]).executiveId = none
      ∧ realExecutiveId (buildEmployeeMap nullNamedUsers)
          (preResolvedDraft nullNamedUsers noIdentifierSheet
            [("Acc_No", .str "A1"), ("Name", .str "Asha")]).emp_id = some "u0"
      ∧ (uploadCases exampleEnv { cases := [], users := nullNamedUsers, caseUploads := [] }
          (some noIdentifierSheet) none none).1.cases.map (fun c => (c.emp_id, c.executiveId))
          = [(none, some "u0")] := by
  refine ⟨by decide, by decide, by decide, ?_⟩
  simp only [uploadCases, bulkCreateCases, batchLoop_eq, rowLoop_eq]
  decide

end FieldPro
